import Mathlib

/-!
# ARM code generator of V8 (`src/codegen-arm.cc`): a shallow embedding

The code generator emits ARM instructions through the macro assembler.  The
embedding has two layers:

* `Arm`: the instructions the generator emits and what the processor does with
  them (32-bit registers, the N/Z/C/V flags, the machine stack);
* `CodeGenerator`: the emitting functions of `codegen-arm.cc`, as functions
  that extend the instruction buffer of an explicit generator state.

Machine words are natural numbers (`Nat`) below `2^32`; signed readings go through
`Arm.toInt`.
-/

namespace Arm

/-- Signed (two's complement) reading of a 32-bit word. -/
def toInt (w : Nat) : Int :=
  if w < 2147483648 then (w : Int) else (w : Int) - 4294967296

/-- The 32-bit word of an integer (reduction modulo `2^32`). -/
def toWord (i : Int) : Nat := (i % 4294967296).toNat

/-- Registers named by the generator. -/
inductive Register
  | r0 | r1 | r2 | r3 | ip | cp | fp
  deriving DecidableEq, Repr

/-- Condition codes (`hs` is `cs`, `lo` is `cc`), in the order of their encodings
0 to 15 in the condition field; `nv` (never) is the encoding 15, the partner of
`al` (always). -/
inductive Condition
  | eq | ne | cs | cc | mi | pl | vs | vc | hi | ls | ge | lt | gt | le | al | nv
  deriving DecidableEq, Repr

/-- Shift kinds of the shifter operand. -/
inductive ShiftOp
  | LSL | LSR | ASR
  deriving DecidableEq, Repr

/-- Second operand of a data-processing instruction. -/
inductive Operand
  | imm (value : Nat)
  | reg (rm : Register)
  | shifted (rm : Register) (op : ShiftOp) (shift_imm : Nat)
  | shifted_reg (rm : Register) (op : ShiftOp) (rs : Register)
  deriving DecidableEq, Repr

/-- Whether a data-processing instruction updates the flags. -/
inductive SBit
  | SetCC | LeaveCC
  deriving DecidableEq, Repr

/-- JavaScript builtins invoked from the emitted code. -/
inductive Builtin
  | EQUALS | STRICT_EQUALS | COMPARE
  | ADD | SUB | MUL | DIV | MOD | BIT_OR | BIT_AND | BIT_XOR | SAR | SHR | SHL
  | DELETE | BIT_NOT | TO_NUMBER | UNARY_MINUS | TO_OBJECT | FILTER_KEY | IN | INSTANCE_OF
  deriving DecidableEq, Repr

/-- Jump targets and labels named in the emitting functions. -/
inductive Label
  | true_target | false_target | break_target | default_label
  | deferred_enter (id : Nat) | deferred_exit (id : Nat)
  | exit | smi | is_smi | is_true | is_false | pop_and_continue | setup_default
  | case_target (index : Nat)
  | target (id : Nat)
  | slow | done
  | continue_target | function_return
  | builtin_entry (id : Builtin)
  | return_address
  deriving DecidableEq, Repr

/-- Binary and compare operators of the scanner (`Token::Value`). -/
inductive Token
  | ADD | SUB | MUL | DIV | MOD | BIT_OR | BIT_XOR | BIT_AND | SHL | SHR | SAR
  | AND | OR | COMMA
  | NOT | BIT_NOT | DELETE | TYPEOF | VOID | INC | DEC
  | EQ | EQ_STRICT | LT | GT | LTE | GTE | IN | INSTANCEOF
  | ASSIGN | INIT_VAR | INIT_CONST
  deriving DecidableEq, Repr

/-- Runtime functions called from the emitted code. -/
inductive RuntimeFunction
  | kToBool | kThrowReferenceError | kNumberToSmi
  | kLookupContext | kTypeof | kInitializeConstContextSlot | kStoreContextSlot
  | kGetPropertyNamesFast | kNewContext | kTraceEnter | kTraceExit
  | kNumberAdd | kNumberSub
  deriving DecidableEq, Repr

/-- `Slot::Type`. -/
inductive Slot.Type
  | PARAMETER | LOCAL | CONTEXT | LOOKUP
  deriving DecidableEq, Repr

/-- The slot a variable is allocated to; `chain_length` is what
`scope()->ContextChainLength(slot->var()->scope())` returns for a context
slot. -/
structure Slot where
  type : Slot.Type
  index : Int
  chain_length : Nat
  deriving DecidableEq, Repr

/-- A resolved variable, as far as the generator asks about it. -/
structure Variable where
  name : String
  is_global : Bool
  is_this : Bool
  slot : Option Slot := none
  deriving DecidableEq, Repr

/-- The object a literal's handle refers to. -/
inductive Handle
  | Smi (value : Int)
  | Symbol (chars : String)
  | String (chars : String)
  | Null
  | Other (id : Nat)
  deriving DecidableEq, Repr

/-- An expression of the syntax tree, as far as the embedded functions inspect
it.  A variable proxy that rewrites to a property is the `Property` node it
rewrites to; `Slot` is a slot node built by the generator itself. -/
inductive Expression
  | Literal (handle : Handle)
  | VariableProxy (var : Variable)
  | Property (obj key : Expression)
  | UnaryOperation (op : Token) (expression : Expression)
  | BinaryOperation (op : Token) (left right : Expression)
  | Other (id : Nat)
  | Slot (var : Variable) (type : Slot.Type) (index : Int)
  deriving DecidableEq, Repr

/-- Data-processing opcodes. -/
inductive Opcode
  | add | sub | rsb | and_ | orr | eor | bic | mov | mvn | tst | cmp
  deriving DecidableEq, Repr

/-- Code stubs called from the emitted code. -/
inductive CodeStub
  | UnarySub | StackCheck | ArgumentsAccess_NEW_OBJECT
  deriving DecidableEq, Repr

/-- Inline-cache code objects called from the emitted code. -/
inductive InlineCache
  | StoreIC_Initialize | KeyedStoreIC_Initialize
  deriving DecidableEq, Repr

/-- Instructions and macro-assembler sequences the generator emits.  `load e`
stands for the code emitted by visiting an expression `e` that leaves its value
on the frame; `visit e t f` for the code emitted by visiting an expression in
any other way (setting the condition code or branching to the targets `t` and
`f`), which ends in the way the run-time collaborator `control` tells;
`SmiJumpTable` dispatches through the
table entry of the small integer in the index register.  `ldr_element` is
`ldr(dst, frame_->ElementAt(index))`, `ldr_indexed` is
`ldr(dst, MemOperand(base, index, LSL, shift))`; `JumpBuiltin` is
`InvokeBuiltin(id, JUMP_JS)`, a jump to the entry of the builtin; `StubReturn`
drops `argc - 1` stack elements and returns to the caller of the stub;
`RecordWrite` is the write barrier, which only records the write;
`str_element` is `str(src, frame_->ElementAt(index))`; `smull lo hi rm rs`
multiplies two registers as signed numbers into the 64 bits of `hi` and `lo`;
`Ret` returns to the caller of a stub.  The
execution of `CallCodeStub`, `CallCodeObject`, of the frame entry and exit
sequences, `stop`, `stm(db_w, sp, ...)`, `add(sp, sp, ...)` and `mov(pc, lr)`
is not modelled. -/
inductive Instr
  | dp (op : Opcode) (dst src1 : Register) (src2 : Operand) (s : SBit) (cond : Condition)
  | b (cond : Condition) (target : Label)
  | bind (target : Label)
  | push (src : Register)
  | pop (dst : Register)
  | drop (count : Nat)
  | ldr_top (dst : Register)
  | ldr (dst base : Register) (offset : Int)
  | ldrb (dst base : Register) (offset : Int)
  | CallRuntime (f : RuntimeFunction) (num_arguments : Nat)
  | InvokeBuiltin (id : Builtin) (arg_count : Nat)
  | CallStub (op : Token)
  | SmiJumpTable (index : Register) (targets : List Label)
  | load (e : Expression)
  | visit (e : Expression) (on_true on_false : Label)
  | str (src base : Register) (offset : Int)
  | ldr_element (dst : Register) (index : Nat)
  | ldr_indexed (dst base index : Register) (shift : Nat)
  | RecordWrite (object offset scratch : Register)
  | JumpBuiltin (id : Builtin)
  | StubReturn (argc : Nat)
  | CallCodeStub (stub : CodeStub) (arg_count : Nat)
  | CallCodeObject (ic : InlineCache) (dropped_args : Nat)
  | frame_enter
  | frame_exit
  | allocate_stack_slots (count : Nat)
  | stop (msg : String)
  | stm_db_w_sp (srcs : List Register)
  | add_sp (bytes : Int)
  | mov_pc_lr
  | str_element (src : Register) (index : Nat)
  | smull (lo hi rm rs : Register)
  | Ret
  deriving DecidableEq, Repr

/-- What the emitted code does that is visible outside the processor. -/
inductive Event
  | runtime (f : RuntimeFunction) (args : List Nat)
  | builtin (id : Builtin) (args : List Nat)
  | stub (op : Token) (r1 r0 : Nat)
  | load (e : Expression)
  | record_write (object offset : Nat)
  deriving DecidableEq, Repr

/-- Processor state: registers, flags, machine stack (top first), byte memory,
and the calls made so far (oldest first). -/
structure State where
  regs : Register → Nat
  n : Bool
  z : Bool
  c : Bool
  v : Bool
  stack : List Nat
  mem : Nat → Nat
  log : List Event

/-- Modelled from the spec: the ways in which the code of an expression can
end when it runs.  "Each expression emitter receives the current control
destination (`true_target`, `false_target`) and must leave one of: the
condition-code register set (no value on VSF), a materialized value on the VSF,
or control transferred unconditionally to one of the targets": the code ends
with the value pushed on the stack, with the flags set for the condition, or
with a jump to the true or to the false target. -/
inductive Control
  | value
  | condition (n z c v : Bool)
  | to_true
  | to_false
  deriving DecidableEq, Repr

/-- The collaborators of the emitted code: what runtime functions, builtins and
stubs return in `r0`, the value an expression evaluates to, and the way in
which the code of an expression whose visitor is not embedded ends. -/
structure Runtime where
  callRuntime : RuntimeFunction → List Nat → Nat
  builtin : Builtin → List Nat → Nat
  stub : Token → Nat → Nat → Nat
  value : Expression → Nat
  control : Expression → Control := fun _ => Control.value

/-- Write a register. -/
def State.set (s : State) (r : Register) (w : Nat) : State :=
  { s with regs := fun r' => if r' = r then w else s.regs r' }

/-- Does the condition hold for the flags of the state? -/
def State.holds (s : State) : Condition → Bool
  | .eq => s.z
  | .ne => !s.z
  | .cs => s.c
  | .cc => !s.c
  | .mi => s.n
  | .pl => !s.n
  | .vs => s.v
  | .vc => !s.v
  | .hi => s.c && !s.z
  | .ls => !s.c || s.z
  | .ge => s.n == s.v
  | .lt => s.n != s.v
  | .gt => !s.z && (s.n == s.v)
  | .le => s.z || (s.n != s.v)
  | .al => true
  | .nv => false

/-- Value of the shifter operand.  An immediate shift amount of 0 encodes
LSR #32 and ASR #32; a register-specified shift takes its amount from the low
byte of `rs`. -/
def State.operand (s : State) : Operand → Nat
  | .imm w => w % 4294967296
  | .reg rm => s.regs rm
  | .shifted rm .LSL k => (s.regs rm * 2 ^ k) % 4294967296
  | .shifted rm .LSR k => if k = 0 then 0 else s.regs rm / 2 ^ k
  | .shifted rm .ASR k => toWord (toInt (s.regs rm) / 2 ^ (if k = 0 then 32 else k))
  | .shifted_reg rm .LSL rs => (s.regs rm * 2 ^ (s.regs rs % 256)) % 4294967296
  | .shifted_reg rm .LSR rs => s.regs rm / 2 ^ (s.regs rs % 256)
  | .shifted_reg rm .ASR rs => toWord (toInt (s.regs rm) / 2 ^ (s.regs rs % 256))

/-- Carry out of the shifter, which a flag-setting logical instruction copies
to C. -/
def State.shifterCarry (s : State) : Operand → Bool
  | .imm w => if w < 256 then s.c else decide (2147483648 ≤ w % 4294967296)
  | .reg _ => s.c
  | .shifted rm .LSL k => if k = 0 then s.c else (s.regs rm).testBit (32 - k)
  | .shifted rm .LSR k => (s.regs rm).testBit (if k = 0 then 31 else k - 1)
  | .shifted rm .ASR k => (s.regs rm).testBit (if k = 0 then 31 else k - 1)
  | .shifted_reg rm .LSL rs =>
      if s.regs rs % 256 = 0 then s.c
      else decide (s.regs rs % 256 ≤ 32) && (s.regs rm).testBit (32 - s.regs rs % 256)
  | .shifted_reg rm .LSR rs =>
      if s.regs rs % 256 = 0 then s.c
      else decide (s.regs rs % 256 ≤ 32) && (s.regs rm).testBit (s.regs rs % 256 - 1)
  | .shifted_reg rm .ASR rs =>
      if s.regs rs % 256 = 0 then s.c
      else (s.regs rm).testBit (min (s.regs rs % 256 - 1) 31)

/-- Flags after an addition `a + b`. -/
def State.addFlags (s : State) (a b : Nat) : State :=
  { s with
    n := decide (2147483648 ≤ (a + b) % 4294967296)
    z := decide ((a + b) % 4294967296 = 0)
    c := decide (4294967296 ≤ a + b)
    v := decide (toInt a + toInt b ≠ toInt ((a + b) % 4294967296)) }

/-- Flags after a subtraction `a - b`. -/
def State.subFlags (s : State) (a b : Nat) : State :=
  { s with
    n := decide (2147483648 ≤ toWord ((a : Int) - b))
    z := decide (toWord ((a : Int) - b) = 0)
    c := decide (b ≤ a)
    v := decide (toInt a - toInt b ≠ toInt (toWord ((a : Int) - b))) }

/-- Flags after a logical operation with result `r`. -/
def State.logicFlags (s : State) (r : Nat) (carry : Bool) : State :=
  { s with
    n := decide (2147483648 ≤ r)
    z := decide (r = 0)
    c := carry }

/-- One data-processing instruction, condition already checked. -/
def State.dataProcessing (s : State) (op : Opcode) (dst src1 : Register)
    (src2 : Operand) (sbit : SBit) : State :=
  let a := s.regs src1
  let b := s.operand src2
  let carry := s.shifterCarry src2
  let flags (t : State) : State := if sbit = .SetCC then t else s
  match op with
  | .add => (flags (s.addFlags a b)).set dst ((a + b) % 4294967296)
  | .sub => (flags (s.subFlags a b)).set dst (toWord ((a : Int) - b))
  | .rsb => (flags (s.subFlags b a)).set dst (toWord ((b : Int) - a))
  | .and_ => (flags (s.logicFlags (a &&& b) carry)).set dst (a &&& b)
  | .orr => (flags (s.logicFlags (a ||| b) carry)).set dst (a ||| b)
  | .eor => (flags (s.logicFlags (a ^^^ b) carry)).set dst (a ^^^ b)
  | .bic => (flags (s.logicFlags (a &&& (4294967295 - b)) carry)).set dst (a &&& (4294967295 - b))
  | .mov => (flags (s.logicFlags b carry)).set dst b
  | .mvn => (flags (s.logicFlags (4294967295 - b) carry)).set dst (4294967295 - b)
  | .tst => s.logicFlags (a &&& b) carry
  | .cmp => s.subFlags a b

/-- Little-endian 32-bit load from byte memory. -/
def State.load32 (s : State) (addr : Int) : Nat :=
  let a := addr.toNat
  s.mem a + 256 * s.mem (a + 1) + 65536 * s.mem (a + 2) + 16777216 * s.mem (a + 3)

/-- Little-endian 32-bit store to byte memory. -/
def State.store32 (s : State) (addr : Int) (w : Nat) : State :=
  let a := addr.toNat
  { s with mem := fun i =>
      if i = a then w % 256
      else if i = a + 1 then w / 256 % 256
      else if i = a + 2 then w / 65536 % 256
      else if i = a + 3 then w / 16777216 % 256
      else s.mem i }

/-- Where control is after a run of emitted code: at its end, at a label that
is not bound in the rest of the code, dispatched through entry `index` of a
jump table, or stuck (popping an empty stack, or in code whose execution is not
modelled). -/
inductive Outcome
  | fallthrough (s : State)
  | jumped (target : Label) (s : State)
  | table (index : Nat) (s : State)
  | stuck

/-- Effect of one instruction. -/
inductive Step
  | next (s : State)
  | branch (target : Label) (s : State)
  | table (index : Nat) (s : State)
  | stop

/-- Execute one instruction. -/
def step (rt : Runtime) (i : Instr) (s : State) : Step :=
  match i with
  | .dp op dst src1 src2 sbit cond =>
      if s.holds cond then .next (s.dataProcessing op dst src1 src2 sbit) else .next s
  | .b cond target => if s.holds cond then .branch target s else .next s
  | .bind _ => .next s
  | .push src => .next { s with stack := s.regs src :: s.stack }
  | .pop dst =>
      match s.stack with
      | [] => .stop
      | w :: rest => .next ({ s with stack := rest }.set dst w)
  | .drop count => if count ≤ s.stack.length then .next { s with stack := s.stack.drop count } else .stop
  | .ldr_top dst =>
      match s.stack with
      | [] => .stop
      | w :: _ => .next (s.set dst w)
  | .ldr dst base offset => .next (s.set dst (s.load32 (s.regs base + offset)))
  | .ldrb dst base offset => .next (s.set dst (s.mem ((s.regs base : Int) + offset).toNat % 256))
  | .CallRuntime f num_arguments =>
      if num_arguments ≤ s.stack.length then
        let args := s.stack.take num_arguments
        .next ({ s with stack := s.stack.drop num_arguments,
                        log := s.log ++ [Event.runtime f args] }.set .r0 (rt.callRuntime f args))
      else .stop
  | .InvokeBuiltin id arg_count =>
      if arg_count ≤ s.stack.length then
        let args := s.stack.take arg_count
        .next ({ s with stack := s.stack.drop arg_count,
                        log := s.log ++ [Event.builtin id args] }.set .r0 (rt.builtin id args))
      else .stop
  | .CallStub op =>
      .next ({ s with log := s.log ++ [Event.stub op (s.regs .r1) (s.regs .r0)] }.set .r0
        (rt.stub op (s.regs .r1) (s.regs .r0)))
  | .SmiJumpTable index _ => .table (s.regs index / 2) s
  | .load e =>
      .next { s with stack := rt.value e :: s.stack, log := s.log ++ [Event.load e] }
  | .visit e on_true on_false =>
      match rt.control e with
      | .value =>
          .next { s with stack := rt.value e :: s.stack, log := s.log ++ [Event.load e] }
      | .condition n z c v =>
          .next { s with n := n, z := z, c := c, v := v, log := s.log ++ [Event.load e] }
      | .to_true => .branch on_true { s with log := s.log ++ [Event.load e] }
      | .to_false => .branch on_false { s with log := s.log ++ [Event.load e] }
  | .str src base offset => .next (s.store32 (s.regs base + offset) (s.regs src))
  | .ldr_element dst index =>
      match s.stack.get? index with
      | none => .stop
      | some w => .next (s.set dst w)
  | .ldr_indexed dst base index shift =>
      .next (s.set dst (s.load32 ((s.regs base + s.regs index * 2 ^ shift : Nat) : Int)))
  | .RecordWrite object offset _ =>
      .next { s with log := s.log ++ [Event.record_write (s.regs object) (s.regs offset)] }
  | .JumpBuiltin id => .branch (.builtin_entry id) s
  | .StubReturn argc => .branch .return_address { s with stack := s.stack.drop (argc - 1) }
  | .CallCodeStub _ _ => .stop
  | .CallCodeObject _ _ => .stop
  | .frame_enter => .stop
  | .frame_exit => .stop
  | .allocate_stack_slots _ => .stop
  | .stop _ => .stop
  | .stm_db_w_sp _ => .stop
  | .add_sp _ => .stop
  | .mov_pc_lr => .stop
  | .str_element src index =>
      if index < s.stack.length then .next { s with stack := s.stack.set index (s.regs src) }
      else .stop
  | .smull lo hi rm rs =>
      let product := toInt (s.regs rm) * toInt (s.regs rs)
      .next ((s.set lo (toWord product)).set hi (toWord (product / 4294967296)))
  | .Ret => .branch .return_address s

/-- Run emitted code.  All branches in the code considered are forward: a taken
branch to `l` skips to the place `l` is bound; a branch to a label that is not
bound in the rest of the code leaves the fragment. -/
def run (rt : Runtime) : List Instr → Option Label → State → Outcome
  | [], none, s => .fallthrough s
  | [], some l, s => .jumped l s
  | i :: rest, some l, s =>
      if i = .bind l then run rt rest none s else run rt rest (some l) s
  | i :: rest, none, s =>
      match step rt i s with
      | .next s' => run rt rest none s'
      | .branch l s' => run rt rest (some l) s'
      | .table index s' => .table index s'
      | .stop => .stuck

end Arm

open Arm

/-! ## Small integers -/

namespace Smi

/-- Tag of a small integer.  `objects.h` is not part of the sources at hand;
`codegen-arm.cc` asserts `kSmiTag == 0` and shifts by `kSmiTagSize`, and its
range checks (`0x40000000`, `0xc0000000`) are those of a one-bit tag. -/
def kSmiTag : Nat := 0

/-- Width of the tag of a small integer. -/
def kSmiTagSize : Nat := 1

/-- Mask of the tag bits. -/
def kSmiTagMask : Nat := 1

/-- `Smi::IsValid`: the integers that have a tagged form, `-2^30 ≤ v < 2^30`. -/
def IsValid (v : Int) : Bool := decide (-1073741824 ≤ v) && decide (v < 1073741824)

/-- `Smi::FromInt`: the tagged word `(value << kSmiTagSize) | kSmiTag`. -/
def FromInt (v : Int) : Nat := toWord (v * 2 ^ kSmiTagSize + kSmiTag)

/-- `Smi::value`: arithmetic shift right of the tagged word by the tag size. -/
def value (w : Nat) : Int := toInt w / 2 ^ kSmiTagSize

end Smi

/-- C++ `a & b` on 32-bit `int`. -/
def int_and (a b : Int) : Int := toInt (toWord a &&& toWord b)

/-! ## The generator state -/

/-- A deferred piece of code: `DeferredInlineSmiOperation` with the entry and
exit targets of its `DeferredCode` base. -/
structure DeferredInlineSmiOperation where
  op_ : Token
  value_ : Int
  reversed_ : Bool
  enter_ : Label
  exit_ : Label
  deriving DecidableEq, Repr

/-- `Reference::Type`. -/
inductive Reference.Type
  | ILLEGAL | SLOT | NAMED | KEYED
  deriving DecidableEq, Repr

/-- The state of `CodeGenerator` that the emitting functions read and write:
the instruction buffer of `masm_`, the deferred queue, `cc_reg_`, the height of
the virtual frame (`none` when there is no valid frame), the frame heights
recorded at linked jump targets, the number of jump targets constructed so far,
and the stack-overflow flag. -/
structure CodeGenerator where
  masm_ : List Instr
  deferred_ : List DeferredInlineSmiOperation
  cc_reg_ : Condition
  frame_ : Option Int
  linked_ : List (Label × Int)
  next_target_ : Nat
  stack_overflow_ : Bool

/-- `has_cc()`. -/
def CodeGenerator.has_cc (cg : CodeGenerator) : Bool := decide (cg.cc_reg_ ≠ Condition.al)

/-- `has_valid_frame()`. -/
def CodeGenerator.has_valid_frame (cg : CodeGenerator) : Bool := cg.frame_.isSome

/-- Emit one instruction (`__ op(...)`). -/
def CodeGenerator.emit (cg : CodeGenerator) (i : Instr) : CodeGenerator :=
  { cg with masm_ := cg.masm_ ++ [i] }

/-- The instructions emitted between two generator states. -/
def CodeGenerator.emitted (before after : CodeGenerator) : List Instr :=
  after.masm_.drop before.masm_.length

/-- Record the current frame height at a target that becomes linked. -/
def CodeGenerator.link (cg : CodeGenerator) (target : Label) : List (Label × Int) :=
  match cg.frame_ with
  | some h => cg.linked_ ++ [(target, h)]
  | none => cg.linked_

namespace VirtualFrame

/-- Modelled from the spec: `VirtualFrame::EmitPush` (virtual-frame-arm.cc is
not among the sources): "forces a physical stack-slot allocation and stores
`r`"; the frame grows by one element. -/
def EmitPush (cg : CodeGenerator) (r : Register) : CodeGenerator :=
  { cg with masm_ := cg.masm_ ++ [Instr.push r], frame_ := cg.frame_.map (· + 1) }

/-- Modelled from the spec: `VirtualFrame::EmitPop`: "forces physical removal
into `r`"; the frame shrinks by one element. -/
def EmitPop (cg : CodeGenerator) (r : Register) : CodeGenerator :=
  { cg with masm_ := cg.masm_ ++ [Instr.pop r], frame_ := cg.frame_.map (· - 1) }

/-- Modelled from the spec: `VirtualFrame::Drop(count)` removes `count`
elements from the frame and the machine stack. -/
def Drop (cg : CodeGenerator) (count : Nat) : CodeGenerator :=
  { cg with masm_ := cg.masm_ ++ [Instr.drop count], frame_ := cg.frame_.map (· - count) }

/-- Modelled from the spec: `VirtualFrame::CallRuntime(f, arg_count)` calls the
runtime function, which consumes its `arg_count` arguments from the frame and
returns its result in `r0`. -/
def CallRuntime (cg : CodeGenerator) (f : RuntimeFunction) (arg_count : Nat) : CodeGenerator :=
  { cg with masm_ := cg.masm_ ++ [Instr.CallRuntime f arg_count],
            frame_ := cg.frame_.map (· - arg_count) }

/-- Modelled from the spec: `VirtualFrame::InvokeBuiltin(id, flags, reg,
arg_count)` invokes the builtin, which consumes `arg_count` frame elements (the
receiver and the arguments) and returns its result in `r0`. -/
def InvokeBuiltin (cg : CodeGenerator) (id : Builtin) (arg_count : Nat) : CodeGenerator :=
  { cg with masm_ := cg.masm_ ++ [Instr.InvokeBuiltin id arg_count],
            frame_ := cg.frame_.map (· - arg_count) }

/-- Modelled from the spec: `VirtualFrame::CallStub(stub, arg0, arg1)` with
both arguments in registers; the frame is unchanged. -/
def CallStub (cg : CodeGenerator) (op : Token) : CodeGenerator :=
  { cg with masm_ := cg.masm_ ++ [Instr.CallStub op] }

end VirtualFrame

namespace JumpTarget

/-- Modelled from the spec: `JumpTarget::Branch(cc)`: a conditional branch to
the target; the frame stays valid on the fall-through path. -/
def Branch (cg : CodeGenerator) (target : Label) (cond : Condition) : CodeGenerator :=
  { cg with masm_ := cg.masm_ ++ [Instr.b cond target], linked_ := cg.link target }

/-- Modelled from the spec: `JumpTarget::Jump()`: an unconditional branch;
afterwards the current frame is invalidated. -/
def Jump (cg : CodeGenerator) (target : Label) : CodeGenerator :=
  { cg with masm_ := cg.masm_ ++ [Instr.b Condition.al target],
            linked_ := cg.link target, frame_ := none }

/-- Modelled from the spec: `JumpTarget::Bind()`: fixes the target at the
current instruction; without a current frame the frame recorded by a forward
predecessor is adopted. -/
def Bind (cg : CodeGenerator) (target : Label) : CodeGenerator :=
  { cg with masm_ := cg.masm_ ++ [Instr.bind target],
            frame_ := match cg.frame_ with
              | some h => some h
              | none => (cg.linked_.find? (fun p => p.1 = target)).map (·.2) }

end JumpTarget

namespace CodeGenerator

/-- Construction of a `DeferredInlineSmiOperation`: the object is added to the
deferred queue, with fresh entry and exit targets. -/
def newDeferredInlineSmiOperation (cg : CodeGenerator) (op : Token) (value : Int)
    (reversed : Bool) : CodeGenerator × DeferredInlineSmiOperation :=
  let d : DeferredInlineSmiOperation :=
    { op_ := op, value_ := value, reversed_ := reversed,
      enter_ := Label.deferred_enter cg.deferred_.length,
      exit_ := Label.deferred_exit cg.deferred_.length }
  ({ cg with deferred_ := cg.deferred_ ++ [d] }, d)

/-- `CodeGenerator::GenericBinaryOperation` (codegen-arm.cc:711). -/
def GenericBinaryOperation (cg : CodeGenerator) (op : Token) : CodeGenerator :=
  match op with
  | .ADD | .SUB | .MUL | .BIT_OR | .BIT_AND | .BIT_XOR | .SHL | .SHR | .SAR =>
      let cg := VirtualFrame.EmitPop cg .r0
      let cg := VirtualFrame.EmitPop cg .r1
      VirtualFrame.CallStub cg op
  | .DIV =>
      let cg := cg.emit (.dp .mov .r0 .r0 (.imm 1) .LeaveCC .al)
      VirtualFrame.InvokeBuiltin cg .DIV 2
  | .MOD =>
      let cg := cg.emit (.dp .mov .r0 .r0 (.imm 1) .LeaveCC .al)
      VirtualFrame.InvokeBuiltin cg .MOD 2
  | .COMMA =>
      let cg := VirtualFrame.EmitPop cg .r0
      VirtualFrame.Drop cg 1
  | _ => cg

/-- `DeferredInlineSmiOperation::Generate` (codegen-arm.cc:787). -/
def DeferredInlineSmiOperation_Generate (cg : CodeGenerator)
    (d : DeferredInlineSmiOperation) : CodeGenerator :=
  let cg := JumpTarget.Bind cg d.enter_
  let cg :=
    match d.op_ with
    | .ADD =>
        if d.reversed_ then
          let cg := cg.emit (.dp .sub .r0 .r0 (.imm (Smi.FromInt d.value_)) .LeaveCC .al)
          cg.emit (.dp .mov .r1 .r1 (.imm (Smi.FromInt d.value_)) .LeaveCC .al)
        else
          let cg := cg.emit (.dp .sub .r1 .r0 (.imm (Smi.FromInt d.value_)) .LeaveCC .al)
          cg.emit (.dp .mov .r0 .r0 (.imm (Smi.FromInt d.value_)) .LeaveCC .al)
    | .SUB =>
        if d.reversed_ then
          let cg := cg.emit (.dp .rsb .r0 .r0 (.imm (Smi.FromInt d.value_)) .LeaveCC .al)
          cg.emit (.dp .mov .r1 .r1 (.imm (Smi.FromInt d.value_)) .LeaveCC .al)
        else
          let cg := cg.emit (.dp .add .r1 .r0 (.imm (Smi.FromInt d.value_)) .LeaveCC .al)
          cg.emit (.dp .mov .r0 .r0 (.imm (Smi.FromInt d.value_)) .LeaveCC .al)
    | .BIT_OR | .BIT_XOR | .BIT_AND =>
        if d.reversed_ then
          cg.emit (.dp .mov .r1 .r1 (.imm (Smi.FromInt d.value_)) .LeaveCC .al)
        else
          let cg := cg.emit (.dp .mov .r1 .r1 (.reg .r0) .LeaveCC .al)
          cg.emit (.dp .mov .r0 .r0 (.imm (Smi.FromInt d.value_)) .LeaveCC .al)
    | .SHL | .SHR | .SAR =>
        if !d.reversed_ then
          let cg := cg.emit (.dp .mov .r1 .r1 (.reg .r0) .LeaveCC .al)
          cg.emit (.dp .mov .r0 .r0 (.imm (Smi.FromInt d.value_)) .LeaveCC .al)
        else cg
    | _ => cg
  let cg := VirtualFrame.CallStub cg d.op_
  JumpTarget.Jump cg d.exit_

/-- `CodeGenerator::SmiOperation` (codegen-arm.cc:857).  `value` is the integer
of the small-integer literal; `Operand(value)` is its tagged word. -/
def SmiOperation (cg : CodeGenerator) (op : Token) (value : Int) (reversed : Bool) :
    CodeGenerator :=
  let int_value := value
  let cg := VirtualFrame.EmitPop cg .r0
  let cg :=
    match op with
    | .ADD =>
        let (cg, deferred) := cg.newDeferredInlineSmiOperation op int_value reversed
        let cg := cg.emit (.dp .add .r0 .r0 (.imm (Smi.FromInt value)) .SetCC .al)
        let cg := JumpTarget.Branch cg deferred.enter_ .vs
        let cg := cg.emit (.dp .tst .r0 .r0 (.imm Smi.kSmiTagMask) .SetCC .al)
        let cg := JumpTarget.Branch cg deferred.enter_ .ne
        JumpTarget.Bind cg deferred.exit_
    | .SUB =>
        let (cg, deferred) := cg.newDeferredInlineSmiOperation op int_value reversed
        let cg :=
          if !reversed then
            cg.emit (.dp .sub .r0 .r0 (.imm (Smi.FromInt value)) .SetCC .al)
          else
            cg.emit (.dp .rsb .r0 .r0 (.imm (Smi.FromInt value)) .SetCC .al)
        let cg := JumpTarget.Branch cg deferred.enter_ .vs
        let cg := cg.emit (.dp .tst .r0 .r0 (.imm Smi.kSmiTagMask) .SetCC .al)
        let cg := JumpTarget.Branch cg deferred.enter_ .ne
        JumpTarget.Bind cg deferred.exit_
    | .BIT_OR | .BIT_XOR | .BIT_AND =>
        let (cg, deferred) := cg.newDeferredInlineSmiOperation op int_value reversed
        let cg := cg.emit (.dp .tst .r0 .r0 (.imm Smi.kSmiTagMask) .SetCC .al)
        let cg := JumpTarget.Branch cg deferred.enter_ .ne
        let cg :=
          match op with
          | .BIT_OR => cg.emit (.dp .orr .r0 .r0 (.imm (Smi.FromInt value)) .LeaveCC .al)
          | .BIT_XOR => cg.emit (.dp .eor .r0 .r0 (.imm (Smi.FromInt value)) .LeaveCC .al)
          | .BIT_AND => cg.emit (.dp .and_ .r0 .r0 (.imm (Smi.FromInt value)) .LeaveCC .al)
          | _ => cg
        JumpTarget.Bind cg deferred.exit_
    | .SHL | .SHR | .SAR =>
        if reversed then
          let cg := cg.emit (.dp .mov .ip .ip (.imm (Smi.FromInt value)) .LeaveCC .al)
          let cg := VirtualFrame.EmitPush cg .ip
          let cg := VirtualFrame.EmitPush cg .r0
          cg.GenericBinaryOperation op
        else
          let shift_value := int_and int_value 31
          let (cg, deferred) := cg.newDeferredInlineSmiOperation op shift_value false
          let cg := cg.emit (.dp .tst .r0 .r0 (.imm Smi.kSmiTagMask) .SetCC .al)
          let cg := JumpTarget.Branch cg deferred.enter_ .ne
          let cg := cg.emit
            (.dp .mov .r2 .r2 (.shifted .r0 .ASR Smi.kSmiTagSize) .LeaveCC .al)
          let cg :=
            match op with
            | .SHL =>
                let cg := cg.emit
                  (.dp .mov .r2 .r2 (.shifted .r2 .LSL shift_value.toNat) .LeaveCC .al)
                let cg := cg.emit (.dp .add .r3 .r2 (.imm 1073741824) .SetCC .al)
                JumpTarget.Branch cg deferred.enter_ .mi
            | .SHR =>
                let cg :=
                  if shift_value ≠ 0 then
                    cg.emit (.dp .mov .r2 .r2 (.shifted .r2 .LSR shift_value.toNat) .LeaveCC .al)
                  else cg
                let cg := cg.emit (.dp .and_ .r3 .r2 (.imm 3221225472) .SetCC .al)
                JumpTarget.Branch cg deferred.enter_ .ne
            | .SAR =>
                if shift_value ≠ 0 then
                  cg.emit (.dp .mov .r2 .r2 (.shifted .r2 .ASR shift_value.toNat) .LeaveCC .al)
                else cg
            | _ => cg
          let cg := cg.emit
            (.dp .mov .r0 .r0 (.shifted .r2 .LSL Smi.kSmiTagSize) .LeaveCC .al)
          JumpTarget.Bind cg deferred.exit_
    | _ =>
        let cg :=
          if !reversed then
            let cg := VirtualFrame.EmitPush cg .r0
            let cg := cg.emit (.dp .mov .r0 .r0 (.imm (Smi.FromInt value)) .LeaveCC .al)
            VirtualFrame.EmitPush cg .r0
          else
            let cg := cg.emit (.dp .mov .ip .ip (.imm (Smi.FromInt value)) .LeaveCC .al)
            let cg := VirtualFrame.EmitPush cg .ip
            VirtualFrame.EmitPush cg .r0
        cg.GenericBinaryOperation op
  JumpTarget.Bind cg .exit

end CodeGenerator

/-- A generator at the start of a fragment: empty buffer and queue, no condition
code, a valid frame of the given height. -/
def CodeGenerator.start (height : Int) : CodeGenerator :=
  { masm_ := [], deferred_ := [], cc_reg_ := Condition.al, frame_ := some height, linked_ := [],
    next_target_ := 0, stack_overflow_ := false }

/-- A processor state with the given word on top of the stack. -/
def Arm.State.withTop (w : Nat) : State :=
  { regs := fun _ => 0, n := false, z := false, c := false, v := false,
    stack := [w], mem := fun _ => 0, log := [] }

/-- A processor state with the given stack (top first). -/
def Arm.State.withStack (stack : List Nat) : State :=
  { regs := fun _ => 0, n := false, z := false, c := false, v := false,
    stack := stack, mem := fun _ => 0, log := [] }

/-- A runtime whose calls all return 0. -/
def Arm.Runtime.zero : Runtime :=
  { callRuntime := fun _ _ => 0, builtin := fun _ _ => 0, stub := fun _ _ _ => 0,
    value := fun _ => 0 }

/-! ## Comparison -/

/-- Modelled from the spec: `ReverseCondition` (assembler-arm.h is not among the
sources): the condition of the comparison with transposed operands, "Normalize
`>` and `<=` by swapping operands and reversing the condition". -/
def ReverseCondition : Condition → Condition
  | .cc => .hi
  | .hi => .cc
  | .cs => .ls
  | .ls => .cs
  | .lt => .gt
  | .gt => .lt
  | .ge => .le
  | .le => .ge
  | c => c

/-- Modelled from the spec: `NegateCondition` (assembler-arm.h is not among the
sources): the condition that holds exactly when the given one does not; the
encodings of such a pair differ in the low bit, so the negation of `al` is not
`al` but the condition that never holds. -/
def NegateCondition : Condition → Condition
  | .eq => .ne
  | .ne => .eq
  | .cs => .cc
  | .cc => .cs
  | .mi => .pl
  | .pl => .mi
  | .vs => .vc
  | .vc => .vs
  | .hi => .ls
  | .ls => .hi
  | .ge => .lt
  | .lt => .ge
  | .gt => .le
  | .le => .gt
  | .al => .nv
  | .nv => .al

/-- Modelled from the spec: the results of the comparison builtin, "-1 (less), 0
(equal), or 1 (greater)". -/
def LESS : Int := -1

/-- Modelled from the spec: see `LESS`. -/
def EQUAL : Int := 0

/-- Modelled from the spec: see `LESS`. -/
def GREATER : Int := 1

namespace CodeGenerator

/-- `CodeGenerator::Comparison` (codegen-arm.cc:993). -/
def Comparison (cg : CodeGenerator) (cond : Condition) (strict : Bool) : CodeGenerator :=
  let (cond, cg) :=
    if cond = .gt ∨ cond = .le then
      let cg := VirtualFrame.EmitPop cg .r1
      (ReverseCondition cond, VirtualFrame.EmitPop cg .r0)
    else
      let cg := VirtualFrame.EmitPop cg .r0
      (cond, VirtualFrame.EmitPop cg .r1)
  let cg := cg.emit (.dp .orr .r2 .r0 (.reg .r1) .LeaveCC .al)
  let cg := cg.emit (.dp .tst .r2 .r2 (.imm Smi.kSmiTagMask) .SetCC .al)
  let cg := JumpTarget.Branch cg .smi .eq
  let cg := VirtualFrame.EmitPush cg .r1
  let (native, arg_count, cg) :=
    if cond = .eq then
      ((if strict then Builtin.STRICT_EQUALS else Builtin.EQUALS), 1, cg)
    else
      let ncr : Int := if cond = .lt ∨ cond = .le then GREATER else LESS
      let cg := VirtualFrame.EmitPush cg .r0
      (Builtin.COMPARE, 2, cg.emit (.dp .mov .r0 .r0 (.imm (Smi.FromInt ncr)) .LeaveCC .al))
  let cg := VirtualFrame.EmitPush cg .r0
  let cg := cg.emit (.dp .mov .r0 .r0 (.imm arg_count) .LeaveCC .al)
  let cg := VirtualFrame.InvokeBuiltin cg native (arg_count + 1)
  let cg := cg.emit (.dp .cmp .r0 .r0 (.imm 0) .SetCC .al)
  let cg := JumpTarget.Jump cg .exit
  let cg := JumpTarget.Bind cg .smi
  let cg := cg.emit (.dp .cmp .r1 .r1 (.reg .r0) .SetCC .al)
  let cg := JumpTarget.Bind cg .exit
  { cg with cc_reg_ := cond }

/-- The switch at the end of `CodeGenerator::VisitCompareOperation`
(codegen-arm.cc:4001), entered with both operands on the frame; the operators
handled by `Comparison`. -/
def VisitCompareOperation_Comparison (cg : CodeGenerator) (op : Token) : CodeGenerator :=
  match op with
  | .EQ => cg.Comparison .eq false
  | .LT => cg.Comparison .lt false
  | .GT => cg.Comparison .gt false
  | .LTE => cg.Comparison .le false
  | .GTE => cg.Comparison .ge false
  | .EQ_STRICT => cg.Comparison .eq true
  | _ => cg

end CodeGenerator

/-! ## Values and `ToBoolean` -/

/-- The objects of `Factory` that the generator embeds in code, by their tagged
addresses; `symbol name` is the operand of the handle of the symbol `name`. -/
structure Factory where
  false_value : Nat
  true_value : Nat
  undefined_value : Nat
  null_value : Nat
  heap_number_map : Nat
  the_hole_value : Nat
  meta_map : Nat
  symbol : String → Nat

/-- The numbers a heap number can hold, as far as ToBoolean tells them apart. -/
inductive NumberKind
  | PlusZero | MinusZero | NaN | NonZero
  deriving DecidableEq, Repr

/-- What a tagged word denotes. -/
inductive Value
  | Smi (value : Int)
  | False | True | Undefined | Null
  | HeapNumber (kind : NumberKind)
  | String (length : Nat)
  | Object
  deriving DecidableEq, Repr

/-- ECMA-262 section 9.2: ToBoolean is false for `false`, `undefined`, `null`,
`+0`, `-0`, NaN and the empty string, and true for every other value. -/
def Value.ToBoolean : Value → Bool
  | .Smi value => decide (value ≠ 0)
  | .False => false
  | .True => true
  | .Undefined => false
  | .Null => false
  | .HeapNumber .PlusZero => false
  | .HeapNumber .MinusZero => false
  | .HeapNumber .NaN => false
  | .HeapNumber .NonZero => true
  | .String length => decide (length ≠ 0)
  | .Object => true

/-- The heap: what each heap pointer (a word with the heap-object tag) refers
to. -/
structure Heap where
  object : Nat → Value

/-- The value a tagged word denotes: a small integer when the tag bit is clear,
a heap object otherwise. -/
def Heap.valueOf (H : Heap) (w : Nat) : Value :=
  if w % 2 = 0 then .Smi (Smi.value w) else H.object w

/-- The factory objects are 32-bit heap pointers to the unique `false`, `true`
and `undefined` objects and to `null`, and no heap pointer refers to a small
integer. -/
def Heap.WellFormed (H : Heap) (F : Factory) : Prop :=
  F.false_value < 4294967296 ∧ F.true_value < 4294967296 ∧ F.undefined_value < 4294967296 ∧
  F.false_value % 2 = 1 ∧ F.true_value % 2 = 1 ∧ F.undefined_value % 2 = 1 ∧
  (∀ w, w % 2 = 1 → (H.object w = .False ↔ w = F.false_value)) ∧
  (∀ w, w % 2 = 1 → (H.object w = .True ↔ w = F.true_value)) ∧
  (∀ w, w % 2 = 1 → (H.object w = .Undefined ↔ w = F.undefined_value)) ∧
  (∀ w v, H.object w ≠ .Smi v)

/-- Modelled from the spec: the runtime function `Runtime::kToBool` (runtime.cc
is not among the sources) returns the `true` or the `false` object according to
ECMA ToBoolean of its argument: false for "`false`, `undefined`, `null`, `+0`,
`-0`, `NaN`, or the empty string". -/
def Runtime_ToBool (F : Factory) (H : Heap) (w : Nat) : Nat :=
  if (H.valueOf w).ToBoolean then F.true_value else F.false_value

namespace CodeGenerator

/-- `CodeGenerator::ToBoolean` (codegen-arm.cc:619). -/
def ToBoolean (cg : CodeGenerator) (F : Factory) (true_tgt false_tgt : Label) :
    CodeGenerator :=
  let cg := VirtualFrame.EmitPop cg .r0
  let cg := cg.emit (.dp .cmp .r0 .r0 (.imm F.false_value) .SetCC .al)
  let cg := JumpTarget.Branch cg false_tgt .eq
  let cg := cg.emit (.dp .cmp .r0 .r0 (.imm F.true_value) .SetCC .al)
  let cg := JumpTarget.Branch cg true_tgt .eq
  let cg := cg.emit (.dp .cmp .r0 .r0 (.imm F.undefined_value) .SetCC .al)
  let cg := JumpTarget.Branch cg false_tgt .eq
  let cg := cg.emit (.dp .cmp .r0 .r0 (.imm (Smi.FromInt 0)) .SetCC .al)
  let cg := JumpTarget.Branch cg false_tgt .eq
  let cg := cg.emit (.dp .tst .r0 .r0 (.imm Smi.kSmiTagMask) .SetCC .al)
  let cg := JumpTarget.Branch cg true_tgt .eq
  let cg := VirtualFrame.EmitPush cg .r0
  let cg := VirtualFrame.CallRuntime cg .kToBool 1
  let cg := cg.emit (.dp .cmp .r0 .r0 (.imm F.false_value) .SetCC .al)
  { cg with cc_reg_ := .ne }

/-- `CodeGenerator::Branch` (codegen-arm.cc:1103). -/
def Branch (cg : CodeGenerator) (if_true : Bool) (target : Label) : CodeGenerator :=
  let cond := if if_true then cg.cc_reg_ else NegateCondition cg.cc_reg_
  let cg := JumpTarget.Branch cg target cond
  { cg with cc_reg_ := .al }

end CodeGenerator

/-- A sample factory: the addresses of `false`, `true`, `undefined`, `null`,
the heap-number map, the hole, the map of maps, and of every symbol. -/
def Factory.sample : Factory :=
  { false_value := 1, true_value := 3, undefined_value := 5, null_value := 7,
    heap_number_map := 9, the_hole_value := 15, meta_map := 17,
    symbol := fun _ => 19 }

/-- A sample heap for `Factory.sample`; the pointer 11 is the heap number
`-0`, 13 the empty string, every other pointer an object. -/
def Heap.sample : Heap :=
  { object := fun w =>
      if w = 1 then .False else if w = 3 then .True else if w = 5 then .Undefined
      else if w = 7 then .Null else if w = 11 then .HeapNumber .MinusZero
      else if w = 13 then .String 0 else .Object }

/-- A runtime whose `kToBool` is `Runtime_ToBool` and whose other calls return
0; a small-integer literal evaluates to its tagged word and the expression
`Other id` to the word `id`. -/
def Arm.Runtime.withToBool (F : Factory) (H : Heap) : Runtime :=
  { callRuntime := fun f args =>
      match f, args with
      | .kToBool, [a] => Runtime_ToBool F H a
      | _, _ => 0,
    builtin := fun _ _ => 0, stub := fun _ _ _ => 0,
    value := fun e =>
      match e with
      | .Literal (.Smi v) => Smi.FromInt v
      | .Other id => id
      | _ => 0 }

/-! ## Loading expressions -/

/-- `TypeofState` (codegen-arm.h:42). -/
inductive TypeofState
  | INSIDE_TYPEOF | NOT_INSIDE_TYPEOF
  deriving DecidableEq, Repr

/-- What the code emitted for an expression leaves behind: a value on the
frame, a condition in the condition-code register, or nothing (control was
transferred and the frame is invalid). -/
inductive Leaves
  | value
  | cc (cond : Condition)
  | nothing
  deriving DecidableEq, Repr

/-- The outcome of visiting an expression whose visitor is not embedded: what
it leaves, and whether it branched to the true and the false target of the
control destination. -/
structure VisitResult where
  leaves : Leaves
  links_true : Bool
  links_false : Bool
  deriving DecidableEq, Repr

/-- An expression that simply leaves its value on the frame. -/
def VisitResult.plain : VisitResult :=
  { leaves := .value, links_true := false, links_false := false }

namespace CodeGenerator

/-- `JumpTarget::is_linked()`: a branch or jump to the target was emitted. -/
def is_linked (cg : CodeGenerator) (target : Label) : Bool :=
  cg.linked_.any (fun p => decide (p.1 = target))

/-- Construction of a `JumpTarget`: a target no other target equals. -/
def newTarget (cg : CodeGenerator) : CodeGenerator × Label :=
  ({ cg with next_target_ := cg.next_target_ + 1 }, Label.target cg.next_target_)

/-- Modelled from the spec: `Visit(x)` for an expression whose visitor is not
embedded.  "Each expression emitter receives the current control destination
(`true_target`, `false_target`) and must leave one of: the condition-code
register set (no value on VSF), a materialized value on the VSF, or control
transferred unconditionally to one of the targets (VSF invalidated)."  With the
stack-overflow flag set the expression is not visited. -/
def Visit (cg : CodeGenerator) (result : Expression → VisitResult) (x : Expression)
    (true_tgt false_tgt : Label) : CodeGenerator :=
  if cg.stack_overflow_ then cg
  else
    let r := result x
    let cg := cg.emit (if r = VisitResult.plain then Instr.load x
                       else Instr.visit x true_tgt false_tgt)
    let cg := if r.links_true then { cg with linked_ := cg.link true_tgt } else cg
    let cg := if r.links_false then { cg with linked_ := cg.link false_tgt } else cg
    match r.leaves with
    | .value => { cg with frame_ := cg.frame_.map (· + 1) }
    | .cc cond => { cg with cc_reg_ := cond }
    | .nothing => { cg with frame_ := none }

/-- `CodeGenerator::LoadCondition` (codegen-arm.cc:404). -/
def LoadCondition (cg : CodeGenerator) (F : Factory) (result : Expression → VisitResult)
    (x : Expression) (true_tgt false_tgt : Label) (force_cc : Bool) : CodeGenerator :=
  let original_height := cg.frame_
  let cg := cg.Visit result x true_tgt false_tgt
  let cg :=
    if cg.stack_overflow_ && cg.has_valid_frame && !cg.has_cc &&
        decide (cg.frame_ = original_height) then
      JumpTarget.Jump cg true_tgt
    else cg
  if force_cc && cg.has_valid_frame && !cg.has_cc then
    cg.ToBoolean F true_tgt false_tgt
  else cg

/-- `CodeGenerator::LoadConditionAndSpill` (codegen-arm.cc:382); in spilled code
`SpillAll` emits nothing. -/
def LoadConditionAndSpill (cg : CodeGenerator) (F : Factory)
    (result : Expression → VisitResult) (x : Expression) (true_tgt false_tgt : Label)
    (force_control : Bool) : CodeGenerator :=
  cg.LoadCondition F result x true_tgt false_tgt force_control

/-- `CodeGenerator::Load` (codegen-arm.cc:453). -/
def Load (cg : CodeGenerator) (F : Factory) (result : Expression → VisitResult)
    (x : Expression) : CodeGenerator :=
  let (cg, true_tgt) := cg.newTarget
  let (cg, false_tgt) := cg.newTarget
  let cg := cg.LoadCondition F result x true_tgt false_tgt false
  let cg :=
    if cg.has_cc then
      let (cg, loaded) := cg.newTarget
      let (cg, materialize_true) := cg.newTarget
      let cg := JumpTarget.Branch cg materialize_true cg.cc_reg_
      let cg := cg.emit (.dp .mov .r0 .r0 (.imm F.false_value) .LeaveCC .al)
      let cg := VirtualFrame.EmitPush cg .r0
      let cg := JumpTarget.Jump cg loaded
      let cg := JumpTarget.Bind cg materialize_true
      let cg := cg.emit (.dp .mov .r0 .r0 (.imm F.true_value) .LeaveCC .al)
      let cg := VirtualFrame.EmitPush cg .r0
      let cg := JumpTarget.Bind cg loaded
      { cg with cc_reg_ := .al }
    else cg
  if cg.is_linked true_tgt || cg.is_linked false_tgt then
    let (cg, loaded) := cg.newTarget
    let cg := if cg.has_valid_frame then JumpTarget.Jump cg loaded else cg
    let both := cg.is_linked true_tgt && cg.is_linked false_tgt
    let cg :=
      if cg.is_linked true_tgt then
        let cg := JumpTarget.Bind cg true_tgt
        let cg := cg.emit (.dp .mov .r0 .r0 (.imm F.true_value) .LeaveCC .al)
        VirtualFrame.EmitPush cg .r0
      else cg
    let cg := if both then JumpTarget.Jump cg loaded else cg
    let cg :=
      if cg.is_linked false_tgt then
        let cg := JumpTarget.Bind cg false_tgt
        let cg := cg.emit (.dp .mov .r0 .r0 (.imm F.false_value) .LeaveCC .al)
        VirtualFrame.EmitPush cg .r0
      else cg
    JumpTarget.Bind cg loaded
  else cg

/-- `CodeGenerator::LoadAndSpill` (codegen-arm.cc:443). -/
def LoadAndSpill (cg : CodeGenerator) (F : Factory) (result : Expression → VisitResult)
    (x : Expression) : CodeGenerator :=
  cg.Load F result x

/-- `CodeGenerator::VisitBinaryOperation` (codegen-arm.cc:3711); `true_tgt` and
`false_tgt` are the targets of the current control destination. -/
def VisitBinaryOperation (cg : CodeGenerator) (F : Factory)
    (result : Expression → VisitResult) (op : Token) (left right : Expression)
    (true_tgt false_tgt : Label) : CodeGenerator :=
  if op = .AND then
    let cg := cg.LoadConditionAndSpill F result left .is_true false_tgt false
    if cg.has_cc then
      let cg := cg.Branch false false_tgt
      let cg := JumpTarget.Bind cg .is_true
      cg.LoadConditionAndSpill F result right true_tgt false_tgt false
    else
      let cg := cg.emit (.ldr_top .r0)
      let cg := VirtualFrame.EmitPush cg .r0
      let cg := cg.ToBoolean F .pop_and_continue .exit
      let cg := cg.Branch false .exit
      let cg := JumpTarget.Bind cg .pop_and_continue
      let cg := VirtualFrame.EmitPop cg .r0
      let cg := JumpTarget.Bind cg .is_true
      let cg := cg.LoadAndSpill F result right
      JumpTarget.Bind cg .exit
  else if op = .OR then
    let cg := cg.LoadConditionAndSpill F result left true_tgt .is_false false
    if cg.has_cc then
      let cg := cg.Branch true true_tgt
      let cg := JumpTarget.Bind cg .is_false
      cg.LoadConditionAndSpill F result right true_tgt false_tgt false
    else
      let cg := cg.emit (.ldr_top .r0)
      let cg := VirtualFrame.EmitPush cg .r0
      let cg := cg.ToBoolean F .exit .pop_and_continue
      let cg := cg.Branch true .exit
      let cg := JumpTarget.Bind cg .pop_and_continue
      let cg := VirtualFrame.EmitPop cg .r0
      let cg := JumpTarget.Bind cg .is_false
      let cg := cg.LoadAndSpill F result right
      JumpTarget.Bind cg .exit
  else
    let cg :=
      match left, right with
      | _, .Literal (.Smi value) =>
          let cg := cg.LoadAndSpill F result left
          cg.SmiOperation op value false
      | .Literal (.Smi value), _ =>
          let cg := cg.LoadAndSpill F result right
          cg.SmiOperation op value true
      | _, _ =>
          let cg := cg.LoadAndSpill F result left
          let cg := cg.LoadAndSpill F result right
          cg.GenericBinaryOperation op
    VirtualFrame.EmitPush cg .r0

end CodeGenerator

/-! ## Fast-case switch -/

/-- Constants of `objects.h` (not among the sources) that the emitted code
uses: the heap-object tag, the offsets of the map in an object and of the
instance type and the bit field in a map, the bit of undetectable objects, the
instance types the code compares with, and the offsets in maps, descriptor
arrays and fixed arrays that the `for-in` code reads. -/
structure ObjectLayout where
  kHeapObjectTag : Int
  kMapOffset : Int
  kInstanceTypeOffset : Int
  HEAP_NUMBER_TYPE : Nat
  kBitFieldOffset : Int
  kIsUndetectable : Nat
  FIRST_NONSTRING_TYPE : Nat
  JS_FUNCTION_TYPE : Nat
  FIRST_JS_OBJECT_TYPE : Nat
  LAST_JS_OBJECT_TYPE : Nat
  kInstanceDescriptorsOffset : Int
  kEnumerationIndexOffset : Int
  kEnumCacheBridgeCacheOffset : Int
  kLengthOffset : Int
  kHeaderSize : Int
  kPointerSizeLog2 : Nat

namespace CodeGenerator

/-- `CodeGenerator::GenerateFastCaseSwitchJumpTable` (codegen-arm.cc:1467).
`has_default` is `default_label != NULL`; `GenerateFastCaseSwitchCases`
(codegen.cc, not among the sources) is the parameter `cases`. -/
def GenerateFastCaseSwitchJumpTable (cg : CodeGenerator) (L : ObjectLayout)
    (cases : CodeGenerator → CodeGenerator) (has_default : Bool) (min_index range : Int)
    (case_targets : List Label) : CodeGenerator :=
  let default_target := if has_default then Label.setup_default else Label.break_target
  let cg := VirtualFrame.EmitPop cg .r0
  let cg := cg.emit (.dp .tst .r0 .r0 (.imm Smi.kSmiTagMask) .SetCC .al)
  let cg := JumpTarget.Branch cg .is_smi .eq
  let cg := cg.emit (.ldr .r1 .r0 (L.kMapOffset - L.kHeapObjectTag))
  let cg := cg.emit (.ldrb .r1 .r1 (L.kInstanceTypeOffset - L.kHeapObjectTag))
  let cg := cg.emit (.dp .cmp .r1 .r1 (.imm L.HEAP_NUMBER_TYPE) .SetCC .al)
  let cg := JumpTarget.Branch cg default_target .ne
  let cg := VirtualFrame.EmitPush cg .r0
  let cg := VirtualFrame.CallRuntime cg .kNumberToSmi 1
  let cg := JumpTarget.Bind cg .is_smi
  let cg :=
    if min_index ≠ 0 then
      if min_index < 0 then
        if Smi.IsValid (-min_index) then
          cg.emit (.dp .add .r0 .r0 (.imm (Smi.FromInt (-min_index))) .LeaveCC .al)
        else
          let cg := cg.emit (.dp .add .r0 .r0 (.imm (Smi.FromInt (-min_index - 1))) .LeaveCC .al)
          cg.emit (.dp .add .r0 .r0 (.imm (Smi.FromInt 1)) .LeaveCC .al)
      else
        cg.emit (.dp .sub .r0 .r0 (.imm (Smi.FromInt min_index)) .LeaveCC .al)
    else cg
  let cg := cg.emit (.dp .tst .r0 .r0 (.imm (2147483648 ||| Smi.kSmiTagMask)) .SetCC .al)
  let cg := JumpTarget.Branch cg default_target .ne
  let cg := cg.emit (.dp .cmp .r0 .r0 (.imm (Smi.FromInt range)) .SetCC .al)
  let cg := JumpTarget.Branch cg default_target .ge
  let start_frame := cg.frame_
  let cg := cg.emit (.SmiJumpTable .r0 case_targets)
  let cg := cases cg
  let cg :=
    if has_default then
      let cg := if cg.has_valid_frame then JumpTarget.Jump cg .break_target else cg
      let cg := JumpTarget.Bind cg .setup_default
      let cg := { cg with frame_ := start_frame }
      let cg := cg.emit (.b .al .default_label)
      { cg with frame_ := none }
    else cg
  if cg.is_linked .break_target then JumpTarget.Bind cg .break_target else cg

end CodeGenerator

/-- A sample object layout. -/
def ObjectLayout.sample : ObjectLayout :=
  { kHeapObjectTag := 1, kMapOffset := 0, kInstanceTypeOffset := 8, HEAP_NUMBER_TYPE := 131,
    kBitFieldOffset := 12, kIsUndetectable := 5, FIRST_NONSTRING_TYPE := 128,
    JS_FUNCTION_TYPE := 150, FIRST_JS_OBJECT_TYPE := 145, LAST_JS_OBJECT_TYPE := 149,
    kInstanceDescriptorsOffset := 16, kEnumerationIndexOffset := 8,
    kEnumCacheBridgeCacheOffset := 12, kLengthOffset := 4, kHeaderSize := 8,
    kPointerSizeLog2 := 2 }

/-! ## References -/

/-- The contract of an expression visitor: with nothing left behind, control
was transferred to at least one of the two targets (the spec's "control
transferred unconditionally to one of the targets"), and a condition left in
the condition-code register is a condition to test (`has_cc()` holds). -/
def VisitResult.WellFormed (r : VisitResult) : Bool :=
  (decide (r.leaves ≠ .nothing) || r.links_true || r.links_false) &&
    decide (r.leaves ≠ .cc .al)

/-- `Expression::AsProperty()`: the object and the key of a property node. -/
def Arm.Expression.AsProperty : Expression → Option (Expression × Expression)
  | .Property obj key => some (obj, key)
  | _ => none

/-- `e->AsVariableProxy()->AsVariable()`: the variable of a variable proxy. -/
def Arm.Expression.AsVariable : Expression → Option Variable
  | .VariableProxy var => some var
  | _ => none

/-- `Expression::AsLiteral()`: the handle of a literal node. -/
def Arm.Expression.AsLiteral : Expression → Option Handle
  | .Literal handle => some handle
  | _ => none

/-- `Object::IsSymbol()` on the object of a handle. -/
def Arm.Handle.IsSymbol : Handle → Bool
  | .Symbol _ => true
  | _ => false

/-- Modelled from the spec: `String::AsArrayIndex` (objects.cc is not among the
sources).  The spec says of the key of a named reference that it "does not
parse as an unsigned integer": a string parses when it is a non-empty sequence
of decimal digits whose value fits the 32-bit result. -/
def String_AsArrayIndex (chars : List Char) : Option Nat :=
  if chars.isEmpty || !chars.all Char.isDigit then none
  else
    let value := chars.foldl (fun acc c => 10 * acc + (c.toNat - 48)) 0
    if value < 4294967296 then some value else none

/-- `String::cast(*handle)->AsArrayIndex(&dummy)` on the object of a handle. -/
def Arm.Handle.AsArrayIndex : Handle → Option Nat
  | .Symbol chars => String_AsArrayIndex chars.data
  | .String chars => String_AsArrayIndex chars.data
  | _ => none

/-- The values of `enum Reference::Type` (codegen-arm.h:58):
`ILLEGAL = -1, SLOT = 0, NAMED = 1, KEYED = 2`. -/
def Reference.Type.value : Reference.Type → Int
  | .ILLEGAL => -1
  | .SLOT => 0
  | .NAMED => 1
  | .KEYED => 2

/-- `Reference` (codegen-arm.h:55), without its pointer back to the generator. -/
structure Reference where
  expression_ : Expression
  type_ : Reference.Type
  deriving DecidableEq, Repr

/-- `Reference::size()` (codegen-arm.h:70):
`(type_ == ILLEGAL) ? 0 : type_`. -/
def Reference.size (ref : Reference) : Int :=
  if ref.type_ = .ILLEGAL then 0 else ref.type_.value

/-- `Reference::set_type` (codegen-arm.h:64). -/
def Reference.set_type (ref : Reference) (value : Reference.Type) : Reference :=
  { ref with type_ := value }

namespace CodeGenerator

/-- `CodeGenerator::LoadGlobal` (codegen-arm.cc:511); `GlobalObject()` is the
slot of the context in `cp` at the offset `kGlobalSlotOffset`
(`Context::SlotOffset(Context::GLOBAL_INDEX)`). -/
def LoadGlobal (cg : CodeGenerator) (kGlobalSlotOffset : Int) : CodeGenerator :=
  let cg := cg.emit (.ldr .r0 .cp kGlobalSlotOffset)
  VirtualFrame.EmitPush cg .r0

/-- `CodeGenerator::LoadReference` (codegen-arm.cc:560): the generator and the
reference after the call. -/
def LoadReference (cg : CodeGenerator) (F : Factory) (result : Expression → VisitResult)
    (kGlobalSlotOffset : Int) (ref : Reference) : CodeGenerator × Reference :=
  let e := ref.expression_
  match e.AsProperty with
  | some (obj, key) =>
    let cg := cg.LoadAndSpill F result obj
    let literal := key.AsLiteral
    if (match literal with
        | some handle => handle.IsSymbol && (handle.AsArrayIndex).isNone
        | none => false) then
      (cg, ref.set_type .NAMED)
    else
      let cg := cg.LoadAndSpill F result key
      (cg, ref.set_type .KEYED)
  | none =>
    match e.AsVariable with
    | some var =>
      if var.is_global then
        let cg := cg.LoadGlobal kGlobalSlotOffset
        (cg, ref.set_type .NAMED)
      else
        (cg, ref.set_type .SLOT)
    | none =>
      let cg := cg.LoadAndSpill F result e
      let cg := VirtualFrame.CallRuntime cg .kThrowReferenceError 1
      (cg, ref)

end CodeGenerator

/-- `Reference::Reference` (codegen-arm.cc:548): the reference starts out
`ILLEGAL` and is loaded at once. -/
def Reference.create (cg : CodeGenerator) (F : Factory) (result : Expression → VisitResult)
    (kGlobalSlotOffset : Int) (expression : Expression) : CodeGenerator × Reference :=
  cg.LoadReference F result kGlobalSlotOffset { expression_ := expression, type_ := .ILLEGAL }

namespace CodeGenerator

/-- `CodeGenerator::UnloadReference` (codegen-arm.cc:603). -/
def UnloadReference (cg : CodeGenerator) (ref : Reference) : CodeGenerator :=
  let size := ref.size
  if size > 0 then
    let cg := VirtualFrame.EmitPop cg .r0
    let cg := VirtualFrame.Drop cg size.toNat
    VirtualFrame.EmitPush cg .r0
  else cg

end CodeGenerator

/-- Modelled from the spec: `VariableProxy::name()` (ast.h is not among the
sources).  The spec names the reference to a global variable
`Named{variable_name}`: the name of a proxy is the name of the variable it
resolves to. -/
def Arm.Expression.name : Expression → Option String
  | .VariableProxy var => some var.name
  | _ => none

/-- `String::cast(*handle)`: the string a handle refers to, if it refers to
one (symbols are strings). -/
def String_cast : Handle → Option String
  | .Symbol chars => some chars
  | .String chars => some chars
  | _ => none

/-- `Reference::GetName` (codegen-arm.cc:4067); `none` where an assertion of
the source fails. -/
def Reference.GetName (ref : Reference) : Option String :=
  if ref.type_ = .NAMED then
    match ref.expression_.AsProperty with
    | none =>
      match ref.expression_.AsVariable with
      | some var => if var.is_global then ref.expression_.name else none
      | none => none
    | some (_, key) =>
      match key.AsLiteral with
      | some raw_name => String_cast raw_name
      | none => none
  else none

/-! ## Storing to a reference -/

/-- `InitState` (codegen-arm.h:41). -/
inductive InitState
  | CONST_INIT | NOT_CONST_INIT
  deriving DecidableEq, Repr

/-- Where slots live, from `virtual-frame-arm.h`, `contexts.h` and `objects.h`
(not among the sources): the offsets from `fp` of the operands that
`VirtualFrame::ParameterAt`, `LocalAt`, `Function` and `Context` return,
`Context::SlotOffset`, the context indices of the closure and of the function
context, `JSFunction::kContextOffset`, `FixedArray::kHeaderSize`,
`kPointerSize` and `kHeapObjectTag`. -/
structure SlotLayout where
  ParameterAt : Int → Int
  LocalAt : Int → Int
  Function : Int
  Context : Int
  SlotOffset : Int → Int
  CLOSURE_INDEX : Int
  FCONTEXT_INDEX : Int
  kContextOffset : Int
  kHeaderSize : Int
  kPointerSize : Int
  kHeapObjectTag : Int

namespace CodeGenerator

/-- `CodeGenerator::SlotOperand` (codegen-arm.cc:300): the code emitted to
reach the context of a context slot, and the memory operand (base register and
offset) of the slot.  A `LOOKUP` slot has no operand (`UNREACHABLE`). -/
def SlotOperand (cg : CodeGenerator) (L : SlotLayout) (slot : Slot) (tmp : Register) :
    CodeGenerator × Register × Int :=
  let index := slot.index
  match slot.type with
  | .PARAMETER => (cg, .fp, L.ParameterAt index)
  | .LOCAL => (cg, .fp, L.LocalAt index)
  | .CONTEXT =>
    let (cg, context) := (List.range slot.chain_length).foldl
      (fun (p : CodeGenerator × Register) _ =>
        let cg := p.1.emit (.ldr tmp p.2 (L.SlotOffset L.CLOSURE_INDEX))
        let cg := cg.emit (.ldr tmp tmp (L.kContextOffset - L.kHeapObjectTag))
        (cg, tmp))
      (cg, Register.cp)
    let cg := cg.emit (.ldr tmp context (L.SlotOffset L.FCONTEXT_INDEX))
    (cg, tmp, L.SlotOffset index)
  | .LOOKUP => (cg, .r0, 0)

end CodeGenerator

/-- `Reference::SetValue` (codegen-arm.cc:4160).  Where an assertion of the
source fails (no slot, no name, an `ILLEGAL` reference) nothing is emitted. -/
def Reference.SetValue (ref : Reference) (cg : CodeGenerator) (F : Factory) (L : SlotLayout)
    (init_state : InitState) : CodeGenerator :=
  match ref.type_ with
  | .SLOT =>
    match ref.expression_.AsVariable with
    | none => cg
    | some var =>
      match var.slot with
      | none => cg
      | some slot =>
        if slot.type = .LOOKUP then
          let cg := VirtualFrame.EmitPush cg .cp
          let cg := cg.emit (.dp .mov .r0 .r0 (.imm (F.symbol var.name)) .LeaveCC .al)
          let cg := VirtualFrame.EmitPush cg .r0
          let cg :=
            if init_state = .CONST_INIT then
              VirtualFrame.CallRuntime cg .kInitializeConstContextSlot 3
            else
              VirtualFrame.CallRuntime cg .kStoreContextSlot 3
          VirtualFrame.EmitPush cg .r0
        else
          let (cg, exit_tgt) := cg.newTarget
          let cg :=
            if init_state = .CONST_INIT then
              let (cg, base, offset) := cg.SlotOperand L slot .r2
              let cg := cg.emit (.ldr .r2 base offset)
              let cg := cg.emit (.dp .cmp .r2 .r2 (.imm F.the_hole_value) .SetCC .al)
              JumpTarget.Branch cg exit_tgt .ne
            else cg
          let cg := VirtualFrame.EmitPop cg .r0
          let (cg, base, offset) := cg.SlotOperand L slot .r2
          let cg := cg.emit (.str .r0 base offset)
          let cg := VirtualFrame.EmitPush cg .r0
          let cg :=
            if slot.type = .CONTEXT then
              let cg := cg.emit (.dp .tst .r0 .r0 (.imm Smi.kSmiTagMask) .SetCC .al)
              let cg := JumpTarget.Branch cg exit_tgt .eq
              let offset := L.kHeaderSize + slot.index * L.kPointerSize
              let cg := cg.emit (.dp .mov .r3 .r3 (.imm offset.toNat) .LeaveCC .al)
              cg.emit (.RecordWrite .r2 .r3 .r1)
            else cg
          if init_state = .CONST_INIT ∨ slot.type = .CONTEXT then
            JumpTarget.Bind cg exit_tgt
          else cg
  | .NAMED =>
    match ref.GetName with
    | none => cg
    | some name =>
      let cg := VirtualFrame.EmitPop cg .r0
      let cg := cg.emit (.dp .mov .r2 .r2 (.imm (F.symbol name)) .LeaveCC .al)
      let cg := cg.emit (.CallCodeObject .StoreIC_Initialize 0)
      VirtualFrame.EmitPush cg .r0
  | .KEYED =>
    let cg := VirtualFrame.EmitPop cg .r0
    let cg := cg.emit (.CallCodeObject .KeyedStoreIC_Initialize 0)
    VirtualFrame.EmitPush cg .r0
  | .ILLEGAL => cg

/-- A sample slot layout: parameters above and locals below `fp`, context slots
after a two-word header. -/
def SlotLayout.sample : SlotLayout :=
  { ParameterAt := fun index => 8 + 4 * index, LocalAt := fun index => -12 - 4 * index,
    Function := -8, Context := -4,
    SlotOffset := fun index => 7 + 4 * index, CLOSURE_INDEX := 0, FCONTEXT_INDEX := 1,
    kContextOffset := 21, kHeaderSize := 8, kPointerSize := 4, kHeapObjectTag := 1 }

/-! ## Unary and compare operations -/

/-- `Literal::IsNull()`. -/
def Arm.Handle.IsNull : Handle → Bool
  | .Null => true
  | _ => false

/-- `Object::IsString()` on the object of a handle; symbols are strings. -/
def Arm.Handle.IsString : Handle → Bool
  | .Symbol _ => true
  | .String _ => true
  | _ => false

/-- `Expression::AsUnaryOperation()`: the operator and the operand. -/
def Arm.Expression.AsUnaryOperation : Expression → Option (Token × Expression)
  | .UnaryOperation op expression => some (op, expression)
  | _ => none

/-- Modelled from the spec: the symbols `Heap::number_symbol()`,
`string_symbol()`, `boolean_symbol()`, `undefined_symbol()`,
`function_symbol()` and `object_symbol()` (heap.h is not among the sources) are
"the canonical strings {`number`, `string`, `boolean`, `undefined`,
`function`, `object`}". -/
def Heap_number_symbol : String := "number"

/-- Modelled from the spec: see `Heap_number_symbol`. -/
def Heap_string_symbol : String := "string"

/-- Modelled from the spec: see `Heap_number_symbol`. -/
def Heap_boolean_symbol : String := "boolean"

/-- Modelled from the spec: see `Heap_number_symbol`. -/
def Heap_undefined_symbol : String := "undefined"

/-- Modelled from the spec: see `Heap_number_symbol`. -/
def Heap_function_symbol : String := "function"

/-- Modelled from the spec: see `Heap_number_symbol`. -/
def Heap_object_symbol : String := "object"

/-- Modelled from the spec: `VirtualFrame::CallStub(stub, arg_count)` for a
code stub that takes `arg_count` arguments from the frame. -/
def VirtualFrame.CallCodeStub (cg : CodeGenerator) (stub : CodeStub) (arg_count : Nat) :
    CodeGenerator :=
  { cg with masm_ := cg.masm_ ++ [Instr.CallCodeStub stub arg_count],
            frame_ := cg.frame_.map (· - arg_count) }

/-- `UnarySubStub::Generate` (codegen-arm.cc:4668), appending to the buffer of
the macro assembler. -/
def UnarySubStub_Generate (masm : List Instr) : List Instr :=
  let masm := masm ++ [.dp .tst .r0 .r0 (.imm Smi.kSmiTagMask) .SetCC .al]
  let masm := masm ++ [.b .ne .slow]
  let masm := masm ++ [.dp .cmp .r0 .r0 (.imm 0) .SetCC .al]
  let masm := masm ++ [.b .eq .slow]
  let masm := masm ++ [.dp .rsb .r1 .r0 (.imm 0) .SetCC .al]
  let masm := masm ++ [.b .vs .slow]
  let masm := masm ++ [.dp .tst .r1 .r1 (.imm Smi.kSmiTagMask) .SetCC .al]
  let masm := masm ++ [.dp .mov .r0 .r0 (.reg .r1) .LeaveCC .eq]
  let masm := masm ++ [.b .eq .done]
  let masm := masm ++ [.bind .slow]
  let masm := masm ++ [.push .r0]
  let masm := masm ++ [.dp .mov .r0 .r0 (.imm 0) .LeaveCC .al]
  let masm := masm ++ [.JumpBuiltin .UNARY_MINUS]
  let masm := masm ++ [.bind .done]
  masm ++ [.StubReturn 1]

namespace CodeGenerator

/-- `CodeGenerator::LoadTypeofExpression` (codegen-arm.cc:530); `GLOBAL_INDEX`
is `Context::GLOBAL_INDEX`.  The typeof state, which only the visitors read, is
not tracked. -/
def LoadTypeofExpression (cg : CodeGenerator) (F : Factory) (result : Expression → VisitResult)
    (GLOBAL_INDEX : Int) (x : Expression) : CodeGenerator :=
  match x.AsVariable with
  | some var =>
    if !var.is_this && var.is_global then
      let global := Expression.Slot var .CONTEXT GLOBAL_INDEX
      let key := Expression.Literal (.Symbol var.name)
      let property := Expression.Property global key
      cg.LoadAndSpill F result property
    else
      cg.LoadAndSpill F result x
  | none => cg.LoadAndSpill F result x

/-- `CodeGenerator::VisitUnaryOperation` (codegen-arm.cc:3467); `true_tgt` and
`false_tgt` are the targets of the current control destination. -/
def VisitUnaryOperation (cg : CodeGenerator) (F : Factory) (result : Expression → VisitResult)
    (kGlobalSlotOffset GLOBAL_INDEX : Int) (op : Token) (expression : Expression)
    (true_tgt false_tgt : Label) : CodeGenerator :=
  if op = .NOT then
    let cg := cg.LoadConditionAndSpill F result expression false_tgt true_tgt true
    { cg with cc_reg_ := NegateCondition cg.cc_reg_ }
  else if op = .DELETE then
    let cg :=
      match expression.AsProperty with
      | some (obj, key) =>
        let cg := cg.LoadAndSpill F result obj
        let cg := cg.LoadAndSpill F result key
        let cg := cg.emit (.dp .mov .r0 .r0 (.imm 1) .LeaveCC .al)
        VirtualFrame.InvokeBuiltin cg .DELETE 2
      | none =>
        match expression.AsVariable with
        | some var =>
          let slot := var.slot
          let is_lookup : Bool := match slot with
            | some slot => decide (slot.type = .LOOKUP)
            | none => false
          if var.is_global then
            let cg := cg.LoadGlobal kGlobalSlotOffset
            let cg := cg.emit (.dp .mov .r0 .r0 (.imm (F.symbol var.name)) .LeaveCC .al)
            let cg := VirtualFrame.EmitPush cg .r0
            let cg := cg.emit (.dp .mov .r0 .r0 (.imm 1) .LeaveCC .al)
            VirtualFrame.InvokeBuiltin cg .DELETE 2
          else if is_lookup then
            let cg := VirtualFrame.EmitPush cg .cp
            let cg := cg.emit (.dp .mov .r0 .r0 (.imm (F.symbol var.name)) .LeaveCC .al)
            let cg := VirtualFrame.EmitPush cg .r0
            let cg := VirtualFrame.CallRuntime cg .kLookupContext 2
            let cg := VirtualFrame.EmitPush cg .r0
            let cg := cg.emit (.dp .mov .r0 .r0 (.imm (F.symbol var.name)) .LeaveCC .al)
            let cg := VirtualFrame.EmitPush cg .r0
            let cg := cg.emit (.dp .mov .r0 .r0 (.imm 1) .LeaveCC .al)
            VirtualFrame.InvokeBuiltin cg .DELETE 2
          else
            cg.emit (.dp .mov .r0 .r0 (.imm F.false_value) .LeaveCC .al)
        | none =>
          let cg := cg.LoadAndSpill F result expression
          let cg := VirtualFrame.Drop cg 1
          cg.emit (.dp .mov .r0 .r0 (.imm F.true_value) .LeaveCC .al)
    VirtualFrame.EmitPush cg .r0
  else if op = .TYPEOF then
    let cg := cg.LoadTypeofExpression F result GLOBAL_INDEX expression
    let cg := VirtualFrame.CallRuntime cg .kTypeof 1
    VirtualFrame.EmitPush cg .r0
  else
    let cg := cg.LoadAndSpill F result expression
    let cg := VirtualFrame.EmitPop cg .r0
    let cg :=
      match op with
      | .SUB => VirtualFrame.CallCodeStub cg .UnarySub 0
      | .BIT_NOT =>
        let (cg, smi_label) := cg.newTarget
        let (cg, continue_label) := cg.newTarget
        let cg := cg.emit (.dp .tst .r0 .r0 (.imm Smi.kSmiTagMask) .SetCC .al)
        let cg := JumpTarget.Branch cg smi_label .eq
        let cg := VirtualFrame.EmitPush cg .r0
        let cg := cg.emit (.dp .mov .r0 .r0 (.imm 0) .LeaveCC .al)
        let cg := VirtualFrame.InvokeBuiltin cg .BIT_NOT 1
        let cg := JumpTarget.Jump cg continue_label
        let cg := JumpTarget.Bind cg smi_label
        let cg := cg.emit (.dp .mvn .r0 .r0 (.reg .r0) .LeaveCC .al)
        let cg := cg.emit (.dp .bic .r0 .r0 (.imm Smi.kSmiTagMask) .LeaveCC .al)
        JumpTarget.Bind cg continue_label
      | .VOID =>
        cg.emit (.dp .mov .r0 .r0 (.imm F.undefined_value) .LeaveCC .al)
      | .ADD =>
        let (cg, continue_label) := cg.newTarget
        let cg := cg.emit (.dp .tst .r0 .r0 (.imm Smi.kSmiTagMask) .SetCC .al)
        let cg := JumpTarget.Branch cg continue_label .eq
        let cg := VirtualFrame.EmitPush cg .r0
        let cg := cg.emit (.dp .mov .r0 .r0 (.imm 0) .LeaveCC .al)
        let cg := VirtualFrame.InvokeBuiltin cg .TO_NUMBER 1
        JumpTarget.Bind cg continue_label
      | _ => cg
    VirtualFrame.EmitPush cg .r0

/-- `CodeGenerator::VisitCompareOperation` (codegen-arm.cc:3852); `true_tgt`
and `false_tgt` are the targets of the current control destination. -/
def VisitCompareOperation (cg : CodeGenerator) (F : Factory) (L : ObjectLayout)
    (result : Expression → VisitResult) (GLOBAL_INDEX : Int) (op : Token)
    (left right : Expression) (true_tgt false_tgt : Label) : CodeGenerator :=
  let left_is_null : Bool := match left.AsLiteral with
    | some handle => handle.IsNull
    | none => false
  let right_is_null : Bool := match right.AsLiteral with
    | some handle => handle.IsNull
    | none => false
  if (op = .EQ ∨ op = .EQ_STRICT) ∧ (left_is_null = true ∨ right_is_null = true) then
    let cg := cg.LoadAndSpill F result (if left_is_null then right else left)
    let cg := VirtualFrame.EmitPop cg .r0
    let cg := cg.emit (.dp .cmp .r0 .r0 (.imm F.null_value) .SetCC .al)
    let cg :=
      if op ≠ .EQ_STRICT then
        let cg := JumpTarget.Branch cg true_tgt .eq
        let cg := cg.emit (.dp .cmp .r0 .r0 (.imm F.undefined_value) .SetCC .al)
        let cg := JumpTarget.Branch cg true_tgt .eq
        let cg := cg.emit (.dp .tst .r0 .r0 (.imm Smi.kSmiTagMask) .SetCC .al)
        let cg := JumpTarget.Branch cg false_tgt .eq
        let cg := cg.emit (.ldr .r0 .r0 (L.kMapOffset - L.kHeapObjectTag))
        let cg := cg.emit (.ldrb .r0 .r0 (L.kBitFieldOffset - L.kHeapObjectTag))
        let cg := cg.emit (.dp .and_ .r0 .r0 (.imm (2 ^ L.kIsUndetectable)) .LeaveCC .al)
        cg.emit (.dp .cmp .r0 .r0 (.imm (2 ^ L.kIsUndetectable)) .SetCC .al)
      else cg
    { cg with cc_reg_ := .eq }
  else
    let typeof_check : Option (Expression × String) :=
      match left.AsUnaryOperation, right.AsLiteral with
      | some (operation_op, operand), some handle =>
        if (op = .EQ ∨ op = .EQ_STRICT) ∧ operation_op = .TYPEOF ∧ handle.IsString then
          (String_cast handle).map (fun check => (operand, check))
        else none
      | _, _ => none
    match typeof_check with
    | some (operand, check) =>
      let cg := cg.LoadTypeofExpression F result GLOBAL_INDEX operand
      let cg := VirtualFrame.EmitPop cg .r1
      if check = Heap_number_symbol then
        let cg := cg.emit (.dp .tst .r1 .r1 (.imm Smi.kSmiTagMask) .SetCC .al)
        let cg := JumpTarget.Branch cg true_tgt .eq
        let cg := cg.emit (.ldr .r1 .r1 (L.kMapOffset - L.kHeapObjectTag))
        let cg := cg.emit (.dp .cmp .r1 .r1 (.imm F.heap_number_map) .SetCC .al)
        { cg with cc_reg_ := .eq }
      else if check = Heap_string_symbol then
        let cg := cg.emit (.dp .tst .r1 .r1 (.imm Smi.kSmiTagMask) .SetCC .al)
        let cg := JumpTarget.Branch cg false_tgt .eq
        let cg := cg.emit (.ldr .r1 .r1 (L.kMapOffset - L.kHeapObjectTag))
        let cg := cg.emit (.ldrb .r2 .r1 (L.kBitFieldOffset - L.kHeapObjectTag))
        let cg := cg.emit (.dp .and_ .r2 .r2 (.imm (2 ^ L.kIsUndetectable)) .LeaveCC .al)
        let cg := cg.emit (.dp .cmp .r2 .r2 (.imm (2 ^ L.kIsUndetectable)) .SetCC .al)
        let cg := JumpTarget.Branch cg false_tgt .eq
        let cg := cg.emit (.ldrb .r2 .r1 (L.kInstanceTypeOffset - L.kHeapObjectTag))
        let cg := cg.emit (.dp .cmp .r2 .r2 (.imm L.FIRST_NONSTRING_TYPE) .SetCC .al)
        { cg with cc_reg_ := .lt }
      else if check = Heap_boolean_symbol then
        let cg := cg.emit (.dp .cmp .r1 .r1 (.imm F.true_value) .SetCC .al)
        let cg := JumpTarget.Branch cg true_tgt .eq
        let cg := cg.emit (.dp .cmp .r1 .r1 (.imm F.false_value) .SetCC .al)
        { cg with cc_reg_ := .eq }
      else if check = Heap_undefined_symbol then
        let cg := cg.emit (.dp .cmp .r1 .r1 (.imm F.undefined_value) .SetCC .al)
        let cg := JumpTarget.Branch cg true_tgt .eq
        let cg := cg.emit (.dp .tst .r1 .r1 (.imm Smi.kSmiTagMask) .SetCC .al)
        let cg := JumpTarget.Branch cg false_tgt .eq
        let cg := cg.emit (.ldr .r1 .r1 (L.kMapOffset - L.kHeapObjectTag))
        let cg := cg.emit (.ldrb .r2 .r1 (L.kBitFieldOffset - L.kHeapObjectTag))
        let cg := cg.emit (.dp .and_ .r2 .r2 (.imm (2 ^ L.kIsUndetectable)) .LeaveCC .al)
        let cg := cg.emit (.dp .cmp .r2 .r2 (.imm (2 ^ L.kIsUndetectable)) .SetCC .al)
        { cg with cc_reg_ := .eq }
      else if check = Heap_function_symbol then
        let cg := cg.emit (.dp .tst .r1 .r1 (.imm Smi.kSmiTagMask) .SetCC .al)
        let cg := JumpTarget.Branch cg false_tgt .eq
        let cg := cg.emit (.ldr .r1 .r1 (L.kMapOffset - L.kHeapObjectTag))
        let cg := cg.emit (.ldrb .r1 .r1 (L.kInstanceTypeOffset - L.kHeapObjectTag))
        let cg := cg.emit (.dp .cmp .r1 .r1 (.imm L.JS_FUNCTION_TYPE) .SetCC .al)
        { cg with cc_reg_ := .eq }
      else if check = Heap_object_symbol then
        let cg := cg.emit (.dp .tst .r1 .r1 (.imm Smi.kSmiTagMask) .SetCC .al)
        let cg := JumpTarget.Branch cg false_tgt .eq
        let cg := cg.emit (.ldr .r2 .r1 (L.kMapOffset - L.kHeapObjectTag))
        let cg := cg.emit (.dp .cmp .r1 .r1 (.imm F.null_value) .SetCC .al)
        let cg := JumpTarget.Branch cg true_tgt .eq
        let cg := cg.emit (.ldrb .r1 .r2 (L.kBitFieldOffset - L.kHeapObjectTag))
        let cg := cg.emit (.dp .and_ .r1 .r1 (.imm (2 ^ L.kIsUndetectable)) .LeaveCC .al)
        let cg := cg.emit (.dp .cmp .r1 .r1 (.imm (2 ^ L.kIsUndetectable)) .SetCC .al)
        let cg := JumpTarget.Branch cg false_tgt .eq
        let cg := cg.emit (.ldrb .r2 .r2 (L.kInstanceTypeOffset - L.kHeapObjectTag))
        let cg := cg.emit (.dp .cmp .r2 .r2 (.imm L.FIRST_JS_OBJECT_TYPE) .SetCC .al)
        let cg := JumpTarget.Branch cg false_tgt .lt
        let cg := cg.emit (.dp .cmp .r2 .r2 (.imm L.LAST_JS_OBJECT_TYPE) .SetCC .al)
        { cg with cc_reg_ := .le }
      else
        JumpTarget.Jump cg false_tgt
    | none =>
      let cg := cg.LoadAndSpill F result left
      let cg := cg.LoadAndSpill F result right
      match op with
      | .IN =>
        let cg := cg.emit (.dp .mov .r0 .r0 (.imm 1) .LeaveCC .al)
        let cg := VirtualFrame.InvokeBuiltin cg .IN 2
        VirtualFrame.EmitPush cg .r0
      | .INSTANCEOF =>
        let cg := cg.emit (.dp .mov .r0 .r0 (.imm 1) .LeaveCC .al)
        let cg := VirtualFrame.InvokeBuiltin cg .INSTANCE_OF 2
        let cg := cg.emit (.dp .tst .r0 .r0 (.reg .r0) .SetCC .al)
        { cg with cc_reg_ := .eq }
      | _ => cg.VisitCompareOperation_Comparison op

end CodeGenerator

/-! ## Statements, `for-in` and `GenCode` -/

/-- Modelled from the spec: `JumpTarget::Initialize` (jump-target.h is not among
the sources) "declares the target and fixes direction"; by the lifecycle
"*unused* → *linked* (one or more predecessors registered) → *bound*" a target
just declared is unused: no predecessor is registered for it. -/
def JumpTarget.Initialize (cg : CodeGenerator) (target : Label) : CodeGenerator :=
  { cg with linked_ := cg.linked_.filter (fun p => decide (p.1 ≠ target)) }

/-- Modelled from the spec: `JumpTarget::Unuse`, the "reset" of "is_linked /
is_bound / unuse: status and reset": the target is unused again, no predecessor
is registered for it. -/
def JumpTarget.Unuse (cg : CodeGenerator) (target : Label) : CodeGenerator :=
  { cg with linked_ := cg.linked_.filter (fun p => decide (p.1 ≠ target)) }

/-- Modelled from the spec: `VirtualFrame::Enter` (virtual-frame-arm.cc is not
among the sources) emits the frame entry sequence of the function. -/
def VirtualFrame.Enter (cg : CodeGenerator) : CodeGenerator :=
  cg.emit .frame_enter

/-- Modelled from the spec: `VirtualFrame::Exit` emits the sequence that tears
the frame down. -/
def VirtualFrame.Exit (cg : CodeGenerator) : CodeGenerator :=
  cg.emit .frame_exit

/-- Modelled from the spec: `VirtualFrame::AllocateStackSlots(count)` allocates
and initializes the locals, which lie below the expression elements. -/
def VirtualFrame.AllocateStackSlots (cg : CodeGenerator) (count : Nat) : CodeGenerator :=
  cg.emit (.allocate_stack_slots count)

/-- Modelled from the spec: `VirtualFrame::Adjust(count)` makes the frame
`count` elements higher without emitting code. -/
def VirtualFrame.Adjust (cg : CodeGenerator) (count : Int) : CodeGenerator :=
  { cg with frame_ := cg.frame_.map (· + count) }

/-- The flags `GenCode` and `CheckStack` read: `FLAG_trace`,
`FLAG_check_stack` and the constant `kDebug`. -/
structure Flags where
  trace : Bool
  check_stack : Bool
  kDebug : Bool
  deriving DecidableEq, Repr

/-- The scope of a function, as far as `GenCode` asks about it. -/
structure Scope where
  num_stack_slots : Nat
  num_heap_slots : Nat
  parameters : List Variable
  arguments : Option Expression
  arguments_shadow : Option Expression
  HasIllegalRedeclaration : Bool

/-- Which of `ClearDeferred()` and `ProcessDeferred()` a call of `GenCode`
ran, if it reached either. -/
inductive DeferredHandling
  | not_reached | ClearDeferred | ProcessDeferred
  deriving DecidableEq, Repr

namespace CodeGenerator

/-- `CodeGenerator::CheckStack` (codegen-arm.cc:1112). -/
def CheckStack (cg : CodeGenerator) (flags : Flags) : CodeGenerator :=
  if flags.check_stack then VirtualFrame.CallCodeStub cg .StackCheck 0 else cg

/-- `CodeGenerator::VisitAndSpill` (codegen-arm.cc:1122); `visit` stands for
the statement visitors, which are not embedded. -/
def VisitAndSpill (cg : CodeGenerator) (visit : Nat → CodeGenerator → CodeGenerator)
    (statement : Nat) : CodeGenerator :=
  visit statement cg

/-- `CodeGenerator::VisitStatements` (codegen-arm.cc:1144). -/
def VisitStatements (cg : CodeGenerator) (visit : Nat → CodeGenerator → CodeGenerator)
    (statements : List Nat) : CodeGenerator :=
  statements.foldl
    (fun cg statement => if cg.has_valid_frame then cg.VisitAndSpill visit statement else cg) cg

/-- `CodeGenerator::VisitStatementsAndSpill` (codegen-arm.cc:1133). -/
def VisitStatementsAndSpill (cg : CodeGenerator) (visit : Nat → CodeGenerator → CodeGenerator)
    (statements : List Nat) : CodeGenerator :=
  cg.VisitStatements visit statements

/-- Modelled from the spec: `CodeGenerator::ClearDeferred` (codegen.cc is not
among the sources): on a stack overflow the generator "drops the deferred
queue"; the condition "cancels the queue". -/
def ClearDeferred (cg : CodeGenerator) : CodeGenerator :=
  { cg with deferred_ := [] }

/-- Modelled from the spec: `CodeGenerator::ProcessDeferred` (codegen.cc)
"processes the deferred queue in FIFO order: for each record it binds `enter`,
runs the closure (which emits the slow-case code and concludes with
`exit.jump()`), then continues with the next record". -/
def ProcessDeferred (cg : CodeGenerator) : CodeGenerator :=
  let cg' := cg.deferred_.foldl (fun cg code => cg.DeferredInlineSmiOperation_Generate code) cg
  { cg' with deferred_ := [] }

/-- `CodeGenerator::VisitForInStatement` (codegen-arm.cc:1824) for the statement
`for (each in enumerable) body`; the break and continue targets of the node
are the labels `break_target` and `continue_target`. -/
def VisitForInStatement (cg : CodeGenerator) (F : Factory) (L : ObjectLayout) (SL : SlotLayout)
    (flags : Flags) (result : Expression → VisitResult) (kGlobalSlotOffset : Int)
    (visit : Nat → CodeGenerator → CodeGenerator) (each enumerable : Expression) (body : Nat) :
    CodeGenerator :=
  let (cg, primitive) := cg.newTarget
  let (cg, jsobject) := cg.newTarget
  let (cg, fixed_array) := cg.newTarget
  let (cg, entry) := cg.newTarget
  let (cg, end_del_check) := cg.newTarget
  let (cg, exit_tgt) := cg.newTarget
  let cg := cg.LoadAndSpill F result enumerable
  let cg := VirtualFrame.EmitPop cg .r0
  let cg := cg.emit (.dp .cmp .r0 .r0 (.imm F.undefined_value) .SetCC .al)
  let cg := JumpTarget.Branch cg exit_tgt .eq
  let cg := cg.emit (.dp .cmp .r0 .r0 (.imm F.null_value) .SetCC .al)
  let cg := JumpTarget.Branch cg exit_tgt .eq
  let cg := cg.emit (.dp .tst .r0 .r0 (.imm Smi.kSmiTagMask) .SetCC .al)
  let cg := JumpTarget.Branch cg primitive .eq
  let cg := cg.emit (.ldr .r1 .r0 (L.kMapOffset - L.kHeapObjectTag))
  let cg := cg.emit (.ldrb .r1 .r1 (L.kInstanceTypeOffset - L.kHeapObjectTag))
  let cg := cg.emit (.dp .cmp .r1 .r1 (.imm L.FIRST_JS_OBJECT_TYPE) .SetCC .al)
  let cg := JumpTarget.Branch cg jsobject .cs
  let cg := JumpTarget.Bind cg primitive
  let cg := VirtualFrame.EmitPush cg .r0
  let cg := cg.emit (.dp .mov .r0 .r0 (.imm 0) .LeaveCC .al)
  let cg := VirtualFrame.InvokeBuiltin cg .TO_OBJECT 1
  let cg := JumpTarget.Bind cg jsobject
  let cg := VirtualFrame.EmitPush cg .r0
  let cg := VirtualFrame.EmitPush cg .r0
  let cg := VirtualFrame.CallRuntime cg .kGetPropertyNamesFast 1
  let cg := cg.emit (.dp .mov .r2 .r2 (.reg .r0) .LeaveCC .al)
  let cg := cg.emit (.ldr .r1 .r2 (L.kMapOffset - L.kHeapObjectTag))
  let cg := cg.emit (.dp .cmp .r1 .r1 (.imm F.meta_map) .SetCC .al)
  let cg := JumpTarget.Branch cg fixed_array .ne
  let cg := cg.emit (.dp .mov .r1 .r1 (.reg .r0) .LeaveCC .al)
  let cg := cg.emit (.ldr .r1 .r1 (L.kInstanceDescriptorsOffset - L.kHeapObjectTag))
  let cg := cg.emit (.ldr .r1 .r1 (L.kEnumerationIndexOffset - L.kHeapObjectTag))
  let cg := cg.emit (.ldr .r2 .r1 (L.kEnumCacheBridgeCacheOffset - L.kHeapObjectTag))
  let cg := VirtualFrame.EmitPush cg .r0
  let cg := VirtualFrame.EmitPush cg .r2
  let cg := cg.emit (.ldr .r0 .r2 (L.kLengthOffset - L.kHeapObjectTag))
  let cg := cg.emit (.dp .mov .r0 .r0 (.shifted .r0 .LSL Smi.kSmiTagSize) .LeaveCC .al)
  let cg := VirtualFrame.EmitPush cg .r0
  let cg := cg.emit (.dp .mov .r0 .r0 (.imm (Smi.FromInt 0)) .LeaveCC .al)
  let cg := VirtualFrame.EmitPush cg .r0
  let cg := JumpTarget.Jump cg entry
  let cg := JumpTarget.Bind cg fixed_array
  let cg := cg.emit (.dp .mov .r1 .r1 (.imm (Smi.FromInt 0)) .LeaveCC .al)
  let cg := VirtualFrame.EmitPush cg .r1
  let cg := VirtualFrame.EmitPush cg .r0
  let cg := cg.emit (.ldr .r0 .r0 (L.kLengthOffset - L.kHeapObjectTag))
  let cg := cg.emit (.dp .mov .r0 .r0 (.shifted .r0 .LSL Smi.kSmiTagSize) .LeaveCC .al)
  let cg := VirtualFrame.EmitPush cg .r0
  let cg := cg.emit (.dp .mov .r0 .r0 (.imm (Smi.FromInt 0)) .LeaveCC .al)
  let cg := VirtualFrame.EmitPush cg .r0
  let cg := JumpTarget.Bind cg entry
  let cg := JumpTarget.Initialize cg .break_target
  let cg := JumpTarget.Initialize cg .continue_target
  let cg := cg.emit (.ldr_element .r0 0)
  let cg := cg.emit (.ldr_element .r1 1)
  let cg := cg.emit (.dp .cmp .r0 .r0 (.reg .r1) .SetCC .al)
  let cg := JumpTarget.Branch cg .break_target .cs
  let cg := cg.emit (.ldr_element .r0 0)
  let cg := cg.emit (.ldr_element .r2 2)
  let cg := cg.emit (.dp .add .r2 .r2 (.imm (L.kHeaderSize - L.kHeapObjectTag).toNat) .LeaveCC .al)
  let cg := cg.emit (.ldr_indexed .r3 .r2 .r0 (L.kPointerSizeLog2 - Smi.kSmiTagSize))
  let cg := cg.emit (.ldr_element .r2 3)
  let cg := cg.emit (.ldr_element .r1 4)
  let cg := cg.emit (.ldr .r1 .r1 (L.kMapOffset - L.kHeapObjectTag))
  let cg := cg.emit (.dp .cmp .r1 .r1 (.reg .r2) .SetCC .al)
  let cg := JumpTarget.Branch cg end_del_check .eq
  let cg := cg.emit (.ldr_element .r0 4)
  let cg := VirtualFrame.EmitPush cg .r0
  let cg := VirtualFrame.EmitPush cg .r3
  let cg := cg.emit (.dp .mov .r0 .r0 (.imm 1) .LeaveCC .al)
  let cg := VirtualFrame.InvokeBuiltin cg .FILTER_KEY 2
  let cg := cg.emit (.dp .mov .r3 .r3 (.reg .r0) .LeaveCC .al)
  let cg := cg.emit (.dp .cmp .r3 .r3 (.imm F.null_value) .SetCC .al)
  let cg := JumpTarget.Branch cg .continue_target .eq
  let cg := JumpTarget.Bind cg end_del_check
  let cg := VirtualFrame.EmitPush cg .r3
  let (cg, each_ref) := Reference.create cg F result kGlobalSlotOffset each
  let cg :=
    if each_ref.type_ ≠ .ILLEGAL then
      let cg :=
        if each_ref.size > 0 then
          let cg := cg.emit (.ldr_element .r0 each_ref.size.toNat)
          VirtualFrame.EmitPush cg .r0
        else cg
      let cg := each_ref.SetValue cg F SL .NOT_CONST_INIT
      if each_ref.size > 0 then VirtualFrame.EmitPop cg .r0 else cg
    else cg
  let cg := cg.UnloadReference each_ref
  let cg := VirtualFrame.Drop cg 1
  let cg := cg.CheckStack flags
  let cg := cg.VisitAndSpill visit body
  let cg := JumpTarget.Bind cg .continue_target
  let cg := VirtualFrame.EmitPop cg .r0
  let cg := cg.emit (.dp .add .r0 .r0 (.imm (Smi.FromInt 1)) .LeaveCC .al)
  let cg := VirtualFrame.EmitPush cg .r0
  let cg := JumpTarget.Jump cg entry
  let cg := JumpTarget.Bind cg .break_target
  let cg := VirtualFrame.Drop cg 5
  let cg := JumpTarget.Bind cg exit_tgt
  let cg := JumpTarget.Unuse cg .continue_target
  JumpTarget.Unuse cg .break_target

/-- The loop of `GenCode` that copies parameters allocated to the context into
it (codegen-arm.cc:174); `i` is the index of the first parameter of the list. -/
def copyContextParameters (cg : CodeGenerator) (SL : SlotLayout) : List Variable → Nat →
    CodeGenerator
  | [], _ => cg
  | par :: rest, i =>
    let cg :=
      match par.slot with
      | some slot =>
        if slot.type = .CONTEXT then
          let cg := cg.emit (.ldr .r1 .fp (SL.ParameterAt i))
          let (cg, base, offset) := cg.SlotOperand SL slot .r2
          let cg := cg.emit (.str .r1 base offset)
          let slot_offset := SL.kHeaderSize + slot.index * SL.kPointerSize
          let cg := cg.emit (.dp .mov .r3 .r3 (.imm slot_offset.toNat) .LeaveCC .al)
          cg.emit (.RecordWrite .r2 .r3 .r1)
        else cg
      | none => cg
    copyContextParameters cg SL rest (i + 1)

/-- `CodeGenerator::GenCode` (codegen-arm.cc:100).  `visitIllegalRedeclaration`
and `processDeclarations` stand for `Scope::VisitIllegalRedeclaration` and
`ProcessDeclarations`, `visit` for the statement visitors; none of them is
among the sources.  The second component of the result records which of
`ClearDeferred()` and `ProcessDeferred()` the call ran. -/
def GenCode (cg : CodeGenerator) (F : Factory) (SL : SlotLayout) (flags : Flags)
    (result : Expression → VisitResult) (kGlobalSlotOffset : Int)
    (visitIllegalRedeclaration processDeclarations : CodeGenerator → CodeGenerator)
    (visit : Nat → CodeGenerator → CodeGenerator) (scope : Scope) (body : List Nat) :
    CodeGenerator × DeferredHandling :=
  let cg := { cg with frame_ := some 0, cc_reg_ := .al }
  let cg := VirtualFrame.Enter cg
  let cg := VirtualFrame.AllocateStackSlots cg scope.num_stack_slots
  let cg := JumpTarget.Initialize cg .function_return
  let cg :=
    if scope.num_heap_slots > 0 then
      let cg := cg.emit (.ldr .r0 .fp SL.Function)
      let cg := VirtualFrame.EmitPush cg .r0
      let cg := VirtualFrame.CallRuntime cg .kNewContext 1
      let cg :=
        if flags.kDebug then
          let (cg, verified_true) := cg.newTarget
          let cg := cg.emit (.dp .cmp .r0 .r0 (.reg .cp) .SetCC .al)
          let cg := JumpTarget.Branch cg verified_true .eq
          let cg := cg.emit (.stop "NewContext: r0 is expected to be the same as cp")
          JumpTarget.Bind cg verified_true
        else cg
      cg.emit (.str .cp .fp SL.Context)
    else cg
  let cg := cg.copyContextParameters SL scope.parameters 0
  let cg :=
    match scope.arguments, scope.arguments_shadow with
    | some arguments, some arguments_shadow =>
      let (cg, shadow_ref) := Reference.create cg F result kGlobalSlotOffset arguments_shadow
      let (cg, arguments_ref) := Reference.create cg F result kGlobalSlotOffset arguments
      let cg := cg.emit (.ldr .r2 .fp SL.Function)
      let kReceiverDisplacement : Int := 2 + scope.parameters.length
      let cg := cg.emit
        (.dp .add .r1 .fp (.imm (kReceiverDisplacement * SL.kPointerSize).toNat) .LeaveCC .al)
      let cg := cg.emit
        (.dp .mov .r0 .r0 (.imm (Smi.FromInt scope.parameters.length)) .LeaveCC .al)
      let cg := VirtualFrame.Adjust cg 3
      let cg := cg.emit (.stm_db_w_sp [.r0, .r1, .r2])
      let cg := VirtualFrame.CallCodeStub cg .ArgumentsAccess_NEW_OBJECT 3
      let cg := VirtualFrame.EmitPush cg .r0
      let cg := arguments_ref.SetValue cg F SL .NOT_CONST_INIT
      let cg := cg.UnloadReference arguments_ref
      let cg := shadow_ref.SetValue cg F SL .NOT_CONST_INIT
      let cg := cg.UnloadReference shadow_ref
      VirtualFrame.Drop cg 1
    | _, _ => cg
  let cg :=
    if scope.HasIllegalRedeclaration then visitIllegalRedeclaration cg
    else processDeclarations cg
  if !scope.HasIllegalRedeclaration && cg.stack_overflow_ then
    (cg, .not_reached)
  else
    let cg := if flags.trace then VirtualFrame.CallRuntime cg .kTraceEnter 0 else cg
    let cg := cg.CheckStack flags
    let cg :=
      if !scope.HasIllegalRedeclaration then cg.VisitStatementsAndSpill visit body else cg
    let cg :=
      if cg.has_valid_frame || cg.is_linked .function_return then
        let cg := cg.emit (.dp .mov .r0 .r0 (.imm F.undefined_value) .LeaveCC .al)
        let cg := JumpTarget.Bind cg .function_return
        let cg :=
          if flags.trace then
            let cg := VirtualFrame.EmitPush cg .r0
            VirtualFrame.CallRuntime cg .kTraceExit 1
          else cg
        let cg := VirtualFrame.Exit cg
        let cg := cg.emit (.add_sp ((scope.parameters.length + 1) * SL.kPointerSize))
        cg.emit .mov_pc_lr
      else cg
    let cg := JumpTarget.Unuse cg .function_return
    let cg := { cg with frame_ := none }
    if cg.stack_overflow_ then
      (cg.ClearDeferred, .ClearDeferred)
    else
      (cg.ProcessDeferred, .ProcessDeferred)

end CodeGenerator

/-! ## Control destinations (codegen-ia32.h) -/

/-- `ControlDestination` (codegen-ia32.h:121): a pair of jump targets, the flag
telling which one is the preferred fall-through, and the used flag.  A jump
target pointer is the label it stands for. -/
structure ControlDestination where
  true_target_ : Label
  false_target_ : Label
  true_is_fall_through_ : Bool
  is_used_ : Bool
  deriving DecidableEq, Repr

namespace ControlDestination

/-- The constructor (codegen-ia32.h:121): the destination starts out unused. -/
def create (true_tgt false_tgt : Label) (true_is_fall_through : Bool) :
    ControlDestination :=
  { true_target_ := true_tgt, false_target_ := false_tgt,
    true_is_fall_through_ := true_is_fall_through, is_used_ := false }

/-- `true_target()`. -/
def true_target (d : ControlDestination) : Label := d.true_target_

/-- `false_target()`. -/
def false_target (d : ControlDestination) : Label := d.false_target_

/-- `is_used()`. -/
def is_used (d : ControlDestination) : Bool := d.is_used_

/-- `true_was_fall_through()`. -/
def true_was_fall_through (d : ControlDestination) : Bool :=
  d.is_used_ && d.true_is_fall_through_

/-- `false_was_fall_through()`. -/
def false_was_fall_through (d : ControlDestination) : Bool :=
  d.is_used_ && !d.true_is_fall_through_

/-- `Use(where)` (codegen-ia32.h:190). -/
def Use (d : ControlDestination) (where_ : Bool) : ControlDestination :=
  { d with is_used_ := true, true_is_fall_through_ := where_ }

/-- `Invert()` (codegen-ia32.h:200). -/
def Invert (d : ControlDestination) : ControlDestination :=
  let temp_target := d.true_target_
  let d := { d with true_target_ := d.false_target_ }
  let d := { d with false_target_ := temp_target }
  { d with true_is_fall_through_ := !d.true_is_fall_through_ }

end ControlDestination

/-! ## The debugger's host dispatch (debug.cc) -/

/-- `Debugger::ProcessHostDispatch` (debug.cc:2020): the three `uint16_t` words
of the command put on the command queue for the dispatch pointer `dispatch`,
read as a `uint32_t`. -/
def ProcessHostDispatch (dispatch : Nat) : List Nat :=
  let d := dispatch % 4294967296
  let hack0 := 0
  let hack1 := (d >>> 16) % 65536
  let hack2 := (d &&& 0xFFFF) % 65536
  [hack0, hack1, hack2]

/-- The host-dispatch branch of `Debugger::NotifyMessageHandler`
(debug.cc:1797): for a command whose first word is 0 the `int32_t` value
`(command[1] << 16) | command[2]` handed to the host dispatch handler; the
words are promoted to 32-bit `int` and the shift wraps. -/
def NotifyMessageHandler_dispatch (command : List Nat) : Option Int :=
  if command.getD 0 0 = 0 then
    some (toInt ((command.getD 1 0 <<< 16) % 4294967296 ||| command.getD 2 0))
  else none

/-! ## Assignments, count operations and the generic binary stub -/

/-- `Variable::Mode` (variables.h, not among the sources). -/
inductive Variable.Mode
  | VAR | CONST | DYNAMIC | DYNAMIC_GLOBAL | DYNAMIC_LOCAL | INTERNAL | TEMPORARY
  deriving DecidableEq, Repr

/-- `Object::IsSmi()` of the object of a handle. -/
def Arm.Handle.IsSmi : Handle → Bool
  | .Smi _ => true
  | _ => false

namespace CodeGenerator

/-- `CodeGenerator::VisitAssignment` (codegen-arm.cc:2908) for the assignment
`target op value`, whose binary operator (for a compound assignment) is
`binary_op`.  `getValue` stands for `Reference::GetValueAndSpill` and `mode`
for `Variable::mode()`. -/
def VisitAssignment (cg : CodeGenerator) (F : Factory) (SL : SlotLayout)
    (result : Expression → VisitResult) (kGlobalSlotOffset : Int)
    (getValue : Reference → CodeGenerator → CodeGenerator) (mode : Variable → Variable.Mode)
    (op binary_op : Token) (target value : Expression) : CodeGenerator :=
  let (cg, target_ref) := Reference.create cg F result kGlobalSlotOffset target
  if target_ref.type_ = .ILLEGAL then
    let cg := cg.emit (.dp .mov .r0 .r0 (.imm (Smi.FromInt 0)) .LeaveCC .al)
    let cg := VirtualFrame.EmitPush cg .r0
    cg.UnloadReference target_ref
  else
    let cg :=
      if op = .ASSIGN ∨ op = .INIT_VAR ∨ op = .INIT_CONST then
        cg.LoadAndSpill F result value
      else
        let cg := getValue target_ref cg
        let literal := value.AsLiteral
        match literal with
        | some (.Smi v) =>
          let cg := cg.SmiOperation binary_op v false
          VirtualFrame.EmitPush cg .r0
        | _ =>
          let cg := cg.LoadAndSpill F result value
          let cg := cg.GenericBinaryOperation binary_op
          VirtualFrame.EmitPush cg .r0
    let var := target.AsVariable
    let ignored : Bool :=
      match var with
      | some v => decide (mode v = .CONST) && decide (op ≠ .INIT_VAR) && decide (op ≠ .INIT_CONST)
      | none => false
    let cg :=
      if ignored then cg
      else if op = .INIT_CONST then target_ref.SetValue cg F SL .CONST_INIT
      else target_ref.SetValue cg F SL .NOT_CONST_INIT
    cg.UnloadReference target_ref

/-- `CodeGenerator::VisitCountOperation` (codegen-arm.cc:3609) for `++e`, `--e`,
`e++` and `e--`.  `getValue` stands for `Reference::GetValueAndSpill` and
`mode` for `Variable::mode()`. -/
def VisitCountOperation (cg : CodeGenerator) (F : Factory) (SL : SlotLayout)
    (result : Expression → VisitResult) (kGlobalSlotOffset : Int)
    (getValue : Reference → CodeGenerator → CodeGenerator) (mode : Variable → Variable.Mode)
    ( is_postfix is_increment : Bool) (expression : Expression) : CodeGenerator :=
  let var := expression.AsVariable
  let is_const : Bool :=
    match var with
    | some v => decide (mode v = .CONST)
    | none => false
  let cg :=
    if is_postfix then
      let cg := cg.emit (.dp .mov .r0 .r0 (.imm 0) .LeaveCC .al)
      VirtualFrame.EmitPush cg .r0
    else cg
  let (cg, target) := Reference.create cg F result kGlobalSlotOffset expression
  if target.type_ = .ILLEGAL then
    let cg :=
      if ! is_postfix then
        let cg := cg.emit (.dp .mov .r0 .r0 (.imm (Smi.FromInt 0)) .LeaveCC .al)
        VirtualFrame.EmitPush cg .r0
      else cg
    cg.UnloadReference target
  else
    let cg := getValue target cg
    let cg := VirtualFrame.EmitPop cg .r0
    let (cg, slow_tgt) := cg.newTarget
    let (cg, exit_tgt) := cg.newTarget
    let cg := cg.emit (.dp .mov .r1 .r1 (.imm (Smi.FromInt 1)) .LeaveCC .al)
    let cg := cg.emit (.dp .tst .r0 .r0 (.imm Smi.kSmiTagMask) .SetCC .al)
    let cg := JumpTarget.Branch cg slow_tgt .ne
    let cg := if is_postfix then cg.emit (.str_element .r0 target.size.toNat) else cg
    let cg :=
      if is_increment then cg.emit (.dp .add .r0 .r0 (.reg .r1) .SetCC .al)
      else cg.emit (.dp .sub .r0 .r0 (.reg .r1) .SetCC .al)
    let cg := JumpTarget.Branch cg exit_tgt .vc
    let cg :=
      if is_increment then cg.emit (.dp .sub .r0 .r0 (.reg .r1) .LeaveCC .al)
      else cg.emit (.dp .add .r0 .r0 (.reg .r1) .LeaveCC .al)
    let cg := JumpTarget.Bind cg slow_tgt
    let cg := VirtualFrame.EmitPush cg .r0
    let cg := cg.emit (.dp .mov .r0 .r0 (.imm 0) .LeaveCC .al)
    let cg := VirtualFrame.InvokeBuiltin cg .TO_NUMBER 1
    let cg := if is_postfix then cg.emit (.str_element .r0 target.size.toNat) else cg
    let cg := cg.emit (.dp .mov .r1 .r1 (.imm (Smi.FromInt 1)) .LeaveCC .al)
    let cg := VirtualFrame.EmitPush cg .r0
    let cg := VirtualFrame.EmitPush cg .r1
    let cg :=
      if is_increment then VirtualFrame.CallRuntime cg .kNumberAdd 2
      else VirtualFrame.CallRuntime cg .kNumberSub 2
    let cg := JumpTarget.Bind cg exit_tgt
    let cg := VirtualFrame.EmitPush cg .r0
    let cg := if !is_const then target.SetValue cg F SL .NOT_CONST_INIT else cg
    let cg := cg.UnloadReference target
    if is_postfix then VirtualFrame.EmitPop cg .r0 else cg

end CodeGenerator

/-- `GenericBinaryOpStub::Generate` (codegen-arm.cc:4467) for the stub of the
operator `op_`, appending to the buffer of the macro assembler.  On entry `r1`
holds `x` and `r0` holds `y`. -/
def GenericBinaryOpStub_Generate (op_ : Token) (masm : List Instr) : List Instr :=
  let masm :=
    match op_ with
    | .ADD =>
      masm ++
        [.dp .orr .r2 .r1 (.reg .r0) .LeaveCC .al,
         .dp .add .r0 .r1 (.reg .r0) .SetCC .al,
         .b .vs .slow,
         .dp .tst .r2 .r2 (.imm Smi.kSmiTagMask) .SetCC .al,
         .b .eq .exit,
         .bind .slow,
         .dp .sub .r0 .r0 (.reg .r1) .LeaveCC .al,
         .push .r1,
         .push .r0,
         .dp .mov .r0 .r0 (.imm 1) .LeaveCC .al,
         .JumpBuiltin .ADD,
         .bind .exit]
    | .SUB =>
      masm ++
        [.dp .orr .r2 .r1 (.reg .r0) .LeaveCC .al,
         .dp .sub .r3 .r1 (.reg .r0) .SetCC .al,
         .b .vs .slow,
         .dp .tst .r2 .r2 (.imm Smi.kSmiTagMask) .SetCC .al,
         .dp .mov .r0 .r0 (.reg .r3) .LeaveCC .eq,
         .b .eq .exit,
         .bind .slow,
         .push .r1,
         .push .r0,
         .dp .mov .r0 .r0 (.imm 1) .LeaveCC .al,
         .JumpBuiltin .SUB,
         .bind .exit]
    | .MUL =>
      masm ++
        [.dp .orr .r2 .r1 (.reg .r0) .LeaveCC .al,
         .dp .tst .r2 .r2 (.imm Smi.kSmiTagMask) .SetCC .al,
         .b .ne .slow,
         .dp .mov .ip .ip (.shifted .r0 .ASR Smi.kSmiTagSize) .LeaveCC .al,
         .smull .r3 .r2 .r1 .ip,
         .dp .mov .ip .ip (.shifted .r3 .ASR 31) .LeaveCC .al,
         .dp .cmp .ip .ip (.reg .r2) .SetCC .al,
         .b .ne .slow,
         .dp .tst .r3 .r3 (.reg .r3) .SetCC .al,
         .dp .mov .r0 .r0 (.reg .r3) .LeaveCC .ne,
         .b .ne .exit,
         .bind .slow,
         .push .r1,
         .push .r0,
         .dp .mov .r0 .r0 (.imm 1) .LeaveCC .al,
         .JumpBuiltin .MUL,
         .bind .exit]
    | .BIT_OR | .BIT_AND | .BIT_XOR =>
      masm ++
        [.dp .orr .r2 .r1 (.reg .r0) .LeaveCC .al,
         .dp .tst .r2 .r2 (.imm Smi.kSmiTagMask) .SetCC .al,
         .b .ne .slow] ++
        (match op_ with
         | .BIT_OR => [.dp .orr .r0 .r0 (.reg .r1) .LeaveCC .al]
         | .BIT_AND => [.dp .and_ .r0 .r0 (.reg .r1) .LeaveCC .al]
         | .BIT_XOR => [.dp .eor .r0 .r0 (.reg .r1) .LeaveCC .al]
         | _ => []) ++
        [.b .al .exit,
         .bind .slow,
         .push .r1,
         .push .r0,
         .dp .mov .r0 .r0 (.imm 1) .LeaveCC .al] ++
        (match op_ with
         | .BIT_OR => [.JumpBuiltin .BIT_OR]
         | .BIT_AND => [.JumpBuiltin .BIT_AND]
         | .BIT_XOR => [.JumpBuiltin .BIT_XOR]
         | _ => []) ++
        [.bind .exit]
    | .SHL | .SHR | .SAR =>
      masm ++
        [.dp .orr .r2 .r1 (.reg .r0) .LeaveCC .al,
         .dp .tst .r2 .r2 (.imm Smi.kSmiTagMask) .SetCC .al,
         .b .ne .slow,
         .dp .mov .r3 .r3 (.shifted .r1 .ASR Smi.kSmiTagSize) .LeaveCC .al,
         .dp .mov .r2 .r2 (.shifted .r0 .ASR Smi.kSmiTagSize) .LeaveCC .al,
         .dp .and_ .r2 .r2 (.imm 0x1f) .LeaveCC .al] ++
        (match op_ with
         | .SAR => [.dp .mov .r3 .r3 (.shifted_reg .r3 .ASR .r2) .LeaveCC .al]
         | .SHR =>
           [.dp .mov .r3 .r3 (.shifted_reg .r3 .LSR .r2) .LeaveCC .al,
            .dp .and_ .r2 .r3 (.imm 0xc0000000) .SetCC .al,
            .b .ne .slow]
         | .SHL =>
           [.dp .mov .r3 .r3 (.shifted_reg .r3 .LSL .r2) .LeaveCC .al,
            .dp .add .r2 .r3 (.imm 0x40000000) .SetCC .al,
            .b .mi .slow]
         | _ => []) ++
        [.dp .mov .r0 .r0 (.shifted .r3 .LSL Smi.kSmiTagSize) .LeaveCC .al,
         .b .al .exit,
         .bind .slow,
         .push .r1,
         .push .r0,
         .dp .mov .r0 .r0 (.imm 1) .LeaveCC .al] ++
        (match op_ with
         | .SAR => [.JumpBuiltin .SAR]
         | .SHR => [.JumpBuiltin .SHR]
         | .SHL => [.JumpBuiltin .SHL]
         | _ => []) ++
        [.bind .exit]
    | _ => masm
  masm ++ [.Ret]

/-! ## The debugger's message queue (debug.h, debug.cc) -/

/-- The value of a C++ `int` computation whose mathematical result is `i`: the
32-bit two's complement wrap. -/
def int32 (i : Int) : Int := toInt (toWord i)

/-- `MessageQueue` (debug.h:483): a circular buffer of `Vector<uint16_t>`
messages.  A message is the list of its characters; `messages_` is the array
of `size_` message slots. -/
structure MessageQueue where
  messages_ : List (List Nat)
  start_ : Int
  end_ : Int
  size_ : Int
  deriving DecidableEq, Repr

namespace MessageQueue

/-- `MessageQueue::MessageQueue(int size)` (debug.cc:2106): `NewArray` gives
`size` empty vectors. -/
def create (size : Int) : MessageQueue :=
  { messages_ := List.replicate size.toNat [], start_ := 0, end_ := 0, size_ := size }

/-- `IsEmpty()` (debug.h:487). -/
def IsEmpty (q : MessageQueue) : Bool := decide (q.start_ = q.end_)

/-- `Clear()` (debug.h:490). -/
def Clear (q : MessageQueue) : MessageQueue := { q with start_ := 0, end_ := 0 }

/-- `MessageQueue::Get` (debug.cc:2116): the message returned and the queue
afterwards.  `%` is the remainder of C++ (`Int.tmod`). -/
def Get (q : MessageQueue) : List Nat × MessageQueue :=
  let result := q.start_
  let q := { q with start_ := Int.tmod (int32 (q.start_ + 1)) q.size_ }
  (q.messages_.getD result.toNat [], q)

mutual

/-- `MessageQueue::Put` (debug.cc:2124).  `Put` and `Expand` call each other;
the first argument bounds the depth of the calls, and the result is `none` when
the bound is used up. -/
def PutWithin : Nat → MessageQueue → List Nat → Option MessageQueue
  | 0, _, _ => none
  | fuel + 1, q, message =>
    match (if Int.tmod (int32 (q.end_ + 1)) q.size_ = q.start_ then ExpandWithin fuel q
           else some q) with
    | none => none
    | some q =>
      some { q with messages_ := q.messages_.set q.end_.toNat message,
                    end_ := Int.tmod (int32 (q.end_ + 1)) q.size_ }

/-- `MessageQueue::Expand` (debug.cc:2133): the queue `*this = new_queue` after
the messages have been moved to a queue of twice the size. -/
def ExpandWithin : Nat → MessageQueue → Option MessageQueue
  | 0, _ => none
  | fuel + 1, q => ExpandLoop fuel q (create (int32 (q.size_ * 2)))

/-- The loop `while (!IsEmpty()) new_queue.Put(Get())` of `Expand`: the new
queue when the loop ends. -/
def ExpandLoop : Nat → MessageQueue → MessageQueue → Option MessageQueue
  | 0, _, _ => none
  | fuel + 1, q, new_queue =>
    if q.IsEmpty then some new_queue
    else
      match PutWithin fuel new_queue q.Get.1 with
      | none => none
      | some new_queue => ExpandLoop fuel q.Get.2 new_queue

end

/-- `MessageQueue::Put` with a bound that suffices for a queue whose indices
are within its buffer: `Expand` moves at most `size_ - 1` messages, and `Put`
on the new queue does not expand again. -/
def Put (q : MessageQueue) (message : List Nat) : Option MessageQueue :=
  PutWithin (q.size_.toNat + 2) q message

end MessageQueue

/-! ## The debugger agent's message transport (debug-agent.cc) -/

namespace DebuggerAgentUtil

/-- `DebuggerAgentUtil::kContentLength`, the characters of "Content-Length". -/
def kContentLength : List Nat :=
  [67, 111, 110, 116, 101, 110, 116, 45, 76, 101, 110, 103, 116, 104]

/-- The characters of `%d` for a non-negative number. -/
def decimal (n : Nat) : List Nat := (Nat.toDigits 10 n).map Char.toNat

/-- Stores `bytes` in `buffer` from index `position` on; a store outside the
buffer leaves it as it is. -/
def writeBytes (buffer : List Nat) (position : Nat) : List Nat → List Nat
  | [] => buffer
  | b :: bytes => writeBytes (buffer.set position b) (position + 1) bytes

/-- The state of `SendMessage` (debug-agent.cc:338): the sending buffer
`char buffer[kBufferSize]` with `kBufferSize = 80`, the data handed to
`conn->Send` so far, `buffer_position`, and three records of the run: whether
every `ASSERT(buffer_position < kBufferSize)` evaluated so far held, whether
every byte written by `Utf8::Encode` was inside the buffer, and the values of
`buffer_position` after each character. -/
structure SendState where
  buffer : List Nat
  sent : List (List Nat)
  buffer_position : Nat
  assert_ok : Bool
  in_bounds : Bool
  positions : List Nat
  deriving DecidableEq, Repr

/-- The body loop of `SendMessage` (debug-agent.cc:360) over the characters
still to be sent; `Encode c` is the list of bytes that
`unibrow::Utf8::Encode(buffer + buffer_position, c)` writes, whose length it
returns.  The character is the last one (`i == message.length() - 1`) when no
character follows it.  An `ASSERT` that fails is recorded and the loop goes on,
as it does in a build without assertions. -/
def SendMessage_body (Encode : Nat → List Nat) : List Nat → SendState → SendState
  | [], s => s
  | c :: rest, s =>
    let s := { s with
      buffer := writeBytes s.buffer s.buffer_position (Encode c),
      in_bounds := s.in_bounds && decide (s.buffer_position + (Encode c).length ≤ 80),
      buffer_position := s.buffer_position + (Encode c).length }
    let s := { s with
      assert_ok := s.assert_ok && decide (s.buffer_position < 80),
      positions := s.positions ++ [s.buffer_position] }
    let s :=
      if (80 : Int) - (s.buffer_position : Int) < 3 ∨ rest = [] then
        { s with sent := s.sent ++ [s.buffer.take s.buffer_position], buffer_position := 0 }
      else s
    SendMessage_body Encode rest s

/-- `DebuggerAgentUtil::SendMessage(conn, Vector<uint16_t> message)`
(debug-agent.cc:338): the header `Content-Length: <utf8_len>` and the empty
line are printed into the buffer and sent (both are shorter than the buffer),
then the body is sent in pieces.  `Length` and `Encode` stand for
`unibrow::Utf8::Length` and `unibrow::Utf8::Encode`. -/
def SendMessage (Length : Nat → Nat) (Encode : Nat → List Nat) (message : List Nat) :
    SendState :=
  let utf8_len := (message.map Length).sum
  let header := kContentLength ++ [58, 32] ++ decimal utf8_len ++ [10]
  let buffer := writeBytes (List.replicate 80 0) 0 (header ++ [0])
  let sent := [buffer.take header.length]
  let buffer := writeBytes buffer 0 [10, 0]
  let sent := sent ++ [buffer.take 1]
  SendMessage_body Encode message
    { buffer := buffer, sent := sent, buffer_position := 0, assert_ok := true,
      in_bounds := true, positions := [] }

end DebuggerAgentUtil

namespace DebuggerAgentUtil

/-- A connection as `ReceiveMessage` sees it: the bytes that arrive before the
connection is closed, and the largest number of bytes that one
`Socket::Receive` returns (a receive may return fewer bytes than are asked
for). -/
structure Socket where
  pending : List Nat
  limit : Nat
  deriving DecidableEq, Repr

/-- `conn->Receive(data, len)`: the bytes stored at `data` (their number is the
value returned, 0 when nothing arrives any more) and the connection
afterwards. -/
def Socket.Receive (conn : Socket) (len : Nat) : List Nat × Socket :=
  (conn.pending.take (min len conn.limit),
   { conn with pending := conn.pending.drop (min len conn.limit) })

/-- What `ReceiveMessage` returns: the empty `SmartPointer<char>()`, or the
character array `buffer`; `undefined` stands for a run that leaves defined
behaviour (`strlen(NULL)`, an array of negative length). -/
inductive ReceiveResult
  | empty
  | message (buffer : List Nat)
  | undefined
  deriving DecidableEq, Repr

/-- `DebuggerAgentUtil::ReceiveAll` (debug-agent.cc:403), with a bound on the
number of iterations (each iteration that goes on has received a byte, so
`len + 1` iterations suffice).  `data` is the part of the array filled so far;
the result is `total_received`, the data and the connection. -/
def ReceiveAll : Nat → Socket → List Nat → Int → Int → Option (Int × List Nat × Socket)
  | 0, _, _, _, _ => none
  | fuel + 1, conn, data, total_received, len =>
    if total_received < len then
      let received := conn.Receive (len - total_received).toNat
      if (received.1.length : Int) ≤ 0 then some (total_received, data, received.2)
      else
        ReceiveAll fuel received.2 (data ++ received.1)
          (int32 (total_received + received.1.length)) len
    else some (total_received, data, conn)

/-- The characters of a C string stored in `l`: those before the first NUL
(`l` is followed by a NUL). -/
def cstring (l : List Nat) : List Nat := l.takeWhile (fun c => c ≠ 0)

/-- The loop over the digits of the value (debug-agent.cc:250): `none` when a
character outside '0'..'9' is met, else the new `content_length`. -/
def parseContentLength : List Nat → Int → Option Int
  | [], content_length => some content_length
  | d :: value, content_length =>
    if d < 48 ∨ d > 57 then none
    else parseContentLength value (int32 (10 * content_length + ((d : Int) - 48)))

/-- What the code does with a complete header line. -/
inductive HeaderStep
  | next (content_length : Int)
  | empty
  | undefined
  deriving DecidableEq, Repr

/-- The treatment of a header line (debug-agent.cc:222-262).  `line` holds the
characters `header_buffer[0 .. header_buffer_position)`, which are followed by
the terminating NUL.  The first ':' is replaced by NUL and `value` points
behind it and the spaces that follow; without a ':' `value` stays `NULL`. -/
def header (line : List Nat) (content_length : Int) : HeaderStep :=
  let key_value : List Nat × Option (List Nat) :=
    match line.dropWhile (fun c => c ≠ 58) with
    | [] => (cstring line, none)
    | _ :: rest =>
      (cstring (line.takeWhile (fun c => c ≠ 58)),
       some (cstring (rest.dropWhile (fun c => c = 32))))
  if key_value.1 = kContentLength then
    match key_value.2 with
    | none => .undefined
    | some value =>
      if value.length > 7 then .empty
      else
        match parseContentLength value content_length with
        | none => .empty
        | some content_length => .next content_length
  else .next content_length

/-- The end of `ReceiveMessage` (debug-agent.cc:275-287): no body for
`content_length == 0`, else `content_length` bytes are received into a new
array of `content_length + 1` characters and a NUL is stored behind them. -/
def ReceiveBody (conn : Socket) (content_length : Int) : Option (ReceiveResult × Socket) :=
  if content_length = 0 then some (.empty, conn)
  else if int32 (content_length + 1) ≤ 0 then some (.undefined, conn)
  else
    match ReceiveAll (content_length.toNat + 1) conn [] 0 content_length with
    | none => none
    | some (received, buffer, conn) =>
      if received < content_length then some (.empty, conn)
      else some (.message (buffer ++ [0]), conn)

/-- The header loop of `ReceiveMessage` (debug-agent.cc:212), with a bound on
the number of iterations; each iteration that goes on has received a byte.
`line` holds the characters of the header buffer up to
`header_buffer_position`; a character is added while the position is below
`kHeaderBufferSize - 1 = 79`. -/
def ReceiveHeader : Nat → Socket → Nat → Nat → List Nat → Int → Option (ReceiveResult × Socket)
  | 0, _, _, _, _, _ => none
  | fuel + 1, conn, c, last_c, line, content_length =>
    if c = 10 ∧ last_c = 10 then ReceiveBody conn content_length
    else
      let received := conn.Receive 1
      if (received.1.length : Int) ≤ 0 then some (.empty, received.2)
      else if received.1.headD 0 = 10 then
        if line.length = 0 then ReceiveHeader fuel received.2 10 c line content_length
        else
          match header line content_length with
          | .next content_length => ReceiveHeader fuel received.2 10 c [] content_length
          | .empty => some (.empty, received.2)
          | .undefined => some (.undefined, received.2)
      else
        ReceiveHeader fuel received.2 (received.1.headD 0) c
          (if (line.length : Int) < 80 - 1 then line ++ [received.1.headD 0] else line)
          content_length

/-- `DebuggerAgentUtil::ReceiveMessage` (debug-agent.cc:201): the result and
the connection afterwards. -/
def ReceiveMessage (conn : Socket) : Option (ReceiveResult × Socket) :=
  ReceiveHeader (conn.pending.length + 1) conn 0 0 [] 0

end DebuggerAgentUtil

/-! ## Proof-side descriptions of emitted code -/

/-- The inline sequence of the ADD and SUB cases of `SmiOperation`. -/
def optimisticCode (op : Opcode) (f : Nat) (k : Nat) : List Instr :=
  [Instr.pop .r0,
   .dp op .r0 .r0 (.imm f) .SetCC .al,
   .b .vs (.deferred_enter k),
   .dp .tst .r0 .r0 (.imm Smi.kSmiTagMask) .SetCC .al,
   .b .ne (.deferred_enter k),
   .bind (.deferred_exit k),
   .bind .exit]

/-- The inline sequence of the SHL, SHR and SAR cases of `SmiOperation` for shift
count `n`. -/
def shiftCode (op : Token) (n : Nat) (k : Nat) : List Instr :=
  [Instr.pop .r0,
   .dp .tst .r0 .r0 (.imm Smi.kSmiTagMask) .SetCC .al,
   .b .ne (.deferred_enter k),
   .dp .mov .r2 .r2 (.shifted .r0 .ASR Smi.kSmiTagSize) .LeaveCC .al] ++
  (match op with
   | .SHL =>
       [.dp .mov .r2 .r2 (.shifted .r2 .LSL n) .LeaveCC .al,
        .dp .add .r3 .r2 (.imm 1073741824) .SetCC .al,
        .b .mi (.deferred_enter k)]
   | .SHR =>
       (if n ≠ 0 then [.dp .mov .r2 .r2 (.shifted .r2 .LSR n) .LeaveCC .al] else []) ++
       [.dp .and_ .r3 .r2 (.imm 3221225472) .SetCC .al,
        .b .ne (.deferred_enter k)]
   | .SAR =>
       if n ≠ 0 then [.dp .mov .r2 .r2 (.shifted .r2 .ASR n) .LeaveCC .al] else []
   | _ => []) ++
  [.dp .mov .r0 .r0 (.shifted .r2 .LSL Smi.kSmiTagSize) .LeaveCC .al,
   .bind (.deferred_exit k),
   .bind .exit]

/-- The code `Comparison` emits for a relational condition. -/
def compareCode (reversed : Bool) (ncr : Int) : List Instr :=
  [Instr.pop (if reversed then .r1 else .r0),
   .pop (if reversed then .r0 else .r1),
   .dp .orr .r2 .r0 (.reg .r1) .LeaveCC .al,
   .dp .tst .r2 .r2 (.imm Smi.kSmiTagMask) .SetCC .al,
   .b .eq .smi,
   .push .r1,
   .push .r0,
   .dp .mov .r0 .r0 (.imm (Smi.FromInt ncr)) .LeaveCC .al,
   .push .r0,
   .dp .mov .r0 .r0 (.imm 2) .LeaveCC .al,
   .InvokeBuiltin .COMPARE 3,
   .dp .cmp .r0 .r0 (.imm 0) .SetCC .al,
   .b .al .exit,
   .bind .smi,
   .dp .cmp .r1 .r1 (.reg .r0) .SetCC .al,
   .bind .exit]

/-- The code `ToBoolean` emits. -/
def toBooleanCode (F : Factory) (tt ft : Label) : List Instr :=
  [Instr.pop .r0,
   .dp .cmp .r0 .r0 (.imm F.false_value) .SetCC .al,
   .b .eq ft,
   .dp .cmp .r0 .r0 (.imm F.true_value) .SetCC .al,
   .b .eq tt,
   .dp .cmp .r0 .r0 (.imm F.undefined_value) .SetCC .al,
   .b .eq ft,
   .dp .cmp .r0 .r0 (.imm (Smi.FromInt 0)) .SetCC .al,
   .b .eq ft,
   .dp .tst .r0 .r0 (.imm Smi.kSmiTagMask) .SetCC .al,
   .b .eq tt,
   .push .r0,
   .CallRuntime .kToBool 1,
   .dp .cmp .r0 .r0 (.imm F.false_value) .SetCC .al]

/-- Targets constructed later are not linked yet. -/
def CodeGenerator.TargetsFresh (cg : CodeGenerator) : Prop :=
  ∀ p ∈ cg.linked_, ∀ n, cg.next_target_ ≤ n → p.1 ≠ Label.target n

/-- The adjustment of the tag by `min_index` in the fast-case switch. -/
def switchAdjust (min_index : Int) : List Instr :=
  if min_index ≠ 0 then
    if min_index < 0 then
      if Smi.IsValid (-min_index) then
        [.dp .add .r0 .r0 (.imm (Smi.FromInt (-min_index))) .LeaveCC .al]
      else
        [.dp .add .r0 .r0 (.imm (Smi.FromInt (-min_index - 1))) .LeaveCC .al,
         .dp .add .r0 .r0 (.imm (Smi.FromInt 1)) .LeaveCC .al]
    else
      [.dp .sub .r0 .r0 (.imm (Smi.FromInt min_index)) .LeaveCC .al]
  else []

/-- The code of the fast-case switch up to the jump table. -/
def switchPrefix (L : ObjectLayout) (D : Label) (min_index range : Int)
    (case_targets : List Label) : List Instr :=
  [Instr.pop .r0,
   .dp .tst .r0 .r0 (.imm Smi.kSmiTagMask) .SetCC .al,
   .b .eq .is_smi,
   .ldr .r1 .r0 (L.kMapOffset - L.kHeapObjectTag),
   .ldrb .r1 .r1 (L.kInstanceTypeOffset - L.kHeapObjectTag),
   .dp .cmp .r1 .r1 (.imm L.HEAP_NUMBER_TYPE) .SetCC .al,
   .b .ne D,
   .push .r0,
   .CallRuntime .kNumberToSmi 1,
   .bind .is_smi] ++
  (switchAdjust min_index ++
  [.dp .tst .r0 .r0 (.imm 2147483649) .SetCC .al,
   .b .ne D,
   .dp .cmp .r0 .r0 (.imm (Smi.FromInt range)) .SetCC .al,
   .b .ge D,
   .SmiJumpTable .r0 case_targets])

/-- What the theorems on the fast-case switch assume of the code of the case
bodies: it is appended to the buffer, binds neither the local target
`setup_default` nor the break target, and leaves the break target linked if it
was. -/
def CasesWellBehaved (cases : CodeGenerator → CodeGenerator) : Prop :=
  ∀ cg0 : CodeGenerator, ∃ code, (cases cg0).masm_ = cg0.masm_ ++ code ∧
    Instr.bind .setup_default ∉ code ∧ Instr.bind .break_target ∉ code ∧
    (cg0.is_linked .break_target = true → (cases cg0).is_linked .break_target = true)

/-- The generator state of the fast-case switch when the case bodies are about
to be generated. -/
def switchHead (cg : CodeGenerator) (L : ObjectLayout) (has_default : Bool)
    (min_index range : Int) (case_targets : List Label) : CodeGenerator :=
  let default_target := if has_default then Label.setup_default else Label.break_target
  let cg := VirtualFrame.EmitPop cg .r0
  let cg := cg.emit (.dp .tst .r0 .r0 (.imm Smi.kSmiTagMask) .SetCC .al)
  let cg := JumpTarget.Branch cg .is_smi .eq
  let cg := cg.emit (.ldr .r1 .r0 (L.kMapOffset - L.kHeapObjectTag))
  let cg := cg.emit (.ldrb .r1 .r1 (L.kInstanceTypeOffset - L.kHeapObjectTag))
  let cg := cg.emit (.dp .cmp .r1 .r1 (.imm L.HEAP_NUMBER_TYPE) .SetCC .al)
  let cg := JumpTarget.Branch cg default_target .ne
  let cg := VirtualFrame.EmitPush cg .r0
  let cg := VirtualFrame.CallRuntime cg .kNumberToSmi 1
  let cg := JumpTarget.Bind cg .is_smi
  let cg :=
    if min_index ≠ 0 then
      if min_index < 0 then
        if Smi.IsValid (-min_index) then
          cg.emit (.dp .add .r0 .r0 (.imm (Smi.FromInt (-min_index))) .LeaveCC .al)
        else
          let cg := cg.emit (.dp .add .r0 .r0 (.imm (Smi.FromInt (-min_index - 1))) .LeaveCC .al)
          cg.emit (.dp .add .r0 .r0 (.imm (Smi.FromInt 1)) .LeaveCC .al)
      else
        cg.emit (.dp .sub .r0 .r0 (.imm (Smi.FromInt min_index)) .LeaveCC .al)
    else cg
  let cg := cg.emit (.dp .tst .r0 .r0 (.imm (2147483648 ||| Smi.kSmiTagMask)) .SetCC .al)
  let cg := JumpTarget.Branch cg default_target .ne
  let cg := cg.emit (.dp .cmp .r0 .r0 (.imm (Smi.FromInt range)) .SetCC .al)
  let cg := JumpTarget.Branch cg default_target .ge
  cg.emit (.SmiJumpTable .r0 case_targets)

/-- The end of the fast-case switch, after the case bodies. -/
def switchFinish (cg : CodeGenerator) (has_default : Bool) (start_frame : Option Int) :
    CodeGenerator :=
  let cg :=
    if has_default then
      let cg := if cg.has_valid_frame then JumpTarget.Jump cg .break_target else cg
      let cg := JumpTarget.Bind cg .setup_default
      let cg := { cg with frame_ := start_frame }
      let cg := cg.emit (.b .al .default_label)
      { cg with frame_ := none }
    else cg
  if cg.is_linked .break_target then JumpTarget.Bind cg .break_target else cg

/-- The part of `Load` that turns a pending condition code into a value. -/
def loadMaterialize (cg : CodeGenerator) (F : Factory) : CodeGenerator :=
  if cg.has_cc then
    let (cg, loaded) := cg.newTarget
    let (cg, materialize_true) := cg.newTarget
    let cg := JumpTarget.Branch cg materialize_true cg.cc_reg_
    let cg := cg.emit (.dp .mov .r0 .r0 (.imm F.false_value) .LeaveCC .al)
    let cg := VirtualFrame.EmitPush cg .r0
    let cg := JumpTarget.Jump cg loaded
    let cg := JumpTarget.Bind cg materialize_true
    let cg := cg.emit (.dp .mov .r0 .r0 (.imm F.true_value) .LeaveCC .al)
    let cg := VirtualFrame.EmitPush cg .r0
    let cg := JumpTarget.Bind cg loaded
    { cg with cc_reg_ := .al }
  else cg

/-- The part of `Load` that loads the values of the linked targets. -/
def loadFinish (cg : CodeGenerator) (F : Factory) (true_tgt false_tgt : Label) : CodeGenerator :=
  if cg.is_linked true_tgt || cg.is_linked false_tgt then
    let (cg, loaded) := cg.newTarget
    let cg := if cg.has_valid_frame then JumpTarget.Jump cg loaded else cg
    let both := cg.is_linked true_tgt && cg.is_linked false_tgt
    let cg :=
      if cg.is_linked true_tgt then
        let cg := JumpTarget.Bind cg true_tgt
        let cg := cg.emit (.dp .mov .r0 .r0 (.imm F.true_value) .LeaveCC .al)
        VirtualFrame.EmitPush cg .r0
      else cg
    let cg := if both then JumpTarget.Jump cg loaded else cg
    let cg :=
      if cg.is_linked false_tgt then
        let cg := JumpTarget.Bind cg false_tgt
        let cg := cg.emit (.dp .mov .r0 .r0 (.imm F.false_value) .LeaveCC .al)
        VirtualFrame.EmitPush cg .r0
      else cg
    JumpTarget.Bind cg loaded
  else cg

/-- No entry of the list is a link to a target numbered `next` or later. -/
def FreshIn (linked : List (Label × Int)) (next : Nat) : Prop :=
  ∀ p ∈ linked, ∀ n, next ≤ n → p.1 ≠ Label.target n

/-- The code `SlotOperand` emits to follow `n` links of the context chain. -/
def chainCode (L : SlotLayout) : Nat → List Instr
  | 0 => []
  | n + 1 =>
    chainCode L n ++
      [Instr.ldr .r2 (if n = 0 then .cp else .r2) (L.SlotOffset L.CLOSURE_INDEX),
       .ldr .r2 .r2 (L.kContextOffset - L.kHeapObjectTag)]

/-- The code `SlotOperand` emits for a slot, with `r2` as temporary. -/
def slotOperandCode (L : SlotLayout) (slot : Slot) : List Instr :=
  match slot.type with
  | .CONTEXT =>
    chainCode L slot.chain_length ++
      [Instr.ldr .r2 (if slot.chain_length = 0 then .cp else .r2)
        (L.SlotOffset L.FCONTEXT_INDEX)]
  | _ => []

/-- The base register of the operand of a slot. -/
def slotBase (slot : Slot) : Register :=
  match slot.type with
  | .PARAMETER => .fp
  | .LOCAL => .fp
  | .CONTEXT => .r2
  | .LOOKUP => .r0

/-- The offset of the operand of a slot. -/
def slotOffset (L : SlotLayout) (slot : Slot) : Int :=
  match slot.type with
  | .PARAMETER => L.ParameterAt slot.index
  | .LOCAL => L.LocalAt slot.index
  | .CONTEXT => L.SlotOffset slot.index
  | .LOOKUP => 0

/-- The context reached from the one in `cp` after `n` links of the chain. -/
def contextAt (L : SlotLayout) (s : State) : Nat → Nat
  | 0 => s.regs .cp
  | n + 1 =>
    s.load32 ((s.load32 ((contextAt L s n : Nat) + L.SlotOffset L.CLOSURE_INDEX) : Nat) +
      (L.kContextOffset - L.kHeapObjectTag))

/-- The address of a parameter, local or context slot in a processor state. -/
def slotAddress (L : SlotLayout) (slot : Slot) (s : State) : Int :=
  match slot.type with
  | .PARAMETER => (s.regs .fp : Int) + L.ParameterAt slot.index
  | .LOCAL => (s.regs .fp : Int) + L.LocalAt slot.index
  | .CONTEXT =>
    (s.load32 ((contextAt L s slot.chain_length : Nat) + L.SlotOffset L.FCONTEXT_INDEX) : Nat) +
      L.SlotOffset slot.index
  | .LOOKUP => 0

/-- The second state differs from the first at most in `r2`. -/
def SameButR2 (s s1 : State) : Prop :=
  s1.stack = s.stack ∧ s1.mem = s.mem ∧ s1.log = s.log ∧ ∀ r, r ≠ Register.r2 → s1.regs r = s.regs r

/-- The write-barrier part of a store to a context slot. -/
def storeBarrierCode (L : SlotLayout) (X : Label) (slot : Slot) : List Instr :=
  if slot.type = .CONTEXT then
    [Instr.dp .tst .r0 .r0 (.imm Smi.kSmiTagMask) .SetCC .al,
     .b .eq X,
     .dp .mov .r3 .r3 (.imm (L.kHeaderSize + slot.index * L.kPointerSize).toNat) .LeaveCC .al,
     .RecordWrite .r2 .r3 .r1]
  else []

/-- The code `SetValue(CONST_INIT)` emits for a parameter, local or context
slot; `X` is the exit target. -/
def constInitCode (F : Factory) (L : SlotLayout) (X : Label) (slot : Slot) : List Instr :=
  slotOperandCode L slot ++
    ([Instr.ldr .r2 (slotBase slot) (slotOffset L slot),
      .dp .cmp .r2 .r2 (.imm F.the_hole_value) .SetCC .al,
      .b .ne X] ++
    ([Instr.pop .r0] ++
      (slotOperandCode L slot ++
        ([Instr.str .r0 (slotBase slot) (slotOffset L slot), .push .r0] ++
          (storeBarrierCode L X slot ++ [Instr.bind X])))))

/-- The code `VisitUnaryOperation` emits for `~e` after the load of `e`. -/
def bitNotCode (smi_label continue_label : Label) : List Instr :=
  [Instr.pop .r0,
   .dp .tst .r0 .r0 (.imm Smi.kSmiTagMask) .SetCC .al,
   .b .eq smi_label,
   .push .r0,
   .dp .mov .r0 .r0 (.imm 0) .LeaveCC .al,
   .InvokeBuiltin .BIT_NOT 1,
   .b .al continue_label,
   .bind smi_label,
   .dp .mvn .r0 .r0 (.reg .r0) .LeaveCC .al,
   .dp .bic .r0 .r0 (.imm Smi.kSmiTagMask) .LeaveCC .al,
   .bind continue_label,
   .push .r0]

/-- An instruction that calls out of the emitted code. -/
def Arm.Instr.isCall : Instr → Bool
  | .CallRuntime _ _ => true
  | .InvokeBuiltin _ _ => true
  | .CallStub _ => true
  | .JumpBuiltin _ => true
  | .CallCodeStub _ _ => true
  | .CallCodeObject _ _ => true
  | _ => false

/-- The condition code the type probe for a canonical string leaves to test. -/
def typeofProbeCondition (check : String) : Condition :=
  if check = "string" then .lt else if check = "object" then .le else .eq

/-- The generator as `GenCode` has it right after the declarations of the
scope were processed (or the illegal redeclaration visited), where the function
asks `HasStackOverflow()` for the first time. -/
def genCodeDeclarations (cg : CodeGenerator) (F : Factory) (SL : SlotLayout) (flags : Flags)
    (result : Expression → VisitResult) (kGlobalSlotOffset : Int)
    (visitIllegalRedeclaration processDeclarations : CodeGenerator → CodeGenerator)
    (scope : Scope) : CodeGenerator :=
  let cg := { cg with frame_ := some 0, cc_reg_ := .al }
  let cg := VirtualFrame.Enter cg
  let cg := VirtualFrame.AllocateStackSlots cg scope.num_stack_slots
  let cg := JumpTarget.Initialize cg .function_return
  let cg :=
    if scope.num_heap_slots > 0 then
      let cg := cg.emit (.ldr .r0 .fp SL.Function)
      let cg := VirtualFrame.EmitPush cg .r0
      let cg := VirtualFrame.CallRuntime cg .kNewContext 1
      let cg :=
        if flags.kDebug then
          let (cg, verified_true) := cg.newTarget
          let cg := cg.emit (.dp .cmp .r0 .r0 (.reg .cp) .SetCC .al)
          let cg := JumpTarget.Branch cg verified_true .eq
          let cg := cg.emit (.stop "NewContext: r0 is expected to be the same as cp")
          JumpTarget.Bind cg verified_true
        else cg
      cg.emit (.str .cp .fp SL.Context)
    else cg
  let cg := cg.copyContextParameters SL scope.parameters 0
  let cg :=
    match scope.arguments, scope.arguments_shadow with
    | some arguments, some arguments_shadow =>
      let (cg, shadow_ref) := Reference.create cg F result kGlobalSlotOffset arguments_shadow
      let (cg, arguments_ref) := Reference.create cg F result kGlobalSlotOffset arguments
      let cg := cg.emit (.ldr .r2 .fp SL.Function)
      let kReceiverDisplacement : Int := 2 + scope.parameters.length
      let cg := cg.emit
        (.dp .add .r1 .fp (.imm (kReceiverDisplacement * SL.kPointerSize).toNat) .LeaveCC .al)
      let cg := cg.emit
        (.dp .mov .r0 .r0 (.imm (Smi.FromInt scope.parameters.length)) .LeaveCC .al)
      let cg := VirtualFrame.Adjust cg 3
      let cg := cg.emit (.stm_db_w_sp [.r0, .r1, .r2])
      let cg := VirtualFrame.CallCodeStub cg .ArgumentsAccess_NEW_OBJECT 3
      let cg := VirtualFrame.EmitPush cg .r0
      let cg := arguments_ref.SetValue cg F SL .NOT_CONST_INIT
      let cg := cg.UnloadReference arguments_ref
      let cg := shadow_ref.SetValue cg F SL .NOT_CONST_INIT
      let cg := cg.UnloadReference shadow_ref
      VirtualFrame.Drop cg 1
    | _, _ => cg
  if scope.HasIllegalRedeclaration then visitIllegalRedeclaration cg
  else processDeclarations cg

/-- The generator as `GenCode` has it after the body and the return sequence,
where the function asks `HasStackOverflow()` for the second time; `cg` is the
generator after the declarations. -/
def genCodeBody (cg : CodeGenerator) (F : Factory) (SL : SlotLayout) (flags : Flags)
    (visit : Nat → CodeGenerator → CodeGenerator) (scope : Scope) (body : List Nat) :
    CodeGenerator :=
  let cg := if flags.trace then VirtualFrame.CallRuntime cg .kTraceEnter 0 else cg
  let cg := cg.CheckStack flags
  let cg :=
    if !scope.HasIllegalRedeclaration then cg.VisitStatementsAndSpill visit body else cg
  let cg :=
    if cg.has_valid_frame || cg.is_linked .function_return then
      let cg := cg.emit (.dp .mov .r0 .r0 (.imm F.undefined_value) .LeaveCC .al)
      let cg := JumpTarget.Bind cg .function_return
      let cg :=
        if flags.trace then
          let cg := VirtualFrame.EmitPush cg .r0
          VirtualFrame.CallRuntime cg .kTraceExit 1
        else cg
      let cg := VirtualFrame.Exit cg
      let cg := cg.emit (.add_sp ((scope.parameters.length + 1) * SL.kPointerSize))
      cg.emit .mov_pc_lr
    else cg
  let cg := JumpTarget.Unuse cg .function_return
  { cg with frame_ := none }

/-- A plain scope: no locals, no context, no parameters, no arguments object. -/
def Scope.plain : Scope :=
  { num_stack_slots := 0, num_heap_slots := 0, parameters := [], arguments := none,
    arguments_shadow := none, HasIllegalRedeclaration := false }

/-- A statement visitor that runs out of stack while it queues a deferred
operation. -/
def visitOverflowing (_ : Nat) (cg : CodeGenerator) : CodeGenerator :=
  { cg with
    deferred_ := cg.deferred_ ++ [⟨.ADD, 1, false, .deferred_enter 0, .deferred_exit 0⟩],
    stack_overflow_ := true }

/-- Declarations that run out of stack. -/
def declarationsOverflowing (cg : CodeGenerator) : CodeGenerator :=
  { cg with stack_overflow_ := true }

/-- From `cg` to `after` the generator only added links, each to a label that
satisfies `P`, and constructed targets. -/
def Grows (P : Label → Prop) (cg after : CodeGenerator) : Prop :=
  cg.next_target_ ≤ after.next_target_ ∧
    ∃ extra, after.linked_ = cg.linked_ ++ extra ∧ ∀ p ∈ extra, P p.1

/-- The part of `VisitForInStatement` from the pop of the loaded enumerable to
the binding of `entry`: the conversion to an object, the call of
`Runtime::kGetPropertyNamesFast` and the pushes of the loop state on both
paths. -/
def forInEntry (cg : CodeGenerator) (F : Factory) (L : ObjectLayout)
    (primitive jsobject fixed_array entry exit_tgt : Label) : CodeGenerator :=
  let cg := VirtualFrame.EmitPop cg .r0
  let cg := cg.emit (.dp .cmp .r0 .r0 (.imm F.undefined_value) .SetCC .al)
  let cg := JumpTarget.Branch cg exit_tgt .eq
  let cg := cg.emit (.dp .cmp .r0 .r0 (.imm F.null_value) .SetCC .al)
  let cg := JumpTarget.Branch cg exit_tgt .eq
  let cg := cg.emit (.dp .tst .r0 .r0 (.imm Smi.kSmiTagMask) .SetCC .al)
  let cg := JumpTarget.Branch cg primitive .eq
  let cg := cg.emit (.ldr .r1 .r0 (L.kMapOffset - L.kHeapObjectTag))
  let cg := cg.emit (.ldrb .r1 .r1 (L.kInstanceTypeOffset - L.kHeapObjectTag))
  let cg := cg.emit (.dp .cmp .r1 .r1 (.imm L.FIRST_JS_OBJECT_TYPE) .SetCC .al)
  let cg := JumpTarget.Branch cg jsobject .cs
  let cg := JumpTarget.Bind cg primitive
  let cg := VirtualFrame.EmitPush cg .r0
  let cg := cg.emit (.dp .mov .r0 .r0 (.imm 0) .LeaveCC .al)
  let cg := VirtualFrame.InvokeBuiltin cg .TO_OBJECT 1
  let cg := JumpTarget.Bind cg jsobject
  let cg := VirtualFrame.EmitPush cg .r0
  let cg := VirtualFrame.EmitPush cg .r0
  let cg := VirtualFrame.CallRuntime cg .kGetPropertyNamesFast 1
  let cg := cg.emit (.dp .mov .r2 .r2 (.reg .r0) .LeaveCC .al)
  let cg := cg.emit (.ldr .r1 .r2 (L.kMapOffset - L.kHeapObjectTag))
  let cg := cg.emit (.dp .cmp .r1 .r1 (.imm F.meta_map) .SetCC .al)
  let cg := JumpTarget.Branch cg fixed_array .ne
  let cg := cg.emit (.dp .mov .r1 .r1 (.reg .r0) .LeaveCC .al)
  let cg := cg.emit (.ldr .r1 .r1 (L.kInstanceDescriptorsOffset - L.kHeapObjectTag))
  let cg := cg.emit (.ldr .r1 .r1 (L.kEnumerationIndexOffset - L.kHeapObjectTag))
  let cg := cg.emit (.ldr .r2 .r1 (L.kEnumCacheBridgeCacheOffset - L.kHeapObjectTag))
  let cg := VirtualFrame.EmitPush cg .r0
  let cg := VirtualFrame.EmitPush cg .r2
  let cg := cg.emit (.ldr .r0 .r2 (L.kLengthOffset - L.kHeapObjectTag))
  let cg := cg.emit (.dp .mov .r0 .r0 (.shifted .r0 .LSL Smi.kSmiTagSize) .LeaveCC .al)
  let cg := VirtualFrame.EmitPush cg .r0
  let cg := cg.emit (.dp .mov .r0 .r0 (.imm (Smi.FromInt 0)) .LeaveCC .al)
  let cg := VirtualFrame.EmitPush cg .r0
  let cg := JumpTarget.Jump cg entry
  let cg := JumpTarget.Bind cg fixed_array
  let cg := cg.emit (.dp .mov .r1 .r1 (.imm (Smi.FromInt 0)) .LeaveCC .al)
  let cg := VirtualFrame.EmitPush cg .r1
  let cg := VirtualFrame.EmitPush cg .r0
  let cg := cg.emit (.ldr .r0 .r0 (L.kLengthOffset - L.kHeapObjectTag))
  let cg := cg.emit (.dp .mov .r0 .r0 (.shifted .r0 .LSL Smi.kSmiTagSize) .LeaveCC .al)
  let cg := VirtualFrame.EmitPush cg .r0
  let cg := cg.emit (.dp .mov .r0 .r0 (.imm (Smi.FromInt 0)) .LeaveCC .al)
  let cg := VirtualFrame.EmitPush cg .r0
  JumpTarget.Bind cg entry

/-- The loop condition of `VisitForInStatement`: the break and continue targets
are initialized and the index is compared with the length. -/
def forInTest (cg : CodeGenerator) : CodeGenerator :=
  let cg := JumpTarget.Initialize cg .break_target
  let cg := JumpTarget.Initialize cg .continue_target
  let cg := cg.emit (.ldr_element .r0 0)
  let cg := cg.emit (.ldr_element .r1 1)
  let cg := cg.emit (.dp .cmp .r0 .r0 (.reg .r1) .SetCC .al)
  JumpTarget.Branch cg .break_target .cs

/-- The first part of a round of the loop of `VisitForInStatement`: the entry is
fetched, filtered and pushed. -/
def forInFetch (cg : CodeGenerator) (F : Factory) (L : ObjectLayout) (end_del_check : Label) :
    CodeGenerator :=
  let cg := cg.emit (.ldr_element .r0 0)
  let cg := cg.emit (.ldr_element .r2 2)
  let cg := cg.emit (.dp .add .r2 .r2 (.imm (L.kHeaderSize - L.kHeapObjectTag).toNat) .LeaveCC .al)
  let cg := cg.emit (.ldr_indexed .r3 .r2 .r0 (L.kPointerSizeLog2 - Smi.kSmiTagSize))
  let cg := cg.emit (.ldr_element .r2 3)
  let cg := cg.emit (.ldr_element .r1 4)
  let cg := cg.emit (.ldr .r1 .r1 (L.kMapOffset - L.kHeapObjectTag))
  let cg := cg.emit (.dp .cmp .r1 .r1 (.reg .r2) .SetCC .al)
  let cg := JumpTarget.Branch cg end_del_check .eq
  let cg := cg.emit (.ldr_element .r0 4)
  let cg := VirtualFrame.EmitPush cg .r0
  let cg := VirtualFrame.EmitPush cg .r3
  let cg := cg.emit (.dp .mov .r0 .r0 (.imm 1) .LeaveCC .al)
  let cg := VirtualFrame.InvokeBuiltin cg .FILTER_KEY 2
  let cg := cg.emit (.dp .mov .r3 .r3 (.reg .r0) .LeaveCC .al)
  let cg := cg.emit (.dp .cmp .r3 .r3 (.imm F.null_value) .SetCC .al)
  let cg := JumpTarget.Branch cg .continue_target .eq
  let cg := JumpTarget.Bind cg end_del_check
  VirtualFrame.EmitPush cg .r3

/-- The part of a round of the loop of `VisitForInStatement` that stores the
entry in the loaded reference `each_ref`, unloads the reference and checks the
stack. -/
def forInStore (cg : CodeGenerator) (F : Factory) (SL : SlotLayout) (flags : Flags)
    (each_ref : Reference) : CodeGenerator :=
  let cg :=
    if each_ref.type_ ≠ .ILLEGAL then
      let cg :=
        if each_ref.size > 0 then
          let cg := cg.emit (.ldr_element .r0 each_ref.size.toNat)
          VirtualFrame.EmitPush cg .r0
        else cg
      let cg := each_ref.SetValue cg F SL .NOT_CONST_INIT
      if each_ref.size > 0 then VirtualFrame.EmitPop cg .r0 else cg
    else cg
  let cg := cg.UnloadReference each_ref
  let cg := VirtualFrame.Drop cg 1
  cg.CheckStack flags

/-- The generator of `VisitForInStatement` before the body is visited; `cg` is
the generator at the loop entry. -/
def forInEach (cg : CodeGenerator) (F : Factory) (L : ObjectLayout) (SL : SlotLayout)
    (flags : Flags) (result : Expression → VisitResult) (kGlobalSlotOffset : Int)
    (each : Expression) (end_del_check : Label) : CodeGenerator :=
  forInStore
    (Reference.create (forInFetch (forInTest cg) F L end_del_check) F result kGlobalSlotOffset
      each).1 F SL flags
    (Reference.create (forInFetch (forInTest cg) F L end_del_check) F result kGlobalSlotOffset
      each).2

/-- The second part of a round of the loop of `VisitForInStatement`: the body
is visited and the index incremented. -/
def forInNext (cg : CodeGenerator) (visit : Nat → CodeGenerator → CodeGenerator) (body : Nat) :
    CodeGenerator :=
  let cg := cg.VisitAndSpill visit body
  let cg := JumpTarget.Bind cg .continue_target
  let cg := VirtualFrame.EmitPop cg .r0
  let cg := cg.emit (.dp .add .r0 .r0 (.imm (Smi.FromInt 1)) .LeaveCC .al)
  VirtualFrame.EmitPush cg .r0

/-- The end of `VisitForInStatement`: the jump back to `entry`, the break
target with the cleanup of the loop state, and the exit. -/
def forInExit (cg : CodeGenerator) (entry exit_tgt : Label) : CodeGenerator :=
  let cg := JumpTarget.Jump cg entry
  let cg := JumpTarget.Bind cg .break_target
  let cg := VirtualFrame.Drop cg 5
  let cg := JumpTarget.Bind cg exit_tgt
  let cg := JumpTarget.Unuse cg .continue_target
  JumpTarget.Unuse cg .break_target

/-- The generator at the loop entry of `VisitForInStatement`, right after
`entry.Bind()`. -/
def forInAtEntry (cg : CodeGenerator) (F : Factory) (L : ObjectLayout)
    (result : Expression → VisitResult) (enumerable : Expression) : CodeGenerator :=
  forInEntry
    (CodeGenerator.LoadAndSpill { cg with next_target_ := cg.next_target_ + 6 } F result
      enumerable)
    F L (.target cg.next_target_) (.target (cg.next_target_ + 1))
    (.target (cg.next_target_ + 2)) (.target (cg.next_target_ + 3))
    (.target (cg.next_target_ + 5))

/-- The code of `VisitForInStatement` that converts the enumerable on top of
the stack to an object, left in `r0`. -/
def forInConvertCode (F : Factory) (L : ObjectLayout) (primitive jsobject exit_tgt : Label) :
    List Instr :=
  [.pop .r0,
   .dp .cmp .r0 .r0 (.imm F.undefined_value) .SetCC .al,
   .b .eq exit_tgt,
   .dp .cmp .r0 .r0 (.imm F.null_value) .SetCC .al,
   .b .eq exit_tgt,
   .dp .tst .r0 .r0 (.imm Smi.kSmiTagMask) .SetCC .al,
   .b .eq primitive,
   .ldr .r1 .r0 (L.kMapOffset - L.kHeapObjectTag),
   .ldrb .r1 .r1 (L.kInstanceTypeOffset - L.kHeapObjectTag),
   .dp .cmp .r1 .r1 (.imm L.FIRST_JS_OBJECT_TYPE) .SetCC .al,
   .b .cs jsobject,
   .bind primitive,
   .push .r0,
   .dp .mov .r0 .r0 (.imm 0) .LeaveCC .al,
   .InvokeBuiltin .TO_OBJECT 1,
   .bind jsobject]

/-- The code of `VisitForInStatement` that gets the property names of the
object in `r0` and pushes the five words of the loop state, on the enum-cache
path or on the `FixedArray` path. -/
def forInPushCode (F : Factory) (L : ObjectLayout) (fixed_array entry : Label) : List Instr :=
  [.push .r0,
   .push .r0,
   .CallRuntime .kGetPropertyNamesFast 1,
   .dp .mov .r2 .r2 (.reg .r0) .LeaveCC .al,
   .ldr .r1 .r2 (L.kMapOffset - L.kHeapObjectTag),
   .dp .cmp .r1 .r1 (.imm F.meta_map) .SetCC .al,
   .b .ne fixed_array,
   .dp .mov .r1 .r1 (.reg .r0) .LeaveCC .al,
   .ldr .r1 .r1 (L.kInstanceDescriptorsOffset - L.kHeapObjectTag),
   .ldr .r1 .r1 (L.kEnumerationIndexOffset - L.kHeapObjectTag),
   .ldr .r2 .r1 (L.kEnumCacheBridgeCacheOffset - L.kHeapObjectTag),
   .push .r0,
   .push .r2,
   .ldr .r0 .r2 (L.kLengthOffset - L.kHeapObjectTag),
   .dp .mov .r0 .r0 (.shifted .r0 .LSL Smi.kSmiTagSize) .LeaveCC .al,
   .push .r0,
   .dp .mov .r0 .r0 (.imm (Smi.FromInt 0)) .LeaveCC .al,
   .push .r0,
   .b .al entry,
   .bind fixed_array,
   .dp .mov .r1 .r1 (.imm (Smi.FromInt 0)) .LeaveCC .al,
   .push .r1,
   .push .r0,
   .ldr .r0 .r0 (L.kLengthOffset - L.kHeapObjectTag),
   .dp .mov .r0 .r0 (.shifted .r0 .LSL Smi.kSmiTagSize) .LeaveCC .al,
   .push .r0,
   .dp .mov .r0 .r0 (.imm (Smi.FromInt 0)) .LeaveCC .al,
   .push .r0,
   .bind entry]

/-- The instance type of the heap object `w`: the byte at `kInstanceTypeOffset`
of its map. -/
def instanceTypeOf (L : ObjectLayout) (s : State) (w : Nat) : Nat :=
  s.mem ((s.load32 ((w : Int) + (L.kMapOffset - L.kHeapObjectTag)) : Int) +
    (L.kInstanceTypeOffset - L.kHeapObjectTag)).toNat % 256

/-- The object `VisitForInStatement` enumerates for the value `w`: `w` itself
when it is a JS object, what the `TO_OBJECT` builtin returns for it when it is
a small integer or another heap object. -/
def forInObject (rt : Runtime) (L : ObjectLayout) (s : State) (w : Nat) : Nat :=
  if w &&& Smi.kSmiTagMask = 0 ∨ instanceTypeOf L s w < L.FIRST_JS_OBJECT_TYPE then
    rt.builtin .TO_OBJECT [w]
  else w

/-- The enum cache of the map `map`: the cache field of the enum-cache bridge
of its instance descriptors. -/
def forInEnumCache (L : ObjectLayout) (s : State) (map : Nat) : Nat :=
  s.load32 ((s.load32 ((s.load32 ((map : Int) + (L.kInstanceDescriptorsOffset - L.kHeapObjectTag))
    : Int) + (L.kEnumerationIndexOffset - L.kHeapObjectTag)) : Int) +
    (L.kEnumCacheBridgeCacheOffset - L.kHeapObjectTag))

/-- The length of the `FixedArray` `array`, tagged as a small integer. -/
def forInLength (L : ObjectLayout) (s : State) (array : Nat) : Nat :=
  (s.load32 ((array : Int) + (L.kLengthOffset - L.kHeapObjectTag)) * 2 ^ Smi.kSmiTagSize) %
    4294967296

/-- The five words `VisitForInStatement` has pushed at the loop entry for the
object `obj`, from the top: the index 0, the length, the enum cache or the
array of names, the map or 0, and the object.  `names` is what
`Runtime::kGetPropertyNamesFast` returned: a map (its own map is the meta map)
on the enum-cache path, a `FixedArray` otherwise. -/
def forInLoopState (rt : Runtime) (F : Factory) (L : ObjectLayout) (s : State) (obj : Nat) :
    List Nat :=
  let names := rt.callRuntime .kGetPropertyNamesFast [obj]
  if s.load32 ((names : Int) + (L.kMapOffset - L.kHeapObjectTag)) = F.meta_map then
    [Smi.FromInt 0, forInLength L s (forInEnumCache L s names), forInEnumCache L s names, names,
      obj]
  else
    [Smi.FromInt 0, forInLength L s names, names, Smi.FromInt 0, obj]

/-- The little-endian word at `addr` of a byte memory. -/
def load32Mem (mem : Nat → Nat) (addr : Int) : Nat :=
  mem addr.toNat + 256 * mem (addr.toNat + 1) + 65536 * mem (addr.toNat + 2) +
    16777216 * mem (addr.toNat + 3)

/-- A runtime whose functions answer 100 and whose builtins answer 50. -/
def forInRuntime : Runtime :=
  { callRuntime := fun _ _ => 100, builtin := fun _ _ => 50, stub := fun _ _ _ => 0,
    value := fun _ => 0 }

/-- The generator as `GenCode` has it before it turns to the declarations: after
the frame entry, the allocation of the locals and of the context, the copying
of the context parameters and the set-up of the arguments object. -/
def genCodePrologue (cg : CodeGenerator) (F : Factory) (SL : SlotLayout) (flags : Flags)
    (result : Expression → VisitResult) (kGlobalSlotOffset : Int) (scope : Scope) :
    CodeGenerator :=
  genCodeDeclarations cg F SL flags result kGlobalSlotOffset (fun c => c) (fun c => c) scope

/-- The code `GenCode` emits after the declarations when no statement is
visited: the trace call, the stack check and, if `emit_return`, the return
sequence. -/
def genCodeTail (F : Factory) (SL : SlotLayout) (flags : Flags) (scope : Scope)
    (emit_return : Bool) : List Instr :=
  (if flags.trace then [Instr.CallRuntime .kTraceEnter 0] else []) ++
  (if flags.check_stack then [Instr.CallCodeStub .StackCheck 0] else []) ++
  (if emit_return then
    [Instr.dp .mov .r0 .r0 (.imm F.undefined_value) .LeaveCC .al, .bind .function_return] ++
    (if flags.trace then [Instr.push .r0, .CallRuntime .kTraceExit 1] else []) ++
    [.frame_exit, .add_sp ((scope.parameters.length + 1) * SL.kPointerSize), .mov_pc_lr]
  else [])

/-- A scope with an illegal redeclaration and nothing else. -/
def Scope.redeclared : Scope :=
  { num_stack_slots := 0, num_heap_slots := 0, parameters := [], arguments := none,
    arguments_shadow := none, HasIllegalRedeclaration := true }

/-- A redeclaration reporter: the code of the expression that reports the
redeclaration. -/
def reportRedeclaration (cg : CodeGenerator) : CodeGenerator :=
  cg.emit (.load (.Other 0))

/-- The expression `typeof x == "foo"`: a comparison of a `typeof` with a string
that `typeof` never returns. -/
def typeofFoo : Expression :=
  .BinaryOperation .EQ (.UnaryOperation .TYPEOF (.Other 1)) (.Literal (.Symbol "foo"))

/-- What visiting the expressions of `!(typeof x == "foo")` leaves:
`typeofFoo` ends in a jump to its false target, with no value, no condition
code and no frame (the uncommon case of `VisitCompareOperation`); any other
expression leaves its value. -/
def visitTypeofFoo (e : Expression) : VisitResult :=
  if e = typeofFoo then ⟨.nothing, false, true⟩ else VisitResult.plain

/-- The jump target that is the fall-through of a control destination. -/
def ControlDestination.fall_through (d : ControlDestination) : Label :=
  if d.true_is_fall_through_ then d.true_target_ else d.false_target_

/-- The outcome of the slow case of the `MUL` stub: the builtin is entered with
the operands `a` (from `r1`) and `b` (from `r0`) pushed and the argument count
1 in `r0`. -/
def EntersMulBuiltin (o : Outcome) (s : State) (a b : Nat) : Prop :=
  ∃ s', o = .jumped (.builtin_entry .MUL) s' ∧ s'.stack = b :: a :: s.stack ∧
    s'.regs .r0 = 1 ∧ s'.regs .r1 = a ∧ s'.log = s.log

namespace MessageQueue

/-- The indices of a queue are within its buffer of `size_` slots, and the
size is a positive `int`. -/
def Inv (q : MessageQueue) : Prop :=
  1 ≤ q.size_ ∧ q.size_ < 2147483648 ∧ 0 ≤ q.start_ ∧ q.start_ < q.size_ ∧
    0 ≤ q.end_ ∧ q.end_ < q.size_ ∧ q.messages_.length = q.size_.toNat

/-- The number of stored messages according to the indices:
`(end_ - start_) mod size_`. -/
def count (q : MessageQueue) : Int := (q.end_ - q.start_) % q.size_

/-- The messages in `k` consecutive slots from slot `start` on, wrapping at
`size`. -/
def walk (messages : List (List Nat)) (size : Int) : Int → Nat → List (List Nat)
  | _, 0 => []
  | start, k + 1 =>
    messages.getD start.toNat [] ::
      walk messages size (if start + 1 = size then 0 else start + 1) k

/-- The queue after the two assignments that end `Put`. -/
def store (q : MessageQueue) (m : List Nat) : MessageQueue :=
  { q with messages_ := q.messages_.set q.end_.toNat m,
           end_ := Int.tmod (int32 (q.end_ + 1)) q.size_ }

/-- The stored messages, oldest first: the slots from `start_` up to `end_`. -/
def contents (q : MessageQueue) : List (List Nat) :=
  walk q.messages_ q.size_ q.start_ (count q).toNat

end MessageQueue

/-- The operations of a message queue. -/
inductive QueueOp
  | Put (message : List Nat)
  | Get
  | Clear
  deriving DecidableEq, Repr

/-- A sequence of operations on a queue: the queue afterwards and the messages
returned by the `Get` calls, in order. -/
def MessageQueue.run : List QueueOp → MessageQueue → Option (MessageQueue × List (List Nat))
  | [], q => some (q, [])
  | .Put message :: ops, q =>
    match q.Put message with
    | none => none
    | some q => MessageQueue.run ops q
  | .Get :: ops, q =>
    match MessageQueue.run ops q.Get.2 with
    | none => none
    | some (q2, out) => some (q2, q.Get.1 :: out)
  | .Clear :: ops, q => MessageQueue.run ops q.Clear

/-- The first-in first-out queue of the specification: `Put` appends a message
to the pending ones, `Get` removes and returns the oldest pending message and
is not allowed when none is pending, `Clear` drops the pending messages.  The
result is the pending messages at the end and the messages returned. -/
def fifo : List QueueOp → List (List Nat) → Option (List (List Nat) × List (List Nat))
  | [], pending => some (pending, [])
  | .Put message :: ops, pending => fifo ops (pending ++ [message])
  | .Get :: _, [] => none
  | .Get :: ops, message :: pending =>
    match fifo ops pending with
    | none => none
    | some (final, out) => some (final, message :: out)
  | .Clear :: ops, _ => fifo ops []

/-- The UTF-8 encoding of a UTF-16 code unit, an instance of the encoder that
`SendMessage` is given: one byte up to 0x7F, two up to 0x7FF, three above. -/
def utf8Bytes (c : Nat) : List Nat :=
  if c ≤ 0x7F then [c]
  else if c ≤ 0x7FF then [0xC0 ||| (c >>> 6), 0x80 ||| (c &&& 0x3F)]
  else [0xE0 ||| (c >>> 12), 0x80 ||| ((c >>> 6) &&& 0x3F), 0x80 ||| (c &&& 0x3F)]

/-- Does the condition hold for the flags `n`, `z`, `c`, `v`? -/
def flagsHold (n z c v : Bool) (cond : Condition) : Bool :=
  (State.mk (fun _ => 0) n z c v [] (fun _ => 0) []).holds cond

/-- The way in which the code of an expression ends at run time is one that
the outcome of its visitor allows: a value is pushed only when the visitor
leaves a value, the flags are set only when it leaves a condition, and a jump
goes only to a target the visitor branched to. -/
def ControlAgrees (r : VisitResult) : Control → Prop
  | .value => r.leaves = .value
  | .condition _ _ _ _ => ∃ cond, r.leaves = .cc cond
  | .to_true => r.links_true = true
  | .to_false => r.links_false = true

/-- The code of an expression ends in a way that the outcome of its visitor
allows and that tells the value of the expression: a condition left in the
flags holds exactly when the value is the true object and fails exactly when it
is the false object, and a jump to the true (false) target is taken only when
the value is the true (false) object. -/
def Agrees (F : Factory) (rt : Runtime) (r : VisitResult) (e : Expression) : Prop :=
  match rt.control e with
  | .value => r.leaves = .value
  | .condition n z c v =>
    ∃ cond, r.leaves = .cc cond ∧
      rt.value e = if flagsHold n z c v cond then F.true_value else F.false_value
  | .to_true => r.links_true = true ∧ rt.value e = F.true_value
  | .to_false => r.links_false = true ∧ rt.value e = F.false_value

/-- The word that the code of `Load` leaves on the stack. -/
def loadedValue (F : Factory) (rt : Runtime) (r : VisitResult) (e : Expression) : Nat :=
  if r = VisitResult.plain then rt.value e
  else
    match rt.control e with
    | .value => rt.value e
    | .condition n z c v =>
      match r.leaves with
      | .cc cond =>
        if flagsHold n z c v cond then F.true_value % 4294967296
        else F.false_value % 4294967296
      | _ => 0
    | .to_true => F.true_value % 4294967296
    | .to_false => F.false_value % 4294967296

/-- The code `Load` emits for an expression whose visitor has the outcome `r`,
when `next` is the number of the next jump target: the code of the expression,
the materialization of a condition it leaves, and the loading of true and
false at the targets it branched to. -/
def loadCode (F : Factory) (r : VisitResult) (e : Expression) (next : Nat) : List Instr :=
  [if r = VisitResult.plain then Instr.load e
   else Instr.visit e (.target next) (.target (next + 1))] ++
  (match r.leaves with
   | .cc cond =>
     [Instr.b cond (.target (next + 3)),
      .dp .mov .r0 .r0 (.imm F.false_value) .LeaveCC .al, .push .r0,
      .b .al (.target (next + 2)),
      .bind (.target (next + 3)),
      .dp .mov .r0 .r0 (.imm F.true_value) .LeaveCC .al, .push .r0,
      .bind (.target (next + 2))]
   | _ => []) ++
  (if r.links_true = true ∨ r.links_false = true then
    (if r.leaves = .nothing then []
     else [Instr.b .al (.target (match r.leaves with | .cc _ => next + 4 | _ => next + 2))]) ++
    (if r.links_true then
      [Instr.bind (.target next), .dp .mov .r0 .r0 (.imm F.true_value) .LeaveCC .al, .push .r0]
     else []) ++
    (if r.links_true = true ∧ r.links_false = true then
      [Instr.b .al (.target (match r.leaves with | .cc _ => next + 4 | _ => next + 2))]
     else []) ++
    (if r.links_false then
      [Instr.bind (.target (next + 1)), .dp .mov .r0 .r0 (.imm F.false_value) .LeaveCC .al,
       .push .r0]
     else []) ++
    [Instr.bind (.target (match r.leaves with | .cc _ => next + 4 | _ => next + 2))]
   else [])

/-- The code `VisitBinaryOperation` emits for `&&` and `||` before the code of
the right operand, when the left operand simply leaves its value. -/
def logicalHead (F : Factory) (is_and : Bool) (left : Expression) : List Instr :=
  [Instr.load left, .ldr_top .r0, .push .r0] ++
  (if is_and then toBooleanCode F .pop_and_continue .exit
   else toBooleanCode F .exit .pop_and_continue) ++
  [.b (if is_and then .eq else .ne) .exit,
   .bind .pop_and_continue,
   .pop .r0,
   .bind (if is_and then .is_true else .is_false)]

/-- The code `VisitBinaryOperation` emits for `&&` and `||` when the left
operand simply leaves its value; `rightCode` is the code that loads the right
operand. -/
def logicalCodeWith (F : Factory) (is_and : Bool) (left : Expression) (rightCode : List Instr) :
    List Instr :=
  logicalHead F is_and left ++ rightCode ++ [.bind .exit]

/-- The generator in `VisitBinaryOperation` for `&&` and `||` at the point where
the right operand is loaded, when the left operand has left a value: the value
was duplicated and tested, and the code that pops it is emitted. -/
def logicalMid (cg : CodeGenerator) (F : Factory) (result : Expression → VisitResult)
    (is_and : Bool) (left : Expression) (true_tgt false_tgt : Label) : CodeGenerator :=
  let cg :=
    if is_and then CodeGenerator.LoadConditionAndSpill cg F result left .is_true false_tgt false
    else CodeGenerator.LoadConditionAndSpill cg F result left true_tgt .is_false false
  let cg := cg.emit (.ldr_top .r0)
  let cg := VirtualFrame.EmitPush cg .r0
  let cg :=
    if is_and then CodeGenerator.ToBoolean cg F .pop_and_continue .exit
    else CodeGenerator.ToBoolean cg F .exit .pop_and_continue
  let cg := CodeGenerator.Branch cg (!is_and) .exit
  let cg := JumpTarget.Bind cg .pop_and_continue
  let cg := VirtualFrame.EmitPop cg .r0
  JumpTarget.Bind cg (if is_and then .is_true else .is_false)

/-- A sample of visitor outcomes under which the expression `Other 3` is a
comparison, whose visitor leaves the condition `lt`; every other expression
leaves its value. -/
def comparisonResult (e : Expression) : VisitResult :=
  if e = .Other 3 then ⟨.cc .lt, false, false⟩ else VisitResult.plain

/-- Sample collaborators for `comparisonResult`: the code of a visited
expression sets the flags so that `lt` holds; with `Factory.sample` the value 3
of `Other 3` is the true object. -/
def Arm.Runtime.comparing : Runtime :=
  { Runtime.withToBool Factory.sample Heap.sample with
    control := fun _ => .condition true false false false }

/-- A header line as the theorems on `ReceiveMessage` take it: a non-empty line
of at most 79 characters, none of them a newline or NUL, that is not just the
word `Content-Length` without a colon. -/
def HeaderLine (l : List Nat) : Prop :=
  l.length ≤ 79 ∧ 10 ∉ l ∧ 0 ∉ l ∧ l ≠ [] ∧ l ≠ DebuggerAgentUtil.kContentLength

instance : DecidablePred HeaderLine := fun l =>
  inferInstanceAs (Decidable (l.length ≤ 79 ∧ 10 ∉ l ∧ 0 ∉ l ∧ l ≠ [] ∧
    l ≠ DebuggerAgentUtil.kContentLength))

/-- The bytes of a sequence of header lines, each followed by a newline. -/
def headerBlock : List (List Nat) → List Nat
  | [] => []
  | l :: ls => l ++ 10 :: headerBlock ls

/-- The header lines treated one after the other. -/
def headers : List (List Nat) → Int → DebuggerAgentUtil.HeaderStep
  | [], content_length => .next content_length
  | l :: ls, content_length =>
    match DebuggerAgentUtil.header l content_length with
    | .next content_length => headers ls content_length
    | .empty => .empty
    | .undefined => .undefined

/-- The number that a sequence of decimal digit characters denotes. -/
def decimalValue (digits : List Nat) : Nat := digits.foldl (fun n d => 10 * n + (d - 48)) 0

/-! ## Theorems -/

open CodeGenerator

/-! ### Running emitted code -/

@[simp]
theorem dp_mov (s : State) (d a : Register) (b : Operand) :
    s.dataProcessing .mov d a b .LeaveCC = s.set d (s.operand b) := by
  simp [State.dataProcessing]

@[simp]
theorem dp_tst (s : State) (d a : Register) (b : Operand) (sb : SBit) :
    s.dataProcessing .tst d a b sb = s.logicFlags (s.regs a &&& s.operand b) (s.shifterCarry b) := by
  simp [State.dataProcessing]

@[simp]
theorem dp_add_SetCC (s : State) (d a : Register) (b : Operand) :
    s.dataProcessing .add d a b .SetCC =
      (s.addFlags (s.regs a) (s.operand b)).set d ((s.regs a + s.operand b) % 4294967296) := by
  simp [State.dataProcessing]

@[simp]
theorem dp_and_SetCC (s : State) (d a : Register) (b : Operand) :
    s.dataProcessing .and_ d a b .SetCC =
      (s.logicFlags (s.regs a &&& s.operand b) (s.shifterCarry b)).set d
        (s.regs a &&& s.operand b) := by
  simp [State.dataProcessing]

@[simp]
theorem set_regs (s : State) (r r' : Register) (w : Nat) :
    (s.set r w).regs r' = if r' = r then w else s.regs r' := rfl
@[simp]
theorem set_n (s : State) (r : Register) (w : Nat) : (s.set r w).n = s.n := rfl
@[simp]
theorem set_z (s : State) (r : Register) (w : Nat) : (s.set r w).z = s.z := rfl
@[simp]
theorem set_c (s : State) (r : Register) (w : Nat) : (s.set r w).c = s.c := rfl
@[simp]
theorem set_v (s : State) (r : Register) (w : Nat) : (s.set r w).v = s.v := rfl
@[simp]
theorem set_stack (s : State) (r : Register) (w : Nat) : (s.set r w).stack = s.stack := rfl
@[simp]
theorem set_log (s : State) (r : Register) (w : Nat) : (s.set r w).log = s.log := rfl
@[simp]
theorem set_mem (s : State) (r : Register) (w : Nat) : (s.set r w).mem = s.mem := rfl
@[simp]
theorem logicFlags_regs (s : State) (r : Nat) (c : Bool) : (s.logicFlags r c).regs = s.regs := rfl
@[simp]
theorem logicFlags_n (s : State) (r : Nat) (c : Bool) :
    (s.logicFlags r c).n = decide (2147483648 ≤ r) := rfl
@[simp]
theorem logicFlags_z (s : State) (r : Nat) (c : Bool) : (s.logicFlags r c).z = decide (r = 0) := rfl
@[simp]
theorem logicFlags_stack (s : State) (r : Nat) (c : Bool) : (s.logicFlags r c).stack = s.stack := rfl
@[simp]
theorem logicFlags_log (s : State) (r : Nat) (c : Bool) : (s.logicFlags r c).log = s.log := rfl
@[simp]
theorem logicFlags_mem (s : State) (r : Nat) (c : Bool) : (s.logicFlags r c).mem = s.mem := rfl
@[simp]
theorem addFlags_regs (s : State) (a b : Nat) : (s.addFlags a b).regs = s.regs := rfl
@[simp]
theorem addFlags_n (s : State) (a b : Nat) :
    (s.addFlags a b).n = decide (2147483648 ≤ (a + b) % 4294967296) := rfl
@[simp]
theorem addFlags_stack (s : State) (a b : Nat) : (s.addFlags a b).stack = s.stack := rfl
@[simp]
theorem addFlags_log (s : State) (a b : Nat) : (s.addFlags a b).log = s.log := rfl
@[simp]
theorem addFlags_mem (s : State) (a b : Nat) : (s.addFlags a b).mem = s.mem := rfl
@[simp]
theorem subFlags_regs (s : State) (a b : Nat) : (s.subFlags a b).regs = s.regs := rfl
@[simp]
theorem subFlags_z (s : State) (a b : Nat) :
    (s.subFlags a b).z = decide (toWord ((a : Int) - b) = 0) := rfl
@[simp]
theorem subFlags_stack (s : State) (a b : Nat) : (s.subFlags a b).stack = s.stack := rfl
@[simp]
theorem subFlags_log (s : State) (a b : Nat) : (s.subFlags a b).log = s.log := rfl
@[simp]
theorem subFlags_mem (s : State) (a b : Nat) : (s.subFlags a b).mem = s.mem := rfl
@[simp]
theorem operand_imm (s : State) (w : Nat) : s.operand (.imm w) = w % 4294967296 := rfl
@[simp]
theorem operand_reg (s : State) (r : Register) : s.operand (.reg r) = s.regs r := rfl
@[simp]
theorem operand_LSL (s : State) (r : Register) (k : Nat) :
    s.operand (.shifted r .LSL k) = (s.regs r * 2 ^ k) % 4294967296 := rfl
@[simp]
theorem operand_LSR (s : State) (r : Register) (k : Nat) :
    s.operand (.shifted r .LSR k) = if k = 0 then 0 else s.regs r / 2 ^ k := rfl
@[simp]
theorem operand_ASR (s : State) (r : Register) (k : Nat) :
    s.operand (.shifted r .ASR k) = toWord (toInt (s.regs r) / 2 ^ (if k = 0 then 32 else k)) := rfl

theorem run_dp (rt : Runtime) (op : Opcode) (d a : Register) (b : Operand) (sb : SBit)
    (rest : List Instr) (s : State) :
    run rt (.dp op d a b sb .al :: rest) none s = run rt rest none (s.dataProcessing op d a b sb) := by
  simp [run, step, State.holds]

theorem run_b_taken (rt : Runtime) (c : Condition) (l : Label) (rest : List Instr) (s : State)
    (h : s.holds c = true) : run rt (.b c l :: rest) none s = run rt rest (some l) s := by
  simp [run, step, h]

theorem run_b_not_taken (rt : Runtime) (c : Condition) (l : Label) (rest : List Instr) (s : State)
    (h : s.holds c = false) : run rt (.b c l :: rest) none s = run rt rest none s := by
  simp [run, step, h]

theorem run_pop (rt : Runtime) (d : Register) (rest : List Instr) (s : State) (w : Nat)
    (r : List Nat) (h : s.stack = w :: r) :
    run rt (.pop d :: rest) none s = run rt rest none ({ s with stack := r }.set d w) := by
  simp [run, step, h]

theorem run_bind (rt : Runtime) (l : Label) (rest : List Instr) (s : State) :
    run rt (.bind l :: rest) none s = run rt rest none s := by
  simp [run, step]

theorem run_nil (rt : Runtime) (s : State) : run rt [] none s = .fallthrough s := rfl

theorem run_skip_nil (rt : Runtime) (l : Label) (s : State) : run rt [] (some l) s = .jumped l s := rfl

theorem run_skip (rt : Runtime) (i : Instr) (l : Label) (rest : List Instr) (s : State)
    (h : i ≠ .bind l) : run rt (i :: rest) (some l) s = run rt rest (some l) s := by
  simp [run, h]

theorem run_skip_bind (rt : Runtime) (l : Label) (rest : List Instr) (s : State) :
    run rt (.bind l :: rest) (some l) s = run rt rest none s := by
  simp [run]

theorem dataProcessing_tst (s : State) (a : Register) (b : Operand) :
    (s.dataProcessing .tst a a b .SetCC).regs = s.regs ∧
    (s.dataProcessing .tst a a b .SetCC).stack = s.stack ∧
    (s.dataProcessing .tst a a b .SetCC).log = s.log ∧
    (s.dataProcessing .tst a a b .SetCC).z = decide (s.regs a &&& s.operand b = 0) := by
  simp [State.dataProcessing, State.logicFlags]

theorem run_optimisticCode (rt : Runtime) (op : Opcode) (f k : Nat) (s : State) (w : Nat)
    (rest : List Nat) (hs : s.stack = w :: rest) (hop : op = .add ∨ op = .sub ∨ op = .rsb) :
    ∃ s', run rt (optimisticCode op f k) none s =
        (if ((({ s with stack := rest }.set .r0 w).dataProcessing op .r0 .r0 (.imm f) .SetCC).v ||
            decide ((({ s with stack := rest }.set .r0 w).dataProcessing op .r0 .r0 (.imm f) .SetCC).regs .r0 % 2 = 1))
              = true
         then Outcome.jumped (.deferred_enter k) s' else Outcome.fallthrough s')
      ∧ s'.regs .r0 = (({ s with stack := rest }.set .r0 w).dataProcessing op .r0 .r0 (.imm f) .SetCC).regs .r0
      ∧ s'.stack = rest ∧ s'.log = s.log := by
  have hst : (({ s with stack := rest }.set .r0 w).dataProcessing op .r0 .r0 (.imm f) .SetCC).stack = rest
      ∧ (({ s with stack := rest }.set .r0 w).dataProcessing op .r0 .r0 (.imm f) .SetCC).log = s.log := by
    rcases hop with rfl | rfl | rfl <;>
      simp [State.dataProcessing, State.set, State.addFlags, State.subFlags]
  unfold optimisticCode
  rw [run_pop rt _ _ s w rest hs, run_dp]
  generalize (({ s with stack := rest }.set .r0 w).dataProcessing op .r0 .r0 (.imm f) .SetCC) = s1 at *
  obtain ⟨h1, h2⟩ := hst
  by_cases hv : s1.v = true
  · refine ⟨s1, ?_, rfl, h1, h2⟩
    rw [run_b_taken _ _ _ _ _ (by simpa [State.holds] using hv)]
    simp [run, hv]
  · have hv' : s1.holds .vs = false := by simpa [State.holds] using hv
    rw [run_b_not_taken _ _ _ _ _ hv', run_dp]
    obtain ⟨t1, t2, t3, t4⟩ := dataProcessing_tst s1 .r0 (.imm Smi.kSmiTagMask)
    refine ⟨s1.dataProcessing .tst .r0 .r0 (.imm Smi.kSmiTagMask) .SetCC, ?_, by rw [t1], by rw [t2, h1], by rw [t3, h2]⟩
    have hz : (s1.dataProcessing .tst .r0 .r0 (.imm Smi.kSmiTagMask) .SetCC).z = decide (s1.regs .r0 % 2 = 0) := by
      rw [t4]; simp [State.operand, Smi.kSmiTagMask, Nat.and_one_is_mod]
    by_cases hp : s1.regs .r0 % 2 = 1
    · rw [run_b_taken _ _ _ _ _ (by
        simp only [State.holds, hz, Bool.not_eq_true', decide_eq_false_iff_not]; omega)]
      simp [run, hv, hp]
    · rw [run_b_not_taken _ _ _ _ _ (by
        simp only [State.holds, hz, Bool.not_eq_false', decide_eq_true_eq]; omega)]
      simp [run, hv, hp, step]

theorem emitted_ADD (cg : CodeGenerator) (v : Int) (r : Bool) :
    emitted cg (SmiOperation cg .ADD v r) = optimisticCode .add (Smi.FromInt v) cg.deferred_.length := by
  simp [emitted, SmiOperation, VirtualFrame.EmitPop, emit, JumpTarget.Branch, JumpTarget.Bind,
    newDeferredInlineSmiOperation, optimisticCode]

theorem emitted_SUB (cg : CodeGenerator) (v : Int) (r : Bool) :
    emitted cg (SmiOperation cg .SUB v r) =
      optimisticCode (if r then .rsb else .sub) (Smi.FromInt v) cg.deferred_.length := by
  cases r <;>
  simp [emitted, SmiOperation, VirtualFrame.EmitPop, emit, JumpTarget.Branch, JumpTarget.Bind,
    newDeferredInlineSmiOperation, optimisticCode]

theorem outcome_split {o : Outcome} {s' : State} {slow : Prop} [Decidable slow] {D : Label}
    {fast : Prop} {P : State → Prop}
    (h : o = if slow then Outcome.jumped D s' else Outcome.fallthrough s')
    (hs : slow ↔ ¬ fast) (hP : fast → P s') :
    ((∃ t, o = .fallthrough t) ↔ fast) ∧ ((∃ t, o = .jumped D t) ↔ ¬ fast) ∧
      (∀ t, o = .fallthrough t → P t) := by
  by_cases hslow : slow
  · have hf : ¬ fast := hs.mp hslow
    rw [if_pos hslow] at h
    subst h
    refine ⟨⟨fun ⟨t, ht⟩ => (by cases ht), fun h => absurd h hf⟩,
      ⟨fun _ => hf, fun _ => ⟨s', rfl⟩⟩, ?_⟩
    intro t ht
    cases ht
  · have hf : fast := by
      by_contra hn
      exact hslow (hs.mpr hn)
    rw [if_neg hslow] at h
    subst h
    refine ⟨⟨fun _ => hf, fun _ => ⟨s', rfl⟩⟩,
      ⟨fun ⟨t, ht⟩ => (by cases ht), fun hn => absurd hf hn⟩, ?_⟩
    intro t ht
    cases ht
    exact hP hf

/-- Overflow flag and result of the optimistic operation on `r0`. -/
theorem optimistic_values (s0 : State) (w f : Nat) :
    ((s0.set .r0 w).dataProcessing .add .r0 .r0 (.imm f) .SetCC).v =
        decide (toInt w + toInt (f % 4294967296) ≠ toInt ((w + f % 4294967296) % 4294967296)) ∧
    ((s0.set .r0 w).dataProcessing .add .r0 .r0 (.imm f) .SetCC).regs .r0 =
        (w + f % 4294967296) % 4294967296 ∧
    ((s0.set .r0 w).dataProcessing .sub .r0 .r0 (.imm f) .SetCC).v =
        decide (toInt w - toInt (f % 4294967296) ≠ toInt (toWord ((w : Int) - (f % 4294967296 : Nat)))) ∧
    ((s0.set .r0 w).dataProcessing .sub .r0 .r0 (.imm f) .SetCC).regs .r0 =
        toWord ((w : Int) - (f % 4294967296 : Nat)) ∧
    ((s0.set .r0 w).dataProcessing .rsb .r0 .r0 (.imm f) .SetCC).v =
        decide (toInt (f % 4294967296) - toInt w ≠ toInt (toWord (((f % 4294967296 : Nat) : Int) - w))) ∧
    ((s0.set .r0 w).dataProcessing .rsb .r0 .r0 (.imm f) .SetCC).regs .r0 =
        toWord (((f % 4294967296 : Nat) : Int) - w) := by
  simp [State.dataProcessing, State.set, State.addFlags, State.subFlags, State.operand]

theorem add_slow_iff (w : Nat) (v : Int) (hw : w < 4294967296) :
    ((decide (toInt w + toInt (Smi.FromInt v % 4294967296) ≠
        toInt ((w + Smi.FromInt v % 4294967296) % 4294967296)) ||
      decide ((w + Smi.FromInt v % 4294967296) % 4294967296 % 2 = 1)) = true) ↔
    ¬ (w % 2 = 0 ∧ -2147483648 ≤ toInt w + toInt (Smi.FromInt v) ∧
        toInt w + toInt (Smi.FromInt v) < 2147483648) := by
  simp only [Bool.or_eq_true, decide_eq_true_eq, ne_eq]
  simp only [toInt, toWord, Smi.FromInt, Smi.kSmiTagSize, Smi.kSmiTag, pow_one]
  split_ifs <;> omega

theorem sub_slow_iff (w : Nat) (v : Int) (hw : w < 4294967296) :
    ((decide (toInt w - toInt (Smi.FromInt v % 4294967296) ≠
        toInt (toWord ((w : Int) - (Smi.FromInt v % 4294967296 : Nat)))) ||
      decide (toWord ((w : Int) - (Smi.FromInt v % 4294967296 : Nat)) % 2 = 1)) = true) ↔
    ¬ (w % 2 = 0 ∧ -2147483648 ≤ toInt w - toInt (Smi.FromInt v) ∧
        toInt w - toInt (Smi.FromInt v) < 2147483648) := by
  simp only [Bool.or_eq_true, decide_eq_true_eq, ne_eq]
  simp only [toInt, toWord, Smi.FromInt, Smi.kSmiTagSize, Smi.kSmiTag, pow_one]
  split_ifs <;> omega

theorem rsb_slow_iff (w : Nat) (v : Int) (hw : w < 4294967296) :
    ((decide (toInt (Smi.FromInt v % 4294967296) - toInt w ≠
        toInt (toWord (((Smi.FromInt v % 4294967296 : Nat) : Int) - w))) ||
      decide (toWord (((Smi.FromInt v % 4294967296 : Nat) : Int) - w) % 2 = 1)) = true) ↔
    ¬ (w % 2 = 0 ∧ -2147483648 ≤ toInt (Smi.FromInt v) - toInt w ∧
        toInt (Smi.FromInt v) - toInt w < 2147483648) := by
  simp only [Bool.or_eq_true, decide_eq_true_eq, ne_eq]
  simp only [toInt, toWord, Smi.FromInt, Smi.kSmiTagSize, Smi.kSmiTag, pow_one]
  split_ifs <;> omega

theorem add_fast_result (w : Nat) (v : Int) (hw : w < 4294967296)
    (hv : -1073741824 ≤ v ∧ v < 1073741824)
    (hf : w % 2 = 0 ∧ -2147483648 ≤ toInt w + toInt (Smi.FromInt v) ∧
        toInt w + toInt (Smi.FromInt v) < 2147483648) :
    (w + Smi.FromInt v % 4294967296) % 4294967296 = Smi.FromInt (Smi.value w + v) ∧
      Smi.IsValid (Smi.value w + v) = true := by
  simp only [Smi.IsValid, Bool.and_eq_true, decide_eq_true_eq]
  simp only [toInt, toWord, Smi.FromInt, Smi.value, Smi.kSmiTagSize, Smi.kSmiTag, pow_one] at *
  split_ifs at * <;> omega

theorem sub_fast_result (w : Nat) (v : Int) (hw : w < 4294967296)
    (hv : -1073741824 ≤ v ∧ v < 1073741824)
    (hf : w % 2 = 0 ∧ -2147483648 ≤ toInt w - toInt (Smi.FromInt v) ∧
        toInt w - toInt (Smi.FromInt v) < 2147483648) :
    toWord ((w : Int) - (Smi.FromInt v % 4294967296 : Nat)) = Smi.FromInt (Smi.value w - v) ∧
      Smi.IsValid (Smi.value w - v) = true := by
  simp only [Smi.IsValid, Bool.and_eq_true, decide_eq_true_eq]
  simp only [toInt, toWord, Smi.FromInt, Smi.value, Smi.kSmiTagSize, Smi.kSmiTag, pow_one] at *
  split_ifs at * <;> omega

theorem rsb_fast_result (w : Nat) (v : Int) (hw : w < 4294967296)
    (hv : -1073741824 ≤ v ∧ v < 1073741824)
    (hf : w % 2 = 0 ∧ -2147483648 ≤ toInt (Smi.FromInt v) - toInt w ∧
        toInt (Smi.FromInt v) - toInt w < 2147483648) :
    toWord (((Smi.FromInt v % 4294967296 : Nat) : Int) - w) = Smi.FromInt (v - Smi.value w) ∧
      Smi.IsValid (v - Smi.value w) = true := by
  simp only [Smi.IsValid, Bool.and_eq_true, decide_eq_true_eq]
  simp only [toInt, toWord, Smi.FromInt, Smi.value, Smi.kSmiTagSize, Smi.kSmiTag, pow_one] at *
  split_ifs at * <;> omega

/-- C1: for every 32-bit operand word `w` and every small-integer literal `v`, the
inline ADD and SUB code of `SmiOperation` (reversed or not) falls through (does
not branch to the deferred code) exactly when `w` carries the small-integer tag
and the signed 32-bit operation on the tagged words does not overflow, and
branches to the deferred entry otherwise; on the fast path `r0` holds the tagged
form of the exact result `x + v`, `x - v`, or `v - x` when reversed, where `x`
is the untagged `w`. -/
theorem SmiOperation_add_sub_fast_path_iff
    (cg : CodeGenerator) (rt : Runtime) (s : State) (rest : List Nat) (w : Nat) (v : Int)
    (op : Token) (reversed : Bool)
    (hop : op = .ADD ∨ op = .SUB) (hw : w < 4294967296) (hv : Smi.IsValid v = true)
    (hs : s.stack = w :: rest) :
    let code := emitted cg (SmiOperation cg op v reversed)
    let tagged : Int :=
      if op = .ADD then toInt w + toInt (Smi.FromInt v)
      else if reversed then toInt (Smi.FromInt v) - toInt w
      else toInt w - toInt (Smi.FromInt v)
    let exact : Int :=
      if op = .ADD then Smi.value w + v
      else if reversed then v - Smi.value w
      else Smi.value w - v
    let fast : Prop := w % 2 = 0 ∧ -2147483648 ≤ tagged ∧ tagged < 2147483648
    ((∃ s', run rt code none s = .fallthrough s') ↔ fast) ∧
    ((∃ s', run rt code none s = .jumped (.deferred_enter cg.deferred_.length) s') ↔ ¬ fast) ∧
    (∀ s', run rt code none s = .fallthrough s' →
      s'.regs .r0 = Smi.FromInt exact ∧ Smi.IsValid exact = true) := by
  intro code tagged exact fast
  simp only [Smi.IsValid, Bool.and_eq_true, decide_eq_true_eq] at hv
  obtain ⟨a1, a2, b1, b2, c1, c2⟩ := optimistic_values { s with stack := rest } w (Smi.FromInt v)
  rcases hop with rfl | rfl
  · obtain ⟨s', h1, h2, -, -⟩ :=
      run_optimisticCode rt .add (Smi.FromInt v) cg.deferred_.length s w rest hs (Or.inl rfl)
    rw [← emitted_ADD cg v reversed, a1, a2] at h1
    rw [a2] at h2
    refine outcome_split h1 (add_slow_iff w v hw) ?_
    intro hf
    rw [h2]
    exact add_fast_result w v hw hv hf
  · cases reversed
    · obtain ⟨s', h1, h2, -, -⟩ :=
        run_optimisticCode rt .sub (Smi.FromInt v) cg.deferred_.length s w rest hs (Or.inr (Or.inl rfl))
      have e := emitted_SUB cg v false
      simp only [Bool.false_eq_true, if_false] at e
      rw [← e, b1, b2] at h1
      rw [b2] at h2
      refine outcome_split h1 (sub_slow_iff w v hw) ?_
      intro hf
      rw [h2]
      exact sub_fast_result w v hw hv hf
    · obtain ⟨s', h1, h2, -, -⟩ :=
        run_optimisticCode rt .rsb (Smi.FromInt v) cg.deferred_.length s w rest hs (Or.inr (Or.inr rfl))
      have e := emitted_SUB cg v true
      simp only [if_true] at e
      rw [← e, c1, c2] at h1
      rw [c2] at h2
      refine outcome_split h1 (rsb_slow_iff w v hw) ?_
      intro hf
      rw [h2]
      exact rsb_fast_result w v hw hv hf

theorem run_CallStub (rt : Runtime) (op : Token) (rest : List Instr) (s : State) :
    run rt (.CallStub op :: rest) none s =
      run rt rest none ({ s with log := s.log ++ [Event.stub op (s.regs .r1) (s.regs .r0)] }.set .r0
        (rt.stub op (s.regs .r1) (s.regs .r0))) := by
  simp [run, step]

theorem queued_deferred (cg : CodeGenerator) (op : Token) (v : Int) (reversed : Bool)
    (hop : op = .ADD ∨ op = .SUB) :
    (SmiOperation cg op v reversed).deferred_ = cg.deferred_ ++
      [{ op_ := op, value_ := v, reversed_ := reversed,
         enter_ := .deferred_enter cg.deferred_.length,
         exit_ := .deferred_exit cg.deferred_.length }] := by
  rcases hop with rfl | rfl <;> cases reversed <;>
  simp [SmiOperation, VirtualFrame.EmitPop, emit, JumpTarget.Branch, JumpTarget.Bind,
    newDeferredInlineSmiOperation]

/-- The code of `DeferredInlineSmiOperation::Generate` for ADD and SUB. -/
theorem emitted_Generate (cg2 : CodeGenerator) (op : Token) (v : Int) (reversed : Bool) (k : Nat)
    (hop : op = .ADD ∨ op = .SUB) :
    emitted cg2 (DeferredInlineSmiOperation_Generate cg2
      { op_ := op, value_ := v, reversed_ := reversed,
        enter_ := .deferred_enter k, exit_ := .deferred_exit k }) =
      [Instr.bind (.deferred_enter k),
       .dp (if op = .ADD then .sub else if reversed then .rsb else .add)
          (if reversed then .r0 else .r1) .r0 (.imm (Smi.FromInt v)) .LeaveCC .al,
       .dp .mov (if reversed then .r1 else .r0) (if reversed then .r1 else .r0)
          (.imm (Smi.FromInt v)) .LeaveCC .al,
       .CallStub op,
       .b .al (.deferred_exit k)] := by
  rcases hop with rfl | rfl <;> cases reversed <;>
  simp [emitted, DeferredInlineSmiOperation_Generate, emit, JumpTarget.Jump, JumpTarget.Bind,
    VirtualFrame.CallStub]

theorem run_Generate (rt : Runtime) (cg2 : CodeGenerator) (op : Token) (v : Int) (reversed : Bool)
    (k : Nat) (hop : op = .ADD ∨ op = .SUB) (t : State) :
    ∃ t', run rt (emitted cg2 (DeferredInlineSmiOperation_Generate cg2
      { op_ := op, value_ := v, reversed_ := reversed,
        enter_ := .deferred_enter k, exit_ := .deferred_exit k })) (some (.deferred_enter k)) t =
        .jumped (.deferred_exit k) t' ∧
      t'.stack = t.stack ∧
      t'.log = t.log ++ [Event.stub op
        (if reversed then Smi.FromInt v % 4294967296
         else if op = .ADD then toWord ((t.regs .r0 : Int) - (Smi.FromInt v % 4294967296 : Nat))
         else (t.regs .r0 + Smi.FromInt v % 4294967296) % 4294967296)
        (if reversed then
           (if op = .ADD then toWord ((t.regs .r0 : Int) - (Smi.FromInt v % 4294967296 : Nat))
            else toWord (((Smi.FromInt v % 4294967296 : Nat) : Int) - t.regs .r0))
         else Smi.FromInt v % 4294967296)] := by
  rw [emitted_Generate cg2 op v reversed k hop]
  rcases hop with rfl | rfl <;> cases reversed <;>
  simp [run, step, State.holds, State.dataProcessing, State.set, State.operand]

theorem SmiOperation_add_sub_fast_path_iff_witness :
    (8 < 4294967296 ∧ Smi.IsValid 5 = true) ∧
    ∀ s', run Runtime.zero (emitted (CodeGenerator.start 1)
        (SmiOperation (CodeGenerator.start 1) .ADD 5 false)) none (State.withTop 8) =
          .fallthrough s' →
      s'.regs .r0 = Smi.FromInt (Smi.value 8 + 5) ∧ Smi.IsValid (Smi.value 8 + 5) = true :=
  ⟨⟨by decide, by decide⟩,
   (SmiOperation_add_sub_fast_path_iff (CodeGenerator.start 1) Runtime.zero (State.withTop 8) []
      8 5 .ADD false (Or.inl rfl) (by decide) (by decide) rfl).2.2⟩

/-- C2: whenever the deferred code of the inline ADD or SUB path is entered
(the inline code branched to the deferred entry), `DeferredInlineSmiOperation::
Generate` undoes the optimistic operation, recovering the operand word `w`
exactly, and calls `GenericBinaryOpStub` with `r1` the left and `r0` the right
operand of the source expression: `w` in `r1` and the tagged literal in `r0`
when not reversed, the tagged literal in `r1` and `w` in `r0` when reversed. -/
theorem DeferredInlineSmiOperation_restores_operands
    (cg cg2 : CodeGenerator) (rt : Runtime) (s s' : State) (rest : List Nat) (w : Nat) (v : Int)
    (op : Token) (reversed : Bool)
    (hop : op = .ADD ∨ op = .SUB) (hw : w < 4294967296)
    (hs : s.stack = w :: rest)
    (hslow : run rt (emitted cg (SmiOperation cg op v reversed)) none s =
      .jumped (.deferred_enter cg.deferred_.length) s') :
    ∃ d, (SmiOperation cg op v reversed).deferred_ = cg.deferred_ ++ [d] ∧
      ∃ s'', run rt (emitted cg2 (DeferredInlineSmiOperation_Generate cg2 d))
          (some (.deferred_enter cg.deferred_.length)) s' =
            .jumped (.deferred_exit cg.deferred_.length) s'' ∧
        s''.log = s.log ++ [Event.stub op (if reversed then Smi.FromInt v else w)
          (if reversed then w else Smi.FromInt v)] := by
  refine ⟨_, queued_deferred cg op v reversed hop, ?_⟩
  obtain ⟨t', ht1, -, ht3⟩ := run_Generate rt cg2 op v reversed cg.deferred_.length hop s'
  refine ⟨t', ht1, ?_⟩
  rw [ht3]
  have hf : Smi.FromInt v < 4294967296 := by unfold Smi.FromInt toWord; omega
  obtain ⟨a1, a2, b1, b2, c1, c2⟩ := optimistic_values { s with stack := rest } w (Smi.FromInt v)
  have hregs : s'.log = s.log ∧ s'.regs .r0 =
      (if op = .ADD then (w + Smi.FromInt v % 4294967296) % 4294967296
       else if reversed then toWord (((Smi.FromInt v % 4294967296 : Nat) : Int) - w)
       else toWord ((w : Int) - (Smi.FromInt v % 4294967296 : Nat))) := by
    rcases hop with rfl | rfl
    · obtain ⟨s1, h1, h2, -, h4⟩ :=
        run_optimisticCode rt .add (Smi.FromInt v) cg.deferred_.length s w rest hs (Or.inl rfl)
      rw [← emitted_ADD cg v reversed, hslow] at h1
      split_ifs at h1
      · cases h1
        exact ⟨h4, by rw [h2, a2]; simp⟩
    · cases reversed
      · obtain ⟨s1, h1, h2, -, h4⟩ :=
          run_optimisticCode rt .sub (Smi.FromInt v) cg.deferred_.length s w rest hs (Or.inr (Or.inl rfl))
        have e := emitted_SUB cg v false
        simp only [Bool.false_eq_true, if_false] at e
        rw [← e, hslow] at h1
        split_ifs at h1
        · cases h1
          exact ⟨h4, by rw [h2, b2]; simp⟩
      · obtain ⟨s1, h1, h2, -, h4⟩ :=
          run_optimisticCode rt .rsb (Smi.FromInt v) cg.deferred_.length s w rest hs (Or.inr (Or.inr rfl))
        have e := emitted_SUB cg v true
        simp only [if_true] at e
        rw [← e, hslow] at h1
        split_ifs at h1
        · cases h1
          exact ⟨h4, by rw [h2, c2]; simp⟩
  obtain ⟨hl, hr⟩ := hregs
  rw [hl, hr, Nat.mod_eq_of_lt hf]
  clear ht1 ht3 hslow a1 a2 b1 b2 c1 c2 hr hl
  rcases hop with rfl | rfl <;> cases reversed <;> simp <;>
    (simp only [toWord]; omega)

theorem DeferredInlineSmiOperation_restores_operands_witness :
    ∃ s', run Runtime.zero (emitted (CodeGenerator.start 1)
        (SmiOperation (CodeGenerator.start 1) .SUB 1 true)) none (State.withTop 3) =
          .jumped (.deferred_enter 0) s' ∧
      ∃ d, (SmiOperation (CodeGenerator.start 1) .SUB 1 true).deferred_ = [] ++ [d] ∧
        ∃ s'', run Runtime.zero (emitted (CodeGenerator.start 0)
            (DeferredInlineSmiOperation_Generate (CodeGenerator.start 0) d))
            (some (.deferred_enter 0)) s' = .jumped (.deferred_exit 0) s'' ∧
          s''.log = [] ++ [Event.stub .SUB (Smi.FromInt 1) 3] :=
  have h : ∃ s', run Runtime.zero (emitted (CodeGenerator.start 1)
        (SmiOperation (CodeGenerator.start 1) .SUB 1 true)) none (State.withTop 3) =
          .jumped (.deferred_enter 0) s' := ⟨_, rfl⟩
  h.elim fun s' hs' => ⟨s', hs',
    DeferredInlineSmiOperation_restores_operands (CodeGenerator.start 1) (CodeGenerator.start 0)
      Runtime.zero (State.withTop 3) s' [] 3 1 .SUB true (Or.inr rfl) (by decide) rfl hs'⟩

/-! ### Inline shifts by a literal -/

theorem int_and_31 (v : Int) : int_and v 31 = v % 32 := by
  unfold int_and
  have h31 : toWord 31 = 31 := by decide
  rw [h31]
  have : toWord v &&& 31 = toWord v % 32 := Nat.and_pow_two_sub_one_eq_mod (toWord v) 5
  rw [this]
  unfold toInt toWord
  split_ifs <;> omega

theorem emitted_shift (cg : CodeGenerator) (op : Token) (v : Int)
    (hop : op = .SHL ∨ op = .SHR ∨ op = .SAR) :
    emitted cg (SmiOperation cg op v false) = shiftCode op (v % 32).toNat cg.deferred_.length := by
  have h0 : (v % 32 = 0) ↔ ((v % 32).toNat = 0) := by omega
  rcases hop with rfl | rfl | rfl <;>
  · simp only [SmiOperation, int_and_31]
    by_cases h : v % 32 = 0 <;>
    simp [emitted, VirtualFrame.EmitPop, emit, JumpTarget.Branch, JumpTarget.Bind,
      newDeferredInlineSmiOperation, shiftCode, h, h0.mp, ← h0]

theorem and_c0000000 (a : Nat) (h : a < 4294967296) :
    (a &&& 3221225472 = 0) ↔ a < 1073741824 := by
  have e : (3221225472 : Nat) = 2 ^ 30 ||| 2 ^ 31 := by decide
  rw [e, Nat.and_or_distrib_left, Nat.and_two_pow, Nat.and_two_pow]
  simp only [Nat.testBit_to_div_mod, Nat.reducePow]
  by_cases h30 : a / 1073741824 % 2 = 1 <;> by_cases h31 : a / 2147483648 % 2 = 1 <;>
    simp [h30, h31] <;> omega

theorem and_80000001 (a : Nat) (h : a < 4294967296) :
    (a &&& 2147483649 = 0) ↔ (a < 2147483648 ∧ a % 2 = 0) := by
  have e : (2147483649 : Nat) = 2 ^ 0 ||| 2 ^ 31 := by decide
  rw [e, Nat.and_or_distrib_left, Nat.and_two_pow, Nat.and_two_pow]
  simp only [Nat.testBit_to_div_mod, Nat.reducePow, Nat.div_one]
  by_cases h30 : a % 2 = 1 <;> by_cases h31 : a / 2147483648 % 2 = 1 <;>
    simp [h30, h31] <;> omega

theorem untag_FromInt (x : Int) (hx : Smi.IsValid x = true) :
    Smi.FromInt x % 2 = 0 ∧ toWord (toInt (Smi.FromInt x) / 2) = toWord x := by
  simp only [Smi.IsValid, Bool.and_eq_true, decide_eq_true_eq] at hx
  simp only [toInt, toWord, Smi.FromInt, Smi.kSmiTagSize, Smi.kSmiTag, pow_one]
  split_ifs <;> omega

theorem toWord_mul_pow (x : Int) (n : Nat) :
    (toWord x * 2 ^ n) % 4294967296 = toWord (x * 2 ^ n) := by
  have h : (((toWord x * 2 ^ n) % 4294967296 : Nat) : Int) = ((toWord (x * 2 ^ n) : Nat) : Int) := by
    unfold toWord
    push_cast
    rw [Int.toNat_of_nonneg (Int.emod_nonneg _ (by norm_num)),
      Int.toNat_of_nonneg (Int.emod_nonneg _ (by norm_num))]
    exact (Int.mod_modEq x 4294967296).mul_right (2 ^ n)
  exact_mod_cast h

theorem shl_arith (x : Int) (n : Nat) :
    (2147483648 ≤ ((toWord x * 2 ^ n) % 4294967296 + 1073741824) % 4294967296 ↔
        ¬ Smi.IsValid (toInt (toWord (x * 2 ^ n))) = true) ∧
      ((toWord x * 2 ^ n) % 4294967296 * 2) % 4294967296 =
        Smi.FromInt (toInt (toWord (x * 2 ^ n))) := by
  rw [toWord_mul_pow]
  have hy : toWord (x * 2 ^ n) < 4294967296 := by unfold toWord; omega
  generalize toWord (x * 2 ^ n) = y at *
  simp only [Smi.IsValid, Bool.and_eq_true, decide_eq_true_eq]
  simp only [toInt, toWord, Smi.FromInt, Smi.kSmiTagSize, Smi.kSmiTag, pow_one]
  split_ifs <;> omega

theorem run_shiftCode_SHL (rt : Runtime) (n k : Nat) (s : State) (w : Nat)
    (rest : List Nat) (hs : s.stack = w :: rest) (hw : w % 2 = 0) :
    ∃ s', run rt (shiftCode .SHL n k) none s =
        (if 2147483648 ≤ ((toWord (toInt w / 2) * 2 ^ n) % 4294967296 + 1073741824) % 4294967296
         then Outcome.jumped (.deferred_enter k) s' else Outcome.fallthrough s') ∧
      (¬ 2147483648 ≤ ((toWord (toInt w / 2) * 2 ^ n) % 4294967296 + 1073741824) % 4294967296 →
        s'.regs .r0 = ((toWord (toInt w / 2) * 2 ^ n) % 4294967296 * 2) % 4294967296) ∧
      s'.stack = rest ∧ s'.log = s.log := by
  simp only [shiftCode, List.cons_append, List.nil_append]
  rw [run_pop rt _ _ s w rest hs, run_dp, run_b_not_taken, run_dp, run_dp, run_dp]
  · by_cases h : 2147483648 ≤ (toWord (toInt w / 2) * 2 ^ n % 4294967296 + 1073741824) % 4294967296
    · rw [run_b_taken _ _ _ _ _ (by simpa [State.holds, Smi.kSmiTagSize] using h)]
      simp only [if_pos h]
      simp [run]
      omega
    · rw [run_b_not_taken _ _ _ _ _ (by simpa [State.holds, Smi.kSmiTagSize] using h), run_dp]
      simp only [if_neg h]
      simp [run, step, Smi.kSmiTagSize]
  · simp [State.holds, Smi.kSmiTagMask, Nat.and_one_is_mod, hw]

theorem run_shiftCode_SHR (rt : Runtime) (n k : Nat) (s : State) (w : Nat)
    (rest : List Nat) (hs : s.stack = w :: rest) (hw : w % 2 = 0) :
    ∃ s', run rt (shiftCode .SHR n k) none s =
        (if ¬ (toWord (toInt w / 2) / 2 ^ n) &&& 3221225472 = 0
         then Outcome.jumped (.deferred_enter k) s' else Outcome.fallthrough s') ∧
      ((toWord (toInt w / 2) / 2 ^ n) &&& 3221225472 = 0 →
        s'.regs .r0 = ((toWord (toInt w / 2) / 2 ^ n) * 2) % 4294967296) ∧
      s'.stack = rest ∧ s'.log = s.log := by
  simp only [ite_not]
  have hz : ∀ t : State, (t.dataProcessing .and_ .r3 .r2 (.imm 3221225472) .SetCC).holds .ne =
      !decide (t.regs .r2 &&& 3221225472 = 0) := by
    intro t; simp [State.holds]
  by_cases h0 : n = 0
  · subst h0
    simp only [shiftCode, List.cons_append, List.nil_append, ne_eq, not_true_eq_false, if_false,
      pow_zero, Nat.div_one]
    rw [run_pop rt _ _ s w rest hs, run_dp, run_b_not_taken, run_dp, run_dp]
    · by_cases h : toWord (toInt w / 2) &&& 3221225472 = 0
      · rw [run_b_not_taken _ _ _ _ _ (by rw [hz]; simp [Smi.kSmiTagSize, h]), run_dp]
        simp only [if_pos h]
        simp [run, step, Smi.kSmiTagSize]
      · rw [run_b_taken _ _ _ _ _ (by rw [hz]; simp [Smi.kSmiTagSize, h])]
        simp only [if_neg h]
        simp [run, h]
    · simp [State.holds, Smi.kSmiTagMask, Nat.and_one_is_mod, hw]
  · simp only [shiftCode, List.cons_append, List.nil_append, ne_eq, h0, not_false_eq_true, if_true]
    rw [run_pop rt _ _ s w rest hs, run_dp, run_b_not_taken, run_dp, run_dp, run_dp]
    · by_cases h : toWord (toInt w / 2) / 2 ^ n &&& 3221225472 = 0
      · rw [run_b_not_taken _ _ _ _ _ (by rw [hz]; simp [Smi.kSmiTagSize, h, h0]), run_dp]
        simp only [if_pos h]
        simp [run, step, Smi.kSmiTagSize, h0]
      · rw [run_b_taken _ _ _ _ _ (by rw [hz]; simp [Smi.kSmiTagSize, h, h0])]
        simp only [if_neg h]
        simp [run, h]
    · simp [State.holds, Smi.kSmiTagMask, Nat.and_one_is_mod, hw]

theorem run_skip_all (rt : Runtime) (l : Label) (xs : List Instr) (s : State)
    (h : Instr.bind l ∉ xs) : run rt xs (some l) s = .jumped l s := by
  induction xs with
  | nil => rfl
  | cons i rest ih =>
    simp only [List.mem_cons, not_or] at h
    rw [run_skip rt i l rest s (fun e => h.1 e.symm)]
    exact ih h.2

theorem run_shiftCode_nonsmi (rt : Runtime) (op : Token) (n k : Nat) (s : State) (w : Nat)
    (rest : List Nat) (hs : s.stack = w :: rest) (hw : w % 2 = 1) :
    ∃ s', run rt (shiftCode op n k) none s = .jumped (.deferred_enter k) s' ∧
      s'.regs .r0 = w ∧ s'.stack = rest ∧ s'.log = s.log := by
  simp only [shiftCode, List.cons_append, List.nil_append]
  rw [run_pop rt _ _ s w rest hs, run_dp, run_b_taken]
  · rw [run_skip_all]
    · exact ⟨_, rfl, by simp, by simp, by simp⟩
    · cases op <;> by_cases h : n = 0 <;> simp [h]
  · simp [State.holds, Smi.kSmiTagMask, Nat.and_one_is_mod, hw]

/-- C3: for every small integer `x` (operand word `Smi::FromInt x`) and literal
`v`, with shift count `s = v mod 32` in 0..31, the inline SHL code of
`SmiOperation` falls through exactly when the 32-bit result of `x << s` lies
in the small-integer range `[-2^30, 2^30)` and branches to the deferred code in
every other case; when it falls through, `r0` is the tagged form of that 32-bit
result, never another value. -/
theorem SmiOperation_SHL_fast_path_iff
    (cg : CodeGenerator) (rt : Runtime) (s : State) (rest : List Nat) (x v : Int)
    (hx : Smi.IsValid x = true) (hs : s.stack = Smi.FromInt x :: rest) :
    let code := emitted cg (SmiOperation cg .SHL v false)
    let result : Int := toInt (toWord (x * 2 ^ (v % 32).toNat))
    ((∃ s', run rt code none s = .fallthrough s') ↔ Smi.IsValid result = true) ∧
    ((∃ s', run rt code none s = .jumped (.deferred_enter cg.deferred_.length) s') ↔
      ¬ Smi.IsValid result = true) ∧
    (∀ s', run rt code none s = .fallthrough s' → s'.regs .r0 = Smi.FromInt result) := by
  intro code result
  obtain ⟨hw, hu⟩ := untag_FromInt x hx
  obtain ⟨s', h1, h2, -, -⟩ :=
    run_shiftCode_SHL rt (v % 32).toNat cg.deferred_.length s (Smi.FromInt x) rest hs hw
  rw [← emitted_shift cg .SHL v (Or.inl rfl), hu] at h1
  rw [hu] at h2
  obtain ⟨a1, a2⟩ := shl_arith x (v % 32).toNat
  refine outcome_split h1 a1 ?_
  intro hf
  rw [h2 (fun hn => (a1.mp hn) hf), a2]

theorem shr_arith (x : Int) (hx : Smi.IsValid x = true) (n : Nat) :
    (¬ (toWord x / 2 ^ n) &&& 3221225472 = 0 ↔ ¬ toWord x / 2 ^ n < 1073741824) ∧
    (toWord x / 2 ^ n * 2) % 4294967296 = Smi.FromInt ((toWord x / 2 ^ n : Nat) : Int) ∧
    (¬ toWord x / 2 ^ n < 1073741824 ↔ (x < 0 ∧ n ≤ 1)) := by
  have hy : toWord x < 4294967296 := by unfold toWord; omega
  have hd : toWord x / 2 ^ n ≤ toWord x := Nat.div_le_self _ _
  refine ⟨not_congr (and_c0000000 _ (by omega)), ?_, ?_⟩
  · generalize toWord x / 2 ^ n = u at *
    simp only [toWord, Smi.FromInt, Smi.kSmiTagSize, Smi.kSmiTag, pow_one]
    omega
  · simp only [Smi.IsValid, Bool.and_eq_true, decide_eq_true_eq] at hx
    rcases Nat.lt_or_ge n 2 with hn | hn
    · interval_cases n <;> simp only [toWord] at * <;> omega
    · have h4 : toWord x / 2 ^ n ≤ toWord x / 2 ^ 2 :=
        Nat.div_le_div_left (Nat.pow_le_pow_right (by norm_num) hn) (by norm_num)
      omega

/-- C4: for every small integer `x` and literal `v`, with shift count
`s = v mod 32`, the inline SHR code of `SmiOperation` falls through exactly when
the unsigned result `(x as a 32-bit word) >>> s` is below `2^30`, and then `r0`
is its tagged form; it branches to the deferred code exactly when `x` is
negative and `s` is 0 or 1, so never for `s` in 2..31. -/
theorem SmiOperation_SHR_fast_path_iff
    (cg : CodeGenerator) (rt : Runtime) (s : State) (rest : List Nat) (x v : Int)
    (hx : Smi.IsValid x = true) (hs : s.stack = Smi.FromInt x :: rest) :
    let code := emitted cg (SmiOperation cg .SHR v false)
    let result : Nat := toWord x / 2 ^ (v % 32).toNat
    ((∃ s', run rt code none s = .fallthrough s') ↔ result < 1073741824) ∧
    ((∃ s', run rt code none s = .jumped (.deferred_enter cg.deferred_.length) s') ↔
      ¬ result < 1073741824) ∧
    (∀ s', run rt code none s = .fallthrough s' → s'.regs .r0 = Smi.FromInt (result : Int)) ∧
    (¬ result < 1073741824 ↔ (x < 0 ∧ (v % 32 = 0 ∨ v % 32 = 1))) := by
  intro code result
  obtain ⟨hw, hu⟩ := untag_FromInt x hx
  obtain ⟨s', h1, h2, -, -⟩ :=
    run_shiftCode_SHR rt (v % 32).toNat cg.deferred_.length s (Smi.FromInt x) rest hs hw
  rw [← emitted_shift cg .SHR v (Or.inr (Or.inl rfl)), hu] at h1
  rw [hu] at h2
  obtain ⟨a1, a2, a3⟩ := shr_arith x hx (v % 32).toNat
  have key := outcome_split (P := fun t => t.regs .r0 = Smi.FromInt (result : Int)) h1 a1
    (fun hf => by
      show s'.regs .r0 = Smi.FromInt (result : Int)
      rw [h2 (by_contra fun hn => (a1.mp hn) hf), a2])
  refine ⟨key.1, key.2.1, key.2.2, ?_⟩
  rw [a3]
  constructor
  · rintro ⟨h, hn⟩; exact ⟨h, by omega⟩
  · rintro ⟨h, hn⟩; exact ⟨h, by omega⟩

/-- C5: for every literal `v` (negative values included) on the right of `<<`,
`>>` or `>>>`, `int_value & 0x1f` is `v mod 32`, a value in 0..31; the inline
code is the shift sequence for that count, and the deferred object queued for
the slow case carries the same count, which its code hands to
`GenericBinaryOpStub` as the tagged word in `r0` (operand in `r1`). -/
theorem SmiOperation_shift_count_mod_32
    (cg cg2 : CodeGenerator) (rt : Runtime) (t : State) (v : Int) (op : Token)
    (hop : op = .SHL ∨ op = .SHR ∨ op = .SAR) :
    int_and v 31 = v % 32 ∧ 0 ≤ v % 32 ∧ v % 32 < 32 ∧
    emitted cg (SmiOperation cg op v false) = shiftCode op (v % 32).toNat cg.deferred_.length ∧
    ∃ d, (SmiOperation cg op v false).deferred_ = cg.deferred_ ++ [d] ∧ d.value_ = v % 32 ∧
      ∃ t', run rt (emitted cg2 (DeferredInlineSmiOperation_Generate cg2 d))
          (some (.deferred_enter cg.deferred_.length)) t =
            .jumped (.deferred_exit cg.deferred_.length) t' ∧
        t'.log = t.log ++ [Event.stub op (t.regs .r0) (Smi.FromInt (v % 32))] := by
  refine ⟨int_and_31 v, by omega, by omega, emitted_shift cg op v hop, ?_⟩
  have hf : Smi.FromInt (v % 32) < 4294967296 := by unfold Smi.FromInt toWord; omega
  refine ⟨{ op_ := op, value_ := v % 32, reversed_ := false,
            enter_ := .deferred_enter cg.deferred_.length,
            exit_ := .deferred_exit cg.deferred_.length }, ?_, rfl, ?_⟩
  · have h0 : (v % 32 = 0) ↔ ((v % 32).toNat = 0) := by omega
    rcases hop with rfl | rfl | rfl <;>
    · simp only [SmiOperation, int_and_31]
      by_cases h : v % 32 = 0 <;>
      simp [VirtualFrame.EmitPop, emit, JumpTarget.Branch, JumpTarget.Bind,
        newDeferredInlineSmiOperation, h]
  · rcases hop with rfl | rfl | rfl <;>
    simp [emitted, DeferredInlineSmiOperation_Generate, emit, JumpTarget.Jump, JumpTarget.Bind,
      VirtualFrame.CallStub, run, step, State.holds, Nat.mod_eq_of_lt hf]

theorem SmiOperation_SHL_fast_path_iff_witness :
    Smi.IsValid 3 = true ∧
    ∀ s', run Runtime.zero (emitted (CodeGenerator.start 1)
        (SmiOperation (CodeGenerator.start 1) .SHL 2 false)) none
          (State.withTop (Smi.FromInt 3)) = .fallthrough s' →
      s'.regs .r0 = Smi.FromInt (toInt (toWord (3 * 2 ^ ((2 : Int) % 32).toNat))) :=
  ⟨by decide,
   (SmiOperation_SHL_fast_path_iff (CodeGenerator.start 1) Runtime.zero
      (State.withTop (Smi.FromInt 3)) [] 3 2 (by decide) rfl).2.2⟩

theorem SmiOperation_SHR_fast_path_iff_witness :
    Smi.IsValid (-1) = true ∧
    (¬ toWord (-1) / 2 ^ ((1 : Int) % 32).toNat < 1073741824 ↔
      ((-1 : Int) < 0 ∧ ((1 : Int) % 32 = 0 ∨ (1 : Int) % 32 = 1))) :=
  ⟨by decide,
   (SmiOperation_SHR_fast_path_iff (CodeGenerator.start 1) Runtime.zero
      (State.withTop (Smi.FromInt (-1))) [] (-1) 1 (by decide) rfl).2.2.2⟩

theorem SmiOperation_shift_count_mod_32_witness :
    int_and (-1) 31 = (-1) % 32 ∧ (0 : Int) ≤ (-1) % 32 ∧ ((-1) % 32 : Int) < 32 :=
  have h := SmiOperation_shift_count_mod_32 (CodeGenerator.start 1) (CodeGenerator.start 0)
    Runtime.zero (State.withTop 0) (-1) .SAR (Or.inr (Or.inr rfl))
  ⟨h.1, h.2.1, h.2.2.1⟩

/-! ### Comparison -/

@[simp]
theorem dp_orr (s : State) (d a : Register) (b : Operand) :
    s.dataProcessing .orr d a b .LeaveCC = s.set d (s.regs a ||| s.operand b) := by
  simp [State.dataProcessing]

@[simp]
theorem dp_cmp (s : State) (d a : Register) (b : Operand) (sb : SBit) :
    s.dataProcessing .cmp d a b sb = s.subFlags (s.regs a) (s.operand b) := by
  simp [State.dataProcessing]

theorem run_push (rt : Runtime) (r : Register) (rest : List Instr) (s : State) :
    run rt (.push r :: rest) none s = run rt rest none { s with stack := s.regs r :: s.stack } := by
  simp [run, step]

theorem emitted_Comparison (cg : CodeGenerator) (op : Token)
    (hop : op = .LT ∨ op = .GT ∨ op = .LTE ∨ op = .GTE) :
    emitted cg (VisitCompareOperation_Comparison cg op) =
      compareCode (decide (op = .GT ∨ op = .LTE)) (if op = .LT ∨ op = .GT then GREATER else LESS) ∧
    (VisitCompareOperation_Comparison cg op).cc_reg_ =
      (if op = .LT ∨ op = .GT then .lt else .ge) := by
  rcases hop with rfl | rfl | rfl | rfl <;>
  simp [emitted, VisitCompareOperation_Comparison, Comparison, ReverseCondition,
    VirtualFrame.EmitPop, VirtualFrame.EmitPush, VirtualFrame.InvokeBuiltin, emit,
    JumpTarget.Branch, JumpTarget.Bind, JumpTarget.Jump, compareCode]

theorem or_odd (x y : Nat) (h : (x ||| y) % 2 = 1) : (y ||| x) % 2 = 1 := by
  rw [Nat.lor_comm]; exact h

theorem run_compareCode (rt : Runtime) (reversed : Bool) (ncr : Int) (s : State) (x y : Nat)
    (rest : List Nat) (hs : s.stack = y :: x :: rest) (hxy : (x ||| y) % 2 = 1) :
    ∃ s', run rt (compareCode reversed ncr) none s = .fallthrough s' ∧
      s'.stack = rest ∧
      s'.log = s.log ++ [Event.builtin .COMPARE
        [Smi.FromInt ncr % 4294967296, if reversed then x else y, if reversed then y else x]] := by
  have hyx := or_odd x y hxy
  cases reversed <;>
  · simp only [compareCode, Bool.false_eq_true, if_false, if_true]
    rw [run_pop rt _ _ s y (x :: rest) hs, run_pop rt _ _ _ x rest rfl, run_dp, run_dp,
      run_b_not_taken _ _ _ _ _ (by
        simp [State.holds, Smi.kSmiTagMask, Nat.and_one_is_mod, hxy, hyx])]
    simp [run, step, State.holds]

/-- C6, counterexample: for the source operator `<=` with operands that are not
both small integers (left `1`, a heap pointer, and right `2`), the code of
`Comparison` passes the tagged `LESS`, not `GREATER`, as the NaN-result
indicator to the COMPARE builtin (whose receiver and argument are swapped). -/
theorem Comparison_LTE_passes_LESS :
    ∃ s', run Runtime.zero (emitted (CodeGenerator.start 2)
        (VisitCompareOperation_Comparison (CodeGenerator.start 2) .LTE)) none
          (State.withStack [2, 1]) = .fallthrough s' ∧
      s'.log = [Event.builtin .COMPARE [Smi.FromInt LESS, 1, 2]] ∧
      Smi.FromInt LESS ≠ Smi.FromInt GREATER :=
  ⟨_, rfl, rfl, by decide⟩

/-- C6, amended: in `Comparison`, for a relational comparison whose operands are
not both small integers, the NaN-result indicator passed to the COMPARE builtin
is chosen by the condition after normalisation: `GREATER` when the condition
tested is `lt` (source `<`, and source `>` with operands swapped), `LESS` when
it is `ge` (source `>=`, and source `<=` with operands swapped). -/
theorem Comparison_NaN_result_by_normalized_condition
    (cg : CodeGenerator) (rt : Runtime) (s : State) (rest : List Nat) (x y : Nat) (op : Token)
    (hop : op = .LT ∨ op = .GT ∨ op = .LTE ∨ op = .GTE)
    (hs : s.stack = y :: x :: rest) (hxy : (x ||| y) % 2 = 1) :
    let ncr : Int := if op = .LT ∨ op = .GT then GREATER else LESS
    let swapped : Bool := decide (op = .GT ∨ op = .LTE)
    (VisitCompareOperation_Comparison cg op).cc_reg_ = (if op = .LT ∨ op = .GT then .lt else .ge) ∧
    ∃ s', run rt (emitted cg (VisitCompareOperation_Comparison cg op)) none s = .fallthrough s' ∧
      s'.stack = rest ∧
      s'.log = s.log ++ [Event.builtin .COMPARE
        [Smi.FromInt ncr, if swapped then x else y, if swapped then y else x]] := by
  intro ncr swapped
  obtain ⟨e1, e2⟩ := emitted_Comparison cg op hop
  refine ⟨e2, ?_⟩
  rw [e1]
  obtain ⟨s', h1, h2, h3⟩ := run_compareCode rt swapped ncr s x y rest hs hxy
  have hf : Smi.FromInt ncr < 4294967296 := by unfold Smi.FromInt toWord; omega
  rw [Nat.mod_eq_of_lt hf] at h3
  exact ⟨s', h1, h2, h3⟩

theorem Comparison_NaN_result_by_normalized_condition_witness :
    ∃ s', run Runtime.zero (emitted (CodeGenerator.start 2)
        (VisitCompareOperation_Comparison (CodeGenerator.start 2) .GT)) none
          (State.withStack [2, 1]) = .fallthrough s' ∧
      s'.stack = [] ∧
      s'.log = [] ++ [Event.builtin .COMPARE [Smi.FromInt GREATER, 1, 2]] :=
  (Comparison_NaN_result_by_normalized_condition (CodeGenerator.start 2) Runtime.zero
    (State.withStack [2, 1]) [] 1 2 .GT (Or.inr (Or.inl rfl)) rfl (by decide)).2

/-! ### ToBoolean -/

theorem toWord_sub_eq_zero (a b : Nat) (ha : a < 4294967296) (hb : b < 4294967296) :
    toWord ((a : Int) - b) = 0 ↔ a = b := by
  unfold toWord; omega

theorem emitted_ToBoolean (cg : CodeGenerator) (F : Factory) (tt ft : Label) :
    emitted cg (ToBoolean cg F tt ft) = toBooleanCode F tt ft ∧
      (ToBoolean cg F tt ft).cc_reg_ = .ne ∧
      (ToBoolean cg F tt ft).frame_ = cg.frame_.map (· - 1) := by
  refine ⟨?_, rfl, ?_⟩
  · simp [emitted, ToBoolean, VirtualFrame.EmitPop, VirtualFrame.EmitPush,
      VirtualFrame.CallRuntime, emit, JumpTarget.Branch, toBooleanCode]
  · simp [ToBoolean, VirtualFrame.EmitPop, VirtualFrame.EmitPush,
      VirtualFrame.CallRuntime, emit, JumpTarget.Branch]
    cases cg.frame_ <;> simp

theorem cmp_imm_eq (s : State) (d a : Register) (c : Nat) (ha : s.regs a < 4294967296)
    (hc : c < 4294967296) :
    (s.dataProcessing .cmp d a (.imm c) .SetCC).holds .eq = decide (s.regs a = c) := by
  simp only [dp_cmp, State.holds, subFlags_z, operand_imm, Nat.mod_eq_of_lt hc]
  exact decide_eq_decide.mpr (toWord_sub_eq_zero _ _ ha hc)

theorem run_toBoolean_slow (rt : Runtime) (F : Factory) (t : State)
    (h1 : F.false_value < 4294967296)
    (hr : rt.callRuntime .kToBool [t.regs .r0] < 4294967296) :
    ∃ s', run rt [Instr.push .r0, .CallRuntime .kToBool 1,
        .dp .cmp .r0 .r0 (.imm F.false_value) .SetCC .al] none t = .fallthrough s' ∧
      s'.stack = t.stack ∧
      s'.log = t.log ++ [Event.runtime .kToBool [t.regs .r0]] ∧
      (s'.holds .ne = true ↔ rt.callRuntime .kToBool [t.regs .r0] ≠ F.false_value) := by
  refine ⟨_, by simp [run, step, State.holds]; rfl, by simp, by simp, ?_⟩
  simp only [State.holds, dp_cmp, subFlags_z, set_regs, operand_imm, Nat.mod_eq_of_lt h1,
    if_true, Bool.not_eq_true', decide_eq_false_iff_not, ne_eq]
  exact not_congr (toWord_sub_eq_zero _ _ hr h1)

/-- Running the code of `ToBoolean` from a state with `w` on top of the stack. -/
theorem run_toBooleanCode (rt : Runtime) (F : Factory) (tt ft : Label) (s : State) (w : Nat)
    (rest : List Nat) (hs : s.stack = w :: rest) (hw : w < 4294967296)
    (h1 : F.false_value < 4294967296) (h2 : F.true_value < 4294967296)
    (h3 : F.undefined_value < 4294967296)
    (hr : rt.callRuntime .kToBool [w] < 4294967296) :
    ∃ s', s'.stack = rest ∧
      run rt (toBooleanCode F tt ft) none s =
        (if w = F.false_value then Outcome.jumped ft s'
         else if w = F.true_value then Outcome.jumped tt s'
         else if w = F.undefined_value then Outcome.jumped ft s'
         else if w = 0 then Outcome.jumped ft s'
         else if w % 2 = 0 then Outcome.jumped tt s'
         else Outcome.fallthrough s') ∧
      (¬ w = F.false_value → ¬ w = F.true_value → ¬ w = F.undefined_value → ¬ w = 0 →
        ¬ w % 2 = 0 →
          s'.log = s.log ++ [Event.runtime .kToBool [w]] ∧
          (s'.holds .ne = true ↔ rt.callRuntime .kToBool [w] ≠ F.false_value)) ∧
      ((w = F.false_value ∨ w = F.true_value ∨ w = F.undefined_value ∨ w % 2 = 0) →
        s'.log = s.log) := by
  have h0 : Smi.FromInt 0 = 0 := by decide
  simp only [toBooleanCode, h0]
  rw [run_pop rt _ _ s w rest hs, run_dp]
  by_cases c1 : w = F.false_value
  · rw [run_b_taken _ _ _ _ _ (by rw [cmp_imm_eq _ _ _ _ (by simpa using hw) h1]; simpa using c1),
      run_skip_all _ _ _ _ (by simp)]
    refine ⟨_, ?_, (by rw [if_pos c1]), fun h => absurd c1 h, fun _ => ?_⟩ <;> simp
  rw [run_b_not_taken _ _ _ _ _ (by rw [cmp_imm_eq _ _ _ _ (by simpa using hw) h1]; simpa using c1),
    run_dp]
  by_cases c2 : w = F.true_value
  · rw [run_b_taken _ _ _ _ _ (by rw [cmp_imm_eq _ _ _ _ (by simpa using hw) h2]; simpa using c2),
      run_skip_all _ _ _ _ (by simp)]
    refine ⟨_, ?_, (by rw [if_neg c1, if_pos c2]), fun _ h => absurd c2 h, fun _ => ?_⟩ <;> simp
  rw [run_b_not_taken _ _ _ _ _ (by rw [cmp_imm_eq _ _ _ _ (by simpa using hw) h2]; simpa using c2),
    run_dp]
  by_cases c3 : w = F.undefined_value
  · rw [run_b_taken _ _ _ _ _ (by rw [cmp_imm_eq _ _ _ _ (by simpa using hw) h3]; simpa using c3),
      run_skip_all _ _ _ _ (by simp)]
    refine ⟨_, ?_, (by rw [if_neg c1, if_neg c2, if_pos c3]), fun _ _ h => absurd c3 h,
      fun _ => ?_⟩ <;> simp
  rw [run_b_not_taken _ _ _ _ _ (by rw [cmp_imm_eq _ _ _ _ (by simpa using hw) h3]; simpa using c3),
    run_dp]
  by_cases c4 : w = 0
  · rw [run_b_taken _ _ _ _ _ (by
        rw [cmp_imm_eq _ _ _ _ (by simpa using hw) (by norm_num)]; simpa using c4),
      run_skip_all _ _ _ _ (by simp)]
    refine ⟨_, ?_, (by rw [if_neg c1, if_neg c2, if_neg c3, if_pos c4]),
      fun _ _ _ h => absurd c4 h, fun _ => ?_⟩ <;> simp
  rw [run_b_not_taken _ _ _ _ _ (by
      rw [cmp_imm_eq _ _ _ _ (by simpa using hw) (by norm_num)]; simpa using c4),
    run_dp]
  by_cases c5 : w % 2 = 0
  · rw [run_b_taken _ _ _ _ _ (by
        simp [State.holds, Smi.kSmiTagMask, Nat.and_one_is_mod, c5]),
      run_skip_all _ _ _ _ (by simp)]
    refine ⟨_, ?_, (by rw [if_neg c1, if_neg c2, if_neg c3, if_neg c4, if_pos c5]),
      fun _ _ _ _ h => absurd c5 h, fun _ => ?_⟩ <;> simp
  rw [run_b_not_taken _ _ _ _ _ (by
      simp [State.holds, Smi.kSmiTagMask, Nat.and_one_is_mod, c5])]
  simp only [if_neg c1, if_neg c2, if_neg c3, if_neg c4, if_neg c5]
  generalize ht : (((((({ s with stack := rest } : State).set .r0 w).dataProcessing .cmp .r0 .r0
    (.imm F.false_value) .SetCC).dataProcessing .cmp .r0 .r0 (.imm F.true_value) .SetCC).dataProcessing
    .cmp .r0 .r0 (.imm F.undefined_value) .SetCC).dataProcessing .cmp .r0 .r0 (.imm 0) .SetCC).dataProcessing
    .tst .r0 .r0 (.imm Smi.kSmiTagMask) .SetCC = t
  have t1 : t.regs .r0 = w := by rw [← ht]; simp
  have t2 : t.stack = rest := by rw [← ht]; simp
  have t3 : t.log = s.log := by rw [← ht]; simp
  obtain ⟨s', e1, e2, e3, e4⟩ := run_toBoolean_slow rt F t h1 (by rw [t1]; exact hr)
  rw [t1] at e3 e4
  refine ⟨s', by rw [e2, t2], e1, fun _ _ _ _ _ => ⟨by rw [e3, t3], e4⟩, ?_⟩
  rintro (h | h | h | h)
  · exact absurd h c1
  · exact absurd h c2
  · exact absurd h c3
  · exact absurd h c5

/-- C7: for every value `w`, the code emitted by `ToBoolean` reaches the false
outcome (a jump to the false target, or falling through with the condition
`ne` not holding) iff the value is one of `false`, `undefined`, `null`, `+0`,
`-0`, NaN or the empty string.  The inline checks send `false`, `undefined`
and the small integer 0 to the false target, `true` and every non-zero small
integer to the true target, and pass every other value to the runtime ToBool,
after which `ne` holds iff the runtime result is not the `false` object. -/
theorem ToBoolean_false_outcome_iff_falsy
    (F : Factory) (H : Heap) (hwf : H.WellFormed F) (cg : CodeGenerator) (rt : Runtime)
    (hrt : ∀ a, rt.callRuntime .kToBool [a] = Runtime_ToBool F H a)
    (tt ft : Label) (htf : tt ≠ ft) (s : State) (w : Nat) (rest : List Nat)
    (hs : s.stack = w :: rest) (hw : w < 4294967296) :
    let o := run rt (emitted cg (ToBoolean cg F tt ft)) none s
    (ToBoolean cg F tt ft).cc_reg_ = .ne ∧
    ((w = F.false_value ∨ w = F.undefined_value ∨ w = Smi.FromInt 0) →
      ∃ s', o = .jumped ft s' ∧ s'.stack = rest) ∧
    ((w = F.true_value ∨ (w % 2 = 0 ∧ w ≠ Smi.FromInt 0)) →
      ∃ s', o = .jumped tt s' ∧ s'.stack = rest) ∧
    ((w ≠ F.false_value ∧ w ≠ F.true_value ∧ w ≠ F.undefined_value ∧ w % 2 = 1) →
      ∃ s', o = .fallthrough s' ∧ s'.stack = rest ∧
        s'.log = s.log ++ [Event.runtime .kToBool [w]] ∧
        (s'.holds .ne = true ↔ rt.callRuntime .kToBool [w] ≠ F.false_value)) ∧
    (((∃ s', o = .jumped ft s') ∨ (∃ s', o = .fallthrough s' ∧ s'.holds .ne = false)) ↔
      (H.valueOf w).ToBoolean = false) := by
  intro o
  obtain ⟨f1, f2, f3, o1, o2, o3, u1, u2, u3, u4⟩ := hwf
  have h0 : Smi.FromInt 0 = 0 := by decide
  have hft : F.false_value ≠ F.true_value := by
    intro e
    have a := (u1 F.false_value o1).mpr rfl
    have b := (u2 F.false_value o1).mpr e
    rw [a] at b
    cases b
  have hfu : F.false_value ≠ F.undefined_value := by
    intro e
    have a := (u1 F.false_value o1).mpr rfl
    have b := (u3 F.false_value o1).mpr e
    rw [a] at b
    cases b
  have htu : F.true_value ≠ F.undefined_value := by
    intro e
    have a := (u2 F.true_value o2).mpr rfl
    have b := (u3 F.true_value o2).mpr e
    rw [a] at b
    cases b
  have hr : rt.callRuntime .kToBool [w] < 4294967296 := by
    rw [hrt]; unfold Runtime_ToBool; split <;> assumption
  obtain ⟨s', r1, r2, r3, -⟩ := run_toBooleanCode rt F tt ft s w rest hs hw f1 f2 f3 hr
  rw [← (emitted_ToBoolean cg F tt ft).1] at r2
  change o = _ at r2
  rw [h0]
  have hval : ∀ hz : w % 2 = 0, (H.valueOf w).ToBoolean = decide (w ≠ 0) := by
    intro hz
    simp only [Heap.valueOf, hz, if_true, Value.ToBoolean, Smi.value, toInt, Smi.kSmiTagSize,
      pow_one]
    apply decide_eq_decide.mpr
    split_ifs <;> omega
  have hobj : ∀ hz : ¬ w % 2 = 0, H.valueOf w = H.object w := by
    intro hz; simp [Heap.valueOf, hz]
  clear_value o
  refine ⟨(emitted_ToBoolean cg F tt ft).2.1, ?_, ?_, ?_, ?_⟩
  · rintro (rfl | rfl | rfl)
    · exact ⟨s', by rw [r2, if_pos rfl], r1⟩
    · exact ⟨s', by rw [r2, if_neg (Ne.symm hfu), if_neg (Ne.symm htu), if_pos rfl], r1⟩
    · refine ⟨s', ?_, r1⟩
      rw [r2, if_neg (by omega), if_neg (by omega), if_neg (by omega), if_pos rfl]
  · rintro (rfl | ⟨hz, hnz⟩)
    · exact ⟨s', by rw [r2, if_neg (Ne.symm hft), if_pos rfl], r1⟩
    · refine ⟨s', ?_, r1⟩
      rw [r2, if_neg (by omega), if_neg (by omega), if_neg (by omega), if_neg hnz, if_pos hz]
  · rintro ⟨c1, c2, c3, c5⟩
    have c4 : ¬ w = 0 := by omega
    have c5' : ¬ w % 2 = 0 := by omega
    obtain ⟨l1, l2⟩ := r3 c1 c2 c3 c4 c5'
    exact ⟨s', by rw [r2, if_neg c1, if_neg c2, if_neg c3, if_neg c4, if_neg c5'], r1, l1, l2⟩
  · by_cases c1 : w = F.false_value
    · rw [r2, if_pos c1, hobj (by omega), (u1 w (by omega)).mpr c1]
      simp [Value.ToBoolean]
    by_cases c2 : w = F.true_value
    · rw [r2, if_neg c1, if_pos c2, hobj (by omega), (u2 w (by omega)).mpr c2]
      simp [Value.ToBoolean, htf]
    by_cases c3 : w = F.undefined_value
    · rw [r2, if_neg c1, if_neg c2, if_pos c3, hobj (by omega), (u3 w (by omega)).mpr c3]
      simp [Value.ToBoolean]
    by_cases c4 : w = 0
    · rw [r2, if_neg c1, if_neg c2, if_neg c3, if_pos c4, hval (by omega)]
      simp [c4]
    by_cases c5 : w % 2 = 0
    · rw [r2, if_neg c1, if_neg c2, if_neg c3, if_neg c4, if_pos c5, hval c5]
      simp [c4, htf]
    · obtain ⟨-, l2⟩ := r3 c1 c2 c3 c4 c5
      rw [r2, if_neg c1, if_neg c2, if_neg c3, if_neg c4, if_neg c5]
      rw [hrt] at l2
      unfold Runtime_ToBool at l2
      by_cases hb : (H.valueOf w).ToBoolean = true
      · rw [if_pos hb] at l2
        have : s'.holds .ne = true := l2.mpr (Ne.symm hft)
        simp [hb, this]
      · rw [if_neg hb] at l2
        have : s'.holds .ne = false := by
          cases hh : s'.holds .ne
          · rfl
          · exact absurd rfl (l2.mp hh)
        simp only [Bool.not_eq_true] at hb
        simp [hb, this]

theorem Heap.sample_WellFormed : Heap.sample.WellFormed Factory.sample := by
  refine ⟨by decide, by decide, by decide, by decide, by decide, by decide, ?_, ?_, ?_, ?_⟩
  · intro w _
    simp only [Heap.sample, Factory.sample]
    split_ifs <;> simp_all
  · intro w _
    simp only [Heap.sample, Factory.sample]
    split_ifs <;> simp_all
  · intro w _
    simp only [Heap.sample, Factory.sample]
    split_ifs <;> simp_all
  · intro w v
    simp only [Heap.sample]
    split_ifs <;> simp

theorem ToBoolean_false_outcome_iff_falsy_witness :
    ((∃ s', run (Runtime.withToBool Factory.sample Heap.sample)
        (emitted (CodeGenerator.start 1)
          (ToBoolean (CodeGenerator.start 1) Factory.sample .true_target .false_target))
        none (State.withTop 11) = .jumped .false_target s') ∨
     (∃ s', run (Runtime.withToBool Factory.sample Heap.sample)
        (emitted (CodeGenerator.start 1)
          (ToBoolean (CodeGenerator.start 1) Factory.sample .true_target .false_target))
        none (State.withTop 11) = .fallthrough s' ∧ s'.holds .ne = false)) ↔
      (Heap.sample.valueOf 11).ToBoolean = false :=
  (ToBoolean_false_outcome_iff_falsy Factory.sample Heap.sample Heap.sample_WellFormed
    (CodeGenerator.start 1) (Runtime.withToBool Factory.sample Heap.sample) (fun _ => rfl)
    .true_target .false_target (by decide) (State.withTop 11) 11 [] rfl (by decide)).2.2.2.2

/-! ### Short-circuit operators -/

theorem run_append (rt : Runtime) (xs ys : List Instr) (m : Option Label) (s : State) :
    run rt (xs ++ ys) m s =
      match run rt xs m s with
      | .fallthrough s' => run rt ys none s'
      | .jumped l s' => run rt ys (some l) s'
      | .table index s' => .table index s'
      | .stuck => .stuck := by
  induction xs generalizing m s with
  | nil => cases m <;> rfl
  | cons i rest ih =>
    cases m with
    | none =>
      simp only [List.cons_append, run]
      cases step rt i s with
      | next s' => exact ih none s'
      | branch l s' => exact ih (some l) s'
      | table index s' => rfl
      | stop => rfl
    | some l =>
      simp only [List.cons_append, run]
      split
      · exact ih none s
      · exact ih (some l) s

theorem is_linked_fresh (cg : CodeGenerator) (h : cg.TargetsFresh) (n : Nat)
    (hn : cg.next_target_ ≤ n) : cg.is_linked (.target n) = false := by
  unfold is_linked
  rw [List.any_eq_false]
  intro p hp
  simpa using h p hp n hn

theorem WellFormed_distinct (F : Factory) (H : Heap) (hwf : H.WellFormed F) :
    F.false_value ≠ F.true_value := by
  obtain ⟨-, -, -, o1, -, -, u1, u2, -, -⟩ := hwf
  intro e
  have a := (u1 F.false_value o1).mpr rfl
  have b := (u2 F.false_value o1).mpr e
  rw [a] at b
  cases b

theorem truthy_iff_ToBoolean (F : Factory) (H : Heap) (hwf : H.WellFormed F) (rt : Runtime)
    (hrt : ∀ a, rt.callRuntime .kToBool [a] = Runtime_ToBool F H a) (a : Nat)
    (ha : a < 4294967296) :
    (a = F.true_value ∨ (a % 2 = 0 ∧ a ≠ 0) ∨
      (¬ (a = F.false_value ∨ a = F.true_value ∨ a = F.undefined_value ∨ a % 2 = 0) ∧
        rt.callRuntime .kToBool [a] ≠ F.false_value)) ↔ (H.valueOf a).ToBoolean = true := by
  have hft := WellFormed_distinct F H hwf
  obtain ⟨-, -, -, o1, o2, o3, u1, u2, u3, -⟩ := hwf
  by_cases c5 : a % 2 = 0
  · have hval : (H.valueOf a).ToBoolean = decide (a ≠ 0) := by
      simp only [Heap.valueOf, c5, if_true, Value.ToBoolean, Smi.value, toInt, Smi.kSmiTagSize,
        pow_one]
      apply decide_eq_decide.mpr
      split_ifs <;> omega
    rw [hval]
    simp only [decide_eq_true_eq, c5, true_and, or_true, not_true_eq_false, false_and, or_false]
    constructor
    · rintro (h | h)
      · omega
      · exact h
    · intro h; exact Or.inr h
  · have hobj : H.valueOf a = H.object a := by simp [Heap.valueOf, c5]
    rw [hobj, hrt]
    unfold Runtime_ToBool
    rw [hobj]
    by_cases c1 : a = F.false_value
    · rw [(u1 a (by omega)).mpr c1]
      simp only [Value.ToBoolean]
      constructor
      · rintro (h | ⟨h, -⟩ | ⟨h, -⟩)
        · exact absurd (c1.symm.trans h) hft
        · exact absurd h c5
        · exact absurd (Or.inl c1) h
      · intro h; cases h
    by_cases c2 : a = F.true_value
    · rw [(u2 a (by omega)).mpr c2]
      simp only [Value.ToBoolean]
      exact ⟨fun _ => trivial, fun _ => Or.inl c2⟩
    by_cases c3 : a = F.undefined_value
    · rw [(u3 a (by omega)).mpr c3]
      simp only [Value.ToBoolean]
      constructor
      · rintro (h | ⟨h, -⟩ | ⟨h, -⟩)
        · exact absurd h c2
        · exact absurd h c5
        · exact absurd (Or.inr (Or.inr (Or.inl c3))) h
      · intro h; cases h
    · have hin : ¬ (a = F.false_value ∨ a = F.true_value ∨ a = F.undefined_value ∨ a % 2 = 0) := by
        rintro (h | h | h | h)
        · exact c1 h
        · exact c2 h
        · exact c3 h
        · exact c5 h
      by_cases hb : (H.object a).ToBoolean = true
      · rw [if_pos hb]
        exact ⟨fun _ => hb, fun _ => Or.inr (Or.inr ⟨hin, hft.symm⟩)⟩
      · rw [if_neg hb]
        constructor
        · rintro (h | ⟨h, -⟩ | ⟨-, h⟩)
          · exact absurd h c2
          · exact absurd h c5
          · exact absurd rfl h
        · intro h; exact absurd h hb

theorem GenerateFastCaseSwitchJumpTable_eq (cg : CodeGenerator) (L : ObjectLayout)
    (cases : CodeGenerator → CodeGenerator) (has_default : Bool) (m r : Int)
    (targets : List Label) :
    GenerateFastCaseSwitchJumpTable cg L cases has_default m r targets =
      switchFinish (cases (switchHead cg L has_default m r targets)) has_default
        (switchHead cg L has_default m r targets).frame_ := by
  rfl

theorem switchHead_masm (cg : CodeGenerator) (L : ObjectLayout) (has_default : Bool) (m r : Int)
    (targets : List Label) (height : Int) (hf : cg.frame_ = some height) :
    (switchHead cg L has_default m r targets).masm_ = cg.masm_ ++
      switchPrefix L (if has_default then .setup_default else .break_target) m r targets ∧
    (has_default = false → (switchHead cg L has_default m r targets).is_linked .break_target = true) := by
  have e : (2147483648 ||| Smi.kSmiTagMask) = 2147483649 := by decide
  constructor
  · simp only [switchHead, e]
    by_cases h0 : m = 0 <;> by_cases h1 : m < 0 <;> by_cases h2 : Smi.IsValid (-m) = true <;>
      simp [h0, h1, h2, switchPrefix, switchAdjust, emit, VirtualFrame.EmitPop,
        VirtualFrame.EmitPush, VirtualFrame.CallRuntime, JumpTarget.Branch, JumpTarget.Bind]
  · intro hd
    subst hd
    simp only [switchHead, e]
    by_cases h0 : m = 0 <;> by_cases h1 : m < 0 <;> by_cases h2 : Smi.IsValid (-m) = true <;>
      simp [h0, h1, h2, emit, VirtualFrame.EmitPop, is_linked, link, hf,
        VirtualFrame.EmitPush, VirtualFrame.CallRuntime, JumpTarget.Branch, JumpTarget.Bind]

theorem emitted_switch (cg : CodeGenerator) (L : ObjectLayout)
    (cases : CodeGenerator → CodeGenerator) (has_default : Bool) (m r : Int)
    (targets : List Label) (height : Int) (hf : cg.frame_ = some height)
    (hcases : CasesWellBehaved cases) :
    ∃ code pre post,
      emitted cg (GenerateFastCaseSwitchJumpTable cg L cases has_default m r targets) =
        switchPrefix L (if has_default then .setup_default else .break_target) m r targets ++
          (code ++ (if has_default then
            pre ++ [Instr.bind .setup_default, .b .al .default_label] ++ post
            else [Instr.bind .break_target])) ∧
      Instr.bind .setup_default ∉ code ∧ Instr.bind .break_target ∉ code ∧
      (pre = [] ∨ pre = [Instr.b .al .break_target]) ∧
      (post = [] ∨ post = [Instr.bind .break_target]) := by
  obtain ⟨hm, hl⟩ := switchHead_masm cg L has_default m r targets height hf
  obtain ⟨code, c1, c2, c3, c4⟩ := hcases (switchHead cg L has_default m r targets)
  rw [GenerateFastCaseSwitchJumpTable_eq]
  generalize switchHead cg L has_default m r targets = cgH at *
  generalize hC : cases cgH = cgC at *
  cases has_default
  · have hlk : cgC.is_linked .break_target = true := c4 (hl rfl)
    refine ⟨code, [], [], ?_, c2, c3, Or.inl rfl, Or.inl rfl⟩
    simp [switchFinish, hlk, JumpTarget.Bind, emitted, c1, hm]
  · by_cases hv : cgC.has_valid_frame = true <;>
      by_cases hlk : (cgC.linked_.any fun p => decide (p.1 = Label.break_target)) = true
    · refine ⟨code, [Instr.b .al .break_target], [Instr.bind .break_target], ?_, c2, c3,
        Or.inr rfl, Or.inr rfl⟩
      cases hfr : cgC.frame_ <;>
        simp_all [switchFinish, JumpTarget.Bind, JumpTarget.Jump, emitted, emit, is_linked,
          link, has_valid_frame]
    · refine ⟨code, [Instr.b .al .break_target], [Instr.bind .break_target], ?_, c2, c3,
        Or.inr rfl, Or.inr rfl⟩
      cases hfr : cgC.frame_ <;>
        simp_all [switchFinish, JumpTarget.Bind, JumpTarget.Jump, emitted, emit, is_linked,
          link, has_valid_frame]
    · refine ⟨code, [], [Instr.bind .break_target], ?_, c2, c3, Or.inl rfl, Or.inr rfl⟩
      simp_all [switchFinish, JumpTarget.Bind, JumpTarget.Jump, emitted, emit, is_linked,
          link, has_valid_frame]
    · refine ⟨code, [], [], ?_, c2, c3, Or.inl rfl, Or.inl rfl⟩
      simp_all [switchFinish, JumpTarget.Bind, JumpTarget.Jump, emitted, emit, is_linked,
          link, has_valid_frame]

@[simp]
theorem dp_add_LeaveCC (s : State) (d a : Register) (b : Operand) :
    s.dataProcessing .add d a b .LeaveCC = s.set d ((s.regs a + s.operand b) % 4294967296) := by
  simp [State.dataProcessing]

@[simp]
theorem dp_sub_LeaveCC (s : State) (d a : Register) (b : Operand) :
    s.dataProcessing .sub d a b .LeaveCC = s.set d (toWord ((s.regs a : Int) - s.operand b)) := by
  simp [State.dataProcessing]

theorem cmp_ge_iff (s : State) (a b : Nat) (ha : a < 4294967296) (hb : b < 4294967296) :
    (s.subFlags a b).holds .ge = true ↔ toInt b ≤ toInt a := by
  simp only [State.holds, State.subFlags, beq_iff_eq, decide_eq_decide]
  simp only [toInt, toWord]
  split_ifs <;> omega

theorem run_switchAdjust (rt : Runtime) (m : Int) (hm : Smi.IsValid m = true) (rest : List Instr)
    (s : State) (hr0 : s.regs .r0 < 4294967296) :
    ∃ s1, run rt (switchAdjust m ++ rest) none s = run rt rest none s1 ∧
      s1.regs .r0 = toWord ((s.regs .r0 : Int) - 2 * m) ∧ s1.stack = s.stack ∧ s1.log = s.log := by
  simp only [Smi.IsValid, Bool.and_eq_true, decide_eq_true_eq] at hm
  unfold switchAdjust
  by_cases h0 : m = 0
  · refine ⟨s, by simp [h0], ?_, rfl, rfl⟩
    simp only [h0, toWord]; omega
  by_cases h1 : m < 0
  · by_cases h2 : Smi.IsValid (-m) = true
    · simp only [ne_eq, h0, not_false_eq_true, if_true, h1, h2, List.cons_append,
        List.nil_append, run_dp]
      refine ⟨_, rfl, ?_, by simp, by simp⟩
      simp only [Smi.IsValid, Bool.and_eq_true, decide_eq_true_eq] at h2
      simp only [dp_add_LeaveCC, set_regs, if_true, operand_imm, toWord, Smi.FromInt,
        Smi.kSmiTagSize, Smi.kSmiTag, pow_one]
      omega
    · simp only [ne_eq, h0, not_false_eq_true, if_true, h1, h2, List.cons_append,
        List.nil_append, run_dp, Bool.false_eq_true, if_false]
      refine ⟨_, rfl, ?_, by simp, by simp⟩
      simp only [dp_add_LeaveCC, set_regs, if_true, operand_imm, toWord, Smi.FromInt,
        Smi.kSmiTagSize, Smi.kSmiTag, pow_one]
      omega
  · simp only [ne_eq, h0, not_false_eq_true, if_true, h1, if_false, List.cons_append,
      List.nil_append, run_dp]
    refine ⟨_, rfl, ?_, by simp, by simp⟩
    simp only [dp_sub_LeaveCC, set_regs, if_true, operand_imm, toWord, Smi.FromInt,
      Smi.kSmiTagSize, Smi.kSmiTag, pow_one]
    omega

theorem run_switchCheck (rt : Runtime) (D : Label) (r : Int) (targets : List Label) (s : State)
    (hr0 : s.regs .r0 < 4294967296) :
    ∃ s', run rt [Instr.dp .tst .r0 .r0 (.imm 2147483649) .SetCC .al, .b .ne D,
        .dp .cmp .r0 .r0 (.imm (Smi.FromInt r)) .SetCC .al, .b .ge D,
        .SmiJumpTable .r0 targets] none s =
      (if s.regs .r0 < 2147483648 ∧ s.regs .r0 % 2 = 0 ∧
          toInt (s.regs .r0) < toInt (Smi.FromInt r)
       then Outcome.table (s.regs .r0 / 2) s' else Outcome.jumped D s') ∧
      s'.regs .r0 = s.regs .r0 ∧ s'.stack = s.stack ∧ s'.log = s.log := by
  have hfr : Smi.FromInt r < 4294967296 := by unfold Smi.FromInt toWord; omega
  rw [run_dp]
  by_cases h1 : s.regs .r0 < 2147483648 ∧ s.regs .r0 % 2 = 0
  · have hz := (and_80000001 _ hr0).mpr h1
    rw [run_b_not_taken _ _ _ _ _ (by simp [State.holds, hz]), run_dp]
    by_cases h2 : toInt (Smi.FromInt r) ≤ toInt (s.regs .r0)
    · rw [run_b_taken _ _ _ _ _ (by
        simp only [dp_cmp, dp_tst, logicFlags_regs, operand_imm, Nat.mod_eq_of_lt hfr]
        exact (cmp_ge_iff _ _ _ hr0 hfr).mpr h2)]
      rw [run_skip_all _ _ _ _ (by simp)]
      refine ⟨_, (by rw [if_neg (by omega)]), ?_, ?_, ?_⟩ <;> simp
    · rw [run_b_not_taken _ _ _ _ _ (by
        have := (cmp_ge_iff (s.dataProcessing .tst .r0 .r0 (.imm 2147483649) .SetCC)
          _ _ hr0 hfr).not.mpr h2
        simp only [Bool.not_eq_true] at this
        simp only [dp_cmp, dp_tst, logicFlags_regs, operand_imm, Nat.mod_eq_of_lt hfr]
        simpa using this)]
      refine ⟨_, (by rw [if_pos ⟨h1.1, h1.2, by omega⟩]; simp [run, step]; rfl), ?_, ?_, ?_⟩ <;>
        simp
  · have hz : ¬ (s.regs .r0 &&& 2147483649 = 0) := fun h => h1 ((and_80000001 _ hr0).mp h)
    rw [run_b_taken _ _ _ _ _ (by simp [State.holds, hz]), run_skip_all _ _ _ _ (by simp)]
    refine ⟨_, (by rw [if_neg (fun h => h1 ⟨h.1, h.2.1⟩)]), ?_, ?_, ?_⟩ <;> simp

theorem switch_arith (t m r : Int) (ht : Smi.IsValid t = true) (hm : Smi.IsValid m = true)
    (hr : Smi.IsValid r = true) (hmr : Smi.IsValid (m + r - 1) = true) :
    ((toWord ((Smi.FromInt t : Int) - 2 * m) < 2147483648 ∧
      toWord ((Smi.FromInt t : Int) - 2 * m) % 2 = 0 ∧
      toInt (toWord ((Smi.FromInt t : Int) - 2 * m)) < toInt (Smi.FromInt r)) ↔
        (m ≤ t ∧ t < m + r)) ∧
    ((m ≤ t ∧ t < m + r) → toWord ((Smi.FromInt t : Int) - 2 * m) / 2 = (t - m).toNat) := by
  simp only [Smi.IsValid, Bool.and_eq_true, decide_eq_true_eq] at ht hm hr hmr
  simp only [toInt, toWord, Smi.FromInt, Smi.kSmiTagSize, Smi.kSmiTag, pow_one]
  split_ifs <;> omega

theorem run_switchPrefix_smi (rt : Runtime) (L : ObjectLayout) (D : Label) (m r : Int)
    (targets : List Label) (s : State) (w : Nat) (rest : List Nat)
    (hs : s.stack = w :: rest) (hw : w < 4294967296) (hev : w % 2 = 0)
    (hm : Smi.IsValid m = true) :
    ∃ s', run rt (switchPrefix L D m r targets) none s =
      (if toWord ((w : Int) - 2 * m) < 2147483648 ∧ toWord ((w : Int) - 2 * m) % 2 = 0 ∧
          toInt (toWord ((w : Int) - 2 * m)) < toInt (Smi.FromInt r)
       then Outcome.table (toWord ((w : Int) - 2 * m) / 2) s' else Outcome.jumped D s') ∧
      s'.stack = rest ∧ s'.log = s.log := by
  unfold switchPrefix
  simp only [List.cons_append, List.nil_append]
  rw [run_pop rt _ _ s w rest hs, run_dp,
    run_b_taken _ _ _ _ _ (by simp [State.holds, Smi.kSmiTagMask, Nat.and_one_is_mod, hev]),
    run_skip _ _ _ _ _ (by simp), run_skip _ _ _ _ _ (by simp), run_skip _ _ _ _ _ (by simp),
    run_skip _ _ _ _ _ (by simp), run_skip _ _ _ _ _ (by simp), run_skip _ _ _ _ _ (by simp),
    run_skip_bind]
  obtain ⟨s1, e1, e2, e3, e4⟩ := run_switchAdjust rt m hm
    [Instr.dp .tst .r0 .r0 (.imm 2147483649) .SetCC .al, .b .ne D,
      .dp .cmp .r0 .r0 (.imm (Smi.FromInt r)) .SetCC .al, .b .ge D, .SmiJumpTable .r0 targets]
    (({ s with stack := rest } : State).set .r0 w |>.dataProcessing .tst .r0 .r0
      (.imm Smi.kSmiTagMask) .SetCC) (by simpa using hw)
  rw [e1]
  have e2' : s1.regs .r0 = toWord ((w : Int) - 2 * m) := by rw [e2]; simp
  obtain ⟨s', f1, -, f3, f4⟩ := run_switchCheck rt D r targets s1 (by
    rw [e2']; unfold toWord; omega)
  rw [e2'] at f1
  exact ⟨s', f1, by rw [f3, e3]; simp, by rw [f4, e4]; simp⟩

theorem run_ldr (rt : Runtime) (d b : Register) (off : Int) (rest : List Instr) (s : State) :
    run rt (.ldr d b off :: rest) none s =
      run rt rest none (s.set d (s.load32 (s.regs b + off))) := by
  simp [run, step]

theorem run_ldrb (rt : Runtime) (d b : Register) (off : Int) (rest : List Instr) (s : State) :
    run rt (.ldrb d b off :: rest) none s =
      run rt rest none (s.set d (s.mem ((s.regs b : Int) + off).toNat % 256)) := by
  simp [run, step]

theorem cmp_imm_ne (s : State) (d a : Register) (c : Nat) (ha : s.regs a < 4294967296)
    (hc : c < 4294967296) (hne : s.regs a ≠ c) :
    (s.dataProcessing .cmp d a (.imm c) .SetCC).holds .ne = true := by
  have h := cmp_imm_eq s d a c ha hc
  simp only [State.holds] at h ⊢
  rw [h]
  simp [hne]

theorem run_switchPrefix_other (rt : Runtime) (L : ObjectLayout) (D : Label) (m r : Int)
    (targets : List Label) (s : State) (w : Nat) (rest : List Nat)
    (hs : s.stack = w :: rest) (hodd : w % 2 = 1)
    (hD : D = .setup_default ∨ D = .break_target) (hL : L.HEAP_NUMBER_TYPE < 4294967296)
    (hty : s.mem ((s.load32 (w + (L.kMapOffset - L.kHeapObjectTag)) : Int) +
      (L.kInstanceTypeOffset - L.kHeapObjectTag)).toNat % 256 ≠ L.HEAP_NUMBER_TYPE) :
    ∃ s', run rt (switchPrefix L D m r targets) none s = Outcome.jumped D s' ∧
      s'.stack = rest ∧ s'.log = s.log := by
  unfold switchPrefix
  simp only [List.cons_append, List.nil_append]
  rw [run_pop rt _ _ s w rest hs, run_dp,
    run_b_not_taken _ _ _ _ _ (by simp [State.holds, Smi.kSmiTagMask, Nat.and_one_is_mod, hodd]),
    run_ldr, run_ldrb, run_dp, run_b_taken, run_skip_all]
  · exact ⟨_, rfl, by simp, by simp⟩
  · have : Instr.bind D ∉ switchAdjust m := by
      unfold switchAdjust
      split_ifs <;> simp
    rcases hD with rfl | rfl <;> simp [this]
  · apply cmp_imm_ne _ _ _ _ ?_ hL ?_
    · simp only [set_regs, if_true]
      omega
    · simp only [set_regs, set_mem, dp_tst, logicFlags_regs, logicFlags_mem, State.load32,
        if_true] at hty ⊢
      simpa using hty

theorem run_switchTail (rt : Runtime) (has_default : Bool) (code pre post : List Instr)
    (c2 : Instr.bind .setup_default ∉ code) (c3 : Instr.bind .break_target ∉ code)
    (hpre : pre = [] ∨ pre = [Instr.b .al .break_target])
    (hpost : post = [] ∨ post = [Instr.bind .break_target]) (s : State) :
    run rt (code ++ (if has_default then
        pre ++ [Instr.bind .setup_default, .b .al .default_label] ++ post
        else [Instr.bind .break_target]))
      (some (if has_default then Label.setup_default else Label.break_target)) s =
      (if has_default then Outcome.jumped .default_label s else Outcome.fallthrough s) := by
  cases has_default
  · simp only [Bool.false_eq_true, if_false]
    rw [run_append, run_skip_all _ _ _ _ c3]
    simp only []
    rw [run_skip_bind, run_nil]
  · simp only [if_true]
    rw [run_append, run_skip_all _ _ _ _ c2]
    simp only []
    rw [List.append_assoc, run_append, run_skip_all _ _ _ _ (by
      rcases hpre with rfl | rfl <;> simp)]
    simp only [List.cons_append, List.nil_append]
    rw [run_skip_bind, run_b_taken _ _ _ _ _ (by rfl), run_skip_all _ _ _ _ (by
      rcases hpost with rfl | rfl <;> simp)]

/-- C9 (as amended): in the code of `GenerateFastCaseSwitchJumpTable`, when
`min_index` m, `range` r and m + r - 1 are all valid small integers, a
small-integer tag t is dispatched through the jump table, at entry t - m, iff
m <= t < m + r, whether or not the tagged subtraction wraps around; a tag out
of the range, and a tag that is neither a small integer nor a heap number,
leaves the code at the default label when the switch has a default case, and
otherwise at the end of the emitted code, where the break target is bound. -/
theorem GenerateFastCaseSwitchJumpTable_dispatch (rt : Runtime) (cg : CodeGenerator)
    (L : ObjectLayout) (cases : CodeGenerator → CodeGenerator) (has_default : Bool) (m r : Int)
    (targets : List Label) (height : Int) (hf : cg.frame_ = some height)
    (hcases : CasesWellBehaved cases) (hL : L.HEAP_NUMBER_TYPE < 4294967296)
    (hm : Smi.IsValid m = true) (hr : Smi.IsValid r = true)
    (hmr : Smi.IsValid (m + r - 1) = true) (s : State) :
    let code := emitted cg (GenerateFastCaseSwitchJumpTable cg L cases has_default m r targets)
    (∀ t rest, Smi.IsValid t = true → s.stack = Smi.FromInt t :: rest →
      ∃ s', run rt code none s =
          (if m ≤ t ∧ t < m + r then Outcome.table (t - m).toNat s'
           else if has_default then Outcome.jumped .default_label s'
           else Outcome.fallthrough s') ∧
        s'.stack = rest ∧ s'.log = s.log) ∧
    (∀ w rest, s.stack = w :: rest → w % 2 = 1 →
      s.mem ((s.load32 (w + (L.kMapOffset - L.kHeapObjectTag)) : Int) +
        (L.kInstanceTypeOffset - L.kHeapObjectTag)).toNat % 256 ≠ L.HEAP_NUMBER_TYPE →
      ∃ s', run rt code none s =
          (if has_default then Outcome.jumped .default_label s' else Outcome.fallthrough s') ∧
        s'.stack = rest ∧ s'.log = s.log) ∧
    (has_default = false → code.getLast? = some (Instr.bind .break_target)) := by
  intro code
  obtain ⟨body, pre, post, e, c2, c3, hpre, hpost⟩ :=
    emitted_switch cg L cases has_default m r targets height hf hcases
  have hcode : code = _ := e
  rw [hcode]
  refine ⟨?_, ?_, ?_⟩
  · intro t rest ht hs
    have hw : Smi.FromInt t < 4294967296 := by
      unfold Smi.FromInt toWord
      omega
    have hev : Smi.FromInt t % 2 = 0 := by
      simp only [Smi.FromInt, toWord, Smi.kSmiTagSize, Smi.kSmiTag, pow_one]
      omega
    obtain ⟨s', h1, h2, h3⟩ := run_switchPrefix_smi rt L
      (if has_default then .setup_default else .break_target) m r targets s _ rest hs hw hev hm
    obtain ⟨a1, a2⟩ := switch_arith t m r ht hm hr hmr
    refine ⟨s', ?_, h2, h3⟩
    rw [run_append, h1]
    by_cases hin : m ≤ t ∧ t < m + r
    · rw [if_pos (a1.mpr hin), if_pos hin, a2 hin]
    · rw [if_neg (fun h => hin (a1.mp h)), if_neg hin]
      exact run_switchTail rt has_default body pre post c2 c3 hpre hpost s'
  · intro w rest hs hodd hty
    obtain ⟨s', h1, h2, h3⟩ := run_switchPrefix_other rt L
      (if has_default then .setup_default else .break_target) m r targets s w rest hs hodd
      (by cases has_default <;> simp) hL hty
    refine ⟨s', ?_, h2, h3⟩
    rw [run_append, h1]
    exact run_switchTail rt has_default body pre post c2 c3 hpre hpost s'
  · intro hd
    subst hd
    simp [List.getLast?_append]

theorem CasesWellBehaved_id : CasesWellBehaved id :=
  fun _ => ⟨[], by simp, by simp, by simp, fun h => h⟩

theorem GenerateFastCaseSwitchJumpTable_dispatch_witness :
    ∃ s', run Runtime.zero (emitted (CodeGenerator.start 1)
        (GenerateFastCaseSwitchJumpTable (CodeGenerator.start 1) ObjectLayout.sample id true
          (-3) 5 [.case_target 0, .case_target 1, .case_target 2, .case_target 3, .case_target 4]))
        none (State.withStack [Smi.FromInt 1, 7]) =
          (if (-3 : Int) ≤ 1 ∧ (1 : Int) < -3 + 5 then Outcome.table ((1 : Int) - -3).toNat s'
           else if true = true then Outcome.jumped .default_label s'
           else Outcome.fallthrough s') ∧
      s'.stack = [7] ∧ s'.log = (State.withStack [Smi.FromInt 1, 7]).log :=
  (GenerateFastCaseSwitchJumpTable_dispatch Runtime.zero (CodeGenerator.start 1)
    ObjectLayout.sample id true (-3) 5
    [.case_target 0, .case_target 1, .case_target 2, .case_target 3, .case_target 4] 1 rfl
    CasesWellBehaved_id (by decide) (by decide) (by decide) (by decide)
    (State.withStack [Smi.FromInt 1, 7])).1 1 [7] (by decide) rfl

/-- C9 (as stated) fails: with `min_index` -1 and `range` 2^30 + 1, both -1 and
-1 + (2^30 + 1) - 1 = 2^30 - 1 are valid small integers and the tag 2^30 - 1
lies in the range, yet the adjusted tagged value is 2^31, whose top bit sends
control to the default label instead of the jump table. -/
theorem GenerateFastCaseSwitchJumpTable_wide_range_misses_table :
    Smi.IsValid (-1) = true ∧ Smi.IsValid (-1 + 1073741825 - 1) = true ∧
    Smi.IsValid 1073741823 = true ∧ ((-1 : Int) ≤ 1073741823 ∧ (1073741823 : Int) < -1 + 1073741825) ∧
    ∃ s', run Runtime.zero (emitted (CodeGenerator.start 1)
        (GenerateFastCaseSwitchJumpTable (CodeGenerator.start 1) ObjectLayout.sample id true
          (-1) 1073741825 [.case_target 0]))
        none (State.withStack [Smi.FromInt 1073741823]) = Outcome.jumped .default_label s' := by
  refine ⟨by decide, by decide, by decide, by decide, _, rfl⟩

theorem Load_eq (cg : CodeGenerator) (F : Factory) (result : Expression → VisitResult)
    (x : Expression) :
    cg.Load F result x =
      loadFinish (loadMaterialize
        (LoadCondition { cg with next_target_ := cg.next_target_ + 1 + 1 } F result x
          (.target cg.next_target_) (.target (cg.next_target_ + 1)) false) F) F
        (.target cg.next_target_) (.target (cg.next_target_ + 1)) := rfl

theorem TargetsFresh_iff (cg : CodeGenerator) :
    cg.TargetsFresh ↔ FreshIn cg.linked_ cg.next_target_ := Iff.rfl

theorem FreshIn_nil (next : Nat) : FreshIn [] next := fun _ hp => by cases hp

theorem FreshIn_append (l1 l2 : List (Label × Int)) (next : Nat) :
    FreshIn (l1 ++ l2) next ↔ FreshIn l1 next ∧ FreshIn l2 next := by
  unfold FreshIn
  constructor
  · intro h
    exact ⟨fun p hp => h p (List.mem_append_left _ hp), fun p hp => h p (List.mem_append_right _ hp)⟩
  · rintro ⟨h1, h2⟩ p hp
    rcases List.mem_append.mp hp with hp | hp
    · exact h1 p hp
    · exact h2 p hp

theorem FreshIn_cons (k : Nat) (h : Int) (l : List (Label × Int)) (next : Nat) :
    FreshIn ((Label.target k, h) :: l) next ↔ k < next ∧ FreshIn l next := by
  unfold FreshIn
  constructor
  · intro hh
    refine ⟨?_, fun p hp => hh p (List.mem_cons_of_mem _ hp)⟩
    by_contra hk
    exact hh _ (List.mem_cons_self _ _) k (by omega) rfl
  · rintro ⟨h1, h2⟩ p hp n hn
    rcases List.mem_cons.mp hp with rfl | hp
    · simp only [ne_eq, Label.target.injEq]
      omega
    · exact h2 p hp n hn

theorem FreshIn_mono (l : List (Label × Int)) (n m : Nat) (h : FreshIn l n) (hnm : n ≤ m) :
    FreshIn l m := fun p hp k hk => h p hp k (by omega)

theorem loadMaterialize_cc (F : Factory) (masm : List Instr)
    (deferred : List DeferredInlineSmiOperation) (linked : List (Label × Int)) (next : Nat)
    (height : Int) (so : Bool) (cond : Condition) (hc : cond ≠ .al)
    (g : List.find? (fun p => decide (p.1 = Label.target (next + 1))) linked = none) :
    ∃ masm', loadMaterialize
      (CodeGenerator.mk masm deferred cond (some height) linked next so) F =
      CodeGenerator.mk masm' deferred .al (some (height + 1))
        (linked ++ [(Label.target (next + 1), height), (Label.target next, height + 1)])
        (next + 1 + 1) so := by
  refine ⟨(loadMaterialize
      (CodeGenerator.mk masm deferred cond (some height) linked next so) F).masm_, ?_⟩
  simp [loadMaterialize, newTarget, has_cc, hc, emit, link, VirtualFrame.EmitPush,
    JumpTarget.Branch, JumpTarget.Bind, JumpTarget.Jump, g, List.find?_append]

theorem loadFinish_frame (F : Factory) (masm : List Instr)
    (deferred : List DeferredInlineSmiOperation) (linked : List (Label × Int)) (next : Nat)
    (so : Bool) (h : Int) (fr : Option Int) (t f : Label) (lt lf : Bool)
    (ht : t ≠ .target next) (hf : f ≠ .target next)
    (hat : (linked.any fun p => decide (p.1 = t)) = lt)
    (haf : (linked.any fun p => decide (p.1 = f)) = lf)
    (gt : lt = true → linked.find? (fun p => decide (p.1 = t)) = some (t, h))
    (gf : lf = true → linked.find? (fun p => decide (p.1 = f)) = some (f, h))
    (hfr : fr = some (h + 1) ∨ (fr = none ∧ (lt = true ∨ lf = true)))
    (hfresh : FreshIn linked next) :
    (loadFinish (CodeGenerator.mk masm deferred .al fr linked next so) F t f).frame_ =
        some (h + 1) ∧
      (loadFinish (CodeGenerator.mk masm deferred .al fr linked next so) F t f).cc_reg_ = .al ∧
      (loadFinish (CodeGenerator.mk masm deferred .al fr linked next so) F t f).stack_overflow_ =
        so ∧
      (loadFinish (CodeGenerator.mk masm deferred .al fr linked next so) F t f).TargetsFresh := by
  have hw := FreshIn_mono linked next (next + 1) hfresh (Nat.le_succ _)
  have ht' : ¬ Label.target next = t := fun e => ht e.symm
  have hf' : ¬ Label.target next = f := fun e => hf e.symm
  rcases hfr with rfl | ⟨rfl, hl⟩
  · cases lt <;> cases lf <;> simp at gt gf <;>
      simp [loadFinish, newTarget, has_valid_frame, is_linked, link, emit, VirtualFrame.EmitPush,
        JumpTarget.Bind, JumpTarget.Jump, hat, haf, gt, gf, List.any_append, List.find?_append,
        ht, hf, ht', hf', TargetsFresh_iff, FreshIn_append, FreshIn_cons, FreshIn_nil, hfresh, hw]
  · cases lt <;> cases lf <;> simp at hl gt gf <;>
      simp [loadFinish, newTarget, has_valid_frame, is_linked, link, emit, VirtualFrame.EmitPush,
        JumpTarget.Bind, JumpTarget.Jump, hat, haf, gt, gf, List.any_append, List.find?_append,
        ht, hf, ht', hf', TargetsFresh_iff, FreshIn_append, FreshIn_cons, FreshIn_nil, hfresh, hw]

theorem LoadCondition_state (F : Factory) (result : Expression → VisitResult) (x : Expression)
    (hwf : (result x).WellFormed = true) (masm : List Instr)
    (deferred : List DeferredInlineSmiOperation) (linked : List (Label × Int)) (next : Nat)
    (so : Bool) (h : Int) (t f : Label) :
    ∃ c fr lt lf,
      LoadCondition (CodeGenerator.mk masm deferred .al (some h) linked next so) F result x t f
          false =
        CodeGenerator.mk
          (LoadCondition (CodeGenerator.mk masm deferred .al (some h) linked next so) F result x
            t f false).masm_ deferred c fr
          (linked ++ (if lt = true then [(t, h)] else []) ++ (if lf = true then [(f, h)] else []))
          next so ∧
      ((c = .al ∧ fr = some (h + 1)) ∨ (c ≠ .al ∧ fr = some h) ∨
        (c = .al ∧ fr = none ∧ (lt = true ∨ lf = true))) := by
  unfold LoadCondition Visit
  generalize result x = r at *
  obtain ⟨lv, lt, lf⟩ := r
  cases so
  · cases lv with
    | value =>
      refine ⟨.al, some (h + 1), lt, lf, ?_, Or.inl ⟨rfl, rfl⟩⟩
      cases lt <;> cases lf <;> simp [has_cc, has_valid_frame, link, emit]
    | cc cond =>
      have hc : cond ≠ .al := by
        intro e
        subst e
        simp [VisitResult.WellFormed] at hwf
      refine ⟨cond, some h, lt, lf, ?_, Or.inr (Or.inl ⟨hc, rfl⟩)⟩
      cases lt <;> cases lf <;> simp [has_cc, has_valid_frame, link, emit, hc]
    | nothing =>
      have hl : lt = true ∨ lf = true := by
        simpa [VisitResult.WellFormed] using hwf
      refine ⟨.al, none, lt, lf, ?_, Or.inr (Or.inr ⟨rfl, rfl, hl⟩)⟩
      cases lt <;> cases lf <;> simp [has_cc, has_valid_frame, link, emit]
  · refine ⟨.al, none, true, false, ?_, Or.inr (Or.inr ⟨rfl, rfl, Or.inl rfl⟩)⟩
    simp [has_cc, has_valid_frame, link, emit, JumpTarget.Jump]

theorem any_FreshIn (l : List (Label × Int)) (n k : Nat) (h : FreshIn l n) (hk : n ≤ k) :
    (l.any fun p => decide (p.1 = Label.target k)) = false := by
  rw [List.any_eq_false]
  intro p hp
  simpa using h p hp k hk

theorem find_FreshIn (l : List (Label × Int)) (n k : Nat) (h : FreshIn l n) (hk : n ≤ k) :
    l.find? (fun p => decide (p.1 = Label.target k)) = none := by
  rw [List.find?_eq_none]
  intro p hp
  simpa using h p hp k hk

theorem Load_frame (cg : CodeGenerator) (F : Factory) (result : Expression → VisitResult)
    (x : Expression) (hwf : (result x).WellFormed = true) (hcc : cg.cc_reg_ = .al)
    (hfresh : cg.TargetsFresh) (height : Int) (hf : cg.frame_ = some height) :
    (cg.Load F result x).frame_ = some (height + 1) ∧ (cg.Load F result x).cc_reg_ = .al ∧
      (cg.Load F result x).stack_overflow_ = cg.stack_overflow_ ∧
      (cg.Load F result x).TargetsFresh := by
  rw [Load_eq]
  obtain ⟨masm, deferred, ccr, frame, linked, next, so⟩ := cg
  simp only at hcc hf
  subst hcc hf
  have hF : FreshIn linked next := hfresh
  have f1 := any_FreshIn linked next next hF (Nat.le_refl _)
  have f2 := any_FreshIn linked next (next + 1) hF (Nat.le_succ _)
  have g1 := find_FreshIn linked next next hF (Nat.le_refl _)
  have g2 := find_FreshIn linked next (next + 1) hF (Nat.le_succ _)
  have g3 := find_FreshIn linked next (next + 1 + 1 + 1) hF (by omega)
  have n1 : ¬ next + 1 = next := by omega
  have n2 : ¬ next = next + 1 := by omega
  have n3 : ¬ next + 1 + 1 + 1 = next := by omega
  have n4 : ¬ next + 1 + 1 + 1 = next + 1 := by omega
  have n5 : ¬ next + 1 + 1 = next := by omega
  have n6 : ¬ next + 1 + 1 = next + 1 := by omega
  have hF2 := FreshIn_mono linked next (next + 1 + 1) hF (by omega)
  have hF4 := FreshIn_mono linked next (next + 1 + 1 + 1 + 1) hF (by omega)
  obtain ⟨c, fr, lt, lf, e1, hcase⟩ := LoadCondition_state F result x hwf masm deferred linked
    (next + 1 + 1) so height (.target next) (.target (next + 1))
  simp only []
  rw [e1]
  generalize (LoadCondition _ F result x _ _ false).masm_ = masm1
  have key : ∀ (fr' : Option Int) (masm2 : List Instr) (extra : List (Label × Int)) (nx : Nat),
      (fr' = some (height + 1) ∨ (fr' = none ∧ (lt = true ∨ lf = true))) →
      (extra = [] ∧ nx = next + 1 + 1 ∨
        extra = [(Label.target (next + 1 + 1 + 1), height), (Label.target (next + 1 + 1), height + 1)] ∧
          nx = next + 1 + 1 + 1 + 1) →
      (loadFinish (CodeGenerator.mk masm2 deferred .al fr'
          (linked ++ (if lt = true then [(Label.target next, height)] else []) ++
            (if lf = true then [(Label.target (next + 1), height)] else []) ++ extra) nx so) F
          (.target next) (.target (next + 1))).frame_ = some (height + 1) ∧
      (loadFinish (CodeGenerator.mk masm2 deferred .al fr'
          (linked ++ (if lt = true then [(Label.target next, height)] else []) ++
            (if lf = true then [(Label.target (next + 1), height)] else []) ++ extra) nx so) F
          (.target next) (.target (next + 1))).cc_reg_ = .al ∧
      (loadFinish (CodeGenerator.mk masm2 deferred .al fr'
          (linked ++ (if lt = true then [(Label.target next, height)] else []) ++
            (if lf = true then [(Label.target (next + 1), height)] else []) ++ extra) nx so) F
          (.target next) (.target (next + 1))).stack_overflow_ = so ∧
      (loadFinish (CodeGenerator.mk masm2 deferred .al fr'
          (linked ++ (if lt = true then [(Label.target next, height)] else []) ++
            (if lf = true then [(Label.target (next + 1), height)] else []) ++ extra) nx so) F
          (.target next) (.target (next + 1))).TargetsFresh := by
    intro fr' masm2 extra nx hfr hex
    apply loadFinish_frame F masm2 deferred _ nx so height fr' _ _ lt lf
    · rcases hex with ⟨-, rfl⟩ | ⟨-, rfl⟩ <;> simp <;> omega
    · rcases hex with ⟨-, rfl⟩ | ⟨-, rfl⟩ <;> simp
    · rcases hex with ⟨rfl, -⟩ | ⟨rfl, -⟩ <;> cases lt <;> cases lf <;>
        simp [List.any_append, f1, n1, n2, n3, n4, n5, n6]
    · rcases hex with ⟨rfl, -⟩ | ⟨rfl, -⟩ <;> cases lt <;> cases lf <;>
        simp [List.any_append, f2, n1, n2, n3, n4, n5, n6]
    · rcases hex with ⟨rfl, -⟩ | ⟨rfl, -⟩ <;> cases lt <;> cases lf <;>
        simp [List.find?_append, g1, n1, n2, n3, n4, n5, n6]
    · rcases hex with ⟨rfl, -⟩ | ⟨rfl, -⟩ <;> cases lt <;> cases lf <;>
        simp [List.find?_append, g2, n1, n2, n3, n4, n5, n6]
    · exact hfr
    · rcases hex with ⟨rfl, rfl⟩ | ⟨rfl, rfl⟩ <;> cases lt <;> cases lf <;>
        simp [FreshIn_append, FreshIn_cons, FreshIn_nil, hF2, hF4] <;> omega
  rcases hcase with ⟨rfl, rfl⟩ | ⟨hc, rfl⟩ | ⟨rfl, rfl, hl⟩
  · have e2 : ∀ st : CodeGenerator, st.cc_reg_ = .al → loadMaterialize st F = st := by
      intro st h
      simp [loadMaterialize, has_cc, h]
    rw [e2 _ rfl]
    have := key (some (height + 1)) masm1 [] (next + 1 + 1) (Or.inl rfl) (Or.inl ⟨rfl, rfl⟩)
    simpa using this
  · obtain ⟨masm', e2⟩ := loadMaterialize_cc F masm1 deferred
      (linked ++ (if lt = true then [(Label.target next, height)] else []) ++
            (if lf = true then [(Label.target (next + 1), height)] else [])) (next + 1 + 1)
      height so c hc (by
        cases lt <;> cases lf <;> simp [List.find?_append, g3, n1, n2, n3, n4, n5, n6] <;> omega)
    rw [e2]
    exact key (some (height + 1)) masm' _ (next + 1 + 1 + 1 + 1) (Or.inl rfl) (Or.inr ⟨rfl, rfl⟩)
  · have e2 : ∀ st : CodeGenerator, st.cc_reg_ = .al → loadMaterialize st F = st := by
      intro st h
      simp [loadMaterialize, has_cc, h]
    rw [e2 _ rfl]
    have := key none masm1 [] (next + 1 + 1) (Or.inr ⟨rfl, hl⟩) (Or.inl ⟨rfl, rfl⟩)
    simpa using this

/-- C10: `Reference::size()` is 0 for an `ILLEGAL` reference, 0 for `SLOT`, 1
for `NAMED` and 2 for `KEYED`; and for every expression, when `LoadReference`
is given a fresh (`ILLEGAL`) reference to it, the frame ends up higher by
exactly the `size()` of the reference as classified: the object of a named
property or the global receiver (1), the object and the key of a keyed
property (2), nothing for a slot, and nothing for an expression that is no
reference, whose loaded value the call of `Runtime::kThrowReferenceError`
consumes while the type stays `ILLEGAL`. -/
theorem Reference_size_eq_LoadReference_frame_elements (cg : CodeGenerator) (F : Factory)
    (result : Expression → VisitResult) (kGlobalSlotOffset : Int) (ref : Reference)
    (hty : ref.type_ = .ILLEGAL) (hwf : ∀ x, (result x).WellFormed = true)
    (hcc : cg.cc_reg_ = .al) (hfresh : cg.TargetsFresh) (height : Int)
    (hf : cg.frame_ = some height) :
    (∀ expression : Expression,
      (Reference.mk expression .ILLEGAL).size = 0 ∧ (Reference.mk expression .SLOT).size = 0 ∧
      (Reference.mk expression .NAMED).size = 1 ∧ (Reference.mk expression .KEYED).size = 2) ∧
    (cg.LoadReference F result kGlobalSlotOffset ref).1.frame_ =
      some (height + (cg.LoadReference F result kGlobalSlotOffset ref).2.size) := by
  refine ⟨fun _ => ⟨rfl, rfl, rfl, rfl⟩, ?_⟩
  obtain ⟨e, ty⟩ := ref
  simp only at hty
  subst hty
  have hload : ∀ x, (cg.Load F result x).frame_ = some (height + 1) :=
    fun x => (Load_frame cg F result x (hwf x) hcc hfresh height hf).1
  cases e with
  | Property obj key =>
    obtain ⟨k1, k2, -, k4⟩ := Load_frame cg F result obj (hwf obj) hcc hfresh height hf
    have hkey := (Load_frame (cg.Load F result obj) F result key (hwf key) k2 k4 (height + 1) k1).1
    simp only [LoadReference, Expression.AsProperty, LoadAndSpill]
    split_ifs
    · simpa [Reference.set_type, Reference.size, Reference.Type.value] using k1
    · simp only [Reference.set_type, Reference.size, Reference.Type.value]
      rw [hkey]
      simp
      omega
  | VariableProxy var =>
    simp only [LoadReference, Expression.AsProperty, Expression.AsVariable]
    split_ifs <;>
      simp [Reference.set_type, Reference.size, Reference.Type.value, LoadGlobal, emit,
        VirtualFrame.EmitPush, hf]
  | Literal handle =>
    simp [LoadReference, Expression.AsProperty, Expression.AsVariable, LoadAndSpill,
      VirtualFrame.CallRuntime, hload, Reference.size]
  | UnaryOperation op x =>
    simp [LoadReference, Expression.AsProperty, Expression.AsVariable, LoadAndSpill,
      VirtualFrame.CallRuntime, hload, Reference.size]
  | BinaryOperation op l r =>
    simp [LoadReference, Expression.AsProperty, Expression.AsVariable, LoadAndSpill,
      VirtualFrame.CallRuntime, hload, Reference.size]
  | Other id =>
    simp [LoadReference, Expression.AsProperty, Expression.AsVariable, LoadAndSpill,
      VirtualFrame.CallRuntime, hload, Reference.size]
  | Slot var type index =>
    simp [LoadReference, Expression.AsProperty, Expression.AsVariable, LoadAndSpill,
      VirtualFrame.CallRuntime, hload, Reference.size]

theorem TargetsFresh_start (height : Int) : (CodeGenerator.start height).TargetsFresh :=
  fun _ hp => by cases hp

theorem Reference_size_eq_LoadReference_frame_elements_witness :
    (∀ expression : Expression,
      (Reference.mk expression .ILLEGAL).size = 0 ∧ (Reference.mk expression .SLOT).size = 0 ∧
      (Reference.mk expression .NAMED).size = 1 ∧ (Reference.mk expression .KEYED).size = 2) ∧
    ((CodeGenerator.start 3).LoadReference Factory.sample (fun _ => VisitResult.plain) 20
        (Reference.mk (.Property (.Other 5) (.Other 6)) .ILLEGAL)).1.frame_ =
      some (3 + ((CodeGenerator.start 3).LoadReference Factory.sample
        (fun _ => VisitResult.plain) 20
        (Reference.mk (.Property (.Other 5) (.Other 6)) .ILLEGAL)).2.size) :=
  Reference_size_eq_LoadReference_frame_elements (CodeGenerator.start 3) Factory.sample
    (fun _ => VisitResult.plain) 20 (Reference.mk (.Property (.Other 5) (.Other 6)) .ILLEGAL)
    rfl (fun _ => rfl) rfl (TargetsFresh_start 3) 3 rfl

theorem run_drop (rt : Runtime) (n : Nat) (rest : List Instr) (s : State)
    (h : n ≤ s.stack.length) :
    run rt (.drop n :: rest) none s = run rt rest none { s with stack := s.stack.drop n } := by
  simp [run, step, h]

/-- C11: for every reference, `UnloadReference` lowers the height of a valid
frame by exactly `size()`, and its code, run on a stack whose top element is a
value lying directly above the `size()` elements of the reference, removes
those elements and leaves that same value on top; when `size()` is 0 the
generator is unchanged (no code is emitted). -/
theorem UnloadReference_drops_size_keeps_top (rt : Runtime) (cg : CodeGenerator)
    (ref : Reference) (height : Int) (hf : cg.frame_ = some height) (s : State) (value : Nat)
    (elements rest : List Nat) (hlen : (elements.length : Int) = ref.size)
    (hs : s.stack = value :: (elements ++ rest)) :
    (cg.UnloadReference ref).frame_ = some (height - ref.size) ∧
    (∃ s', run rt (emitted cg (cg.UnloadReference ref)) none s = .fallthrough s' ∧
      s'.stack = value :: rest ∧ s'.log = s.log ∧ s'.mem = s.mem) ∧
    (ref.size = 0 → cg.UnloadReference ref = cg) := by
  have hsz : 0 ≤ ref.size := by omega
  by_cases h0 : ref.size > 0
  · refine ⟨?_, ?_, fun h => by omega⟩
    · simp only [UnloadReference, if_pos h0, VirtualFrame.EmitPop, VirtualFrame.Drop,
        VirtualFrame.EmitPush, hf, Option.map_some']
      congr 1
      have : ((ref.size.toNat : Nat) : Int) = ref.size := Int.toNat_of_nonneg hsz
      omega
    · have hn : ref.size.toNat = elements.length := by omega
      have he : emitted cg (cg.UnloadReference ref) =
          [Instr.pop .r0, .drop elements.length, .push .r0] := by
        simp [emitted, UnloadReference, if_pos h0, VirtualFrame.EmitPop, VirtualFrame.Drop,
          VirtualFrame.EmitPush, hn]
      rw [he, run_pop rt _ _ s value (elements ++ rest) hs, run_drop _ _ _ _ (by simp),
        run_push, run_nil]
      exact ⟨_, rfl, by simp, by simp, by simp⟩
  · have hz : ref.size = 0 := by omega
    have hu : cg.UnloadReference ref = cg := by
      simp [UnloadReference, h0]
    refine ⟨by rw [hu, hf, hz]; simp, ?_, fun _ => hu⟩
    have hel : elements = [] := by
      apply List.eq_nil_of_length_eq_zero
      omega
    subst hel
    rw [hu]
    exact ⟨s, by simp [emitted, run], by simpa using hs, rfl, rfl⟩

theorem UnloadReference_drops_size_keeps_top_witness :
    ((CodeGenerator.start 4).UnloadReference (Reference.mk (.Other 0) .KEYED)).frame_ =
      some (4 - (Reference.mk (.Other 0) .KEYED).size) ∧
    (∃ s', run Runtime.zero (emitted (CodeGenerator.start 4)
        ((CodeGenerator.start 4).UnloadReference (Reference.mk (.Other 0) .KEYED))) none
        (State.withStack [9, 21, 23, 8]) = .fallthrough s' ∧
      s'.stack = 9 :: [8] ∧ s'.log = (State.withStack [9, 21, 23, 8]).log ∧
      s'.mem = (State.withStack [9, 21, 23, 8]).mem) ∧
    ((Reference.mk (.Other 0) .KEYED).size = 0 →
      (CodeGenerator.start 4).UnloadReference (Reference.mk (.Other 0) .KEYED) =
        CodeGenerator.start 4) :=
  UnloadReference_drops_size_keeps_top Runtime.zero (CodeGenerator.start 4)
    (Reference.mk (.Other 0) .KEYED) 4 rfl (State.withStack [9, 21, 23, 8]) 9 [21, 23] [8]
    (by decide) rfl

/-- C12: for every property access `obj[key]` (or `obj.key`), `LoadReference`
on a fresh reference classifies it as `NAMED` iff the key is a literal whose
handle is a symbol that does not parse as an array index; then only the object
is loaded (one frame element).  In every other case the reference is `KEYED`
and the key is loaded onto the frame after the object (two frame elements). -/
theorem LoadReference_property_NAMED_iff_symbol_key (cg : CodeGenerator) (F : Factory)
    (result : Expression → VisitResult) (kGlobalSlotOffset : Int) (obj key : Expression)
    (hwf : ∀ x, (result x).WellFormed = true) (hcc : cg.cc_reg_ = .al)
    (hfresh : cg.TargetsFresh) (height : Int) (hf : cg.frame_ = some height) :
    let named : Prop := ∃ handle, key = Expression.Literal handle ∧ handle.IsSymbol = true ∧
      handle.AsArrayIndex = none
    let r := cg.LoadReference F result kGlobalSlotOffset (Reference.mk (.Property obj key) .ILLEGAL)
    (r.2.type_ = .NAMED ↔ named) ∧
    (named → r.1 = cg.LoadAndSpill F result obj ∧ r.1.frame_ = some (height + 1)) ∧
    (¬ named → r.2.type_ = .KEYED ∧
      r.1 = (cg.LoadAndSpill F result obj).LoadAndSpill F result key ∧
      r.1.frame_ = some (height + 2)) := by
  intro named r
  obtain ⟨k1, k2, -, k4⟩ := Load_frame cg F result obj (hwf obj) hcc hfresh height hf
  have hkey := (Load_frame (cg.Load F result obj) F result key (hwf key) k2 k4 (height + 1) k1).1
  by_cases hn : named
  · obtain ⟨handle, rfl, h1, h2⟩ := hn
    have hr : r = (cg.LoadAndSpill F result obj,
        Reference.mk (.Property obj (.Literal handle)) .NAMED) := by
      simp [r, LoadReference, Expression.AsProperty, Expression.AsLiteral, h1, h2,
        Reference.set_type]
    rw [hr]
    exact ⟨⟨fun _ => ⟨handle, rfl, h1, h2⟩, fun _ => rfl⟩, fun _ => ⟨rfl, k1⟩,
      fun h => absurd ⟨handle, rfl, h1, h2⟩ h⟩
  · have hr : r = ((cg.LoadAndSpill F result obj).LoadAndSpill F result key,
        Reference.mk (.Property obj key) .KEYED) := by
      simp only [r, LoadReference, Expression.AsProperty, Reference.set_type]
      cases key with
      | Literal handle =>
        simp only [Expression.AsLiteral]
        rw [if_neg]
        intro hne
        simp only [Bool.and_eq_true, Option.isNone_iff_eq_none] at hne
        exact hn ⟨handle, rfl, hne.1, hne.2⟩
      | _ => simp [Expression.AsLiteral]
    rw [hr]
    refine ⟨⟨fun h => (by cases h), fun h => absurd h hn⟩, fun h => absurd h hn,
      fun _ => ⟨rfl, rfl, ?_⟩⟩
    have : height + 1 + 1 = height + 2 := by omega
    rw [← this]
    exact hkey

theorem LoadReference_property_NAMED_iff_symbol_key_witness :
    let named : Prop := ∃ handle, Expression.Literal (.Symbol "length") = Expression.Literal handle ∧
      handle.IsSymbol = true ∧ handle.AsArrayIndex = none
    let r := (CodeGenerator.start 0).LoadReference Factory.sample (fun _ => VisitResult.plain) 20
      (Reference.mk (.Property (.Other 5) (.Literal (.Symbol "length"))) .ILLEGAL)
    (r.2.type_ = .NAMED ↔ named) ∧
    (named → r.1 = (CodeGenerator.start 0).LoadAndSpill Factory.sample
        (fun _ => VisitResult.plain) (.Other 5) ∧ r.1.frame_ = some (0 + 1)) ∧
    (¬ named → r.2.type_ = .KEYED ∧
      r.1 = ((CodeGenerator.start 0).LoadAndSpill Factory.sample (fun _ => VisitResult.plain)
        (.Other 5)).LoadAndSpill Factory.sample (fun _ => VisitResult.plain)
        (.Literal (.Symbol "length")) ∧
      r.1.frame_ = some (0 + 2)) :=
  LoadReference_property_NAMED_iff_symbol_key (CodeGenerator.start 0) Factory.sample
    (fun _ => VisitResult.plain) 20 (.Other 5) (.Literal (.Symbol "length")) (fun _ => rfl) rfl
    (TargetsFresh_start 0) 0 rfl

/-- C13: for every variable proxy that resolves to a global variable (and is
not rewritten to a property), `LoadReference` on a fresh reference emits the
load of the global object (the word in the global slot of the context in `cp`,
`GlobalObject()`) and its push as the single element of the reference, which
is the receiver of the named access; the reference is `NAMED` and `GetName`
returns the name of the variable. -/
theorem LoadReference_global_variable_NAMED (rt : Runtime) (cg : CodeGenerator) (F : Factory)
    (result : Expression → VisitResult) (kGlobalSlotOffset : Int) (var : Variable)
    (hg : var.is_global = true) (height : Int) (hf : cg.frame_ = some height) (s : State) :
    let r := cg.LoadReference F result kGlobalSlotOffset
      (Reference.mk (.VariableProxy var) .ILLEGAL)
    r.2.type_ = .NAMED ∧ r.2.size = 1 ∧ r.2.GetName = some var.name ∧
    r.1.frame_ = some (height + 1) ∧
    emitted cg r.1 = [Instr.ldr .r0 .cp kGlobalSlotOffset, .push .r0] ∧
    ∃ s', run rt (emitted cg r.1) none s = .fallthrough s' ∧
      s'.stack = s.load32 (s.regs .cp + kGlobalSlotOffset) :: s.stack ∧
      s'.log = s.log ∧ s'.mem = s.mem := by
  intro r
  have hr : r = (cg.LoadGlobal kGlobalSlotOffset, Reference.mk (.VariableProxy var) .NAMED) := by
    simp [r, LoadReference, Expression.AsProperty, Expression.AsVariable, hg, Reference.set_type]
  have he : emitted cg (cg.LoadGlobal kGlobalSlotOffset) =
      [Instr.ldr .r0 .cp kGlobalSlotOffset, .push .r0] := by
    simp [emitted, LoadGlobal, emit, VirtualFrame.EmitPush]
  rw [hr]
  refine ⟨rfl, rfl, ?_, ?_, he, ?_⟩
  · simp [Reference.GetName, Expression.AsProperty, Expression.AsVariable, hg, Expression.name]
  · simp [LoadGlobal, emit, VirtualFrame.EmitPush, hf]
  · simp only []
    rw [he, run_ldr, run_push, run_nil]
    exact ⟨_, rfl, by simp, by simp, by simp⟩

theorem LoadReference_global_variable_NAMED_witness :
    let r := (CodeGenerator.start 2).LoadReference Factory.sample (fun _ => VisitResult.plain) 20
      (Reference.mk (.VariableProxy (Variable.mk "x" true false none)) .ILLEGAL)
    r.2.type_ = .NAMED ∧ r.2.size = 1 ∧
    r.2.GetName = some (Variable.mk "x" true false none).name ∧
    r.1.frame_ = some (2 + 1) ∧
    emitted (CodeGenerator.start 2) r.1 = [Instr.ldr .r0 .cp 20, .push .r0] ∧
    ∃ s', run Runtime.zero (emitted (CodeGenerator.start 2) r.1) none (State.withStack [7]) =
        .fallthrough s' ∧
      s'.stack = (State.withStack [7]).load32 ((State.withStack [7]).regs .cp + 20) ::
        (State.withStack [7]).stack ∧
      s'.log = (State.withStack [7]).log ∧ s'.mem = (State.withStack [7]).mem :=
  LoadReference_global_variable_NAMED Runtime.zero (CodeGenerator.start 2) Factory.sample
    (fun _ => VisitResult.plain) 20 (Variable.mk "x" true false none) rfl 2 rfl
    (State.withStack [7])

theorem chain_foldl (cg : CodeGenerator) (L : SlotLayout) (n : Nat) :
    (List.range n).foldl
      (fun (p : CodeGenerator × Register) _ =>
        let cg := p.1.emit (.ldr .r2 p.2 (L.SlotOffset L.CLOSURE_INDEX))
        let cg := cg.emit (.ldr .r2 .r2 (L.kContextOffset - L.kHeapObjectTag))
        (cg, Register.r2))
      (cg, Register.cp) =
    ({ cg with masm_ := cg.masm_ ++ chainCode L n }, if n = 0 then Register.cp else .r2) := by
  induction n with
  | zero => simp [chainCode]
  | succ n ih =>
    rw [List.range_succ, List.foldl_append, ih]
    simp [chainCode, emit]

theorem SlotOperand_eq (cg : CodeGenerator) (L : SlotLayout) (slot : Slot) :
    cg.SlotOperand L slot .r2 =
      ({ cg with masm_ := cg.masm_ ++ slotOperandCode L slot }, slotBase slot,
        slotOffset L slot) := by
  unfold SlotOperand slotOperandCode slotBase slotOffset
  cases h : slot.type
  · simp
  · simp
  · simp only []
    rw [chain_foldl]
    simp [emit]
  · simp

theorem SameButR2_refl (s : State) : SameButR2 s s := ⟨rfl, rfl, rfl, fun _ _ => rfl⟩

theorem SameButR2_set (s s1 : State) (w : Nat) (h : SameButR2 s s1) :
    SameButR2 s (s1.set .r2 w) := by
  obtain ⟨h1, h2, h3, h4⟩ := h
  refine ⟨h1, h2, h3, fun r hr => ?_⟩
  simp [State.set, hr, h4 r hr]

theorem load32_congr (s s1 : State) (h : s1.mem = s.mem) (a : Int) : s1.load32 a = s.load32 a := by
  simp [State.load32, h]

theorem load32_set (s : State) (r : Register) (w : Nat) (a : Int) :
    (s.set r w).load32 a = s.load32 a := rfl

theorem contextAt_congr (L : SlotLayout) (s s1 : State) (hm : s1.mem = s.mem)
    (hc : s1.regs .cp = s.regs .cp) (n : Nat) : contextAt L s1 n = contextAt L s n := by
  induction n with
  | zero => simpa [contextAt] using hc
  | succ n ih => simp [contextAt, ih, load32_congr s s1 hm]

theorem slotAddress_congr (L : SlotLayout) (slot : Slot) (s s1 : State) (h : SameButR2 s s1) :
    slotAddress L slot s1 = slotAddress L slot s := by
  obtain ⟨-, h2, -, h4⟩ := h
  unfold slotAddress
  cases slot.type <;>
    simp [h4 .fp (by decide), contextAt_congr L s s1 h2 (h4 .cp (by decide)), load32_congr s s1 h2]

theorem run_chainCode (rt : Runtime) (L : SlotLayout) (n : Nat) (rest : List Instr) (s : State) :
    ∃ s1, run rt (chainCode L n ++ rest) none s = run rt rest none s1 ∧
      s1.regs (if n = 0 then Register.cp else .r2) = contextAt L s n ∧ SameButR2 s s1 := by
  induction n generalizing rest with
  | zero => exact ⟨s, by simp [chainCode], by simp [contextAt], SameButR2_refl s⟩
  | succ n ih =>
    obtain ⟨s1, e1, e2, e3⟩ := ih
      ([Instr.ldr .r2 (if n = 0 then .cp else .r2) (L.SlotOffset L.CLOSURE_INDEX),
        .ldr .r2 .r2 (L.kContextOffset - L.kHeapObjectTag)] ++ rest)
    refine ⟨(s1.set .r2 (s1.load32 ((s1.regs (if n = 0 then .cp else .r2) : Nat) +
        L.SlotOffset L.CLOSURE_INDEX))).set .r2
        ((s1.set .r2 (s1.load32 ((s1.regs (if n = 0 then .cp else .r2) : Nat) +
          L.SlotOffset L.CLOSURE_INDEX))).load32
          (((s1.set .r2 (s1.load32 ((s1.regs (if n = 0 then .cp else .r2) : Nat) +
            L.SlotOffset L.CLOSURE_INDEX))).regs .r2 : Nat) +
            (L.kContextOffset - L.kHeapObjectTag))),
      ?_, ?_, SameButR2_set _ _ _ (SameButR2_set _ _ _ e3)⟩
    · simp only [chainCode, List.append_assoc]
      rw [e1]
      simp only [List.cons_append, List.nil_append]
      rw [run_ldr, run_ldr]
    · simp only [Nat.succ_ne_zero, if_false, set_regs, if_true, contextAt, e2,
        load32_set, load32_congr s s1 e3.2.1, Nat.add_one_ne_zero]

theorem run_slotOperandCode (rt : Runtime) (L : SlotLayout) (slot : Slot)
    (hl : slot.type ≠ .LOOKUP) (rest : List Instr) (s : State) :
    ∃ s1, run rt (slotOperandCode L slot ++ rest) none s = run rt rest none s1 ∧
      (s1.regs (slotBase slot) : Int) + slotOffset L slot = slotAddress L slot s ∧
      SameButR2 s s1 := by
  unfold slotOperandCode slotBase slotOffset slotAddress
  cases h : slot.type with
  | PARAMETER => exact ⟨s, by simp, by simp, SameButR2_refl s⟩
  | LOCAL => exact ⟨s, by simp, by simp, SameButR2_refl s⟩
  | LOOKUP => exact absurd h hl
  | CONTEXT =>
    obtain ⟨s1, e1, e2, e3⟩ := run_chainCode rt L slot.chain_length
      ([Instr.ldr .r2 (if slot.chain_length = 0 then .cp else .r2)
        (L.SlotOffset L.FCONTEXT_INDEX)] ++ rest) s
    refine ⟨s1.set .r2 (s1.load32 ((s1.regs (if slot.chain_length = 0 then .cp else .r2) : Nat) +
        L.SlotOffset L.FCONTEXT_INDEX)), ?_, ?_, SameButR2_set _ _ _ e3⟩
    · simp only [List.append_assoc]
      rw [e1]
      simp only [List.cons_append, List.nil_append]
      rw [run_ldr]
    · simp only [set_regs, if_true, e2, load32_congr s s1 e3.2.1]

theorem slotAddress_eq (L : SlotLayout) (slot : Slot) (s s1 : State) (hm : s1.mem = s.mem)
    (hfp : s1.regs .fp = s.regs .fp) (hcp : s1.regs .cp = s.regs .cp) :
    slotAddress L slot s1 = slotAddress L slot s := by
  unfold slotAddress
  cases slot.type <;> simp [hfp, contextAt_congr L s s1 hm hcp, load32_congr s s1 hm]

theorem bind_not_mem_chainCode (L : SlotLayout) (l : Label) (n : Nat) :
    Instr.bind l ∉ chainCode L n := by
  induction n with
  | zero => simp [chainCode]
  | succ n ih => simp [chainCode, ih]

theorem bind_not_mem_slotOperandCode (L : SlotLayout) (l : Label) (slot : Slot) :
    Instr.bind l ∉ slotOperandCode L slot := by
  unfold slotOperandCode
  cases slot.type <;> simp [bind_not_mem_chainCode]

theorem run_str (rt : Runtime) (src base : Register) (off : Int) (rest : List Instr) (s : State) :
    run rt (.str src base off :: rest) none s =
      run rt rest none (s.store32 (s.regs base + off) (s.regs src)) := by
  simp [run, step]

theorem run_RecordWrite (rt : Runtime) (a b c : Register) (rest : List Instr) (s : State) :
    run rt (.RecordWrite a b c :: rest) none s =
      run rt rest none
        { s with log := s.log ++ [Event.record_write (s.regs a) (s.regs b)] } := by
  simp [run, step]

theorem load32_store32 (s : State) (a : Int) (w : Nat) (hw : w < 4294967296) :
    (s.store32 a w).load32 a = w := by
  simp only [State.load32, State.store32]
  have h1 : ¬ a.toNat + 1 = a.toNat := by omega
  have h2 : ¬ a.toNat + 2 = a.toNat := by omega
  have h3 : ¬ a.toNat + 3 = a.toNat := by omega
  simp only [if_true, h1, h2, h3, if_false, Nat.add_right_cancel_iff, OfNat.ofNat_ne_one,
    Nat.succ_ne_self, reduceCtorEq]
  simp
  omega

theorem run_skip_to_bind (rt : Runtime) (l : Label) (xs : List Instr) (s : State)
    (h : Instr.bind l ∉ xs) : run rt (xs ++ [Instr.bind l]) (some l) s = .fallthrough s := by
  rw [run_append, run_skip_all _ _ _ _ h]
  simp only []
  rw [run_skip_bind, run_nil]

theorem emitted_SetValue_CONST_INIT (cg : CodeGenerator) (F : Factory) (L : SlotLayout)
    (var : Variable) (slot : Slot) (hslot : var.slot = some slot) (hty : slot.type ≠ .LOOKUP)
    (height : Int) (hf : cg.frame_ = some height) :
    emitted cg ((Reference.mk (.VariableProxy var) .SLOT).SetValue cg F L .CONST_INIT) =
      constInitCode F L (.target cg.next_target_) slot ∧
    ((Reference.mk (.VariableProxy var) .SLOT).SetValue cg F L .CONST_INIT).frame_ =
      some height := by
  by_cases hc : slot.type = .CONTEXT <;>
    simp [Reference.SetValue, Expression.AsVariable, hslot, hty, hc, newTarget, SlotOperand_eq,
      emitted, emit, VirtualFrame.EmitPop, VirtualFrame.EmitPush, JumpTarget.Branch,
      JumpTarget.Bind, constInitCode, storeBarrierCode, hf]

theorem run_constInit_check (rt : Runtime) (F : Factory) (L : SlotLayout) (X : Label)
    (slot : Slot) (hty : slot.type ≠ .LOOKUP) (rest : List Instr) (s : State)
    (hh : F.the_hole_value < 4294967296)
    (hc : s.load32 (slotAddress L slot s) < 4294967296) :
    ∃ s3, run rt (slotOperandCode L slot ++
        ([Instr.ldr .r2 (slotBase slot) (slotOffset L slot),
          .dp .cmp .r2 .r2 (.imm F.the_hole_value) .SetCC .al,
          .b .ne X] ++ rest)) none s =
        (if s.load32 (slotAddress L slot s) = F.the_hole_value then run rt rest none s3
         else run rt rest (some X) s3) ∧
      s3.stack = s.stack ∧ s3.mem = s.mem ∧ s3.log = s.log ∧
      s3.regs .fp = s.regs .fp ∧ s3.regs .cp = s.regs .cp := by
  obtain ⟨s1, e1, e2, e3, e4, e5, e6⟩ := run_slotOperandCode rt L slot hty
    ([Instr.ldr .r2 (slotBase slot) (slotOffset L slot),
      .dp .cmp .r2 .r2 (.imm F.the_hole_value) .SetCC .al, .b .ne X] ++ rest) s
  have hv : s1.load32 ((s1.regs (slotBase slot) : Nat) + slotOffset L slot) =
      s.load32 (slotAddress L slot s) := by
    rw [e2, load32_congr s s1 e4]
  refine ⟨(s1.set .r2 (s.load32 (slotAddress L slot s))).dataProcessing .cmp .r2 .r2
    (.imm F.the_hole_value) .SetCC, ?_, ?_, ?_, ?_, ?_, ?_⟩
  · rw [e1]
    simp only [List.cons_append, List.nil_append]
    rw [run_ldr, run_dp, hv]
    by_cases hq : s.load32 (slotAddress L slot s) = F.the_hole_value
    · rw [if_pos hq, run_b_not_taken]
      have := cmp_imm_eq (s1.set .r2 (s.load32 (slotAddress L slot s))) .r2 .r2
        F.the_hole_value (by simpa using hc) hh
      simp only [State.holds] at this ⊢
      rw [this]
      simp [hq]
    · rw [if_neg hq, run_b_taken]
      exact cmp_imm_ne _ _ _ _ (by simpa using hc) hh (by simpa using hq)
  · simp [dp_cmp, e3]
  · simp [dp_cmp, e4]
  · simp [dp_cmp, e5]
  · simp [dp_cmp, e6 .fp (by decide)]
  · simp [dp_cmp, e6 .cp (by decide)]

theorem run_constInit_store (rt : Runtime) (L : SlotLayout) (slot : Slot)
    (hty : slot.type ≠ .LOOKUP) (rest : List Instr) (s : State) (value : Nat)
    (below : List Nat) (hs : s.stack = value :: below) :
    ∃ s6, run rt ([Instr.pop .r0] ++
        (slotOperandCode L slot ++
          ([Instr.str .r0 (slotBase slot) (slotOffset L slot), .push .r0] ++ rest))) none s =
        run rt rest none s6 ∧
      s6.stack = value :: below ∧ s6.mem = (s.store32 (slotAddress L slot s) value).mem ∧
      s6.regs .r0 = value ∧ s6.log = s.log := by
  have hpop := run_pop rt .r0 (slotOperandCode L slot ++
    ([Instr.str .r0 (slotBase slot) (slotOffset L slot), .push .r0] ++ rest)) s value below hs
  obtain ⟨s5, e1, e2, e3, e4, e5, e6⟩ := run_slotOperandCode rt L slot hty
    ([Instr.str .r0 (slotBase slot) (slotOffset L slot), .push .r0] ++ rest)
    (({ s with stack := below } : State).set .r0 value)
  have ha : slotAddress L slot (({ s with stack := below } : State).set .r0 value) =
      slotAddress L slot s := slotAddress_eq L slot s _ rfl (by simp) (by simp)
  have hr0 : s5.regs .r0 = value := by
    rw [e6 .r0 (by decide)]
    simp
  refine ⟨{ (s5.store32 ((s5.regs (slotBase slot) : Nat) + slotOffset L slot) (s5.regs .r0)) with
    stack := (s5.store32 ((s5.regs (slotBase slot) : Nat) + slotOffset L slot)
      (s5.regs .r0)).regs .r0 ::
      (s5.store32 ((s5.regs (slotBase slot) : Nat) + slotOffset L slot) (s5.regs .r0)).stack },
    ?_, ?_, ?_, ?_, ?_⟩
  · rw [List.singleton_append, hpop, e1]
    simp only [List.cons_append, List.nil_append]
    rw [run_str, run_push]
  · simp [State.store32, hr0, e3]
  · simp only [e2, ha, hr0]
    simp [State.store32, e4]
  · simp [State.store32, hr0]
  · simp [State.store32, e5]

theorem run_storeBarrier (rt : Runtime) (L : SlotLayout) (X : Label) (slot : Slot) (s : State) :
    ∃ s', run rt (storeBarrierCode L X slot ++ [Instr.bind X]) none s = .fallthrough s' ∧
      s'.stack = s.stack ∧ s'.mem = s.mem := by
  unfold storeBarrierCode
  by_cases hc : slot.type = .CONTEXT
  · rw [if_pos hc]
    simp only [List.cons_append, List.nil_append]
    rw [run_dp]
    by_cases hz : (s.dataProcessing .tst .r0 .r0 (.imm Smi.kSmiTagMask) .SetCC).holds .eq = true
    · rw [run_b_taken _ _ _ _ _ hz, run_skip _ _ _ _ _ (by simp), run_skip _ _ _ _ _ (by simp),
        run_skip_bind, run_nil]
      exact ⟨_, rfl, by simp [dp_tst], by simp [dp_tst]⟩
    · rw [run_b_not_taken _ _ _ _ _ (by simpa using hz), run_dp, run_RecordWrite, run_bind,
        run_nil]
      exact ⟨_, rfl, by simp [dp_tst, dp_mov], by simp [dp_tst, dp_mov]⟩
  · rw [if_neg hc]
    simp only [List.nil_append]
    rw [run_bind, run_nil]
    exact ⟨_, rfl, rfl, rfl⟩

/-- C14: `Reference::SetValue(CONST_INIT)` on a parameter, local or context
slot emits code that stores the value on top of the stack into the slot when
the slot holds the hole value, and leaves memory as it is when the slot holds
anything else; on both paths the code runs to its end with the stack unchanged
(the value still on top), and the height of the virtual frame is unchanged. -/
theorem SetValue_CONST_INIT_stores_iff_hole (rt : Runtime) (cg : CodeGenerator) (F : Factory)
    (L : SlotLayout) (var : Variable) (slot : Slot) (hslot : var.slot = some slot)
    (hty : slot.type ≠ .LOOKUP) (height : Int) (hf : cg.frame_ = some height) (s : State)
    (value : Nat) (below : List Nat) (hs : s.stack = value :: below)
    (hv : value < 4294967296) (hh : F.the_hole_value < 4294967296)
    (hc : s.load32 (slotAddress L slot s) < 4294967296) :
    ((Reference.mk (.VariableProxy var) .SLOT).SetValue cg F L .CONST_INIT).frame_ =
      some height ∧
    ∃ s', run rt (emitted cg
        ((Reference.mk (.VariableProxy var) .SLOT).SetValue cg F L .CONST_INIT)) none s =
        .fallthrough s' ∧
      s'.stack = value :: below ∧
      (s.load32 (slotAddress L slot s) = F.the_hole_value →
        s'.mem = (s.store32 (slotAddress L slot s) value).mem ∧
        s'.load32 (slotAddress L slot s) = value) ∧
      (s.load32 (slotAddress L slot s) ≠ F.the_hole_value → s'.mem = s.mem) := by
  obtain ⟨he, hfr⟩ := emitted_SetValue_CONST_INIT cg F L var slot hslot hty height hf
  refine ⟨hfr, ?_⟩
  rw [he]
  unfold constInitCode
  obtain ⟨s3, e1, e2, e3, -, e5, e6⟩ := run_constInit_check rt F L (.target cg.next_target_) slot
    hty ([Instr.pop .r0] ++
      (slotOperandCode L slot ++
        ([Instr.str .r0 (slotBase slot) (slotOffset L slot), .push .r0] ++
          (storeBarrierCode L (.target cg.next_target_) slot ++
            [Instr.bind (.target cg.next_target_)])))) s hh hc
  rw [e1]
  by_cases hq : s.load32 (slotAddress L slot s) = F.the_hole_value
  · rw [if_pos hq]
    obtain ⟨s6, f1, f2, f3, -, -⟩ := run_constInit_store rt L slot hty
      (storeBarrierCode L (.target cg.next_target_) slot ++
        [Instr.bind (.target cg.next_target_)]) s3 value below (by rw [e2, hs])
    obtain ⟨s', g1, g2, g3⟩ := run_storeBarrier rt L (.target cg.next_target_) slot s6
    have ha : slotAddress L slot s3 = slotAddress L slot s := slotAddress_eq L slot s s3 e3 e5 e6
    have hm : s'.mem = (s.store32 (slotAddress L slot s) value).mem := by
      rw [g3, f3, ha]
      simp [State.store32, e3]
    refine ⟨s', by rw [f1, g1], by rw [g2, f2], fun _ => ⟨hm, ?_⟩, fun h => absurd hq h⟩
    rw [load32_congr _ s' hm, load32_store32 s _ value hv]
  · rw [if_neg hq]
    refine ⟨s3, ?_, by rw [e2, hs], fun h => absurd h hq, fun _ => e3⟩
    have := run_skip_to_bind rt (.target cg.next_target_)
      ([Instr.pop .r0] ++ (slotOperandCode L slot ++
        ([Instr.str .r0 (slotBase slot) (slotOffset L slot), .push .r0] ++
          storeBarrierCode L (.target cg.next_target_) slot))) s3 (by
        have := bind_not_mem_slotOperandCode L (.target cg.next_target_) slot
        unfold storeBarrierCode
        split_ifs <;> simp [this])
    simpa [List.append_assoc] using this

theorem SetValue_CONST_INIT_stores_iff_hole_witness :
    ((Reference.mk (.VariableProxy (Variable.mk "c" false false (some (Slot.mk .LOCAL 0 0))))
        .SLOT).SetValue (CodeGenerator.start 1) Factory.sample SlotLayout.sample
        .CONST_INIT).frame_ = some 1 ∧
    ∃ s', run Runtime.zero (emitted (CodeGenerator.start 1)
        ((Reference.mk (.VariableProxy (Variable.mk "c" false false (some (Slot.mk .LOCAL 0 0))))
          .SLOT).SetValue (CodeGenerator.start 1) Factory.sample SlotLayout.sample
          .CONST_INIT)) none (State.withStack [42]) = .fallthrough s' ∧
      s'.stack = 42 :: [] ∧
      ((State.withStack [42]).load32 (slotAddress SlotLayout.sample (Slot.mk .LOCAL 0 0)
          (State.withStack [42])) = Factory.sample.the_hole_value →
        s'.mem = ((State.withStack [42]).store32 (slotAddress SlotLayout.sample
          (Slot.mk .LOCAL 0 0) (State.withStack [42])) 42).mem ∧
        s'.load32 (slotAddress SlotLayout.sample (Slot.mk .LOCAL 0 0)
          (State.withStack [42])) = 42) ∧
      ((State.withStack [42]).load32 (slotAddress SlotLayout.sample (Slot.mk .LOCAL 0 0)
          (State.withStack [42])) ≠ Factory.sample.the_hole_value →
        s'.mem = (State.withStack [42]).mem) :=
  SetValue_CONST_INIT_stores_iff_hole Runtime.zero (CodeGenerator.start 1) Factory.sample
    SlotLayout.sample (Variable.mk "c" false false (some (Slot.mk .LOCAL 0 0)))
    (Slot.mk .LOCAL 0 0) rfl (by decide) 1 rfl (State.withStack [42]) 42 [] rfl (by decide)
    (by decide) (by decide)

theorem emitted_Load_plain (cg : CodeGenerator) (F : Factory) (result : Expression → VisitResult)
    (e : Expression) (he : result e = VisitResult.plain) (hso : cg.stack_overflow_ = false)
    (hcc : cg.cc_reg_ = .al) (hfresh : cg.TargetsFresh) (height : Int)
    (hf : cg.frame_ = some height) :
    (cg.Load F result e).masm_ = cg.masm_ ++ [Instr.load e] ∧
    (cg.Load F result e).frame_ = some (height + 1) ∧
    (cg.Load F result e).cc_reg_ = .al ∧
    (cg.Load F result e).linked_ = cg.linked_ := by
  have f1 := is_linked_fresh cg hfresh cg.next_target_ (Nat.le_refl _)
  have f2 := is_linked_fresh cg hfresh (cg.next_target_ + 1) (Nat.le_succ _)
  unfold is_linked at f1 f2
  simp [Load, LoadCondition, Visit, he, hso, hcc, has_cc, has_valid_frame, newTarget, is_linked,
    link, emit, VisitResult.plain, hf, f1, f2]

theorem run_load (rt : Runtime) (e : Expression) (rest : List Instr) (s : State) :
    run rt (.load e :: rest) none s =
      run rt rest none { s with stack := rt.value e :: s.stack, log := s.log ++ [Event.load e] } := by
  simp [run, step]

theorem run_InvokeBuiltin (rt : Runtime) (id : Builtin) (n : Nat) (rest : List Instr) (s : State)
    (h : n ≤ s.stack.length) :
    run rt (.InvokeBuiltin id n :: rest) none s =
      run rt rest none
        ({ s with stack := s.stack.drop n,
                  log := s.log ++ [Event.builtin id (s.stack.take n)] }.set .r0
          (rt.builtin id (s.stack.take n))) := by
  simp [run, step, h]

/-- C15 (as stated) fails: for the local variable `x`, which is neither a
property access nor allocated to a `LOOKUP` slot, the code of `delete x` is
`mov r0, false; push r0`: nothing is evaluated and the value produced is the
false object, not true. -/
theorem VisitUnaryOperation_DELETE_local_variable_false :
    (Expression.VariableProxy (Variable.mk "x" false false (some (Slot.mk .LOCAL 0 0)))).AsProperty
      = none ∧
    (Slot.mk .LOCAL 0 0).type ≠ .LOOKUP ∧
    emitted (CodeGenerator.start 0)
      ((CodeGenerator.start 0).VisitUnaryOperation Factory.sample (fun _ => VisitResult.plain)
        20 3 .DELETE (.VariableProxy (Variable.mk "x" false false (some (Slot.mk .LOCAL 0 0))))
        .true_target .false_target) =
      [Instr.dp .mov .r0 .r0 (.imm Factory.sample.false_value) .LeaveCC .al, .push .r0] ∧
    (∃ s', run Runtime.zero (emitted (CodeGenerator.start 0)
        ((CodeGenerator.start 0).VisitUnaryOperation Factory.sample (fun _ => VisitResult.plain)
          20 3 .DELETE (.VariableProxy (Variable.mk "x" false false (some (Slot.mk .LOCAL 0 0))))
          .true_target .false_target)) none (State.withStack []) = .fallthrough s' ∧
      s'.stack = [Factory.sample.false_value] ∧ s'.log = []) ∧
    Factory.sample.false_value ≠ Factory.sample.true_value := by
  refine ⟨rfl, by decide, rfl, ⟨_, rfl, rfl, rfl⟩, by decide⟩

theorem and_fffffffe (a : Nat) (h : a < 4294967296) : a &&& 4294967294 = 2 * (a / 2) := by
  apply Nat.eq_of_testBit_eq
  intro i
  rw [Nat.testBit_and]
  cases i with
  | zero => simp [Nat.testBit_zero]
  | succ j =>
    rw [Nat.testBit_succ, Nat.testBit_succ, Nat.testBit_succ]
    have e1 : 4294967294 / 2 = 2 ^ 31 - 1 := by norm_num
    have e2 : 2 * (a / 2) / 2 = a / 2 := by omega
    rw [e1, e2, Nat.testBit_two_pow_sub_one]
    by_cases hj : j < 31
    · simp [hj]
    · have : a / 2 < 2 ^ j := by
        have : 2 ^ 31 ≤ 2 ^ j := Nat.pow_le_pow_right (by norm_num) (by omega)
        omega
      simp [hj, Nat.testBit_lt_two_pow this]

theorem bit_not_arith (x : Int) (hx : Smi.IsValid x = true) :
    (4294967295 - Smi.FromInt x) &&& 4294967294 = Smi.FromInt (-x - 1) ∧
      Smi.IsValid (-x - 1) = true ∧ Smi.FromInt x % 2 = 0 := by
  have hw : Smi.FromInt x < 4294967296 := by
    unfold Smi.FromInt toWord
    omega
  rw [and_fffffffe _ (by omega)]
  simp only [Smi.IsValid, Bool.and_eq_true, decide_eq_true_eq] at hx ⊢
  simp only [toWord, Smi.FromInt, Smi.kSmiTagSize, Smi.kSmiTag, pow_one] at hw ⊢
  omega

theorem emitted_BIT_NOT (cg : CodeGenerator) (F : Factory) (result : Expression → VisitResult)
    (kGlobalSlotOffset GLOBAL_INDEX : Int) (e : Expression) (tt ft : Label)
    (he : result e = VisitResult.plain) (hso : cg.stack_overflow_ = false)
    (hcc : cg.cc_reg_ = .al) (hfresh : cg.TargetsFresh) (height : Int)
    (hf : cg.frame_ = some height) :
    emitted cg (cg.VisitUnaryOperation F result kGlobalSlotOffset GLOBAL_INDEX .BIT_NOT e tt ft) =
      Instr.load e :: bitNotCode (.target (cg.next_target_ + 2))
        (.target (cg.next_target_ + 3)) ∧
    (cg.VisitUnaryOperation F result kGlobalSlotOffset GLOBAL_INDEX .BIT_NOT e tt ft).frame_ =
      some (height + 1) ∧
    (cg.VisitUnaryOperation F result kGlobalSlotOffset GLOBAL_INDEX .BIT_NOT e tt ft).cc_reg_ =
      .al := by
  obtain ⟨l1, l2, l3, l4⟩ := emitted_Load_plain cg F result e he hso hcc hfresh height hf
  have l5 : (cg.Load F result e).next_target_ = cg.next_target_ + 2 := by
    have f1 := is_linked_fresh cg hfresh cg.next_target_ (Nat.le_refl _)
    have f2 := is_linked_fresh cg hfresh (cg.next_target_ + 1) (Nat.le_succ _)
    unfold is_linked at f1 f2
    simp [Load, LoadCondition, Visit, he, hso, hcc, has_cc, has_valid_frame, newTarget,
      is_linked, link, emit, VisitResult.plain, hf, f1, f2]
  have g1 := find_FreshIn cg.linked_ cg.next_target_ (cg.next_target_ + 2) hfresh (by omega)
  refine ⟨?_, ?_, ?_⟩
  · simp [emitted, VisitUnaryOperation, LoadAndSpill, emit, VirtualFrame.EmitPop,
      VirtualFrame.EmitPush, VirtualFrame.InvokeBuiltin, JumpTarget.Branch, JumpTarget.Jump,
      JumpTarget.Bind, l1, l5, newTarget, bitNotCode]
  · simp [VisitUnaryOperation, LoadAndSpill, emit, VirtualFrame.EmitPop,
      VirtualFrame.EmitPush, VirtualFrame.InvokeBuiltin, JumpTarget.Branch, JumpTarget.Jump,
      JumpTarget.Bind, l2, l4, l5, link, newTarget, g1, List.find?_append]
  · simp [VisitUnaryOperation, LoadAndSpill, emit, VirtualFrame.EmitPop,
      VirtualFrame.EmitPush, VirtualFrame.InvokeBuiltin, JumpTarget.Branch, JumpTarget.Jump,
      JumpTarget.Bind, l3, newTarget]

theorem dp_mvn_LeaveCC (s : State) (d a : Register) (b : Operand) :
    s.dataProcessing .mvn d a b .LeaveCC = s.set d (4294967295 - s.operand b) := by
  simp [State.dataProcessing]

theorem dp_bic_LeaveCC (s : State) (d a : Register) (b : Operand) :
    s.dataProcessing .bic d a b .LeaveCC =
      s.set d (s.regs a &&& (4294967295 - s.operand b)) := by
  simp [State.dataProcessing]

theorem run_bitNotCode_smi (rt : Runtime) (l1 l2 : Label) (s : State) (x : Int)
    (rest : List Nat) (hx : Smi.IsValid x = true) (hs : s.stack = Smi.FromInt x :: rest) :
    ∃ s', run rt (bitNotCode l1 l2) none s = .fallthrough s' ∧
      s'.stack = Smi.FromInt (-x - 1) :: rest ∧ s'.log = s.log := by
  obtain ⟨a1, -, a3⟩ := bit_not_arith x hx
  unfold bitNotCode
  rw [run_pop rt _ _ s _ rest hs, run_dp,
    run_b_taken _ _ _ _ _ (by simp [State.holds, Smi.kSmiTagMask, Nat.and_one_is_mod, a3]),
    run_skip _ _ _ _ _ (by simp), run_skip _ _ _ _ _ (by simp), run_skip _ _ _ _ _ (by simp),
    run_skip _ _ _ _ _ (by simp), run_skip_bind, run_dp, run_dp, run_bind, run_push, run_nil]
  refine ⟨_, rfl, ?_, ?_⟩
  · simp only [dp_mvn_LeaveCC, dp_bic_LeaveCC, dp_tst, operand_reg, operand_imm, set_regs,
      if_true, logicFlags_regs, set_stack, logicFlags_stack, Smi.kSmiTagMask]
    rw [show (4294967295 - 1 % 4294967296 : Nat) = 4294967294 from rfl, a1]
  · simp [dp_mvn_LeaveCC, dp_bic_LeaveCC, dp_tst]

/-- C17: for every small integer `x`, the code of `~e` for an operand whose
value is the tagged `x` takes the inline path (no builtin is invoked): the
inversion of the tagged word followed by clearing the tag bit leaves on the
frame exactly the tagged representation of `-x - 1`, which is again a valid
small integer. -/
theorem VisitUnaryOperation_BIT_NOT_smi (rt : Runtime) (cg : CodeGenerator) (F : Factory)
    (result : Expression → VisitResult) (kGlobalSlotOffset GLOBAL_INDEX : Int) (e : Expression)
    (tt ft : Label) (he : result e = VisitResult.plain) (hso : cg.stack_overflow_ = false)
    (hcc : cg.cc_reg_ = .al) (hfresh : cg.TargetsFresh) (height : Int)
    (hf : cg.frame_ = some height) (s : State) (x : Int) (hx : Smi.IsValid x = true)
    (hv : rt.value e = Smi.FromInt x) :
    Smi.IsValid (-x - 1) = true ∧
    (4294967295 - Smi.FromInt x) &&& (4294967295 - Smi.kSmiTagMask) = Smi.FromInt (-x - 1) ∧
    (cg.VisitUnaryOperation F result kGlobalSlotOffset GLOBAL_INDEX .BIT_NOT e tt ft).frame_ =
      some (height + 1) ∧
    ∃ s', run rt (emitted cg
        (cg.VisitUnaryOperation F result kGlobalSlotOffset GLOBAL_INDEX .BIT_NOT e tt ft))
        none s = .fallthrough s' ∧
      s'.stack = Smi.FromInt (-x - 1) :: s.stack ∧ s'.log = s.log ++ [Event.load e] := by
  obtain ⟨e1, e2, -⟩ := emitted_BIT_NOT cg F result kGlobalSlotOffset GLOBAL_INDEX e tt ft he hso
    hcc hfresh height hf
  obtain ⟨a1, a2, -⟩ := bit_not_arith x hx
  refine ⟨a2, a1, e2, ?_⟩
  rw [e1, run_load]
  obtain ⟨s', r1, r2, r3⟩ := run_bitNotCode_smi rt (.target (cg.next_target_ + 2))
    (.target (cg.next_target_ + 3))
    { s with stack := rt.value e :: s.stack, log := s.log ++ [Event.load e] } x s.stack hx
    (by simp [hv])
  exact ⟨s', r1, r2, r3⟩

theorem VisitUnaryOperation_BIT_NOT_smi_witness :
    Smi.IsValid (-5 - 1) = true ∧
    (4294967295 - Smi.FromInt 5) &&& (4294967295 - Smi.kSmiTagMask) = Smi.FromInt (-5 - 1) ∧
    ((CodeGenerator.start 0).VisitUnaryOperation Factory.sample (fun _ => VisitResult.plain)
      20 3 .BIT_NOT (.Literal (.Smi 5)) .true_target .false_target).frame_ = some (0 + 1) ∧
    ∃ s', run (Runtime.withToBool Factory.sample Heap.sample) (emitted (CodeGenerator.start 0)
        ((CodeGenerator.start 0).VisitUnaryOperation Factory.sample (fun _ => VisitResult.plain)
          20 3 .BIT_NOT (.Literal (.Smi 5)) .true_target .false_target))
        none (State.withStack []) = .fallthrough s' ∧
      s'.stack = Smi.FromInt (-5 - 1) :: (State.withStack []).stack ∧
      s'.log = (State.withStack []).log ++ [Event.load (.Literal (.Smi 5))] :=
  VisitUnaryOperation_BIT_NOT_smi (Runtime.withToBool Factory.sample Heap.sample)
    (CodeGenerator.start 0) Factory.sample (fun _ => VisitResult.plain) 20 3 (.Literal (.Smi 5))
    .true_target .false_target rfl rfl rfl (TargetsFresh_start 0) 0 rfl (State.withStack []) 5
    (by decide) rfl

theorem run_dp_cond (rt : Runtime) (op : Opcode) (d a : Register) (b : Operand) (sb : SBit)
    (c : Condition) (rest : List Instr) (s : State) (h : s.holds c = true) :
    run rt (.dp op d a b sb c :: rest) none s = run rt rest none (s.dataProcessing op d a b sb) := by
  simp [run, step, h]

theorem dp_rsb_SetCC (s : State) (d a : Register) (b : Operand) :
    s.dataProcessing .rsb d a b .SetCC =
      (s.subFlags (s.operand b) (s.regs a)).set d (toWord ((s.operand b : Int) - s.regs a)) := by
  simp [State.dataProcessing]

theorem subFlags_v (s : State) (a b : Nat) :
    (s.subFlags a b).v = decide (toInt a - toInt b ≠ toInt (toWord ((a : Int) - b))) := rfl

theorem UnarySubStub_code :
    UnarySubStub_Generate [] =
      [.dp .tst .r0 .r0 (.imm Smi.kSmiTagMask) .SetCC .al, .b .ne .slow,
       .dp .cmp .r0 .r0 (.imm 0) .SetCC .al, .b .eq .slow,
       .dp .rsb .r1 .r0 (.imm 0) .SetCC .al, .b .vs .slow,
       .dp .tst .r1 .r1 (.imm Smi.kSmiTagMask) .SetCC .al,
       .dp .mov .r0 .r0 (.reg .r1) .LeaveCC .eq, .b .eq .done,
       .bind .slow, .push .r0, .dp .mov .r0 .r0 (.imm 0) .LeaveCC .al,
       .JumpBuiltin .UNARY_MINUS, .bind .done, .StubReturn 1] := rfl

theorem run_slow_tail (rt : Runtime) (s : State) :
    run rt [Instr.push .r0, .dp .mov .r0 .r0 (.imm 0) .LeaveCC .al,
      .JumpBuiltin .UNARY_MINUS, .bind .done, .StubReturn 1] none s =
      .jumped (.builtin_entry .UNARY_MINUS)
        (({ s with stack := s.regs .r0 :: s.stack } : State).set .r0 0) := by
  rw [run_push, run_dp]
  simp [run, step]

theorem neg_arith (w : Nat) (hw : w < 4294967296) (hev : w % 2 = 0) :
    (toInt 0 - toInt w ≠ toInt (toWord ((0 : Int) - w)) ↔ w = 2147483648) ∧
      toWord ((0 : Int) - w) % 2 = 0 := by
  simp only [toInt, toWord]
  split_ifs <;> omega

theorem run_UnarySubStub_fast (rt : Runtime) (s : State) (w : Nat) (hr0 : s.regs .r0 = w)
    (hw : w < 4294967296) (hev : w % 2 = 0) (hnz : w ≠ 0) (hmin : w ≠ 2147483648) :
    ∃ s', run rt (UnarySubStub_Generate []) none s = .jumped .return_address s' ∧
      s'.regs .r0 = toWord ((0 : Int) - w) ∧ s'.stack = s.stack ∧ s'.log = s.log := by
  obtain ⟨a1, a2⟩ := neg_arith w hw hev
  have a3 : toWord (-(w : Int)) % 2 = 0 := by simpa using a2
  rw [UnarySubStub_code, run_dp,
    run_b_not_taken _ _ _ _ _ (by
      simp [State.holds, Smi.kSmiTagMask, Nat.and_one_is_mod, hr0, hev]),
    run_dp,
    run_b_not_taken _ _ _ _ _ (by
      have := cmp_imm_eq (s.dataProcessing .tst .r0 .r0 (.imm Smi.kSmiTagMask) .SetCC) .r0 .r0 0
        (by simpa [hr0] using hw) (by norm_num)
      rw [this]
      simpa [hr0] using hnz),
    run_dp,
    run_b_not_taken _ _ _ _ _ (by
      simp only [dp_rsb_SetCC, State.holds, set_v, subFlags_v, operand_imm, dp_cmp, dp_tst,
        subFlags_regs, logicFlags_regs, hr0]
      simpa using fun h => hmin (a1.mp h)),
    run_dp, run_dp_cond _ _ _ _ _ _ _ _ _ (by
      simp [dp_rsb_SetCC, State.holds, dp_cmp, hr0, Smi.kSmiTagMask, Nat.and_one_is_mod, a3]),
    run_b_taken _ _ _ _ _ (by
      simp [dp_rsb_SetCC, State.holds, dp_cmp, hr0, Smi.kSmiTagMask, Nat.and_one_is_mod, a3]),
    run_skip _ _ _ _ _ (by simp), run_skip _ _ _ _ _ (by simp), run_skip _ _ _ _ _ (by simp),
    run_skip _ _ _ _ _ (by simp), run_skip_bind]
  refine ⟨_, by simp [run, step]; rfl, ?_, ?_, ?_⟩ <;>
    simp [dp_rsb_SetCC, dp_cmp, hr0]

theorem run_UnarySubStub_slow (rt : Runtime) (s : State) (w : Nat) (hr0 : s.regs .r0 = w)
    (hw : w < 4294967296) (hslow : w % 2 = 1 ∨ w = 0 ∨ w = 2147483648) :
    ∃ s', run rt (UnarySubStub_Generate []) none s =
        .jumped (.builtin_entry .UNARY_MINUS) s' ∧
      s'.stack = w :: s.stack ∧ s'.regs .r0 = 0 ∧ s'.log = s.log := by
  rw [UnarySubStub_code, run_dp]
  by_cases hodd : w % 2 = 1
  · rw [run_b_taken _ _ _ _ _ (by
        simp [State.holds, Smi.kSmiTagMask, Nat.and_one_is_mod, hr0, hodd]),
      run_skip _ _ _ _ _ (by simp), run_skip _ _ _ _ _ (by simp), run_skip _ _ _ _ _ (by simp),
      run_skip _ _ _ _ _ (by simp), run_skip _ _ _ _ _ (by simp), run_skip _ _ _ _ _ (by simp),
      run_skip _ _ _ _ _ (by simp), run_skip_bind, run_slow_tail]
    exact ⟨_, rfl, by simp [hr0], by simp, by simp⟩
  · have hev : w % 2 = 0 := by omega
    rw [run_b_not_taken _ _ _ _ _ (by
        simp [State.holds, Smi.kSmiTagMask, Nat.and_one_is_mod, hr0, hev]),
      run_dp]
    have hcmp := cmp_imm_eq (s.dataProcessing .tst .r0 .r0 (.imm Smi.kSmiTagMask) .SetCC) .r0 .r0 0
        (by simpa [hr0] using hw) (by norm_num)
    by_cases hz : w = 0
    · rw [run_b_taken _ _ _ _ _ (by rw [hcmp]; simpa [hr0] using hz),
        run_skip _ _ _ _ _ (by simp), run_skip _ _ _ _ _ (by simp),
        run_skip _ _ _ _ _ (by simp), run_skip _ _ _ _ _ (by simp),
        run_skip _ _ _ _ _ (by simp), run_skip_bind, run_slow_tail]
      exact ⟨_, rfl, by simp [hr0, dp_cmp], by simp, by simp [dp_cmp]⟩
    · have hm : w = 2147483648 := by
        rcases hslow with h | h | h
        · omega
        · exact absurd h hz
        · exact h
      obtain ⟨a1, -⟩ := neg_arith w hw hev
      rw [run_b_not_taken _ _ _ _ _ (by rw [hcmp]; simpa [hr0] using hz), run_dp,
        run_b_taken _ _ _ _ _ (by
          simp only [dp_rsb_SetCC, State.holds, set_v, subFlags_v, operand_imm, dp_cmp, dp_tst,
            subFlags_regs, logicFlags_regs, hr0]
          simpa using a1.mpr hm),
        run_skip _ _ _ _ _ (by simp), run_skip _ _ _ _ _ (by simp),
        run_skip _ _ _ _ _ (by simp), run_skip_bind, run_slow_tail]
      exact ⟨_, rfl, by simp [hr0, dp_cmp, dp_rsb_SetCC], by simp,
        by simp [dp_cmp, dp_rsb_SetCC]⟩

theorem neg_FromInt (x : Int) (hx : Smi.IsValid x = true) (h0 : x ≠ 0)
    (hmin : x ≠ -1073741824) :
    toWord ((0 : Int) - Smi.FromInt x) = Smi.FromInt (-x) ∧ Smi.IsValid (-x) = true ∧
      Smi.FromInt x % 2 = 0 ∧ Smi.FromInt x ≠ 0 ∧ Smi.FromInt x ≠ 2147483648 ∧
      Smi.FromInt x < 4294967296 := by
  simp only [Smi.IsValid, Bool.and_eq_true, decide_eq_true_eq] at hx ⊢
  simp only [toWord, Smi.FromInt, Smi.kSmiTagSize, Smi.kSmiTag, pow_one]
  omega

/-- C18: entered with its operand in `r0`, the code of `UnarySubStub` returns
with the tagged representation of `-x` in `r0`, without calling anything, for
every small integer `x` other than 0 and the minimum small integer `-2^30`;
for an operand that is not a small integer, for 0 and for `-2^30` it jumps to
the `UNARY_MINUS` builtin with the unchanged operand pushed as the receiver and
the argument count 0 in `r0`. -/
theorem UnarySubStub_negates_or_enters_builtin (rt : Runtime) (s : State) (w : Nat)
    (hr0 : s.regs .r0 = w) (hw : w < 4294967296) :
    (∀ x : Int, Smi.IsValid x = true → w = Smi.FromInt x → x ≠ 0 → x ≠ -1073741824 →
      Smi.IsValid (-x) = true ∧
      ∃ s', run rt (UnarySubStub_Generate []) none s = .jumped .return_address s' ∧
        s'.regs .r0 = Smi.FromInt (-x) ∧ s'.stack = s.stack ∧ s'.log = s.log) ∧
    ((w % 2 = 1 ∨ w = Smi.FromInt 0 ∨ w = Smi.FromInt (-1073741824)) →
      ∃ s', run rt (UnarySubStub_Generate []) none s =
          .jumped (.builtin_entry .UNARY_MINUS) s' ∧
        s'.stack = w :: s.stack ∧ s'.regs .r0 = 0 ∧ s'.log = s.log) := by
  constructor
  · intro x hx hwx h0 hmin
    obtain ⟨a1, a2, a3, a4, a5, a6⟩ := neg_FromInt x hx h0 hmin
    subst hwx
    obtain ⟨s', r1, r2, r3, r4⟩ := run_UnarySubStub_fast rt s _ hr0 a6 a3 a4 a5
    exact ⟨a2, s', r1, by rw [r2, a1], r3, r4⟩
  · intro h
    have e0 : Smi.FromInt 0 = 0 := by decide
    have e1 : Smi.FromInt (-1073741824) = 2147483648 := by decide
    rw [e0, e1] at h
    exact run_UnarySubStub_slow rt s w hr0 hw h

theorem UnarySubStub_negates_or_enters_builtin_witness :
    Smi.IsValid (-7) = true ∧
      ∃ s', run Runtime.zero (UnarySubStub_Generate []) none
          ((State.withStack [3]).set .r0 (Smi.FromInt 7)) = .jumped .return_address s' ∧
        s'.regs .r0 = Smi.FromInt (-7) ∧
        s'.stack = ((State.withStack [3]).set .r0 (Smi.FromInt 7)).stack ∧
        s'.log = ((State.withStack [3]).set .r0 (Smi.FromInt 7)).log :=
  (UnarySubStub_negates_or_enters_builtin Runtime.zero
    ((State.withStack [3]).set .r0 (Smi.FromInt 7)) (Smi.FromInt 7) rfl (by decide)).1 7
    (by decide) rfl (by decide) (by decide)

theorem LoadTypeofExpression_frame (cg : CodeGenerator) (F : Factory)
    (result : Expression → VisitResult) (GLOBAL_INDEX : Int) (x : Expression)
    (hwf : ∀ x, (result x).WellFormed = true) (hcc : cg.cc_reg_ = .al)
    (hfresh : cg.TargetsFresh) (height : Int) (hf : cg.frame_ = some height) :
    (cg.LoadTypeofExpression F result GLOBAL_INDEX x).frame_ = some (height + 1) ∧
    (cg.LoadTypeofExpression F result GLOBAL_INDEX x).cc_reg_ = .al := by
  have h := fun e => Load_frame cg F result e (hwf e) hcc hfresh height hf
  unfold LoadTypeofExpression LoadAndSpill
  split
  · split_ifs
    · exact ⟨(h _).1, (h _).2.1⟩
    · exact ⟨(h _).1, (h _).2.1⟩
  · exact ⟨(h _).1, (h _).2.1⟩

/-- C16: for `typeof e == s` and `typeof e === s` with `s` a string literal,
`VisitCompareOperation` loads the operand of `typeof`, pops it into `r1`, and
then, when `s` is one of "number", "string", "boolean", "undefined",
"function", "object", emits an inline probe (instructions that call nothing)
that leaves a condition code to test and the frame at its entry height; for
every other string it emits just the unconditional jump to the false target,
leaving no condition code and no valid frame (no value). -/
theorem VisitCompareOperation_typeof_string (cg : CodeGenerator) (F : Factory)
    (L : ObjectLayout) (result : Expression → VisitResult) (GLOBAL_INDEX : Int) (op : Token)
    (operand : Expression) (handle : Handle) (chars : String) (tt ft : Label)
    (hop : op = .EQ ∨ op = .EQ_STRICT) (hh : handle = .Symbol chars ∨ handle = .String chars)
    (hwf : ∀ x, (result x).WellFormed = true) (hcc : cg.cc_reg_ = .al)
    (hfresh : cg.TargetsFresh) (height : Int) (hf : cg.frame_ = some height) :
    let cgL := cg.LoadTypeofExpression F result GLOBAL_INDEX operand
    let cg' := cg.VisitCompareOperation F L result GLOBAL_INDEX op
      (.UnaryOperation .TYPEOF operand) (.Literal handle) tt ft
    let canonical : Prop :=
      chars ∈ ["number", "string", "boolean", "undefined", "function", "object"]
    (canonical →
      cg'.has_cc = true ∧ cg'.cc_reg_ = typeofProbeCondition chars ∧
      cg'.frame_ = some height ∧
      cg'.masm_ = cgL.masm_ ++ Instr.pop .r1 :: (emitted cgL cg').tail ∧
      (emitted cgL cg').tail ≠ [] ∧
      ∀ i ∈ (emitted cgL cg').tail, i.isCall = false ∧ i ≠ Instr.b .al ft) ∧
    (¬ canonical →
      cg'.masm_ = cgL.masm_ ++ [Instr.pop .r1, .b .al ft] ∧ cg'.has_cc = false ∧
      cg'.frame_ = none) := by
  intro cgL cg' canonical
  obtain ⟨k1, k2⟩ := LoadTypeofExpression_frame cg F result GLOBAL_INDEX operand hwf hcc hfresh
    height hf
  have hs : handle.IsString = true ∧ String_cast handle = some chars ∧ handle.IsNull = false := by
    rcases hh with rfl | rfl <;> exact ⟨rfl, rfl, rfl⟩
  obtain ⟨hs1, hs2, hs3⟩ := hs
  have k1' : cgL.frame_ = some (height + 1) := k1
  have k2' : cgL.cc_reg_ = .al := k2
  have hcg : cg' = (let cg := VirtualFrame.EmitPop cgL .r1
      if chars = Heap_number_symbol then
        let cg := cg.emit (.dp .tst .r1 .r1 (.imm Smi.kSmiTagMask) .SetCC .al)
        let cg := JumpTarget.Branch cg tt .eq
        let cg := cg.emit (.ldr .r1 .r1 (L.kMapOffset - L.kHeapObjectTag))
        let cg := cg.emit (.dp .cmp .r1 .r1 (.imm F.heap_number_map) .SetCC .al)
        { cg with cc_reg_ := .eq }
      else if chars = Heap_string_symbol then
        let cg := cg.emit (.dp .tst .r1 .r1 (.imm Smi.kSmiTagMask) .SetCC .al)
        let cg := JumpTarget.Branch cg ft .eq
        let cg := cg.emit (.ldr .r1 .r1 (L.kMapOffset - L.kHeapObjectTag))
        let cg := cg.emit (.ldrb .r2 .r1 (L.kBitFieldOffset - L.kHeapObjectTag))
        let cg := cg.emit (.dp .and_ .r2 .r2 (.imm (2 ^ L.kIsUndetectable)) .LeaveCC .al)
        let cg := cg.emit (.dp .cmp .r2 .r2 (.imm (2 ^ L.kIsUndetectable)) .SetCC .al)
        let cg := JumpTarget.Branch cg ft .eq
        let cg := cg.emit (.ldrb .r2 .r1 (L.kInstanceTypeOffset - L.kHeapObjectTag))
        let cg := cg.emit (.dp .cmp .r2 .r2 (.imm L.FIRST_NONSTRING_TYPE) .SetCC .al)
        { cg with cc_reg_ := .lt }
      else if chars = Heap_boolean_symbol then
        let cg := cg.emit (.dp .cmp .r1 .r1 (.imm F.true_value) .SetCC .al)
        let cg := JumpTarget.Branch cg tt .eq
        let cg := cg.emit (.dp .cmp .r1 .r1 (.imm F.false_value) .SetCC .al)
        { cg with cc_reg_ := .eq }
      else if chars = Heap_undefined_symbol then
        let cg := cg.emit (.dp .cmp .r1 .r1 (.imm F.undefined_value) .SetCC .al)
        let cg := JumpTarget.Branch cg tt .eq
        let cg := cg.emit (.dp .tst .r1 .r1 (.imm Smi.kSmiTagMask) .SetCC .al)
        let cg := JumpTarget.Branch cg ft .eq
        let cg := cg.emit (.ldr .r1 .r1 (L.kMapOffset - L.kHeapObjectTag))
        let cg := cg.emit (.ldrb .r2 .r1 (L.kBitFieldOffset - L.kHeapObjectTag))
        let cg := cg.emit (.dp .and_ .r2 .r2 (.imm (2 ^ L.kIsUndetectable)) .LeaveCC .al)
        let cg := cg.emit (.dp .cmp .r2 .r2 (.imm (2 ^ L.kIsUndetectable)) .SetCC .al)
        { cg with cc_reg_ := .eq }
      else if chars = Heap_function_symbol then
        let cg := cg.emit (.dp .tst .r1 .r1 (.imm Smi.kSmiTagMask) .SetCC .al)
        let cg := JumpTarget.Branch cg ft .eq
        let cg := cg.emit (.ldr .r1 .r1 (L.kMapOffset - L.kHeapObjectTag))
        let cg := cg.emit (.ldrb .r1 .r1 (L.kInstanceTypeOffset - L.kHeapObjectTag))
        let cg := cg.emit (.dp .cmp .r1 .r1 (.imm L.JS_FUNCTION_TYPE) .SetCC .al)
        { cg with cc_reg_ := .eq }
      else if chars = Heap_object_symbol then
        let cg := cg.emit (.dp .tst .r1 .r1 (.imm Smi.kSmiTagMask) .SetCC .al)
        let cg := JumpTarget.Branch cg ft .eq
        let cg := cg.emit (.ldr .r2 .r1 (L.kMapOffset - L.kHeapObjectTag))
        let cg := cg.emit (.dp .cmp .r1 .r1 (.imm F.null_value) .SetCC .al)
        let cg := JumpTarget.Branch cg tt .eq
        let cg := cg.emit (.ldrb .r1 .r2 (L.kBitFieldOffset - L.kHeapObjectTag))
        let cg := cg.emit (.dp .and_ .r1 .r1 (.imm (2 ^ L.kIsUndetectable)) .LeaveCC .al)
        let cg := cg.emit (.dp .cmp .r1 .r1 (.imm (2 ^ L.kIsUndetectable)) .SetCC .al)
        let cg := JumpTarget.Branch cg ft .eq
        let cg := cg.emit (.ldrb .r2 .r2 (L.kInstanceTypeOffset - L.kHeapObjectTag))
        let cg := cg.emit (.dp .cmp .r2 .r2 (.imm L.FIRST_JS_OBJECT_TYPE) .SetCC .al)
        let cg := JumpTarget.Branch cg ft .lt
        let cg := cg.emit (.dp .cmp .r2 .r2 (.imm L.LAST_JS_OBJECT_TYPE) .SetCC .al)
        { cg with cc_reg_ := .le }
      else
        JumpTarget.Jump cg ft) := by
    simp only [cg', VisitCompareOperation, Expression.AsLiteral, Expression.AsUnaryOperation,
      hs1, hs2, hs3, hop, Bool.false_eq_true, or_self, and_false, if_false, true_and, and_self,
      if_true, Option.map_some']
  have hdist : Heap_number_symbol = "number" ∧ Heap_string_symbol = "string" ∧
      Heap_boolean_symbol = "boolean" ∧ Heap_undefined_symbol = "undefined" ∧
      Heap_function_symbol = "function" ∧ Heap_object_symbol = "object" :=
    ⟨rfl, rfl, rfl, rfl, rfl, rfl⟩
  obtain ⟨d1, d2, d3, d4, d5, d6⟩ := hdist
  rw [d1, d2, d3, d4, d5, d6] at hcg
  constructor
  · intro hcan
    simp only [canonical, List.mem_cons, List.mem_singleton, List.not_mem_nil, or_false] at hcan
    rw [hcg]
    rcases hcan with rfl | rfl | rfl | rfl | rfl | rfl <;>
      simp [typeofProbeCondition, has_cc, emit, VirtualFrame.EmitPop, JumpTarget.Branch, k1',
        Instr.isCall, emitted]
  · intro hcan
    simp only [canonical, List.mem_cons, List.mem_singleton, List.not_mem_nil, or_false,
      not_or] at hcan
    obtain ⟨c1, c2, c3, c4, c5, c6⟩ := hcan
    rw [hcg]
    simp [c1, c2, c3, c4, c5, c6, has_cc, emit, VirtualFrame.EmitPop, JumpTarget.Jump, k2']

theorem VisitCompareOperation_typeof_string_witness :
    let cgL := (CodeGenerator.start 0).LoadTypeofExpression Factory.sample
      (fun _ => VisitResult.plain) 3 (.Other 1)
    let cg' := (CodeGenerator.start 0).VisitCompareOperation Factory.sample ObjectLayout.sample
      (fun _ => VisitResult.plain) 3 .EQ_STRICT (.UnaryOperation .TYPEOF (.Other 1))
      (.Literal (.Symbol "number")) .true_target .false_target
    let canonical : Prop :=
      "number" ∈ ["number", "string", "boolean", "undefined", "function", "object"]
    (canonical →
      cg'.has_cc = true ∧ cg'.cc_reg_ = typeofProbeCondition "number" ∧
      cg'.frame_ = some 0 ∧
      cg'.masm_ = cgL.masm_ ++ Instr.pop .r1 :: (emitted cgL cg').tail ∧
      (emitted cgL cg').tail ≠ [] ∧
      ∀ i ∈ (emitted cgL cg').tail, i.isCall = false ∧ i ≠ Instr.b .al .false_target) ∧
    (¬ canonical →
      cg'.masm_ = cgL.masm_ ++ [Instr.pop .r1, .b .al .false_target] ∧ cg'.has_cc = false ∧
      cg'.frame_ = none) :=
  VisitCompareOperation_typeof_string (CodeGenerator.start 0) Factory.sample ObjectLayout.sample
    (fun _ => VisitResult.plain) 3 .EQ_STRICT (.Other 1) (.Symbol "number") "number"
    .true_target .false_target (Or.inr rfl) (Or.inl rfl) (fun _ => rfl) rfl
    (TargetsFresh_start 0) 0 rfl

theorem GenCode_eq (cg : CodeGenerator) (F : Factory) (SL : SlotLayout) (flags : Flags)
    (result : Expression → VisitResult) (kGlobalSlotOffset : Int)
    (visitIllegalRedeclaration processDeclarations : CodeGenerator → CodeGenerator)
    (visit : Nat → CodeGenerator → CodeGenerator) (scope : Scope) (body : List Nat) :
    cg.GenCode F SL flags result kGlobalSlotOffset visitIllegalRedeclaration processDeclarations
        visit scope body =
      (let cgD := genCodeDeclarations cg F SL flags result kGlobalSlotOffset
          visitIllegalRedeclaration processDeclarations scope
       if !scope.HasIllegalRedeclaration && cgD.stack_overflow_ then (cgD, .not_reached)
       else
         let cgE := genCodeBody cgD F SL flags visit scope body
         if cgE.stack_overflow_ then (cgE.ClearDeferred, .ClearDeferred)
         else (cgE.ProcessDeferred, .ProcessDeferred)) := rfl

/-- C20 (as amended).  `GenCode` asks for the stack-overflow flag twice.  When
the flag is set once the declarations are processed, the function returns at
once: nothing more is emitted, so no deferred code is, but `ClearDeferred` is
not called and the queue stays as the declarations left it.  When the flag is
set at the end (after the body and the return sequence), `ClearDeferred` is
called: the queue is empty afterwards and no deferred code is emitted.  Only
when the flag is clear at the end is the queue processed. -/
theorem GenCode_stack_overflow_deferred (cg : CodeGenerator) (F : Factory) (SL : SlotLayout)
    (flags : Flags) (result : Expression → VisitResult) (kGlobalSlotOffset : Int)
    (visitIllegalRedeclaration processDeclarations : CodeGenerator → CodeGenerator)
    (visit : Nat → CodeGenerator → CodeGenerator) (scope : Scope) (body : List Nat)
    (cgD cgE : CodeGenerator)
    (hD : cgD = genCodeDeclarations cg F SL flags result kGlobalSlotOffset
      visitIllegalRedeclaration processDeclarations scope)
    (hE : cgE = genCodeBody cgD F SL flags visit scope body) :
    (scope.HasIllegalRedeclaration = false → cgD.stack_overflow_ = true →
      cg.GenCode F SL flags result kGlobalSlotOffset visitIllegalRedeclaration
        processDeclarations visit scope body = (cgD, .not_reached)) ∧
    (¬ (scope.HasIllegalRedeclaration = false ∧ cgD.stack_overflow_ = true) →
      cgE.stack_overflow_ = true →
      cg.GenCode F SL flags result kGlobalSlotOffset visitIllegalRedeclaration
          processDeclarations visit scope body = (cgE.ClearDeferred, .ClearDeferred) ∧
        cgE.ClearDeferred.deferred_ = [] ∧ cgE.ClearDeferred.masm_ = cgE.masm_) ∧
    (¬ (scope.HasIllegalRedeclaration = false ∧ cgD.stack_overflow_ = true) →
      cgE.stack_overflow_ = false →
      cg.GenCode F SL flags result kGlobalSlotOffset visitIllegalRedeclaration
          processDeclarations visit scope body = (cgE.ProcessDeferred, .ProcessDeferred)) := by
  subst hD; subst hE
  rw [GenCode_eq]
  refine ⟨fun h1 h2 => ?_, fun h1 h2 => ?_, fun h1 h2 => ?_⟩
  · simp [h1, h2]
  · have h3 : (!scope.HasIllegalRedeclaration && (genCodeDeclarations cg F SL flags result
        kGlobalSlotOffset visitIllegalRedeclaration processDeclarations scope).stack_overflow_)
        = false := by
      cases hI : scope.HasIllegalRedeclaration
      · cases hO : (genCodeDeclarations cg F SL flags result kGlobalSlotOffset
          visitIllegalRedeclaration processDeclarations scope).stack_overflow_
        · rfl
        · exact absurd ⟨hI, hO⟩ h1
      · rfl
    simp only [h3, h2]
    exact ⟨by simp, rfl, rfl⟩
  · have h3 : (!scope.HasIllegalRedeclaration && (genCodeDeclarations cg F SL flags result
        kGlobalSlotOffset visitIllegalRedeclaration processDeclarations scope).stack_overflow_)
        = false := by
      cases hI : scope.HasIllegalRedeclaration
      · cases hO : (genCodeDeclarations cg F SL flags result kGlobalSlotOffset
          visitIllegalRedeclaration processDeclarations scope).stack_overflow_
        · rfl
        · exact absurd ⟨hI, hO⟩ h1
      · rfl
    simp [h3, h2]

/-- C20, the second case at a concrete function: the only statement of the body
queues a deferred operation and runs out of stack; `GenCode` ends with
`ClearDeferred`, an empty queue and the code of the hot path only. -/
theorem GenCode_stack_overflow_deferred_witness :
    ((CodeGenerator.start 0).GenCode Factory.sample SlotLayout.sample ⟨false, false, false⟩
        (fun _ => VisitResult.plain) 0 id id visitOverflowing Scope.plain [0]).2
      = .ClearDeferred ∧
    ((CodeGenerator.start 0).GenCode Factory.sample SlotLayout.sample ⟨false, false, false⟩
        (fun _ => VisitResult.plain) 0 id id visitOverflowing Scope.plain [0]).1.deferred_
      = [] := by
  have h := (GenCode_stack_overflow_deferred (CodeGenerator.start 0) Factory.sample
    SlotLayout.sample ⟨false, false, false⟩ (fun _ => VisitResult.plain) 0 id id
    visitOverflowing Scope.plain [0] _ _ rfl rfl).2.1 (by decide) (by rfl)
  rw [h.1]
  exact ⟨rfl, rfl⟩

/-- C20 as stated fails when the declarations run out of stack: `GenCode`
returns before it reaches `ClearDeferred()`. -/
theorem GenCode_declarations_overflow_skips_ClearDeferred :
    ((CodeGenerator.start 0).GenCode Factory.sample SlotLayout.sample ⟨false, false, false⟩
        (fun _ => VisitResult.plain) 0 id declarationsOverflowing (fun _ cg => cg)
        Scope.plain []).2 = .not_reached ∧
    ((CodeGenerator.start 0).GenCode Factory.sample SlotLayout.sample ⟨false, false, false⟩
        (fun _ => VisitResult.plain) 0 id declarationsOverflowing (fun _ cg => cg)
        Scope.plain []).2 ≠ .ClearDeferred := by
  constructor
  · rfl
  · decide

theorem Grows_refl (P : Label → Prop) (cg : CodeGenerator) : Grows P cg cg :=
  ⟨Nat.le_refl _, [], by simp, fun _ hp => by cases hp⟩

theorem Grows_trans (P : Label → Prop) (a b c : CodeGenerator) (h1 : Grows P a b)
    (h2 : Grows P b c) : Grows P a c := by
  obtain ⟨n1, e1, l1, p1⟩ := h1
  obtain ⟨n2, e2, l2, p2⟩ := h2
  refine ⟨Nat.le_trans n1 n2, e1 ++ e2, by rw [l2, l1, List.append_assoc], ?_⟩
  intro p hp
  rcases List.mem_append.1 hp with h | h
  · exact p1 p h
  · exact p2 p h

theorem Grows_mono (P Q : Label → Prop) (a b : CodeGenerator) (h : Grows P a b)
    (hPQ : ∀ l, P l → Q l) : Grows Q a b := by
  obtain ⟨n1, e1, l1, p1⟩ := h
  exact ⟨n1, e1, l1, fun p hp => hPQ _ (p1 p hp)⟩

theorem Grows_same (P : Label → Prop) (a b : CodeGenerator) (hn : a.next_target_ ≤ b.next_target_)
    (hl : b.linked_ = a.linked_) : Grows P a b :=
  ⟨hn, [], by simp [hl], fun _ hp => by cases hp⟩

theorem Grows_link (P : Label → Prop) (a b : CodeGenerator) (t : Label) (ht : P t)
    (hn : a.next_target_ ≤ b.next_target_) (hl : b.linked_ = a.link t) : Grows P a b := by
  refine ⟨hn, ?_⟩
  rw [hl]
  unfold link
  cases a.frame_ with
  | none => exact ⟨[], by simp, fun _ hp => by cases hp⟩
  | some h => exact ⟨[(t, h)], rfl, fun p hp => by simp at hp; subst hp; exact ht⟩

theorem LoadCondition_grows (cg : CodeGenerator) (F : Factory)
    (result : Expression → VisitResult) (x : Expression) (t f : Label) (P : Label → Prop)
    (ht : P t) (hf : P f) : Grows P cg (cg.LoadCondition F result x t f false) := by
  unfold LoadCondition
  have hv : Grows P cg (cg.Visit result x t f) := by
    unfold Visit
    split_ifs
    · exact Grows_refl _ _
    · generalize hr : result x = r
      obtain ⟨lv, lt, lf⟩ := r
      obtain ⟨masm, deferred, ccr, frame, linked, next, so⟩ := cg
      refine ⟨by cases lv <;> cases lt <;> cases lf <;> simp [emit], ?_⟩
      cases frame <;> cases lv <;> cases lt <;> cases lf <;>
        simp [emit, link, ht, hf]
      all_goals (rintro a b (⟨rfl, -⟩ | ⟨rfl, -⟩) <;> assumption)
  refine Grows_trans P _ _ _ hv ?_
  simp only [Bool.false_and, Bool.false_eq_true, if_false]
  split_ifs
  · exact Grows_link P _ _ t ht (Nat.le_refl _) rfl
  · exact Grows_refl _ _

theorem loadMaterialize_grows (cg : CodeGenerator) (F : Factory) (P : Label → Prop)
    (h1 : P (.target cg.next_target_)) (h2 : P (.target (cg.next_target_ + 1))) :
    Grows P cg (loadMaterialize cg F) := by
  unfold loadMaterialize
  split_ifs
  · obtain ⟨masm, deferred, ccr, frame, linked, next, so⟩ := cg
    simp only at h1 h2
    refine ⟨by simp [newTarget, emit, VirtualFrame.EmitPush, JumpTarget.Branch, JumpTarget.Bind,
      JumpTarget.Jump]; omega, ?_⟩
    cases frame <;>
      simp [newTarget, emit, VirtualFrame.EmitPush, JumpTarget.Branch, JumpTarget.Bind,
        JumpTarget.Jump, link, h1, h2]
    rintro a b (⟨rfl, -⟩ | ⟨rfl, -⟩) <;> assumption
  · exact Grows_refl _ _

theorem Grows_step (P : Label → Prop) (a b c : CodeGenerator) (h : Grows P a b)
    (hn : b.next_target_ ≤ c.next_target_) (hl : c.linked_ = b.linked_) : Grows P a c :=
  Grows_trans P a b c h (Grows_same P b c hn hl)

theorem Grows_Bind (P : Label → Prop) (a b : CodeGenerator) (l : Label) (h : Grows P a b) :
    Grows P a (JumpTarget.Bind b l) := Grows_step P a b _ h (Nat.le_refl _) rfl

theorem Grows_emit (P : Label → Prop) (a b : CodeGenerator) (i : Instr) (h : Grows P a b) :
    Grows P a (b.emit i) := Grows_step P a b _ h (Nat.le_refl _) rfl

theorem Grows_EmitPush (P : Label → Prop) (a b : CodeGenerator) (r : Register)
    (h : Grows P a b) : Grows P a (VirtualFrame.EmitPush b r) :=
  Grows_step P a b _ h (Nat.le_refl _) rfl

theorem Grows_EmitPop (P : Label → Prop) (a b : CodeGenerator) (r : Register)
    (h : Grows P a b) : Grows P a (VirtualFrame.EmitPop b r) :=
  Grows_step P a b _ h (Nat.le_refl _) rfl

theorem Grows_Drop (P : Label → Prop) (a b : CodeGenerator) (n : Nat) (h : Grows P a b) :
    Grows P a (VirtualFrame.Drop b n) := Grows_step P a b _ h (Nat.le_refl _) rfl

theorem Grows_CallRuntime (P : Label → Prop) (a b : CodeGenerator) (f : RuntimeFunction) (n : Nat)
    (h : Grows P a b) : Grows P a (VirtualFrame.CallRuntime b f n) :=
  Grows_step P a b _ h (Nat.le_refl _) rfl

theorem Grows_InvokeBuiltin (P : Label → Prop) (a b : CodeGenerator) (id : Builtin) (n : Nat)
    (h : Grows P a b) : Grows P a (VirtualFrame.InvokeBuiltin b id n) :=
  Grows_step P a b _ h (Nat.le_refl _) rfl

theorem Grows_CallCodeStub (P : Label → Prop) (a b : CodeGenerator) (stub : CodeStub) (n : Nat)
    (h : Grows P a b) : Grows P a (VirtualFrame.CallCodeStub b stub n) :=
  Grows_step P a b _ h (Nat.le_refl _) rfl

theorem Grows_Branch (P : Label → Prop) (a b : CodeGenerator) (l : Label) (c : Condition)
    (hl : P l) (h : Grows P a b) : Grows P a (JumpTarget.Branch b l c) :=
  Grows_trans P a b _ h (Grows_link P _ _ l hl (Nat.le_refl _) rfl)

theorem Grows_Jump (P : Label → Prop) (a b : CodeGenerator) (l : Label)
    (hl : P l) (h : Grows P a b) : Grows P a (JumpTarget.Jump b l) :=
  Grows_trans P a b _ h (Grows_link P _ _ l hl (Nat.le_refl _) rfl)

theorem Grows_ite (P : Label → Prop) (a x y : CodeGenerator) (c : Prop) [Decidable c]
    (hx : Grows P a x) (hy : Grows P a y) : Grows P a (if c then x else y) := by
  split_ifs
  · exact hx
  · exact hy

theorem loadFinish_grows (cg : CodeGenerator) (F : Factory) (t f : Label) (P : Label → Prop)
    (h1 : P (.target cg.next_target_)) : Grows P cg (loadFinish cg F t f) := by
  unfold loadFinish
  have a1 : Grows P cg cg.newTarget.1 := Grows_same _ _ _ (Nat.le_succ _) rfl
  have e1 : cg.newTarget.2 = .target cg.next_target_ := rfl
  apply Grows_ite _ _ _ _ _ ?_ (Grows_refl _ _)
  simp only []
  rw [e1]
  generalize cg.newTarget.1 = c0 at a1 ⊢
  apply Grows_Bind
  apply Grows_ite _ _ _ _ _ (Grows_EmitPush _ _ _ _ (Grows_emit _ _ _ _ (Grows_Bind _ _ _ _ ?_)))
  all_goals apply Grows_ite _ _ _ _ _ (Grows_Jump _ _ _ _ h1 ?_)
  all_goals apply Grows_ite _ _ _ _ _ (Grows_EmitPush _ _ _ _ (Grows_emit _ _ _ _ (Grows_Bind _ _ _ _ ?_)))
  all_goals exact Grows_ite _ _ _ _ _ (Grows_Jump _ _ _ _ h1 a1) a1

theorem Load_grows (cg : CodeGenerator) (F : Factory) (result : Expression → VisitResult)
    (x : Expression) :
    Grows (fun l => ∃ k, cg.next_target_ ≤ k ∧ l = Label.target k) cg (cg.Load F result x) := by
  rw [Load_eq]
  have a1 : Grows (fun l => ∃ k, cg.next_target_ ≤ k ∧ l = Label.target k) cg
      { cg with next_target_ := cg.next_target_ + 1 + 1 } :=
    Grows_same _ _ _ (by simp; omega) rfl
  have a2 := LoadCondition_grows { cg with next_target_ := cg.next_target_ + 1 + 1 } F result x
    (.target cg.next_target_) (.target (cg.next_target_ + 1))
    (fun l => ∃ k, cg.next_target_ ≤ k ∧ l = Label.target k) ⟨_, Nat.le_refl _, rfl⟩
    ⟨_, Nat.le_succ _, rfl⟩
  have a12 := Grows_trans _ _ _ _ a1 a2
  have a3 := loadMaterialize_grows (LoadCondition { cg with next_target_ := cg.next_target_ + 1 + 1 }
    F result x (.target cg.next_target_) (.target (cg.next_target_ + 1)) false) F
    (fun l => ∃ k, cg.next_target_ ≤ k ∧ l = Label.target k) ⟨_, a12.1, rfl⟩
    ⟨_, Nat.le_succ_of_le a12.1, rfl⟩
  have a13 := Grows_trans _ _ _ _ a12 a3
  exact Grows_trans _ _ _ _ a13 (loadFinish_grows _ F _ _ _ ⟨_, a13.1, rfl⟩)

theorem VisitForInStatement_eq (cg : CodeGenerator) (F : Factory) (L : ObjectLayout)
    (SL : SlotLayout) (flags : Flags) (result : Expression → VisitResult)
    (kGlobalSlotOffset : Int) (visit : Nat → CodeGenerator → CodeGenerator)
    (each enumerable : Expression) (body : Nat) :
    cg.VisitForInStatement F L SL flags result kGlobalSlotOffset visit each enumerable body =
      forInExit
        (forInNext
          (forInEach (forInAtEntry cg F L result enumerable) F L SL flags result
            kGlobalSlotOffset each (.target (cg.next_target_ + 4))) visit body)
        (.target (cg.next_target_ + 3)) (.target (cg.next_target_ + 5)) := rfl

theorem LoadReference_grows (cg : CodeGenerator) (F : Factory)
    (result : Expression → VisitResult) (kGlobalSlotOffset : Int) (ref : Reference) :
    Grows (fun _ => True) cg (cg.LoadReference F result kGlobalSlotOffset ref).1 := by
  have hL : ∀ (c : CodeGenerator) (x : Expression), Grows (fun _ => True) cg c →
      Grows (fun _ => True) cg (c.LoadAndSpill F result x) := fun c x h =>
    Grows_trans _ _ _ _ h (Grows_mono _ _ _ _ (Load_grows c F result x) (fun _ _ => trivial))
  unfold LoadReference
  simp only []
  split
  · split_ifs
    · exact hL _ _ (Grows_refl _ _)
    · exact hL _ _ (hL _ _ (Grows_refl _ _))
  · split
    · split_ifs
      · exact Grows_EmitPush _ _ _ _ (Grows_emit _ _ _ _ (Grows_refl _ _))
      · exact Grows_refl _ _
    · exact Grows_CallRuntime _ _ _ _ _ (hL _ _ (Grows_refl _ _))

theorem UnloadReference_grows (P : Label → Prop) (a cg : CodeGenerator) (ref : Reference)
    (h : Grows P a cg) : Grows P a (cg.UnloadReference ref) := by
  unfold UnloadReference
  exact Grows_ite _ _ _ _ _ (Grows_EmitPush _ _ _ _ (Grows_Drop _ _ _ _ (Grows_EmitPop _ _ _ _ h))) h

theorem Grows_masm (P : Label → Prop) (a b : CodeGenerator) (m : List Instr) (h : Grows P a b) :
    Grows P a { b with masm_ := m } := Grows_step P a b _ h (Nat.le_refl _) rfl

theorem Grows_newTarget (P : Label → Prop) (a b : CodeGenerator) (h : Grows P a b) :
    Grows P a { b with next_target_ := b.next_target_ + 1 } :=
  Grows_step P a b _ h (Nat.le_succ _) rfl

theorem Grows_fields (P : Label → Prop) (a b : CodeGenerator) (m : List Instr)
    (d : List DeferredInlineSmiOperation) (c : Condition) (f : Option Int) (n : Nat) (s : Bool)
    (h : Grows P a b) (hn : b.next_target_ ≤ n) :
    Grows P a (CodeGenerator.mk m d c f b.linked_ n s) := Grows_step P a b _ h hn rfl

theorem SetValue_grows (a cg : CodeGenerator) (ref : Reference) (F : Factory) (SL : SlotLayout)
    (init_state : InitState) (h : Grows (fun _ => True) a cg) :
    Grows (fun _ => True) a (ref.SetValue cg F SL init_state) := by
  unfold Reference.SetValue
  split
  · split
    · exact h
    · split
      · exact h
      · simp only [SlotOperand_eq, newTarget]
        repeat (first
          | exact h
          | apply Grows_ite
          | apply Grows_Bind
          | apply Grows_emit
          | apply Grows_EmitPush
          | apply Grows_EmitPop
          | apply Grows_CallRuntime
          | apply Grows_Branch _ _ _ _ _ trivial
          | apply Grows_masm
          | apply Grows_newTarget
          | refine Grows_fields _ _ _ _ _ _ _ _ _ ?_ (by simp))
  · split
    · exact h
    · exact Grows_EmitPush _ _ _ _ (Grows_emit _ _ _ _ (Grows_emit _ _ _ _ (Grows_EmitPop _ _ _ _ h)))
  · exact Grows_EmitPush _ _ _ _ (Grows_emit _ _ _ _ (Grows_EmitPop _ _ _ _ h))
  · exact h

theorem Grows_Bind_iff (P : Label → Prop) (a b : CodeGenerator) (l : Label) :
    Grows P a (JumpTarget.Bind b l) ↔ Grows P a b := Iff.rfl

theorem Grows_emit_iff (P : Label → Prop) (a b : CodeGenerator) (i : Instr) :
    Grows P a (b.emit i) ↔ Grows P a b := Iff.rfl

theorem Grows_EmitPush_iff (P : Label → Prop) (a b : CodeGenerator) (r : Register) :
    Grows P a (VirtualFrame.EmitPush b r) ↔ Grows P a b := Iff.rfl

theorem Grows_InvokeBuiltin_iff (P : Label → Prop) (a b : CodeGenerator) (id : Builtin)
    (n : Nat) : Grows P a (VirtualFrame.InvokeBuiltin b id n) ↔ Grows P a b := Iff.rfl

theorem forInFetch_grows (a cg : CodeGenerator) (F : Factory) (L : ObjectLayout)
    (end_del_check : Label) (h : Grows (fun _ => True) a cg) :
    Grows (fun _ => True) a (forInFetch cg F L end_del_check) := by
  simp only [forInFetch, Grows_Bind_iff, Grows_emit_iff, Grows_EmitPush_iff,
    Grows_InvokeBuiltin_iff]
  apply Grows_Branch _ _ _ _ _ trivial
  simp only [Grows_Bind_iff, Grows_emit_iff, Grows_EmitPush_iff, Grows_InvokeBuiltin_iff]
  apply Grows_Branch _ _ _ _ _ trivial
  simp only [Grows_Bind_iff, Grows_emit_iff, Grows_EmitPush_iff, Grows_InvokeBuiltin_iff]
  exact h

theorem forInStore_grows (a cg : CodeGenerator) (F : Factory) (SL : SlotLayout) (flags : Flags)
    (each_ref : Reference) (h : Grows (fun _ => True) a cg) :
    Grows (fun _ => True) a (forInStore cg F SL flags each_ref) := by
  have h1 : ∀ c, Grows (fun _ => True) a c → Grows (fun _ => True) a
      (if each_ref.size > 0 then VirtualFrame.EmitPush (c.emit
        (.ldr_element .r0 each_ref.size.toNat)) .r0 else c) := fun c hc =>
    Grows_ite _ _ _ _ _ (Grows_EmitPush _ _ _ _ (Grows_emit _ _ _ _ hc)) hc
  have h2 : ∀ c, Grows (fun _ => True) a c → Grows (fun _ => True) a
      (if each_ref.size > 0 then VirtualFrame.EmitPop c .r0 else c) := fun c hc =>
    Grows_ite _ _ _ _ _ (Grows_EmitPop _ _ _ _ hc) hc
  have h3 : ∀ c, Grows (fun _ => True) a c → Grows (fun _ => True) a (c.CheckStack flags) :=
    fun c hc => Grows_ite _ _ _ _ _ (Grows_CallCodeStub _ _ _ _ _ hc) hc
  unfold forInStore
  exact h3 _ (Grows_Drop _ _ _ _ (UnloadReference_grows _ _ _ _
    (Grows_ite _ _ _ _ _ (h2 _ (SetValue_grows _ _ _ _ _ _ (h1 _ h))) h)))

theorem find_of_extends (l m : List (Label × Int)) (t : Label) (h : Int) (hp : l <+: m)
    (hf : l.find? (fun p => decide (p.1 = t)) = some (t, h)) :
    m.find? (fun p => decide (p.1 = t)) = some (t, h) := by
  obtain ⟨e, rfl⟩ := hp
  simp [List.find?_append, hf]

theorem Grows_extends (P : Label → Prop) (a b : CodeGenerator) (h : Grows P a b) :
    a.linked_ <+: b.linked_ := by
  obtain ⟨-, e, he, -⟩ := h
  exact ⟨e, he.symm⟩

theorem forInTest_state (masm : List Instr) (deferred : List DeferredInlineSmiOperation)
    (ccr : Condition) (linked : List (Label × Int)) (next : Nat) (so : Bool) (h : Int) :
    (forInTest (CodeGenerator.mk masm deferred ccr (some h) linked next so)).linked_.find?
      (fun p => decide (p.1 = Label.break_target)) = some (.break_target, h) := by
  simp [forInTest, JumpTarget.Initialize, JumpTarget.Branch, emit, link, List.find?_append]

theorem forInEach_find (cg : CodeGenerator) (F : Factory) (L : ObjectLayout) (SL : SlotLayout)
    (flags : Flags) (result : Expression → VisitResult) (kGlobalSlotOffset : Int)
    (each : Expression) (end_del_check : Label) (h : Int) (hf : cg.frame_ = some h) :
    (forInEach cg F L SL flags result kGlobalSlotOffset each end_del_check).linked_.find?
      (fun p => decide (p.1 = Label.break_target)) = some (.break_target, h) := by
  obtain ⟨masm, deferred, ccr, frame, linked, next, so⟩ := cg
  simp only at hf
  subst hf
  refine find_of_extends _ _ _ _ (Grows_extends (fun _ => True) _ _ ?_)
    (forInTest_state masm deferred ccr linked next so h)
  unfold forInEach
  apply forInStore_grows
  refine Grows_trans _ _ _ _ ?_ (LoadReference_grows _ _ _ _ _)
  exact forInFetch_grows _ _ _ _ _ (Grows_refl _ _)

theorem forInEntry_state (F : Factory) (L : ObjectLayout) (masm : List Instr)
    (deferred : List DeferredInlineSmiOperation) (ccr : Condition) (linked : List (Label × Int))
    (next : Nat) (so : Bool) (H : Int) (n : Nat)
    (hfa : linked.find? (fun p => decide (p.1 = Label.target (n + 2))) = none) :
    ∃ masm', forInEntry (CodeGenerator.mk masm deferred ccr (some (H + 1)) linked next so) F L
        (.target n) (.target (n + 1)) (.target (n + 2)) (.target (n + 3)) (.target (n + 5)) =
      CodeGenerator.mk masm' deferred ccr (some (H + 5))
        (linked ++ [(Label.target (n + 5), H), (Label.target (n + 5), H), (Label.target n, H),
          (Label.target (n + 1), H), (Label.target (n + 2), H + 1),
          (Label.target (n + 3), H + 5)]) next so := by
  refine ⟨(forInEntry (CodeGenerator.mk masm deferred ccr (some (H + 1)) linked next so) F L
        (.target n) (.target (n + 1)) (.target (n + 2)) (.target (n + 3))
        (.target (n + 5))).masm_, ?_⟩
  simp [forInEntry, emit, link, VirtualFrame.EmitPush, VirtualFrame.EmitPop,
    VirtualFrame.InvokeBuiltin, VirtualFrame.CallRuntime, JumpTarget.Branch, JumpTarget.Bind,
    JumpTarget.Jump, List.find?_append, hfa]
  omega

theorem forInExit_frame (cg : CodeGenerator) (F : Factory) (L : ObjectLayout) (SL : SlotLayout)
    (flags : Flags) (result : Expression → VisitResult) (kGlobalSlotOffset : Int)
    (visit : Nat → CodeGenerator → CodeGenerator) (each : Expression) (body : Nat)
    (end_del_check entry exit_tgt : Label) (h : Int) (hf : cg.frame_ = some (h + 5))
    (hbody : ∀ c, c.linked_ <+: (visit body c).linked_) :
    (forInExit (forInNext (forInEach cg F L SL flags result kGlobalSlotOffset each end_del_check)
      visit body) entry exit_tgt).frame_ = some h := by
  have hN : (forInNext (forInEach cg F L SL flags result kGlobalSlotOffset each end_del_check)
      visit body).linked_.find? (fun p => decide (p.1 = Label.break_target)) =
      some (.break_target, h + 5) :=
    find_of_extends _ _ _ _ (hbody _)
      (forInEach_find cg F L SL flags result kGlobalSlotOffset each end_del_check (h + 5) hf)
  generalize forInNext (forInEach cg F L SL flags result kGlobalSlotOffset each end_del_check)
      visit body = N at hN
  obtain ⟨masm, deferred, ccr, frame, linked, next, so⟩ := N
  simp only at hN
  cases frame <;>
    simp [forInExit, JumpTarget.Jump, JumpTarget.Bind, JumpTarget.Unuse, VirtualFrame.Drop, link,
      List.find?_append, hN]

theorem forInAtEntry_state (cg : CodeGenerator) (F : Factory) (L : ObjectLayout)
    (result : Expression → VisitResult) (enumerable : Expression)
    (hwf : (result enumerable).WellFormed = true) (hcc : cg.cc_reg_ = .al)
    (hfresh : cg.TargetsFresh) (H : Int) (hf : cg.frame_ = some H) :
    ∃ masm deferred linked next so, forInAtEntry cg F L result enumerable =
      CodeGenerator.mk masm deferred .al (some (H + 5))
        (linked ++ [(Label.target (cg.next_target_ + 5), H),
          (Label.target (cg.next_target_ + 5), H), (Label.target cg.next_target_, H),
          (Label.target (cg.next_target_ + 1), H), (Label.target (cg.next_target_ + 2), H + 1),
          (Label.target (cg.next_target_ + 3), H + 5)]) next so ∧
      ∀ p ∈ linked, ∀ k, cg.next_target_ ≤ k → k < cg.next_target_ + 6 → p.1 ≠ Label.target k := by
  unfold forInAtEntry LoadAndSpill
  have hfresh6 : ({ cg with next_target_ := cg.next_target_ + 6 } : CodeGenerator).TargetsFresh :=
    fun p hp k hk => hfresh p hp k (by simp at hk; omega)
  obtain ⟨k1, k2, -, -⟩ := Load_frame { cg with next_target_ := cg.next_target_ + 6 } F result
    enumerable hwf hcc hfresh6 H hf
  obtain ⟨-, extra, he, hx⟩ := Load_grows { cg with next_target_ := cg.next_target_ + 6 } F result
    enumerable
  generalize Load { cg with next_target_ := cg.next_target_ + 6 } F result enumerable = cgL
    at k1 k2 he hx
  obtain ⟨masm, deferred, ccr, frame, linked, next, so⟩ := cgL
  simp only at k1 k2 he hx
  subst k1 k2
  have hlink : ∀ p ∈ linked, ∀ k, cg.next_target_ ≤ k → k < cg.next_target_ + 6 →
      p.1 ≠ Label.target k := by
    intro p hp k hk1 hk2
    rw [he] at hp
    rcases List.mem_append.1 hp with h | h
    · exact hfresh p h k hk1
    · obtain ⟨j, hj, e⟩ := hx p h
      rw [e]
      intro e2
      injection e2 with e3
      omega
  have hfa : linked.find? (fun p => decide (p.1 = Label.target (cg.next_target_ + 2))) = none := by
    rw [List.find?_eq_none]
    intro p hp
    simpa using hlink p hp (cg.next_target_ + 2) (by omega) (by omega)
  obtain ⟨masm', e⟩ := forInEntry_state F L masm deferred .al linked next so H cg.next_target_ hfa
  exact ⟨masm', deferred, linked, next, so, e, hlink⟩

theorem emitted_forInEntry (cg : CodeGenerator) (F : Factory) (L : ObjectLayout)
    (primitive jsobject fixed_array entry exit_tgt : Label) :
    (forInEntry cg F L primitive jsobject fixed_array entry exit_tgt).masm_ =
      cg.masm_ ++ (forInConvertCode F L primitive jsobject exit_tgt ++
        forInPushCode F L fixed_array entry) := by
  simp [forInEntry, forInConvertCode, forInPushCode, emit, VirtualFrame.EmitPush,
    VirtualFrame.EmitPop, VirtualFrame.InvokeBuiltin, VirtualFrame.CallRuntime,
    JumpTarget.Branch, JumpTarget.Bind, JumpTarget.Jump]

theorem cmp_r0_ne (t : State) (r : Register) (c w : Nat) (h0 : t.regs r = w)
    (hw : w < 4294967296) (hc : c < 4294967296) (hne : w ≠ c) :
    (t.dataProcessing .cmp r r (.imm c) .SetCC).holds .eq = false := by
  rw [cmp_imm_eq _ _ _ _ (h0 ▸ hw) hc]
  simp [h0, hne]

theorem run_CallRuntime (rt : Runtime) (f : RuntimeFunction) (n : Nat) (rest : List Instr)
    (s : State) (h : n ≤ s.stack.length) :
    run rt (.CallRuntime f n :: rest) none s =
      run rt rest none
        ({ s with stack := s.stack.drop n,
                  log := s.log ++ [Event.runtime f (s.stack.take n)] }.set .r0
          (rt.callRuntime f (s.stack.take n))) := by
  simp [run, step, h]

theorem run_forInConvertCode (rt : Runtime) (F : Factory) (L : ObjectLayout) (n : Nat)
    (s : State) (w : Nat) (rest : List Nat) (hs : s.stack = w :: rest) (hw : w < 4294967296)
    (hu : F.undefined_value < 4294967296) (hn : F.null_value < 4294967296)
    (hj : L.FIRST_JS_OBJECT_TYPE < 4294967296)
    (hwu : w ≠ F.undefined_value) (hwn : w ≠ F.null_value) :
    ∃ s1, run rt (forInConvertCode F L (.target n) (.target (n + 1)) (.target (n + 5))) none s =
        .fallthrough s1 ∧
      s1.regs .r0 = forInObject rt L s w ∧ s1.stack = rest ∧ s1.mem = s.mem := by
  unfold forInConvertCode
  rw [run_pop rt _ _ s w rest hs, run_dp,
    run_b_not_taken _ _ _ _ _ (cmp_r0_ne _ _ _ w (by simp [set_regs]) hw hu hwu), run_dp,
    run_b_not_taken _ _ _ _ _ (cmp_r0_ne _ _ _ w (by simp [set_regs]) hw hn hwn), run_dp]
  by_cases hsmi : w &&& Smi.kSmiTagMask = 0
  · have hsmi1 : w &&& 1 = 0 := hsmi
    rw [run_b_taken _ _ _ _ _ (by simp [State.holds, set_regs, Smi.kSmiTagMask, hsmi1]),
      run_skip _ _ _ _ _ (by simp), run_skip _ _ _ _ _ (by simp), run_skip _ _ _ _ _ (by simp),
      run_skip _ _ _ _ _ (by simp), run_skip_bind, run_push, run_dp,
      run_InvokeBuiltin _ _ _ _ _ (by simp), run_bind, run_nil]
    refine ⟨_, rfl, ?_, by simp, by simp⟩
    simp [forInObject, hsmi, set_regs]
  · have hsmi1 : w % 2 = 1 := by
      have h := hsmi
      simp only [Smi.kSmiTagMask, Nat.and_one_is_mod] at h
      omega
    rw [run_b_not_taken _ _ _ _ _ (by simp [State.holds, set_regs, Smi.kSmiTagMask, hsmi1]),
      run_ldr, run_ldrb, run_dp]
    by_cases hjs : instanceTypeOf L s w < L.FIRST_JS_OBJECT_TYPE
    · rw [run_b_not_taken _ _ _ _ _ (by
          simp [State.holds, State.subFlags, set_regs, Nat.mod_eq_of_lt hj, State.load32]
          simpa [instanceTypeOf, State.load32] using hjs),
        run_bind, run_push, run_dp, run_InvokeBuiltin _ _ _ _ _ (by simp), run_bind, run_nil]
      refine ⟨_, rfl, ?_, by simp, by simp⟩
      simp [forInObject, hsmi, hjs, set_regs]
    · rw [run_b_taken _ _ _ _ _ (by
          simp [State.holds, State.subFlags, set_regs, Nat.mod_eq_of_lt hj, State.load32]
          simpa [instanceTypeOf, State.load32] using hjs),
        run_skip _ _ _ _ _ (by simp), run_skip _ _ _ _ _ (by simp), run_skip _ _ _ _ _ (by simp),
        run_skip _ _ _ _ _ (by simp), run_skip_bind, run_nil]
      refine ⟨_, rfl, ?_, by simp, by simp⟩
      simp [forInObject, hsmi, hjs, set_regs]

theorem load32_eq (s : State) (a : Int) : s.load32 a = load32Mem s.mem a := rfl

theorem cmp_holds_ne (t : State) (r : Register) (c : Nat) (ha : t.regs r < 4294967296)
    (hc : c < 4294967296) :
    (t.dataProcessing .cmp r r (.imm c) .SetCC).holds .ne = decide (t.regs r ≠ c) := by
  have h := cmp_imm_eq t r r c ha hc
  simp only [State.holds] at h ⊢
  rw [h]
  simp

theorem run_forInPushCode (rt : Runtime) (F : Factory) (L : ObjectLayout) (n : Nat)
    (s1 : State) (obj : Nat) (h0 : s1.regs .r0 = obj) (hm : F.meta_map < 4294967296)
    (hmap : s1.load32 ((rt.callRuntime .kGetPropertyNamesFast [obj] : Int) +
      (L.kMapOffset - L.kHeapObjectTag)) < 4294967296) :
    ∃ s2, run rt (forInPushCode F L (.target (n + 2)) (.target (n + 3))) none s1 =
        .fallthrough s2 ∧
      s2.stack = forInLoopState rt F L s1 obj ++ s1.stack := by
  unfold forInPushCode
  rw [run_push, run_push, run_CallRuntime _ _ _ _ _ (by simp), run_dp, run_ldr, run_dp]
  have hz : Smi.FromInt 0 = 0 := by decide
  by_cases hc : s1.load32 ((rt.callRuntime .kGetPropertyNamesFast [obj] : Int) +
      (L.kMapOffset - L.kHeapObjectTag)) = F.meta_map
  · rw [run_b_not_taken _ _ _ _ _ (by
        rw [cmp_holds_ne _ _ _ (by simpa [set_regs, load32_eq, h0] using hmap) hm]
        simpa [set_regs, load32_eq, h0] using hc),
      run_dp, run_ldr, run_ldr, run_ldr, run_push, run_push, run_ldr, run_dp, run_push, run_dp,
      run_push, run_b_taken _ _ _ _ _ (by rfl),
      run_skip _ _ _ _ _ (by simp), run_skip _ _ _ _ _ (by simp), run_skip _ _ _ _ _ (by simp),
      run_skip _ _ _ _ _ (by simp), run_skip _ _ _ _ _ (by simp), run_skip _ _ _ _ _ (by simp),
      run_skip _ _ _ _ _ (by simp), run_skip _ _ _ _ _ (by simp), run_skip _ _ _ _ _ (by simp),
      run_skip_bind, run_nil]
    refine ⟨_, rfl, ?_⟩
    simp [forInLoopState, forInLength, forInEnumCache, set_regs, dp_mov, h0, hz, load32_eq] at hc ⊢
    simp [hc]
  · rw [run_b_taken _ _ _ _ _ (by
        rw [cmp_holds_ne _ _ _ (by simpa [set_regs, load32_eq, h0] using hmap) hm]
        simpa [set_regs, load32_eq, h0] using hc),
      run_skip _ _ _ _ _ (by simp), run_skip _ _ _ _ _ (by simp), run_skip _ _ _ _ _ (by simp),
      run_skip _ _ _ _ _ (by simp), run_skip _ _ _ _ _ (by simp), run_skip _ _ _ _ _ (by simp),
      run_skip _ _ _ _ _ (by simp), run_skip _ _ _ _ _ (by simp), run_skip _ _ _ _ _ (by simp),
      run_skip _ _ _ _ _ (by simp), run_skip _ _ _ _ _ (by simp), run_skip _ _ _ _ _ (by simp),
      run_skip_bind, run_dp, run_push, run_push, run_ldr, run_dp, run_push, run_dp, run_push,
      run_bind, run_nil]
    refine ⟨_, rfl, ?_⟩
    simp [forInLoopState, forInLength, set_regs, dp_mov, h0, hz, load32_eq] at hc ⊢
    simp [hc]

theorem forInLoopState_congr (rt : Runtime) (F : Factory) (L : ObjectLayout) (s s1 : State)
    (h : s1.mem = s.mem) (obj : Nat) :
    forInLoopState rt F L s1 obj = forInLoopState rt F L s obj := by
  simp [forInLoopState, forInLength, forInEnumCache, load32_eq, h]

theorem run_forInEntryCode (rt : Runtime) (F : Factory) (L : ObjectLayout) (n : Nat)
    (s : State) (w : Nat) (rest : List Nat) (hs : s.stack = w :: rest) (hw : w < 4294967296)
    (hu : F.undefined_value < 4294967296) (hn : F.null_value < 4294967296)
    (hj : L.FIRST_JS_OBJECT_TYPE < 4294967296) (hm : F.meta_map < 4294967296)
    (hwu : w ≠ F.undefined_value) (hwn : w ≠ F.null_value)
    (hmap : s.load32 ((rt.callRuntime .kGetPropertyNamesFast [forInObject rt L s w] : Int) +
      (L.kMapOffset - L.kHeapObjectTag)) < 4294967296) :
    ∃ s2, run rt (forInConvertCode F L (.target n) (.target (n + 1)) (.target (n + 5)) ++
          forInPushCode F L (.target (n + 2)) (.target (n + 3))) none s = .fallthrough s2 ∧
      s2.stack = forInLoopState rt F L s (forInObject rt L s w) ++ rest := by
  obtain ⟨s1, r1, h0, hst, hmem⟩ := run_forInConvertCode rt F L n s w rest hs hw hu hn hj hwu hwn
  obtain ⟨s2, r2, h2⟩ := run_forInPushCode rt F L n s1 (forInObject rt L s w) h0 hm (by
    rw [load32_congr s s1 hmem]
    exact hmap)
  refine ⟨s2, ?_, ?_⟩
  · rw [run_append, r1]
    exact r2
  · rw [h2, hst, forInLoopState_congr rt F L s s1 hmem]

/-- C19: in `VisitForInStatement` the loop entry is reached with exactly five
elements above the height `H` the statement was entered with, on both paths.
On the generator side the frame that falls through the `FixedArray` path into
`entry.Bind()` has height `H + 5`, and the one link to `entry`, made by the
jump that ends the enum-cache (map) path, records the same height.  On the
machine side, running the emitted code from the pop of the enumerable `w`
(neither undefined nor null) to the binding of `entry` leaves on the stack,
from the top: the index 0, the length, the enum cache or the array of names,
the map or 0, and the enumerated object, above what was below `w`
(`forInLoopState` chooses between the two paths as the code does, by the map
of what `Runtime::kGetPropertyNamesFast` returned).  And after the break
target, where the five elements are dropped, the frame has the entry height
`H` again, which is the height `VisitForInStatement` ends with.  The visitor of
the body is only assumed to add links and never to remove one. -/
theorem VisitForInStatement_five_elements (cg : CodeGenerator) (F : Factory) (L : ObjectLayout)
    (SL : SlotLayout) (flags : Flags) (result : Expression → VisitResult)
    (kGlobalSlotOffset : Int) (visit : Nat → CodeGenerator → CodeGenerator)
    (each enumerable : Expression) (body : Nat) (H : Int)
    (hf : cg.frame_ = some H) (hcc : cg.cc_reg_ = .al) (hfresh : cg.TargetsFresh)
    (hwf : (result enumerable).WellFormed = true)
    (hbody : ∀ c, c.linked_ <+: (visit body c).linked_)
    (rt : Runtime) (s : State) (w : Nat) (rest : List Nat) (hs : s.stack = w :: rest)
    (hw : w < 4294967296) (hu : F.undefined_value < 4294967296)
    (hn : F.null_value < 4294967296) (hj : L.FIRST_JS_OBJECT_TYPE < 4294967296)
    (hm : F.meta_map < 4294967296) (hwu : w ≠ F.undefined_value) (hwn : w ≠ F.null_value)
    (hmap : s.load32 ((rt.callRuntime .kGetPropertyNamesFast [forInObject rt L s w] : Int) +
      (L.kMapOffset - L.kHeapObjectTag)) < 4294967296) :
    cg.VisitForInStatement F L SL flags result kGlobalSlotOffset visit each enumerable body =
      forInExit
        (forInNext
          (forInEach (forInAtEntry cg F L result enumerable) F L SL flags result
            kGlobalSlotOffset each (.target (cg.next_target_ + 4))) visit body)
        (.target (cg.next_target_ + 3)) (.target (cg.next_target_ + 5)) ∧
    (forInAtEntry cg F L result enumerable).frame_ = some (H + 5) ∧
    (forInAtEntry cg F L result enumerable).linked_.filter
        (fun p => decide (p.1 = Label.target (cg.next_target_ + 3))) =
      [(Label.target (cg.next_target_ + 3), H + 5)] ∧
    (∃ s2, run rt (emitted
          (CodeGenerator.LoadAndSpill { cg with next_target_ := cg.next_target_ + 6 } F result
            enumerable)
          (forInAtEntry cg F L result enumerable)) none s = .fallthrough s2 ∧
      s2.stack = forInLoopState rt F L s (forInObject rt L s w) ++ rest) ∧
    (cg.VisitForInStatement F L SL flags result kGlobalSlotOffset visit each enumerable
      body).frame_ = some H := by
  obtain ⟨masm, deferred, linked, next, so, e, hlink⟩ :=
    forInAtEntry_state cg F L result enumerable hwf hcc hfresh H hf
  refine ⟨rfl, by rw [e], ?_, ?_, ?_⟩
  · rw [e]
    have h0 : linked.filter (fun p => decide (p.1 = Label.target (cg.next_target_ + 3))) = [] := by
      rw [List.filter_eq_nil_iff]
      intro p hp
      simpa using hlink p hp (cg.next_target_ + 3) (by omega) (by omega)
    simp [List.filter_append, h0, List.filter_cons]
  · have hcode : emitted
        (CodeGenerator.LoadAndSpill { cg with next_target_ := cg.next_target_ + 6 } F result
          enumerable) (forInAtEntry cg F L result enumerable) =
        forInConvertCode F L (.target cg.next_target_) (.target (cg.next_target_ + 1))
            (.target (cg.next_target_ + 5)) ++
          forInPushCode F L (.target (cg.next_target_ + 2)) (.target (cg.next_target_ + 3)) := by
      unfold emitted forInAtEntry
      rw [emitted_forInEntry]
      simp
    rw [hcode]
    exact run_forInEntryCode rt F L cg.next_target_ s w rest hs hw hu hn hj hm hwu hwn hmap
  · rw [VisitForInStatement_eq]
    exact forInExit_frame _ F L SL flags result kGlobalSlotOffset visit each body _ _ _ H
      (by rw [e]) hbody

theorem VisitForInStatement_five_elements_witness :
    (∃ s2, run forInRuntime (emitted
          (CodeGenerator.LoadAndSpill
            { CodeGenerator.start 0 with next_target_ := (CodeGenerator.start 0).next_target_ + 6 }
            Factory.sample (fun _ => VisitResult.plain) (.Other 1))
          (forInAtEntry (CodeGenerator.start 0) Factory.sample ObjectLayout.sample
            (fun _ => VisitResult.plain) (.Other 1))) none (State.withStack [2, 42]) =
          .fallthrough s2 ∧
      s2.stack = [0, 0, 100, 0, 50, 42]) ∧
    ((CodeGenerator.start 0).VisitForInStatement Factory.sample ObjectLayout.sample
      SlotLayout.sample ⟨false, true, false⟩ (fun _ => VisitResult.plain) 0 (fun _ c => c)
      (.VariableProxy (Variable.mk "k" false false (some (Slot.mk .LOCAL 0 0)))) (.Other 1)
      0).frame_ = some 0 := by
  have h := VisitForInStatement_five_elements (CodeGenerator.start 0) Factory.sample
    ObjectLayout.sample SlotLayout.sample ⟨false, true, false⟩ (fun _ => VisitResult.plain) 0
    (fun _ c => c) (.VariableProxy (Variable.mk "k" false false (some (Slot.mk .LOCAL 0 0))))
    (.Other 1) 0 0 rfl rfl (TargetsFresh_start 0) (by decide) (fun _ => List.prefix_refl _)
    forInRuntime (State.withStack [2, 42]) 2 [42] rfl (by decide) (by decide) (by decide)
    (by decide) (by decide) (by decide) (by decide) (by decide)
  have e : forInLoopState forInRuntime Factory.sample ObjectLayout.sample
      (State.withStack [2, 42])
      (forInObject forInRuntime ObjectLayout.sample (State.withStack [2, 42]) 2) ++ [42] =
      [0, 0, 100, 0, 50, 42] := by decide
  rw [e] at h
  exact ⟨h.2.2.2.1, h.2.2.2.2⟩

theorem genCodeDeclarations_illegal (cg : CodeGenerator) (F : Factory) (SL : SlotLayout)
    (flags : Flags) (result : Expression → VisitResult) (kGlobalSlotOffset : Int)
    (visitIllegalRedeclaration processDeclarations : CodeGenerator → CodeGenerator)
    (scope : Scope) (h : scope.HasIllegalRedeclaration = true) :
    genCodeDeclarations cg F SL flags result kGlobalSlotOffset visitIllegalRedeclaration
        processDeclarations scope =
      visitIllegalRedeclaration (genCodePrologue cg F SL flags result kGlobalSlotOffset scope) := by
  unfold genCodePrologue genCodeDeclarations
  simp only [h, if_true]

theorem genCodeBody_illegal (cg : CodeGenerator) (F : Factory) (SL : SlotLayout) (flags : Flags)
    (visit : Nat → CodeGenerator → CodeGenerator) (scope : Scope) (body : List Nat)
    (h : scope.HasIllegalRedeclaration = true) :
    (genCodeBody cg F SL flags visit scope body).masm_ =
        cg.masm_ ++ genCodeTail F SL flags scope
          (cg.has_valid_frame || cg.is_linked .function_return) ∧
      (genCodeBody cg F SL flags visit scope body).deferred_ = cg.deferred_ ∧
      (genCodeBody cg F SL flags visit scope body).stack_overflow_ = cg.stack_overflow_ ∧
      ∀ (visit2 : Nat → CodeGenerator → CodeGenerator) (body2 : List Nat),
        genCodeBody cg F SL flags visit2 scope body2 = genCodeBody cg F SL flags visit scope body := by
  obtain ⟨masm, deferred, ccr, frame, linked, next, so⟩ := cg
  obtain ⟨tr, cs, kd⟩ := flags
  refine ⟨?_, ?_, ?_, ?_⟩
  · cases tr <;> cases cs <;> cases frame <;>
      cases hl : (linked.any fun p => decide (p.1 = Label.function_return)) <;>
      simp [genCodeBody, genCodeTail, h, CheckStack, VirtualFrame.CallRuntime,
        VirtualFrame.CallCodeStub, VirtualFrame.EmitPush, VirtualFrame.Exit, JumpTarget.Bind,
        JumpTarget.Unuse, emit, has_valid_frame, is_linked, hl]
  · cases tr <;> cases cs <;> cases frame <;>
      cases hl : (linked.any fun p => decide (p.1 = Label.function_return)) <;>
      simp [genCodeBody, h, CheckStack, VirtualFrame.CallRuntime,
        VirtualFrame.CallCodeStub, VirtualFrame.EmitPush, VirtualFrame.Exit, JumpTarget.Bind,
        JumpTarget.Unuse, emit, has_valid_frame, is_linked, hl]
  · cases tr <;> cases cs <;> cases frame <;>
      cases hl : (linked.any fun p => decide (p.1 = Label.function_return)) <;>
      simp [genCodeBody, h, CheckStack, VirtualFrame.CallRuntime,
        VirtualFrame.CallCodeStub, VirtualFrame.EmitPush, VirtualFrame.Exit, JumpTarget.Bind,
        JumpTarget.Unuse, emit, has_valid_frame, is_linked, hl]
  · intro visit2 body2
    simp [genCodeBody, h]

/-- C21 (as amended).  When the scope has an illegal redeclaration, `GenCode`
calls the redeclaration reporter of the scope where it would otherwise process
the declarations and visit the body: `ProcessDeclarations` is not called and no
statement of the body is visited (the result does not depend on either).  The
code of the function is the prologue, the code of the reporter, and then the
trace call, the stack check and the return sequence (`genCodeTail`), which are
emitted as for any other function; the deferred code is handled at the end as
usual. -/
theorem GenCode_illegal_redeclaration (cg : CodeGenerator) (F : Factory) (SL : SlotLayout)
    (flags : Flags) (result : Expression → VisitResult) (kGlobalSlotOffset : Int)
    (visitIllegalRedeclaration processDeclarations : CodeGenerator → CodeGenerator)
    (visit : Nat → CodeGenerator → CodeGenerator) (scope : Scope) (body : List Nat)
    (h : scope.HasIllegalRedeclaration = true) :
    (∀ (processDeclarations2 : CodeGenerator → CodeGenerator)
        (visit2 : Nat → CodeGenerator → CodeGenerator) (body2 : List Nat),
      cg.GenCode F SL flags result kGlobalSlotOffset visitIllegalRedeclaration
          processDeclarations2 visit2 scope body2 =
        cg.GenCode F SL flags result kGlobalSlotOffset visitIllegalRedeclaration
          processDeclarations visit scope body) ∧
    ∃ cgE : CodeGenerator,
      cgE.masm_ =
        (visitIllegalRedeclaration
          (genCodePrologue cg F SL flags result kGlobalSlotOffset scope)).masm_ ++
        genCodeTail F SL flags scope
          ((visitIllegalRedeclaration
              (genCodePrologue cg F SL flags result kGlobalSlotOffset scope)).has_valid_frame ||
            (visitIllegalRedeclaration
              (genCodePrologue cg F SL flags result kGlobalSlotOffset scope)).is_linked
                .function_return) ∧
      cg.GenCode F SL flags result kGlobalSlotOffset visitIllegalRedeclaration
          processDeclarations visit scope body =
        (if cgE.stack_overflow_ then (cgE.ClearDeferred, DeferredHandling.ClearDeferred)
         else (cgE.ProcessDeferred, DeferredHandling.ProcessDeferred)) := by
  have hD := genCodeDeclarations_illegal cg F SL flags result kGlobalSlotOffset
    visitIllegalRedeclaration
  have hG : ∀ (pd : CodeGenerator → CodeGenerator) (v : Nat → CodeGenerator → CodeGenerator)
      (b : List Nat),
      cg.GenCode F SL flags result kGlobalSlotOffset visitIllegalRedeclaration pd v scope b =
        (if (genCodeBody (visitIllegalRedeclaration
              (genCodePrologue cg F SL flags result kGlobalSlotOffset scope)) F SL flags v scope
              b).stack_overflow_ then
          ((genCodeBody (visitIllegalRedeclaration
              (genCodePrologue cg F SL flags result kGlobalSlotOffset scope)) F SL flags v scope
              b).ClearDeferred, DeferredHandling.ClearDeferred)
         else
          ((genCodeBody (visitIllegalRedeclaration
              (genCodePrologue cg F SL flags result kGlobalSlotOffset scope)) F SL flags v scope
              b).ProcessDeferred, DeferredHandling.ProcessDeferred)) := by
    intro pd v b
    rw [GenCode_eq]
    simp only [h, Bool.not_true, Bool.false_and, Bool.false_eq_true, if_false]
    rw [hD pd scope h]
  refine ⟨?_, genCodeBody (visitIllegalRedeclaration
      (genCodePrologue cg F SL flags result kGlobalSlotOffset scope)) F SL flags visit scope body,
    (genCodeBody_illegal _ F SL flags visit scope body h).1, hG _ _ _⟩
  intro pd2 v2 b2
  rw [hG, hG, (genCodeBody_illegal _ F SL flags visit scope body h).2.2.2 v2 b2]

theorem GenCode_illegal_redeclaration_witness :
    (CodeGenerator.start 0).GenCode Factory.sample SlotLayout.sample ⟨false, false, false⟩
        (fun _ => VisitResult.plain) 0 reportRedeclaration
        (fun c => c.emit (.load (.Other 7))) (fun n c => c.emit (.load (.Other n)))
        Scope.redeclared [1, 2] =
      (CodeGenerator.start 0).GenCode Factory.sample SlotLayout.sample ⟨false, false, false⟩
        (fun _ => VisitResult.plain) 0 reportRedeclaration id (fun _ c => c)
        Scope.redeclared [] :=
  (GenCode_illegal_redeclaration (CodeGenerator.start 0) Factory.sample SlotLayout.sample
    ⟨false, false, false⟩ (fun _ => VisitResult.plain) 0 reportRedeclaration id (fun _ c => c)
    Scope.redeclared [] rfl).1 (fun c => c.emit (.load (.Other 7)))
    (fun n c => c.emit (.load (.Other n))) [1, 2]

/-- C21 as stated fails: for a function whose scope has an illegal
redeclaration `GenCode` emits, besides the code of the reporter, the frame
entry, the allocation of the locals and the return sequence. -/
theorem GenCode_illegal_redeclaration_emits_prologue_and_return :
    ((CodeGenerator.start 0).GenCode Factory.sample SlotLayout.sample ⟨false, false, false⟩
        (fun _ => VisitResult.plain) 0 reportRedeclaration id (fun _ c => c)
        Scope.redeclared []).1.masm_ =
      [.frame_enter, .allocate_stack_slots 0, .load (.Other 0),
       .dp .mov .r0 .r0 (.imm 5) .LeaveCC .al, .bind .function_return,
       .frame_exit, .add_sp 4, .mov_pc_lr] ∧
    ((CodeGenerator.start 0).GenCode Factory.sample SlotLayout.sample ⟨false, false, false⟩
        (fun _ => VisitResult.plain) 0 reportRedeclaration id (fun _ c => c)
        Scope.redeclared []).1.masm_ ≠
      emitted (CodeGenerator.start 0) (reportRedeclaration (CodeGenerator.start 0)) := by
  constructor
  · rfl
  · decide

/-- C30, the code at `!(typeof x == "foo")`.  Compiled with the targets swapped
as the `NOT` case passes them, the comparison ends in the unconditional jump of
line 3992: no frame, `cc_reg_` is `al`.  `LoadCondition` then has no frame to
convert, and `VisitUnaryOperation` negates `cc_reg_` all the same: after the
`NOT` the generator holds the negation of `al`, so `has_cc()` is true although
no condition was set, and the frame is invalid. -/
theorem VisitUnaryOperation_NOT_negates_missing_condition :
    ((CodeGenerator.start 0).VisitCompareOperation Factory.sample ObjectLayout.sample
        (fun _ => VisitResult.plain) 3 .EQ (.UnaryOperation .TYPEOF (.Other 1))
        (.Literal (.Symbol "foo")) .false_target .true_target).frame_ = none ∧
    ((CodeGenerator.start 0).VisitCompareOperation Factory.sample ObjectLayout.sample
        (fun _ => VisitResult.plain) 3 .EQ (.UnaryOperation .TYPEOF (.Other 1))
        (.Literal (.Symbol "foo")) .false_target .true_target).has_cc = false ∧
    ((CodeGenerator.start 0).LoadConditionAndSpill Factory.sample visitTypeofFoo typeofFoo
        .false_target .true_target true).cc_reg_ = .al ∧
    ((CodeGenerator.start 0).VisitUnaryOperation Factory.sample visitTypeofFoo 3 3 .NOT
        typeofFoo .true_target .false_target).frame_ = none ∧
    ((CodeGenerator.start 0).VisitUnaryOperation Factory.sample visitTypeofFoo 3 3 .NOT
        typeofFoo .true_target .false_target).cc_reg_ = NegateCondition .al ∧
    ((CodeGenerator.start 0).VisitUnaryOperation Factory.sample visitTypeofFoo 3 3 .NOT
        typeofFoo .true_target .false_target).has_cc = true := by
  refine ⟨by decide, by decide, by decide, by decide, by decide, by decide⟩

theorem dispatch_words (d : Nat) (h : d < 4294967296) :
    (((d >>> 16) % 65536) <<< 16) % 4294967296 ||| (d &&& 0xFFFF) % 65536 = d := by
  have h1 : d &&& 0xFFFF = d % 65536 := Nat.and_pow_two_sub_one_eq_mod d 16
  have h2 : d >>> 16 = d / 65536 := Nat.shiftRight_eq_div_pow d 16
  rw [h1, h2, Nat.shiftLeft_eq]
  have h3 : d / 65536 % 65536 = d / 65536 := Nat.mod_eq_of_lt (by omega)
  rw [h3, Nat.mod_mod]
  have h4 : d / 65536 * 2 ^ 16 % 4294967296 = 2 ^ 16 * (d / 65536) := by
    rw [Nat.mod_eq_of_lt (by omega)]; ring
  rw [h4, ← Nat.mul_add_lt_is_or (by omega)]
  omega

theorem toWord_toInt (w : Nat) (h : w < 4294967296) : toWord (toInt w) = w := by
  unfold toWord toInt
  split_ifs <;> omega

/-- C23: `ControlDestination::Invert` swaps the true and the false target, the
jump target that is the fall-through is the same label before and after, and
inverting twice gives back the destination it started from: the true target,
the false target, the fall-through flag (and the used flag, which `Invert` does
not touch). -/
theorem ControlDestination_Invert_swaps_and_is_involutive (d : ControlDestination) :
    d.Invert.true_target = d.false_target ∧ d.Invert.false_target = d.true_target ∧
    d.Invert.fall_through = d.fall_through ∧
    d.Invert.Invert.true_target = d.true_target ∧
    d.Invert.Invert.false_target = d.false_target ∧
    d.Invert.Invert.true_is_fall_through_ = d.true_is_fall_through_ ∧
    d.Invert.is_used = d.is_used ∧
    d.Invert.Invert = d := by
  obtain ⟨t, f, b, u⟩ := d
  cases b <;>
    simp [ControlDestination.Invert, ControlDestination.true_target,
      ControlDestination.false_target, ControlDestination.fall_through,
      ControlDestination.is_used]

/-- C29: for every 32-bit dispatch value `d`, the command `ProcessHostDispatch`
puts on the queue is the three words 0, `d >> 16`, `d & 0xFFFF`, and the
host-dispatch branch of `NotifyMessageHandler` decodes it to the `int32_t`
whose 32 bits are those of `d`: cast back to a 32-bit pointer it is exactly
`d`. -/
theorem ProcessHostDispatch_roundtrip (d : Nat) (h : d < 4294967296) :
    ProcessHostDispatch d = [0, d >>> 16, d &&& 0xFFFF] ∧
    NotifyMessageHandler_dispatch (ProcessHostDispatch d) = some (toInt d) ∧
    (NotifyMessageHandler_dispatch (ProcessHostDispatch d)).map toWord = some d := by
  have h1 : d &&& 0xFFFF = d % 65536 := Nat.and_pow_two_sub_one_eq_mod d 16
  have h2 : d >>> 16 = d / 65536 := Nat.shiftRight_eq_div_pow d 16
  have e := dispatch_words d h
  have hw := toWord_toInt d h
  have hd : d % 4294967296 = d := Nat.mod_eq_of_lt h
  refine ⟨?_, ?_, ?_⟩
  · simp only [ProcessHostDispatch, hd, h1, h2]
    rw [Nat.mod_mod, Nat.mod_eq_of_lt (a := d / 65536) (by omega)]
  · simp only [NotifyMessageHandler_dispatch, ProcessHostDispatch, hd, List.getD_cons_zero,
      List.getD_cons_succ, if_true]
    rw [e]
  · simp only [NotifyMessageHandler_dispatch, ProcessHostDispatch, hd, List.getD_cons_zero,
      List.getD_cons_succ, if_true]
    rw [e]
    simp [hw]

theorem ProcessHostDispatch_roundtrip_witness :
    ProcessHostDispatch 3735928559 = [0, 57005, 48879] ∧
    NotifyMessageHandler_dispatch (ProcessHostDispatch 3735928559) = some (-559038737) ∧
    (NotifyMessageHandler_dispatch (ProcessHostDispatch 3735928559)).map toWord =
      some 3735928559 := by
  have h := ProcessHostDispatch_roundtrip 3735928559 (by decide)
  have e1 : (3735928559 : Nat) >>> 16 = 57005 := by decide
  have e2 : (3735928559 : Nat) &&& 0xFFFF = 48879 := by decide
  have e3 : toInt 3735928559 = -559038737 := by decide
  rw [e1, e2, e3] at h
  exact h

theorem LoadReference_ILLEGAL (cg : CodeGenerator) (F : Factory)
    (result : Expression → VisitResult) (kGlobalSlotOffset : Int) (e : Expression)
    (h : (Reference.create cg F result kGlobalSlotOffset e).2.type_ = .ILLEGAL) :
    e.AsProperty = none ∧ e.AsVariable = none ∧
    Reference.create cg F result kGlobalSlotOffset e =
      (VirtualFrame.CallRuntime (cg.LoadAndSpill F result e) .kThrowReferenceError 1,
        Reference.mk e .ILLEGAL) := by
  unfold Reference.create LoadReference at h ⊢
  cases e with
  | Property obj key =>
    simp only [Expression.AsProperty] at h
    split_ifs at h <;> simp [Reference.set_type] at h
  | VariableProxy var =>
    simp only [Expression.AsProperty, Expression.AsVariable] at h
    split_ifs at h <;> simp [Reference.set_type] at h
  | Literal handle => simp [Expression.AsProperty, Expression.AsVariable]
  | UnaryOperation op x => simp [Expression.AsProperty, Expression.AsVariable]
  | BinaryOperation op l r => simp [Expression.AsProperty, Expression.AsVariable]
  | Other id => simp [Expression.AsProperty, Expression.AsVariable]
  | Slot var type index => simp [Expression.AsProperty, Expression.AsVariable]

theorem LoadReference_not_reference (cg : CodeGenerator) (F : Factory)
    (result : Expression → VisitResult) (kGlobalSlotOffset : Int) (e : Expression)
    (h1 : e.AsProperty = none) (h2 : e.AsVariable = none) :
    Reference.create cg F result kGlobalSlotOffset e =
      (VirtualFrame.CallRuntime (cg.LoadAndSpill F result e) .kThrowReferenceError 1,
        Reference.mk e .ILLEGAL) := by
  unfold Reference.create LoadReference
  simp [h1, h2]

/-- C22: when the target of an assignment, of a prefix count operation or of a
postfix count operation is an illegal reference, the code emitted after the
evaluation of the target expression (`LoadAndSpill`, whose value is the
argument of the call) is the call of `Runtime::kThrowReferenceError` and the
push of a dummy value (for the postfix operation the dummy is pushed first):
none of the code of `GetValue` or `SetValue` is emitted, whatever they would
emit, and the frame ends exactly one element above the height `H` before the
expression. -/
theorem illegal_reference_throws_and_keeps_height (cg : CodeGenerator) (F : Factory)
    (SL : SlotLayout) (result : Expression → VisitResult) (kGlobalSlotOffset : Int)
    (getValue : Reference → CodeGenerator → CodeGenerator) (mode : Variable → Variable.Mode)
    (op binary_op : Token) (is_increment : Bool) (target value : Expression) (H : Int)
    (hf : cg.frame_ = some H) (hcc : cg.cc_reg_ = .al) (hfresh : cg.TargetsFresh)
    (hwf : (result target).WellFormed = true)
    (hill : (Reference.create cg F result kGlobalSlotOffset target).2.type_ = .ILLEGAL) :
    ((cg.VisitAssignment F SL result kGlobalSlotOffset getValue mode op binary_op target
        value).masm_ =
      (cg.LoadAndSpill F result target).masm_ ++
        [.CallRuntime .kThrowReferenceError 1,
         .dp .mov .r0 .r0 (.imm (Smi.FromInt 0)) .LeaveCC .al, .push .r0] ∧
     (cg.VisitAssignment F SL result kGlobalSlotOffset getValue mode op binary_op target
        value).frame_ = some (H + 1)) ∧
    ((cg.VisitCountOperation F SL result kGlobalSlotOffset getValue mode false is_increment
        target).masm_ =
      (cg.LoadAndSpill F result target).masm_ ++
        [.CallRuntime .kThrowReferenceError 1,
         .dp .mov .r0 .r0 (.imm (Smi.FromInt 0)) .LeaveCC .al, .push .r0] ∧
     (cg.VisitCountOperation F SL result kGlobalSlotOffset getValue mode false is_increment
        target).frame_ = some (H + 1)) ∧
    ((cg.VisitCountOperation F SL result kGlobalSlotOffset getValue mode true is_increment
        target).masm_ =
      ((VirtualFrame.EmitPush (cg.emit (.dp .mov .r0 .r0 (.imm 0) .LeaveCC .al)) .r0).LoadAndSpill
          F result target).masm_ ++ [.CallRuntime .kThrowReferenceError 1] ∧
     (cg.VisitCountOperation F SL result kGlobalSlotOffset getValue mode true is_increment
        target).frame_ = some (H + 1)) := by
  have k0 := Load_frame cg F result target hwf hcc hfresh H hf
  have k1 := Load_frame (VirtualFrame.EmitPush (cg.emit (.dp .mov .r0 .r0 (.imm 0) .LeaveCC .al))
    .r0) F result target hwf hcc hfresh (H + 1) (by simp [VirtualFrame.EmitPush, emit, hf])
  obtain ⟨h1, h2, e⟩ := LoadReference_ILLEGAL cg F result kGlobalSlotOffset target hill
  refine ⟨?_, ?_, ?_⟩
  · unfold VisitAssignment
    rw [e]
    simp [UnloadReference, Reference.size, VirtualFrame.EmitPush, VirtualFrame.CallRuntime,
      emit, LoadAndSpill, k0.1]
  · unfold VisitCountOperation
    simp only [Bool.false_eq_true, if_false]
    rw [e]
    simp [UnloadReference, Reference.size, VirtualFrame.EmitPush, VirtualFrame.CallRuntime,
      emit, LoadAndSpill, k0.1]
  · unfold VisitCountOperation
    simp only [if_true]
    rw [LoadReference_not_reference _ F result kGlobalSlotOffset target h1 h2]
    simp [UnloadReference, Reference.size, VirtualFrame.CallRuntime, LoadAndSpill, k1.1]

theorem illegal_reference_throws_and_keeps_height_witness :
    (((CodeGenerator.start 0).VisitAssignment Factory.sample SlotLayout.sample
        (fun _ => VisitResult.plain) 3 (fun _ c => c) (fun _ => .VAR) .ASSIGN .ADD
        (.Literal (.Smi 1)) (.Literal (.Smi 2))).masm_ =
      [.load (.Literal (.Smi 1)), .CallRuntime .kThrowReferenceError 1,
       .dp .mov .r0 .r0 (.imm 0) .LeaveCC .al, .push .r0] ∧
     ((CodeGenerator.start 0).VisitAssignment Factory.sample SlotLayout.sample
        (fun _ => VisitResult.plain) 3 (fun _ c => c) (fun _ => .VAR) .ASSIGN .ADD
        (.Literal (.Smi 1)) (.Literal (.Smi 2))).frame_ = some 1) ∧
    (((CodeGenerator.start 0).VisitCountOperation Factory.sample SlotLayout.sample
        (fun _ => VisitResult.plain) 3 (fun _ c => c) (fun _ => .VAR) false true
        (.Literal (.Smi 1))).masm_ =
      [.load (.Literal (.Smi 1)), .CallRuntime .kThrowReferenceError 1,
       .dp .mov .r0 .r0 (.imm 0) .LeaveCC .al, .push .r0] ∧
     ((CodeGenerator.start 0).VisitCountOperation Factory.sample SlotLayout.sample
        (fun _ => VisitResult.plain) 3 (fun _ c => c) (fun _ => .VAR) false true
        (.Literal (.Smi 1))).frame_ = some 1) ∧
    (((CodeGenerator.start 0).VisitCountOperation Factory.sample SlotLayout.sample
        (fun _ => VisitResult.plain) 3 (fun _ c => c) (fun _ => .VAR) true true
        (.Literal (.Smi 1))).masm_ =
      [.dp .mov .r0 .r0 (.imm 0) .LeaveCC .al, .push .r0, .load (.Literal (.Smi 1)),
       .CallRuntime .kThrowReferenceError 1] ∧
     ((CodeGenerator.start 0).VisitCountOperation Factory.sample SlotLayout.sample
        (fun _ => VisitResult.plain) 3 (fun _ c => c) (fun _ => .VAR) true true
        (.Literal (.Smi 1))).frame_ = some 1) := by
  have h := illegal_reference_throws_and_keeps_height (CodeGenerator.start 0) Factory.sample
    SlotLayout.sample (fun _ => VisitResult.plain) 3 (fun _ c => c) (fun _ => .VAR) .ASSIGN .ADD
    true (.Literal (.Smi 1)) (.Literal (.Smi 2)) 0 rfl rfl (TargetsFresh_start 0) (by decide)
    (by decide)
  have e1 : ((CodeGenerator.start 0).LoadAndSpill Factory.sample (fun _ => VisitResult.plain)
      (.Literal (.Smi 1))).masm_ = [.load (.Literal (.Smi 1))] := by decide
  have e2 : ((VirtualFrame.EmitPush ((CodeGenerator.start 0).emit
      (.dp .mov .r0 .r0 (.imm 0) .LeaveCC .al)) .r0).LoadAndSpill Factory.sample
      (fun _ => VisitResult.plain) (.Literal (.Smi 1))).masm_ =
      [.dp .mov .r0 .r0 (.imm 0) .LeaveCC .al, .push .r0, .load (.Literal (.Smi 1))] := by decide
  have e3 : Smi.FromInt 0 = 0 := by decide
  rw [e1, e2, e3] at h
  exact h

theorem smull_words (q : Int) (hq1 : -2305843009213693952 ≤ q) (hq2 : q ≤ 2305843009213693952) :
    (toWord (toInt (toWord q) / 2147483648) = toWord (q / 4294967296) ↔
      (-2147483648 ≤ q ∧ q < 2147483648)) ∧
    toWord (toInt (toWord q) / 2147483648) < 4294967296 ∧ toWord (q / 4294967296) < 4294967296 ∧
    toWord q < 4294967296 := by
  obtain ⟨k, hk⟩ : ∃ k : Int, q / 4294967296 = k := ⟨_, rfl⟩
  obtain ⟨w, hw⟩ : ∃ w : Nat, q % 4294967296 = (w : Int) :=
    ⟨(q % 4294967296).toNat, by omega⟩
  have hw2 : w < 4294967296 := by omega
  have hq : q = 4294967296 * k + w := by omega
  have hk1 : -536870912 ≤ k := by omega
  have hk2 : k ≤ 536870912 := by omega
  have e1 : toWord q = w := by simp only [toWord, hw, Int.toNat_ofNat]
  rw [e1, hk]
  have e2 : toWord k = if 0 ≤ k then k.toNat else (k + 4294967296).toNat := by
    unfold toWord
    split_ifs <;> omega
  by_cases hlt : w < 2147483648
  · have e3 : toInt w / 2147483648 = 0 := by
      simp only [toInt, hlt, if_true]; omega
    have e4 : toWord 0 = 0 := by decide
    rw [e3, e4, e2]
    split_ifs <;> omega
  · have e3 : toInt w / 2147483648 = -1 := by
      simp only [toInt, hlt, if_false]; omega
    have e4 : toWord (-1) = 4294967295 := by decide
    rw [e3, e4, e2]
    split_ifs <;> omega

theorem lor_mod_two (a b : Nat) : (a ||| b) % 2 = 0 ↔ a % 2 = 0 ∧ b % 2 = 0 := by
  have h : (a ||| b).testBit 0 = (a.testBit 0 || b.testBit 0) := Nat.testBit_lor a b 0
  simp only [Nat.testBit_zero] at h
  have ha := Nat.mod_two_eq_zero_or_one a
  have hb := Nat.mod_two_eq_zero_or_one b
  have hc := Nat.mod_two_eq_zero_or_one (a ||| b)
  rcases ha with ha | ha <;> rcases hb with hb | hb <;> rcases hc with hc | hc <;>
    simp [ha, hb, hc] at h ⊢

theorem mul_operands (x y : Int) (hx : Smi.IsValid x = true) (hy : Smi.IsValid y = true) :
    toInt (Smi.FromInt x) * toInt (toWord (toInt (Smi.FromInt y) / 2)) = 2 * (x * y) ∧
    -1152921504606846976 ≤ x * y ∧ x * y ≤ 1152921504606846976 ∧
    (Smi.FromInt x ||| Smi.FromInt y) &&& 1 = 0 := by
  simp only [Smi.IsValid, Bool.and_eq_true, decide_eq_true_eq] at hx hy
  have e1 : toInt (Smi.FromInt x) = 2 * x := by
    simp only [toInt, toWord, Smi.FromInt, Smi.kSmiTagSize, Smi.kSmiTag, pow_one]
    split_ifs <;> omega
  have e2 : toInt (toWord (toInt (Smi.FromInt y) / 2)) = y := by
    simp only [toInt, toWord, Smi.FromInt, Smi.kSmiTagSize, Smi.kSmiTag, pow_one]
    split_ifs <;> omega
  have ex : Smi.FromInt x % 2 = 0 := (untag_FromInt x (by simp [Smi.IsValid, hx])).1
  have ey : Smi.FromInt y % 2 = 0 := (untag_FromInt y (by simp [Smi.IsValid, hy])).1
  refine ⟨by rw [e1, e2]; ring, by nlinarith, by nlinarith, ?_⟩
  rw [Nat.and_one_is_mod]
  exact (lor_mod_two _ _).2 ⟨ex, ey⟩

theorem run_smull (rt : Runtime) (lo hi rm rs : Register) (rest : List Instr) (s : State) :
    run rt (.smull lo hi rm rs :: rest) none s =
      run rt rest none
        ((s.set lo (toWord (toInt (s.regs rm) * toInt (s.regs rs)))).set hi
          (toWord (toInt (s.regs rm) * toInt (s.regs rs) / 4294967296))) := by
  simp [run, step]

theorem MUL_stub_code :
    GenericBinaryOpStub_Generate .MUL [] =
      [.dp .orr .r2 .r1 (.reg .r0) .LeaveCC .al,
       .dp .tst .r2 .r2 (.imm Smi.kSmiTagMask) .SetCC .al,
       .b .ne .slow,
       .dp .mov .ip .ip (.shifted .r0 .ASR Smi.kSmiTagSize) .LeaveCC .al,
       .smull .r3 .r2 .r1 .ip,
       .dp .mov .ip .ip (.shifted .r3 .ASR 31) .LeaveCC .al,
       .dp .cmp .ip .ip (.reg .r2) .SetCC .al,
       .b .ne .slow,
       .dp .tst .r3 .r3 (.reg .r3) .SetCC .al,
       .dp .mov .r0 .r0 (.reg .r3) .LeaveCC .ne,
       .b .ne .exit,
       .bind .slow,
       .push .r1,
       .push .r0,
       .dp .mov .r0 .r0 (.imm 1) .LeaveCC .al,
       .JumpBuiltin .MUL,
       .bind .exit,
       .Ret] := rfl

theorem run_MUL_slow_tail (rt : Runtime) (s : State) :
    run rt [Instr.push .r1, .push .r0, .dp .mov .r0 .r0 (.imm 1) .LeaveCC .al,
      .JumpBuiltin .MUL, .bind .exit, .Ret] none s =
      .jumped (.builtin_entry .MUL)
        (({ s with stack := s.regs .r0 :: s.regs .r1 :: s.stack } : State).set .r0 1) := by
  rw [run_push, run_push, run_dp]
  simp [run, step]

theorem run_MUL_nonsmi (rt : Runtime) (s : State) (a b : Nat) (h1 : s.regs .r1 = a)
    (h0 : s.regs .r0 = b) (htag : (a ||| b) &&& 1 ≠ 0) :
    EntersMulBuiltin (run rt (GenericBinaryOpStub_Generate .MUL []) none s) s a b := by
  rw [MUL_stub_code, run_dp, run_dp,
    run_b_taken _ _ _ _ _ (by
      simp only [State.holds, dp_tst, dp_orr, logicFlags_z, set_regs, operand_reg, operand_imm,
        h1, h0, Smi.kSmiTagMask, if_true]
      simpa using htag),
    run_skip _ _ _ _ _ (by simp), run_skip _ _ _ _ _ (by simp), run_skip _ _ _ _ _ (by simp),
    run_skip _ _ _ _ _ (by simp), run_skip _ _ _ _ _ (by simp), run_skip _ _ _ _ _ (by simp),
    run_skip _ _ _ _ _ (by simp), run_skip _ _ _ _ _ (by simp), run_skip_bind, run_MUL_slow_tail]
  exact ⟨_, rfl, by simp [dp_orr, set_regs, h1, h0], by simp [set_regs],
    by simp [dp_orr, set_regs, h1], by simp [dp_orr]⟩

theorem toWord_lt (i : Int) : toWord i < 4294967296 := by
  unfold toWord; omega

theorem run_dp_cond_false (rt : Runtime) (op : Opcode) (d a : Register) (b : Operand) (sb : SBit)
    (c : Condition) (rest : List Instr) (s : State) (h : s.holds c = false) :
    run rt (.dp op d a b sb c :: rest) none s = run rt rest none s := by
  simp [run, step, h]

theorem run_MUL_head (rt : Runtime) (s : State) (a b : Nat) (h1 : s.regs .r1 = a)
    (h0 : s.regs .r0 = b) (htag : (a ||| b) &&& 1 = 0) (rest : List Instr) :
    ∃ s5, run rt
        (.dp .orr .r2 .r1 (.reg .r0) .LeaveCC .al ::
         .dp .tst .r2 .r2 (.imm Smi.kSmiTagMask) .SetCC .al ::
         .b .ne .slow ::
         .dp .mov .ip .ip (.shifted .r0 .ASR Smi.kSmiTagSize) .LeaveCC .al ::
         .smull .r3 .r2 .r1 .ip ::
         .dp .mov .ip .ip (.shifted .r3 .ASR 31) .LeaveCC .al ::
         .dp .cmp .ip .ip (.reg .r2) .SetCC .al :: rest) none s = run rt rest none s5 ∧
      s5.regs .r3 = toWord (toInt a * toInt (toWord (toInt b / 2))) ∧
      s5.regs .r0 = b ∧ s5.regs .r1 = a ∧ s5.stack = s.stack ∧ s5.log = s.log ∧
      s5.holds .ne =
        !decide (toWord (toInt (toWord (toInt a * toInt (toWord (toInt b / 2)))) / 2147483648) =
          toWord (toInt a * toInt (toWord (toInt b / 2)) / 4294967296)) := by
  rw [run_dp, run_dp,
    run_b_not_taken _ _ _ _ _ (by
      simp only [State.holds, dp_tst, dp_orr, logicFlags_z, set_regs, operand_reg, operand_imm,
        h1, h0, Smi.kSmiTagMask, if_true]
      simpa using htag),
    run_dp, run_smull, run_dp, run_dp]
  refine ⟨_, rfl, ?_, ?_, ?_, ?_, ?_, ?_⟩
  · simp [dp_mov, dp_orr, set_regs, operand_ASR, Smi.kSmiTagSize, h1, h0]
  · simp [dp_mov, dp_orr, set_regs, h0]
  · simp [dp_mov, dp_orr, set_regs, h1]
  · simp [dp_mov, dp_orr]
  · simp [dp_mov, dp_orr]
  · simp only [State.holds, dp_cmp, subFlags_z, dp_mov, dp_orr, dp_tst, set_regs, operand_ASR,
      operand_reg, logicFlags_regs, Smi.kSmiTagSize, h1, h0, if_true, reduceCtorEq, if_false]
    congr 1
    exact decide_eq_decide.mpr (by
      simpa using toWord_sub_eq_zero _ _ (toWord_lt _) (toWord_lt _))

theorem run_MUL_smi (rt : Runtime) (s : State) (a b : Nat) (h1 : s.regs .r1 = a)
    (h0 : s.regs .r0 = b) (htag : (a ||| b) &&& 1 = 0) :
    (toWord (toInt (toWord (toInt a * toInt (toWord (toInt b / 2)))) / 2147483648) =
        toWord (toInt a * toInt (toWord (toInt b / 2)) / 4294967296) ∧
      toWord (toInt a * toInt (toWord (toInt b / 2))) ≠ 0 →
      ∃ s', run rt (GenericBinaryOpStub_Generate .MUL []) none s = .jumped .return_address s' ∧
        s'.regs .r0 = toWord (toInt a * toInt (toWord (toInt b / 2))) ∧ s'.stack = s.stack ∧
        s'.log = s.log) ∧
    (¬ (toWord (toInt (toWord (toInt a * toInt (toWord (toInt b / 2)))) / 2147483648) =
        toWord (toInt a * toInt (toWord (toInt b / 2)) / 4294967296) ∧
      toWord (toInt a * toInt (toWord (toInt b / 2))) ≠ 0) →
      EntersMulBuiltin (run rt (GenericBinaryOpStub_Generate .MUL []) none s) s a b) := by
  rw [MUL_stub_code]
  obtain ⟨s5, e5, f3, f0, f1, fs, fl, fne⟩ := run_MUL_head rt s a b h1 h0 htag
    [.b .ne .slow, .dp .tst .r3 .r3 (.reg .r3) .SetCC .al,
     .dp .mov .r0 .r0 (.reg .r3) .LeaveCC .ne, .b .ne .exit, .bind .slow, .push .r1, .push .r0,
     .dp .mov .r0 .r0 (.imm 1) .LeaveCC .al, .JumpBuiltin .MUL, .bind .exit, .Ret]
  rw [e5]
  generalize toInt a * toInt (toWord (toInt b / 2)) = q at f3 fne ⊢
  have hz : ∀ t : State, t.regs .r3 = toWord q →
      (t.dataProcessing .tst .r3 .r3 (.reg .r3) .SetCC).holds .ne = !decide (toWord q = 0) := by
    intro t ht
    simp [State.holds, ht]
  constructor
  · rintro ⟨hfit, hnz⟩
    rw [run_b_not_taken _ _ _ _ _ (by rw [fne]; simp [hfit]), run_dp,
      run_dp_cond _ _ _ _ _ _ _ _ _ (by rw [hz _ f3]; simp [hnz]),
      run_b_taken _ _ _ _ _ (by
        rw [dp_mov]
        simp only [State.holds, set_z]
        have := hz s5 f3
        simp only [State.holds] at this
        rw [this]
        simp [hnz]),
      run_skip _ _ _ _ _ (by simp), run_skip _ _ _ _ _ (by simp), run_skip _ _ _ _ _ (by simp),
      run_skip _ _ _ _ _ (by simp), run_skip _ _ _ _ _ (by simp), run_skip_bind]
    refine ⟨_, by simp [run, step]; rfl, ?_, ?_, ?_⟩
    · simp [dp_mov, set_regs, f3]
    · simp [dp_mov, fs]
    · simp [dp_mov, fl]
  · intro hno
    by_cases hfit : toWord (toInt (toWord q) / 2147483648) = toWord (q / 4294967296)
    · have hzero : toWord q = 0 := by
        by_contra hnz
        exact hno ⟨hfit, hnz⟩
      rw [run_b_not_taken _ _ _ _ _ (by rw [fne]; simp [hfit]), run_dp,
        run_dp_cond_false _ _ _ _ _ _ _ _ _ (by rw [hz _ f3]; simp [hzero]),
        run_b_not_taken _ _ _ _ _ (by rw [hz _ f3]; simp [hzero]), run_bind, run_MUL_slow_tail]
      exact ⟨_, rfl, by simp [f0, f1, fs], by simp [set_regs], by simp [set_regs, f1],
        by simp [fl]⟩
    · rw [run_b_taken _ _ _ _ _ (by rw [fne]; simp [hfit]),
        run_skip _ _ _ _ _ (by simp), run_skip _ _ _ _ _ (by simp), run_skip _ _ _ _ _ (by simp),
        run_skip_bind, run_MUL_slow_tail]
      exact ⟨_, rfl, by simp [f0, f1, fs], by simp [set_regs], by simp [set_regs, f1],
        by simp [fl]⟩

theorem mul_fits (p : Int) (h1 : -1152921504606846976 ≤ p) (h2 : p ≤ 1152921504606846976) :
    ((toWord (toInt (toWord (2 * p)) / 2147483648) = toWord (2 * p / 4294967296) ∧
        toWord (2 * p) ≠ 0) ↔ (p ≠ 0 ∧ Smi.IsValid p = true)) ∧
    toWord (2 * p) = Smi.FromInt p := by
  obtain ⟨a1, -, -, -⟩ := smull_words (2 * p) (by omega) (by omega)
  simp only [Smi.IsValid, Bool.and_eq_true, decide_eq_true_eq]
  refine ⟨?_, ?_⟩
  · rw [a1]
    simp only [toWord]
    omega
  · simp only [toWord, Smi.FromInt, Smi.kSmiTagSize, Smi.kSmiTag, pow_one]
    omega

/-- C26: the `MUL` case of `GenericBinaryOpStub::Generate`, entered with `x` in
`r1` and `y` in `r0`.  For small integers `x` and `y` the stub returns to its
caller with the tagged product in `r0` (and the stack as it was) exactly when
`x * y` is not zero and is a valid small integer; otherwise, and whenever one of
the operand words is not a small integer, it enters the `MUL` builtin with the
two operand words pushed as they were on entry (`r1` first, then `r0`) and the
argument count 1 in `r0`. -/
theorem GenericBinaryOpStub_MUL_fast_path_iff (rt : Runtime) (s : State) (a b : Nat)
    (h1 : s.regs .r1 = a) (h0 : s.regs .r0 = b) :
    (∀ x y : Int, Smi.IsValid x = true → Smi.IsValid y = true → a = Smi.FromInt x →
      b = Smi.FromInt y →
      ((x * y ≠ 0 ∧ Smi.IsValid (x * y) = true) →
        ∃ s', run rt (GenericBinaryOpStub_Generate .MUL []) none s = .jumped .return_address s' ∧
          s'.regs .r0 = Smi.FromInt (x * y) ∧ s'.stack = s.stack ∧ s'.log = s.log) ∧
      (¬ (x * y ≠ 0 ∧ Smi.IsValid (x * y) = true) →
        EntersMulBuiltin (run rt (GenericBinaryOpStub_Generate .MUL []) none s) s a b)) ∧
    ((a ||| b) &&& 1 ≠ 0 →
      EntersMulBuiltin (run rt (GenericBinaryOpStub_Generate .MUL []) none s) s a b) := by
  refine ⟨?_, run_MUL_nonsmi rt s a b h1 h0⟩
  intro x y hx hy ha hb
  obtain ⟨e, b1, b2, htag⟩ := mul_operands x y hx hy
  rw [← ha, ← hb] at e htag
  obtain ⟨hfast, hslow⟩ := run_MUL_smi rt s a b h1 h0 htag
  rw [e] at hfast hslow
  obtain ⟨hiff, hfrom⟩ := mul_fits (x * y) b1 b2
  refine ⟨fun h => ?_, fun h => hslow (fun h2 => h (hiff.mp h2))⟩
  obtain ⟨s', r1, r2, r3, r4⟩ := hfast (hiff.mpr h)
  exact ⟨s', r1, by rw [r2, hfrom], r3, r4⟩

theorem GenericBinaryOpStub_MUL_fast_path_iff_witness :
    (∃ s', run Runtime.zero (GenericBinaryOpStub_Generate .MUL []) none
        (((State.withStack [7]).set .r1 6).set .r0 10) = .jumped .return_address s' ∧
      s'.regs .r0 = 30 ∧ s'.stack = [7]) ∧
    EntersMulBuiltin (run Runtime.zero (GenericBinaryOpStub_Generate .MUL []) none
        (((State.withStack [7]).set .r1 6).set .r0 0))
      (((State.withStack [7]).set .r1 6).set .r0 0) 6 0 ∧
    EntersMulBuiltin (run Runtime.zero (GenericBinaryOpStub_Generate .MUL []) none
        (((State.withStack [7]).set .r1 6).set .r0 9))
      (((State.withStack [7]).set .r1 6).set .r0 9) 6 9 := by
  refine ⟨?_, ?_, ?_⟩
  · obtain ⟨s', h, hr, hs, -⟩ := ((GenericBinaryOpStub_MUL_fast_path_iff Runtime.zero
      (((State.withStack [7]).set .r1 6).set .r0 10) 6 10 rfl rfl).1 3 5 (by decide) (by decide)
      (by decide) (by decide)).1 (by decide)
    exact ⟨s', h, hr, hs⟩
  · exact ((GenericBinaryOpStub_MUL_fast_path_iff Runtime.zero
      (((State.withStack [7]).set .r1 6).set .r0 0) 6 0 rfl rfl).1 3 0 (by decide) (by decide)
      (by decide) (by decide)).2 (by decide)
  · exact (GenericBinaryOpStub_MUL_fast_path_iff Runtime.zero
      (((State.withStack [7]).set .r1 6).set .r0 9) 6 9 rfl rfl).2 (by decide)

section MessageQueueProofs

open MessageQueue

theorem int32_id (i : Int) (h1 : 0 ≤ i) (h2 : i < 2147483648) : int32 i = i := by
  obtain ⟨n, rfl⟩ : ∃ n : Nat, i = (n : Int) := ⟨i.toNat, by omega⟩
  have e : toWord (n : Int) = n := by
    unfold toWord
    omega
  unfold int32
  rw [e]
  unfold toInt
  split_ifs <;> omega

theorem next_index (i n : Int) (h0 : 0 ≤ i) (h1 : i < n) (h2 : n < 2147483648) :
    Int.tmod (int32 (i + 1)) n = if i + 1 = n then 0 else i + 1 := by
  rw [int32_id (i + 1) (by omega) (by omega), Int.tmod_eq_emod (by omega) (by omega)]
  split_ifs with h
  · rw [h]; exact Int.emod_self
  · exact Int.emod_eq_of_lt (by omega) (by omega)

theorem count_eq (q : MessageQueue) (h : Inv q) :
    count q = if q.start_ ≤ q.end_ then q.end_ - q.start_ else q.end_ - q.start_ + q.size_ := by
  obtain ⟨h1, h2, h3, h4, h5, h6, -⟩ := h
  unfold count
  split_ifs with hle
  · exact Int.emod_eq_of_lt (by omega) (by omega)
  · rw [← Int.add_emod_self]
    exact Int.emod_eq_of_lt (by omega) (by omega)

theorem walk_length (messages : List (List Nat)) (size : Int) :
    ∀ (k : Nat) (start : Int), (walk messages size start k).length = k := by
  intro k
  induction k with
  | zero => intro start; rfl
  | succ k ih => intro start; simp [walk, ih]

theorem walk_set (messages : List (List Nat)) (n e : Int) (m : List Nat) (he0 : 0 ≤ e)
    (he1 : e < n) (hlen : messages.length = n.toNat) :
    ∀ (k : Nat) (s : Int), 0 ≤ s → s < n →
      (if s ≤ e then e - s else e - s + n) = (k : Int) →
      walk (messages.set e.toNat m) n s (k + 1) = walk messages n s k ++ [m] := by
  intro k
  induction k with
  | zero =>
    intro s hs0 hs1 hd
    have hse : s = e := by split_ifs at hd <;> omega
    subst hse
    have hl : s.toNat < messages.length := by omega
    simp [walk, List.getD_eq_getElem?_getD, hl]
  | succ k ih =>
    intro s hs0 hs1 hd
    have hne : e.toNat ≠ s.toNat := by split_ifs at hd <;> omega
    have hnext : (if (if s + 1 = n then 0 else s + 1) ≤ e
        then e - (if s + 1 = n then 0 else s + 1)
        else e - (if s + 1 = n then 0 else s + 1) + n) = (k : Int) := by
      split_ifs at hd ⊢ <;> omega
    have h := ih (if s + 1 = n then 0 else s + 1) (by split_ifs <;> omega)
      (by split_ifs <;> omega) hnext
    rw [walk, h]
    simp [walk, List.getD_eq_getElem?_getD, List.getElem?_set_ne hne]

theorem Inv_create (size : Int) (h1 : 1 ≤ size) (h2 : size < 2147483648) :
    Inv (create size) ∧ contents (create size) = [] ∧ (create size).size_ = size ∧
      count (create size) = 0 := by
  have hc : count (create size) = 0 := by simp [count, create]
  refine ⟨⟨h1, h2, le_refl _, by simp only [create]; omega, le_refl _,
    by simp only [create]; omega, by simp [create]⟩, ?_, rfl, hc⟩
  simp [contents, hc, walk]

theorem contents_length (q : MessageQueue) : (contents q).length = (count q).toNat :=
  walk_length _ _ _ _

theorem count_nonneg (q : MessageQueue) (h : Inv q) : 0 ≤ count q ∧ count q ≤ q.size_ - 1 := by
  rw [count_eq q h]
  obtain ⟨h1, h2, h3, h4, h5, h6, -⟩ := h
  split_ifs <;> omega

theorem Get_spec (q : MessageQueue) (h : Inv q) (hne : q.start_ ≠ q.end_) :
    Inv q.Get.2 ∧ q.Get.2.size_ = q.size_ ∧ contents q = q.Get.1 :: contents q.Get.2 ∧
      count q.Get.2 = count q - 1 := by
  have hc := count_eq q h
  obtain ⟨h1, h2, h3, h4, h5, h6, h7⟩ := h
  have hn := next_index q.start_ q.size_ h3 h4 h2
  have hI : Inv q.Get.2 := by
    refine ⟨h1, h2, ?_, ?_, h5, h6, h7⟩
    · simp only [Get, hn]; split_ifs <;> omega
    · simp only [Get, hn]; split_ifs <;> omega
  have hc2 := count_eq q.Get.2 hI
  have hcnt : count q.Get.2 = count q - 1 := by
    rw [hc2, hc]
    simp only [Get, hn]
    split_ifs <;> omega
  refine ⟨hI, rfl, ?_, hcnt⟩
  obtain ⟨k, hk⟩ : ∃ k : Nat, count q = (k : Int) + 1 := by
    refine ⟨(count q - 1).toNat, ?_⟩
    rw [hc]
    split_ifs <;> omega
  have e1 : (count q).toNat = k + 1 := by omega
  have e2 : (count q.Get.2).toNat = k := by omega
  simp only [contents, e1, e2, walk]
  simp only [Get, hn]

theorem Put_within_spec (fuel : Nat) (q : MessageQueue) (m : List Nat) (h : Inv q)
    (hfree : count q < q.size_ - 1) :
    PutWithin (fuel + 1) q m = some (store q m) ∧ Inv (store q m) ∧
      (store q m).size_ = q.size_ ∧
      contents (store q m) = contents q ++ [m] ∧ count (store q m) = count q + 1 := by
  have hc := count_eq q h
  obtain ⟨h1, h2, h3, h4, h5, h6, h7⟩ := h
  have hn := next_index q.end_ q.size_ h5 h6 h2
  have hnf : ¬ Int.tmod (int32 (q.end_ + 1)) q.size_ = q.start_ := by
    rw [hn]
    rw [hc] at hfree
    split_ifs at hfree ⊢ <;> omega
  have hI : Inv (store q m) := by
    refine ⟨h1, h2, h3, h4, ?_, ?_, ?_⟩
    · simp only [store, hn]; split_ifs <;> omega
    · simp only [store, hn]; split_ifs <;> omega
    · simpa [store] using h7
  have hc2 := count_eq _ hI
  have hcnt : count (store q m) = count q + 1 := by
    rw [hc2, hc]
    rw [hc] at hfree
    simp only [store, hn]
    split_ifs at hfree ⊢ <;> omega
  refine ⟨by simp only [PutWithin, hnf, if_false, store], hI, rfl, ?_, hcnt⟩
  obtain ⟨k, hk⟩ : ∃ k : Nat, count q = (k : Int) := by
    refine ⟨(count q).toNat, ?_⟩
    rw [hc]
    split_ifs <;> omega
  have e1 : (count q).toNat = k := by omega
  have e2 : (count (store q m)).toNat = k + 1 := by omega
  simp only [contents, e1, e2]
  exact walk_set q.messages_ q.size_ q.end_ m h5 h6 h7 k q.start_ h3 h4 (by rw [← hc, hk])

theorem ExpandLoop_spec : ∀ (n : Nat) (fuel : Nat) (q new_queue : MessageQueue),
    Inv q → Inv new_queue → count q = (n : Int) →
    count q + count new_queue < new_queue.size_ - 1 → n + 1 ≤ fuel →
    ∃ q2, ExpandLoop fuel q new_queue = some q2 ∧ Inv q2 ∧ q2.size_ = new_queue.size_ ∧
      contents q2 = contents new_queue ++ contents q ∧
      count q2 = count new_queue + count q := by
  intro n
  induction n with
  | zero =>
    intro fuel q nq hq hnq hc hroom hfuel
    obtain ⟨f, rfl⟩ : ∃ f, fuel = f + 1 := ⟨fuel - 1, by omega⟩
    have hce := count_eq q hq
    have hse : q.start_ = q.end_ := by
      obtain ⟨h1, h2, h3, h4, h5, h6, -⟩ := hq
      rw [hce] at hc
      split_ifs at hc <;> omega
    have hcq : contents q = [] := by simp [contents, hc, walk]
    refine ⟨nq, by simp [ExpandLoop, MessageQueue.IsEmpty, hse], hnq, rfl, by simp [hcq], by simp at hc; omega⟩
  | succ n ih =>
    intro fuel q nq hq hnq hc hroom hfuel
    obtain ⟨f, rfl⟩ : ∃ f, fuel = f + 1 := ⟨fuel - 1, by omega⟩
    obtain ⟨g, rfl⟩ : ∃ g, f = g + 1 := ⟨f - 1, by omega⟩
    have hce := count_eq q hq
    have hse : q.start_ ≠ q.end_ := by
      intro he
      rw [hce, he] at hc
      simp at hc
      omega
    obtain ⟨hI, hsz, hcont, hcnt⟩ := Get_spec q hq hse
    obtain ⟨hp, hpI, hpsz, hpcont, hpcnt⟩ := Put_within_spec g nq q.Get.1 hnq (by
      have := count_nonneg q hq; push_cast at hc; omega)
    obtain ⟨q2, hq2, hq2I, hq2sz, hq2cont, hq2cnt⟩ := ih (g + 1) q.Get.2 _ hI hpI
      (by push_cast at hc; omega) (by push_cast at hc; omega) (by omega)
    refine ⟨q2, ?_, hq2I, by omega, ?_, by omega⟩
    · rw [ExpandLoop]
      simp only [MessageQueue.IsEmpty, hse, decide_False, Bool.false_eq_true, if_false, hp, hq2]
    · rw [hq2cont, hpcont, hcont]
      simp

/-- `Put` returns: the message is stored behind the stored ones, and the buffer
is doubled first exactly when it already holds `size_ - 1` messages. -/
theorem Put_spec (q : MessageQueue) (m : List Nat) (h : Inv q)
    (hroom : count q = q.size_ - 1 → 2 * q.size_ < 2147483648) :
    ∃ q2, q.Put m = some q2 ∧ Inv q2 ∧ contents q2 = contents q ++ [m] ∧
      count q2 = count q + 1 ∧
      q2.size_ = if count q = q.size_ - 1 then 2 * q.size_ else q.size_ := by
  by_cases hfull : count q = q.size_ - 1
  · have h2s := hroom hfull
    have hc := count_eq q h
    have hcn := count_nonneg q h
    have h' := h
    obtain ⟨h1, h2, h3, h4, h5, h6, h7⟩ := h'
    have hn := next_index q.end_ q.size_ h5 h6 h2
    have hnf : Int.tmod (int32 (q.end_ + 1)) q.size_ = q.start_ := by
      rw [hn]
      rw [hc] at hfull
      split_ifs at hfull ⊢ <;> omega
    have hsz : int32 (q.size_ * 2) = 2 * q.size_ := by
      rw [int32_id _ (by omega) (by omega)]; ring
    obtain ⟨hcI, hccont, hcsz, hccnt⟩ := Inv_create (2 * q.size_) (by omega) h2s
    obtain ⟨k, hk⟩ : ∃ k : Nat, count q = (k : Int) := ⟨(count q).toNat, by omega⟩
    obtain ⟨e, he, heI, hesz, hecont, hecnt⟩ := ExpandLoop_spec k q.size_.toNat q
      (create (2 * q.size_)) h hcI hk (by rw [hccnt, hcsz]; omega) (by omega)
    obtain ⟨hp, hpI, hpsz, hpcont, hpcnt⟩ := Put_within_spec 0 e m heI
      (by rw [hecnt, hccnt, hesz, hcsz]; omega)
    refine ⟨store e m, ?_, hpI, ?_, by rw [hpcnt, hecnt, hccnt]; omega, ?_⟩
    · unfold MessageQueue.Put
      rw [PutWithin]
      simp only [hnf, if_true, ExpandWithin, hsz, he]
      rfl
    · rw [hpcont, hecont, hccont]; simp
    · rw [if_pos hfull, hpsz, hesz, hcsz]
  · have hcn := count_nonneg q h
    obtain ⟨hp, hpI, hpsz, hpcont, hpcnt⟩ := Put_within_spec (q.size_.toNat + 1) q m h
      (by omega)
    exact ⟨_, hp, hpI, hpcont, hpcnt, by rw [if_neg hfull, hpsz]⟩

theorem Clear_spec (q : MessageQueue) (h : Inv q) :
    Inv q.Clear ∧ contents q.Clear = [] ∧ count q.Clear = 0 ∧ q.Clear.size_ = q.size_ ∧
      q.Clear.IsEmpty = true := by
  obtain ⟨h1, h2, h3, h4, h5, h6, h7⟩ := h
  have hc : count q.Clear = 0 := by simp [count, Clear]
  refine ⟨⟨h1, h2, le_refl _, by simp only [Clear]; omega, le_refl _,
    by simp only [Clear]; omega, h7⟩, ?_, hc, rfl, by simp [MessageQueue.IsEmpty, Clear]⟩
  simp [contents, hc, walk]

theorem run_fifo (S0 : Int) :
    ∀ (ops : List QueueOp) (q : MessageQueue) (p : Nat) (final out : List (List Nat)),
      Inv q → count q ≤ (p : Int) → (q.size_ ≤ S0 ∨ q.size_ ≤ 2 * (p : Int)) →
      2 * (p + ops.length) < 2147483648 →
      fifo ops (contents q) = some (final, out) →
      ∃ q2, MessageQueue.run ops q = some (q2, out) ∧ Inv q2 ∧ contents q2 = final ∧
        ∃ p2 : Nat, count q2 ≤ (p2 : Int) ∧ (q2.size_ ≤ S0 ∨ q2.size_ ≤ 2 * (p2 : Int)) ∧
          p2 ≤ p + ops.length := by
  intro ops
  induction ops with
  | nil =>
    intro q p final out hq hcp hsz hb hf
    simp only [fifo, Option.some.injEq, Prod.mk.injEq] at hf
    obtain ⟨rfl, rfl⟩ := hf
    exact ⟨q, rfl, hq, rfl, p, hcp, hsz, by simp⟩
  | cons op ops ih =>
    intro q p final out hq hcp hsz hb hf
    have hcn := count_nonneg q hq
    simp only [List.length_cons] at hb
    cases op with
    | Put m =>
      simp only [fifo] at hf
      obtain ⟨q2, hput, hI2, hcont2, hcnt2, hsz2⟩ := Put_spec q m hq (by intro hfull; omega)
      rw [← hcont2] at hf
      obtain ⟨q3, hrun, hI3, hcont3, p3, hp3a, hp3b, hp3c⟩ := ih q2 (p + 1) final out hI2
        (by push_cast; omega)
        (by rw [hsz2]; push_cast; split_ifs <;> omega)
        (by omega) hf
      refine ⟨q3, by simp only [MessageQueue.run, hput, hrun], hI3, hcont3, p3, hp3a, hp3b, ?_⟩
      simp only [List.length_cons]; omega
    | Get =>
      have hne : q.start_ ≠ q.end_ := by
        intro he
        have hc0 : count q = 0 := by simp [count, he]
        have : contents q = [] := by simp [contents, hc0, walk]
        rw [this] at hf
        simp [fifo] at hf
      obtain ⟨hI2, hsz2, hcont2, hcnt2⟩ := Get_spec q hq hne
      rw [hcont2] at hf
      simp only [fifo] at hf
      cases hr : fifo ops (contents q.Get.2) with
      | none => rw [hr] at hf; simp at hf
      | some r =>
        obtain ⟨final2, out2⟩ := r
        rw [hr] at hf
        simp only [Option.some.injEq, Prod.mk.injEq] at hf
        obtain ⟨rfl, rfl⟩ := hf
        obtain ⟨q3, hrun, hI3, hcont3, p3, hp3a, hp3b, hp3c⟩ := ih q.Get.2 p final2 out2 hI2
          (by omega) (by rw [hsz2]; exact hsz) (by omega) hr
        refine ⟨q3, by simp only [MessageQueue.run, hrun], hI3, hcont3, p3, hp3a, hp3b, ?_⟩
        simp only [List.length_cons]; omega
    | Clear =>
      simp only [fifo] at hf
      obtain ⟨hI2, hcont2, hcnt2, hsz2, -⟩ := Clear_spec q hq
      rw [← hcont2] at hf
      obtain ⟨q3, hrun, hI3, hcont3, p3, hp3a, hp3b, hp3c⟩ := ih q.Clear p final out hI2
        (by omega) (by rw [hsz2]; exact hsz) (by omega) hf
      refine ⟨q3, by simp only [MessageQueue.run, hrun], hI3, hcont3, p3, hp3a, hp3b, ?_⟩
      simp only [List.length_cons]; omega

/-- C24: for a queue created with a buffer size of at least 1 and every
sequence of `Put`, `Get` and `Clear` calls in which `Get` is only called on a
non-empty queue, all calls return and the `Get` calls return the messages in
the order in which they were put (each the oldest message put and not yet
returned), whether or not `Expand` runs in between; the messages left are the
pending ones in the same order. -/
theorem MessageQueue_Get_returns_oldest (size : Int) (ops : List QueueOp)
    (final out : List (List Nat)) (h1 : 1 ≤ size) (h2 : size < 2147483648)
    (h3 : 2 * ops.length < 2147483648) (hv : fifo ops [] = some (final, out)) :
    ∃ q, MessageQueue.run ops (MessageQueue.create size) = some (q, out) ∧
      MessageQueue.contents q = final := by
  obtain ⟨hI, hcont, hsz, hcnt⟩ := Inv_create size h1 h2
  rw [← hcont] at hv
  obtain ⟨q, hrun, -, hc, -⟩ := run_fifo size ops (create size) 0 final out hI
    (by rw [hcnt]; simp) (Or.inl (le_of_eq hsz)) (by omega) hv
  exact ⟨q, hrun, hc⟩

theorem MessageQueue_Get_returns_oldest_witness :
    ∃ q, MessageQueue.run [.Put [1], .Put [2], .Put [3], .Get, .Put [4], .Get, .Get, .Put [5],
        .Get, .Get] (MessageQueue.create 1) = some (q, [[1], [2], [3], [4], [5]]) ∧
      MessageQueue.contents q = [] :=
  MessageQueue_Get_returns_oldest 1 [.Put [1], .Put [2], .Put [3], .Get, .Put [4], .Get, .Get,
    .Put [5], .Get, .Get] [] [[1], [2], [3], [4], [5]] (by decide) (by decide) (by decide)
    (by decide)

/-- C25: after every sequence of operations on a queue created with a buffer
size of at least 1 (with `Get` only called on a non-empty queue),
`0 ≤ start_ < size_` and `0 ≤ end_ < size_`, the number of stored messages is
`(end_ - start_) mod size_` and at most `size_ - 1`; a further `Put` returns
with the message stored last, having doubled `size_` exactly when the queue
already held `size_ - 1` messages; and the queue is empty after `Clear`. -/
theorem MessageQueue_indices_within_buffer (size : Int) (ops : List QueueOp)
    (final out : List (List Nat)) (h1 : 1 ≤ size) (h2 : size < 2147483648)
    (h3 : 2 * (ops.length + 1) < 2147483648) (hv : fifo ops [] = some (final, out)) :
    ∃ q, MessageQueue.run ops (MessageQueue.create size) = some (q, out) ∧
      (0 ≤ q.start_ ∧ q.start_ < q.size_ ∧ 0 ≤ q.end_ ∧ q.end_ < q.size_) ∧
      ((final.length : Int) = (q.end_ - q.start_) % q.size_ ∧
        (final.length : Int) ≤ q.size_ - 1) ∧
      (∀ m, ∃ q2, q.Put m = some q2 ∧ MessageQueue.contents q2 = final ++ [m] ∧
        q2.size_ = if (final.length : Int) = q.size_ - 1 then 2 * q.size_ else q.size_) ∧
      (q.Clear.IsEmpty = true ∧ MessageQueue.contents q.Clear = []) := by
  obtain ⟨hI, hcont, hsz, hcnt⟩ := Inv_create size h1 h2
  rw [← hcont] at hv
  obtain ⟨q, hrun, hqI, hc, p, hp1, hp2, hp3⟩ := run_fifo size ops (create size) 0 final out
    hI (by rw [hcnt]; simp) (Or.inl (le_of_eq hsz)) (by omega) hv
  have hcn := count_nonneg q hqI
  have hlen : (final.length : Int) = count q := by
    rw [← hc, contents_length]
    omega
  obtain ⟨hC1, hC2, -, -, hC3⟩ := Clear_spec q hqI
  refine ⟨q, hrun, ?_, ?_, ?_, hC3, hC2⟩
  · obtain ⟨-, -, h3, h4, h5, h6, -⟩ := hqI
    exact ⟨h3, h4, h5, h6⟩
  · rw [hlen]
    exact ⟨rfl, hcn.2⟩
  · intro m
    obtain ⟨q2, hput, -, hcont2, -, hsz2⟩ := Put_spec q m hqI (by intro hfull; omega)
    exact ⟨q2, hput, by rw [hcont2, hc], by rw [hsz2, hlen]⟩

theorem MessageQueue_indices_within_buffer_witness :
    ∃ q, MessageQueue.run [.Put [1], .Put [2], .Get, .Put [3], .Put [4]]
        (MessageQueue.create 2) = some (q, [[1]]) ∧
      (0 ≤ q.start_ ∧ q.start_ < q.size_ ∧ 0 ≤ q.end_ ∧ q.end_ < q.size_) ∧
      ((([[2], [3], [4]] : List (List Nat)).length : Int) = (q.end_ - q.start_) % q.size_ ∧
        (([[2], [3], [4]] : List (List Nat)).length : Int) ≤ q.size_ - 1) ∧
      (∀ m, ∃ q2, q.Put m = some q2 ∧ MessageQueue.contents q2 = [[2], [3], [4]] ++ [m] ∧
        q2.size_ = if (([[2], [3], [4]] : List (List Nat)).length : Int) = q.size_ - 1
          then 2 * q.size_ else q.size_) ∧
      (q.Clear.IsEmpty = true ∧ MessageQueue.contents q.Clear = []) :=
  MessageQueue_indices_within_buffer 2 [.Put [1], .Put [2], .Get, .Put [3], .Put [4]]
    [[2], [3], [4]] [[1]] (by decide) (by decide) (by decide) (by decide)

end MessageQueueProofs

section SendMessageProofs

open DebuggerAgentUtil

theorem SendMessage_body_one_byte (Encode : Nat → List Nat) (a : Nat)
    (ha : (Encode a).length = 1) (rest : List Nat) (hrest : rest ≠ []) :
    ∀ (k : Nat) (s : SendState), s.buffer_position + k ≤ 77 →
      ∃ s2, SendMessage_body Encode (List.replicate k a ++ rest) s =
          SendMessage_body Encode rest s2 ∧
        s2.buffer_position = s.buffer_position + k ∧ s2.assert_ok = s.assert_ok ∧
        s2.in_bounds = s.in_bounds ∧
        s2.positions = s.positions ++ (List.range k).map (fun i => s.buffer_position + i + 1) := by
  intro k
  induction k with
  | zero => intro s _; exact ⟨s, rfl, rfl, rfl, rfl, by simp⟩
  | succ k ih =>
    intro s hs
    have hne : ¬ (List.replicate k a ++ rest = []) := by simp [hrest]
    have h80 : ¬ ((80 : Int) - ((s.buffer_position + 1 : Nat) : Int) < 3) := by
      push_cast; omega
    obtain ⟨s2, h1, h2, h3, h4, h5⟩ := ih
      { s with
        buffer := writeBytes s.buffer s.buffer_position (Encode a),
        in_bounds := s.in_bounds && decide (s.buffer_position + 1 ≤ 80),
        buffer_position := s.buffer_position + 1,
        assert_ok := s.assert_ok && decide (s.buffer_position + 1 < 80),
        positions := s.positions ++ [s.buffer_position + 1] } (by simp only; omega)
    refine ⟨s2, ?_, ?_, ?_, ?_, ?_⟩
    · rw [← h1, List.replicate_succ, List.cons_append, SendMessage_body]
      simp only [ha, hne, h80, or_self, if_false]
    · rw [h2]; simp only; omega
    · rw [h3]
      have : s.buffer_position + 1 < 80 := by omega
      simp [this]
    · rw [h4]
      have : s.buffer_position + 1 ≤ 80 := by omega
      simp [this]
    · rw [h5, List.range_succ_eq_map]
      simp only [List.map_cons, List.map_map, List.append_assoc, List.singleton_append]
      congr 2
      apply List.map_congr_left
      intro i _
      simp only [Function.comp]
      omega

theorem SendMessage_body_within_buffer (Encode : Nat → List Nat) :
    ∀ (message : List Nat) (s : SendState), (∀ c ∈ message, (Encode c).length ≤ 3) →
      s.buffer_position ≤ 77 → s.in_bounds = true → (∀ p ∈ s.positions, p ≤ 80) →
      (SendMessage_body Encode message s).in_bounds = true ∧
        ∀ p ∈ (SendMessage_body Encode message s).positions, p ≤ 80 := by
  intro message
  induction message with
  | nil => intro s _ _ hb hp; exact ⟨hb, hp⟩
  | cons c rest ih =>
    intro s hc hpos hb hp
    have hc3 : (Encode c).length ≤ 3 := hc c (List.mem_cons_self _ _)
    have hrest : ∀ c ∈ rest, (Encode c).length ≤ 3 := fun d hd => hc d (List.mem_cons_of_mem _ hd)
    have hle : s.buffer_position + (Encode c).length ≤ 80 := by omega
    have hps : ∀ p ∈ s.positions ++ [s.buffer_position + (Encode c).length], p ≤ 80 := by
      intro p hmem
      rcases List.mem_append.mp hmem with h | h
      · exact hp p h
      · simp only [List.mem_singleton] at h; omega
    rw [SendMessage_body]
    apply ih _ hrest
    · simp only
      split_ifs with h
      · simp
      · simp only
        push_cast at h
        omega
    · simp only
      split_ifs <;> simp [hb, hle]
    · simp only
      split_ifs <;> exact hps

/-- The part of the claim that holds: for every encoder that writes at most 3
bytes for each character of the message, every byte is written inside the
buffer and the buffer position never exceeds the buffer size. -/
theorem SendMessage_within_buffer (Length : Nat → Nat) (Encode : Nat → List Nat)
    (message : List Nat) (h : ∀ c ∈ message, (Encode c).length ≤ 3) :
    (SendMessage Length Encode message).in_bounds = true ∧
      ∀ p ∈ (SendMessage Length Encode message).positions, p ≤ 80 := by
  unfold SendMessage
  exact SendMessage_body_within_buffer Encode message _ h (by simp) rfl (by simp)

/-- C27: for every encoder, if a character `a` encodes to one byte and a
character `e` to three, then for the message of 77 times `a` followed by `e`
the buffer position after the last character is 80, so
`ASSERT(buffer_position < kBufferSize)` does not hold there, although every
byte is written inside the buffer. -/
theorem SendMessage_position_reaches_buffer_size (Length : Nat → Nat) (Encode : Nat → List Nat)
    (a e : Nat) (ha : (Encode a).length = 1) (he : (Encode e).length = 3) :
    (SendMessage Length Encode (List.replicate 77 a ++ [e])).positions =
        (List.range 77).map (fun i => i + 1) ++ [80] ∧
      (SendMessage Length Encode (List.replicate 77 a ++ [e])).assert_ok = false ∧
      (SendMessage Length Encode (List.replicate 77 a ++ [e])).in_bounds = true := by
  unfold SendMessage
  simp only
  obtain ⟨s2, h1, h2, h3, h4, h5⟩ := SendMessage_body_one_byte Encode a ha [e] (by simp) 77
    { buffer := writeBytes (writeBytes (List.replicate 80 0) 0
        (kContentLength ++ [58, 32] ++
          decimal (List.map Length (List.replicate 77 a ++ [e])).sum ++ [10] ++ [0])) 0 [10, 0],
      sent := [(writeBytes (List.replicate 80 0) 0
        (kContentLength ++ [58, 32] ++
          decimal (List.map Length (List.replicate 77 a ++ [e])).sum ++ [10] ++ [0])).take
          (kContentLength ++ [58, 32] ++
            decimal (List.map Length (List.replicate 77 a ++ [e])).sum ++ [10]).length] ++
        [(writeBytes (writeBytes (List.replicate 80 0) 0
          (kContentLength ++ [58, 32] ++
            decimal (List.map Length (List.replicate 77 a ++ [e])).sum ++ [10] ++ [0])) 0
            [10, 0]).take 1],
      buffer_position := 0, assert_ok := true, in_bounds := true, positions := [] }
    (by simp)
  rw [h1]
  simp only [Nat.zero_add, List.nil_append] at h2 h3 h4 h5
  simp only [SendMessage_body, he, h2, h3, h4, h5]
  simp

theorem SendMessage_position_reaches_buffer_size_witness :
    (utf8Bytes 0x61).length = 1 ∧ (utf8Bytes 0x20AC).length = 3 ∧
    ((SendMessage (fun c => (utf8Bytes c).length) utf8Bytes
        (List.replicate 77 0x61 ++ [0x20AC])).positions =
        (List.range 77).map (fun i => i + 1) ++ [80] ∧
      (SendMessage (fun c => (utf8Bytes c).length) utf8Bytes
        (List.replicate 77 0x61 ++ [0x20AC])).assert_ok = false ∧
      (SendMessage (fun c => (utf8Bytes c).length) utf8Bytes
        (List.replicate 77 0x61 ++ [0x20AC])).in_bounds = true) :=
  ⟨by decide, by decide, SendMessage_position_reaches_buffer_size _ utf8Bytes 0x61 0x20AC
    (by decide) (by decide)⟩

end SendMessageProofs

/-! ### Operands of any kind: `&&`, `||` and `delete` -/

theorem LoadCondition_eq (F : Factory) (result : Expression → VisitResult) (x : Expression)
    (hwf : (result x).WellFormed = true) (masm : List Instr)
    (deferred : List DeferredInlineSmiOperation) (linked : List (Label × Int)) (next : Nat)
    (h : Int) (t f : Label) :
    LoadCondition (CodeGenerator.mk masm deferred .al (some h) linked next false) F result x t f
        false =
      CodeGenerator.mk
        (masm ++ [if result x = VisitResult.plain then Instr.load x else Instr.visit x t f])
        deferred
        (match (result x).leaves with
          | .cc cond => cond
          | _ => .al)
        (match (result x).leaves with
          | .value => some (h + 1)
          | .cc _ => some h
          | .nothing => none)
        (linked ++ (if (result x).links_true = true then [(t, h)] else []) ++
          (if (result x).links_false = true then [(f, h)] else []))
        next false := by
  unfold LoadCondition Visit
  generalize result x = r at *
  obtain ⟨lv, lt, lf⟩ := r
  cases lv with
  | value => cases lt <;> cases lf <;> simp [has_cc, has_valid_frame, link, emit]
  | cc cond =>
    have hc : cond ≠ .al := by
      intro e
      subst e
      simp [VisitResult.WellFormed] at hwf
    cases lt <;> cases lf <;> simp [has_cc, has_valid_frame, link, emit, hc]
  | nothing => cases lt <;> cases lf <;> simp [has_cc, has_valid_frame, link, emit]

theorem loadMaterialize_masm (F : Factory) (masm : List Instr)
    (deferred : List DeferredInlineSmiOperation) (linked : List (Label × Int)) (next : Nat)
    (height : Int) (so : Bool) (cond : Condition) (hc : cond ≠ .al) :
    (loadMaterialize (CodeGenerator.mk masm deferred cond (some height) linked next so) F).masm_ =
      masm ++ [Instr.b cond (.target (next + 1)),
        .dp .mov .r0 .r0 (.imm F.false_value) .LeaveCC .al, .push .r0,
        .b .al (.target next),
        .bind (.target (next + 1)),
        .dp .mov .r0 .r0 (.imm F.true_value) .LeaveCC .al, .push .r0,
        .bind (.target next)] := by
  simp [loadMaterialize, newTarget, has_cc, hc, emit, link, VirtualFrame.EmitPush,
    JumpTarget.Branch, JumpTarget.Bind, JumpTarget.Jump]

theorem loadFinish_masm (F : Factory) (masm : List Instr)
    (deferred : List DeferredInlineSmiOperation) (linked : List (Label × Int)) (next : Nat)
    (so : Bool) (fr : Option Int) (t f : Label) (lt lf : Bool)
    (ht : t ≠ .target next) (hf : f ≠ .target next)
    (hat : (linked.any fun p => decide (p.1 = t)) = lt)
    (haf : (linked.any fun p => decide (p.1 = f)) = lf) (h : Int)
    (gt : lt = true → linked.find? (fun p => decide (p.1 = t)) = some (t, h))
    (gf : lf = true → linked.find? (fun p => decide (p.1 = f)) = some (f, h)) :
    (loadFinish (CodeGenerator.mk masm deferred .al fr linked next so) F t f).masm_ =
      masm ++
        (if lt = true ∨ lf = true then
          (if fr = none then [] else [Instr.b .al (.target next)]) ++
          (if lt then [Instr.bind t, .dp .mov .r0 .r0 (.imm F.true_value) .LeaveCC .al, .push .r0]
           else []) ++
          (if lt = true ∧ lf = true then [Instr.b .al (.target next)] else []) ++
          (if lf then
            [Instr.bind f, .dp .mov .r0 .r0 (.imm F.false_value) .LeaveCC .al, .push .r0]
           else []) ++
          [Instr.bind (.target next)]
         else []) := by
  have ht2 : ¬ Label.target next = t := fun e => ht e.symm
  have hf2 : ¬ Label.target next = f := fun e => hf e.symm
  cases fr <;> cases lt <;> cases lf <;> simp at gt gf <;>
    simp [loadFinish, newTarget, has_valid_frame, is_linked, link, emit, VirtualFrame.EmitPush,
      JumpTarget.Bind, JumpTarget.Jump, hat, haf, gt, gf, List.any_append, List.find?_append,
      ht, hf, ht2, hf2]

theorem emitted_Load (cg : CodeGenerator) (F : Factory) (result : Expression → VisitResult)
    (e : Expression) (hwf : (result e).WellFormed = true) (hso : cg.stack_overflow_ = false)
    (hcc : cg.cc_reg_ = .al) (hfresh : cg.TargetsFresh) (height : Int)
    (hf : cg.frame_ = some height) :
    (cg.Load F result e).masm_ = cg.masm_ ++ loadCode F (result e) e cg.next_target_ := by
  rw [Load_eq]
  obtain ⟨masm, deferred, ccr, frame, linked, next, so⟩ := cg
  simp only at hcc hf hso
  subst hcc hf hso
  have hF : FreshIn linked next := hfresh
  have f1 := any_FreshIn linked next next hF (Nat.le_refl _)
  have f2 := any_FreshIn linked next (next + 1) hF (Nat.le_succ _)
  have g1 := find_FreshIn linked next next hF (Nat.le_refl _)
  have g2 := find_FreshIn linked next (next + 1) hF (Nat.le_succ _)
  have g3 := find_FreshIn linked next (next + 1 + 1 + 1) hF (by omega)
  have n1 : ¬ next + 1 = next := by omega
  have n2 : ¬ next = next + 1 := by omega
  have n3 : ¬ next + 1 + 1 + 1 = next := by omega
  have n4 : ¬ next + 1 + 1 + 1 = next + 1 := by omega
  have n5 : ¬ next + 1 + 1 = next := by omega
  have n6 : ¬ next + 1 + 1 = next + 1 := by omega
  simp only []
  rw [LoadCondition_eq F result e hwf]
  generalize hr : result e = r at hwf
  obtain ⟨lv, lt, lf⟩ := r
  have e2 : ∀ st : CodeGenerator, st.cc_reg_ = .al → loadMaterialize st F = st := by
    intro st h
    simp [loadMaterialize, has_cc, h]
  cases lv with
  | value =>
    simp only []
    rw [e2 _ rfl, loadFinish_masm F _ deferred _ (next + 1 + 1) false (some (height + 1))
      (.target next) (.target (next + 1)) lt lf
      (by simp only [ne_eq, Label.target.injEq]; omega)
      (by simp only [ne_eq, Label.target.injEq]; omega)
      (by cases lt <;> cases lf <;> simp [List.any_append, f1, n1, n2])
      (by cases lt <;> cases lf <;> simp [List.any_append, f2, n1, n2]) height
      (by cases lt <;> cases lf <;> simp [List.find?_append, g1, n1, n2])
      (by cases lt <;> cases lf <;> simp [List.find?_append, g2, n1, n2])]
    cases lt <;> cases lf <;> simp [loadCode, VisitResult.plain]
  | cc cond =>
    have hc : cond ≠ .al := by
      intro h; subst h; simp [VisitResult.WellFormed] at hwf
    simp only []
    obtain ⟨masm', e3⟩ := loadMaterialize_cc F
      (masm ++ [if (⟨.cc cond, lt, lf⟩ : VisitResult) = VisitResult.plain then Instr.load e
        else Instr.visit e (.target next) (.target (next + 1))]) deferred
      (linked ++ (if lt = true then [(Label.target next, height)] else []) ++
            (if lf = true then [(Label.target (next + 1), height)] else [])) (next + 1 + 1)
      height false cond hc (by
        cases lt <;> cases lf <;> simp [List.find?_append, g3, n1, n2, n3, n4, n5, n6] <;> omega)
    have e4 := loadMaterialize_masm F
      (masm ++ [if (⟨.cc cond, lt, lf⟩ : VisitResult) = VisitResult.plain then Instr.load e
        else Instr.visit e (.target next) (.target (next + 1))]) deferred
      (linked ++ (if lt = true then [(Label.target next, height)] else []) ++
            (if lf = true then [(Label.target (next + 1), height)] else [])) (next + 1 + 1)
      height false cond hc
    rw [e3] at e4
    simp only at e4
    rw [e3, loadFinish_masm F _ deferred _ (next + 1 + 1 + 1 + 1) false (some (height + 1))
      (.target next) (.target (next + 1)) lt lf
      (by simp only [ne_eq, Label.target.injEq]; omega)
      (by simp only [ne_eq, Label.target.injEq]; omega)
      (by cases lt <;> cases lf <;> simp [List.any_append, f1, n1, n2, n3, n4, n5, n6])
      (by cases lt <;> cases lf <;> simp [List.any_append, f2, n1, n2, n3, n4, n5, n6]) height
      (by cases lt <;> cases lf <;> simp [List.find?_append, g1, n1, n2, n3, n4, n5, n6])
      (by cases lt <;> cases lf <;> simp [List.find?_append, g2, n1, n2, n3, n4, n5, n6]), e4]
    cases lt <;> cases lf <;> simp [loadCode, VisitResult.plain]
  | nothing =>
    simp only []
    rw [e2 _ rfl, loadFinish_masm F _ deferred _ (next + 1 + 1) false none
      (.target next) (.target (next + 1)) lt lf
      (by simp only [ne_eq, Label.target.injEq]; omega)
      (by simp only [ne_eq, Label.target.injEq]; omega)
      (by cases lt <;> cases lf <;> simp [List.any_append, f1, n1, n2])
      (by cases lt <;> cases lf <;> simp [List.any_append, f2, n1, n2]) height
      (by cases lt <;> cases lf <;> simp [List.find?_append, g1, n1, n2])
      (by cases lt <;> cases lf <;> simp [List.find?_append, g2, n1, n2])]
    cases lt <;> cases lf <;> simp [loadCode, VisitResult.plain]

theorem holds_flags (s : State) (n z c v : Bool) (l : List Event) (cond : Condition) :
    ({ s with n := n, z := z, c := c, v := v, log := l } : State).holds cond =
      flagsHold n z c v cond := by
  cases cond <;> rfl

theorem holds_al (s : State) : s.holds .al = true := rfl

theorem run_loadCode (rt : Runtime) (F : Factory) (r : VisitResult) (e : Expression) (next : Nat)
    (rest : List Instr) (s : State) (hwf : r.WellFormed = true)
    (h : r ≠ VisitResult.plain → ControlAgrees r (rt.control e)) :
    ∃ s', run rt (loadCode F r e next ++ rest) none s = run rt rest none s' ∧
      s'.stack = loadedValue F rt r e :: s.stack ∧ s'.log = s.log ++ [Event.load e] := by
  by_cases hp : r = VisitResult.plain
  · subst hp
    refine ⟨{ s with stack := rt.value e :: s.stack, log := s.log ++ [Event.load e] }, ?_, ?_, rfl⟩
    · simp [loadCode, VisitResult.plain, run, step]
    · simp [loadedValue]
  have ha := h hp
  obtain ⟨lv, lt, lf⟩ := r
  have n1 : ¬ next + 1 = next := by omega
  have n2 : ¬ next = next + 1 := by omega
  have n3 : ¬ next + 2 = next := by omega
  have n4 : ¬ next + 2 = next + 1 := by omega
  have n5 : ¬ next + 3 = next := by omega
  have n6 : ¬ next + 3 = next + 1 := by omega
  have n7 : ¬ next + 4 = next := by omega
  have n8 : ¬ next + 4 = next + 1 := by omega
  cases hctrl : rt.control e with
  | value =>
    rw [hctrl] at ha
    have ha2 : lv = .value := ha
    subst ha2
    cases lt <;> cases lf <;> simp [VisitResult.plain] at hp <;>
      simp [loadCode, VisitResult.plain, run, step, hctrl, loadedValue, State.holds, n1, n2, n3,
        n4] <;>
      exact ⟨_, rfl, rfl, rfl⟩
  | condition n z c v =>
    rw [hctrl] at ha
    simp only [ControlAgrees] at ha
    obtain ⟨cond, hcond⟩ := ha
    have hcond2 : lv = .cc cond := hcond
    subst hcond2
    by_cases hh : flagsHold n z c v cond = true
    · cases lt <;> cases lf <;>
        simp [loadCode, VisitResult.plain, run, step, hctrl, loadedValue, holds_al, n1, n2, n3,
          n4, n5, n6, n7, n8, holds_flags, hh, State.dataProcessing, State.set, State.operand] <;>
        exact ⟨_, rfl, rfl, rfl⟩
    · cases lt <;> cases lf <;>
        simp [loadCode, VisitResult.plain, run, step, hctrl, loadedValue, holds_al, n1, n2, n3,
          n4, n5, n6, n7, n8, holds_flags, hh, State.dataProcessing, State.set, State.operand] <;>
        exact ⟨_, rfl, rfl, rfl⟩
  | to_true =>
    rw [hctrl] at ha
    have ha2 : lt = true := ha
    subst ha2
    cases lv <;> cases lf <;>
      simp [loadCode, VisitResult.plain, run, step, hctrl, loadedValue, State.holds, n1, n2, n3,
        n4, n5, n6, n7, n8, State.dataProcessing, State.set, State.operand] <;>
      exact ⟨_, rfl, rfl, rfl⟩
  | to_false =>
    rw [hctrl] at ha
    have ha2 : lf = true := ha
    subst ha2
    cases lv <;> cases lt <;>
      simp [loadCode, VisitResult.plain, run, step, hctrl, loadedValue, State.holds, n1, n2, n3,
        n4, n5, n6, n7, n8, State.dataProcessing, State.set, State.operand] <;>
      exact ⟨_, rfl, rfl, rfl⟩

theorem run_logicalWith_tail_exit (rt : Runtime) (c : Condition) (l : Label)
    (rightCode : List Instr) (hnb : Instr.bind .exit ∉ rightCode) (s : State)
    (hl : l ≠ .exit) :
    run rt ([Instr.b c .exit, .bind .pop_and_continue, .pop .r0, .bind l] ++ rightCode ++
      [.bind .exit]) (some .exit) s = .fallthrough s := by
  apply run_skip_to_bind
  have hl2 : ¬ Label.exit = l := fun e => hl e.symm
  simp [hnb, hl2]

theorem run_logicalWith_tail_continue (rt : Runtime) (c : Condition) (l : Label)
    (rightCode : List Instr) (b : Nat) (ev : Event)
    (hright : ∀ s0, ∃ s1, run rt (rightCode ++ [Instr.bind .exit]) none s0 = .fallthrough s1 ∧
      s1.stack = b :: s0.stack ∧ s1.log = s0.log ++ [ev])
    (s : State) (a : Nat) (rest : List Nat) (hs : s.stack = a :: rest) :
    ∃ s', run rt ([Instr.b c .exit, .bind .pop_and_continue, .pop .r0, .bind l] ++ rightCode ++
      [.bind .exit]) (some .pop_and_continue) s = .fallthrough s' ∧
      s'.stack = b :: rest ∧ s'.log = s.log ++ [ev] := by
  obtain ⟨s1, e1, e2, e3⟩ := hright ({ s with stack := rest }.set .r0 a)
  refine ⟨s1, ?_, by simpa using e2, by simpa using e3⟩
  rw [← e1]
  simp [run, step, hs]

theorem run_logicalWith_tail_test (rt : Runtime) (c : Condition) (l : Label)
    (rightCode : List Instr) (b : Nat) (ev : Event)
    (hright : ∀ s0, ∃ s1, run rt (rightCode ++ [Instr.bind .exit]) none s0 = .fallthrough s1 ∧
      s1.stack = b :: s0.stack ∧ s1.log = s0.log ++ [ev])
    (hnb : Instr.bind .exit ∉ rightCode)
    (s : State) (a : Nat) (rest : List Nat) (hs : s.stack = a :: rest) (hl : l ≠ .exit) :
    ∃ s', run rt ([Instr.b c .exit, .bind .pop_and_continue, .pop .r0, .bind l] ++ rightCode ++
      [.bind .exit]) none s = .fallthrough s' ∧
      s'.stack = (if s.holds c then a :: rest else b :: rest) ∧
      s'.log = (if s.holds c then s.log else s.log ++ [ev]) := by
  by_cases h : s.holds c = true
  · refine ⟨s, ?_, by simp [h, hs], by simp [h]⟩
    have e := run_logicalWith_tail_exit rt c l rightCode hnb s hl
    simp only [List.cons_append, List.nil_append] at e ⊢
    rw [run_b_taken _ _ _ _ _ h]
    rw [run_skip _ _ _ _ _ (by simp)] at e
    exact e
  · simp only [Bool.not_eq_true] at h
    obtain ⟨s1, e1, e2, e3⟩ := hright ({ s with stack := rest }.set .r0 a)
    refine ⟨s1, ?_, by simpa [h] using e2, by simpa [h] using e3⟩
    rw [← e1]
    simp [run, step, hs, h]

/-- Running the code of `&&` and `||`, for any code of the right operand that
pushes one value. -/
theorem run_logicalWith (rt : Runtime) (F : Factory) (is_and : Bool) (left : Expression)
    (rightCode : List Instr) (b : Nat) (ev : Event)
    (hright : ∀ s0, ∃ s1, run rt (rightCode ++ [Instr.bind .exit]) none s0 = .fallthrough s1 ∧
      s1.stack = b :: s0.stack ∧ s1.log = s0.log ++ [ev])
    (hnb : Instr.bind .exit ∉ rightCode)
    (s : State) (ha : rt.value left < 4294967296)
    (h1 : F.false_value < 4294967296) (h2 : F.true_value < 4294967296)
    (h3 : F.undefined_value < 4294967296)
    (hr : rt.callRuntime .kToBool [rt.value left] < 4294967296)
    (hft : F.false_value ≠ F.true_value)
    (ho1 : F.false_value % 2 = 1) (ho3 : F.undefined_value % 2 = 1) :
    let a := rt.value left
    let inline : Prop := a = F.false_value ∨ a = F.true_value ∨ a = F.undefined_value ∨ a % 2 = 0
    let truthy : Prop :=
      a = F.true_value ∨ (a % 2 = 0 ∧ a ≠ 0) ∨
        (¬ inline ∧ rt.callRuntime .kToBool [a] ≠ F.false_value)
    ∃ s', run rt (logicalCodeWith F is_and left rightCode) none s = .fallthrough s' ∧
      s'.stack = (if (truthy ↔ is_and = true) then b else a) :: s.stack ∧
      s'.log = s.log ++ Event.load left ::
        ((if inline then [] else [Event.runtime .kToBool [a]]) ++
          (if (truthy ↔ is_and = true) then [ev] else [])) := by
  intro a inline truthy
  have hpre : run rt [Instr.load left, .ldr_top .r0, .push .r0] none s =
      .fallthrough ({ s with stack := a :: a :: s.stack,
                             log := s.log ++ [Event.load left] }.set .r0 a) := by
    simp [run, step, State.set, a]
  obtain ⟨s2, r1, r2, r3, r4⟩ := run_toBooleanCode rt F
    (if is_and then .pop_and_continue else .exit) (if is_and then .exit else .pop_and_continue)
    ({ s with stack := a :: a :: s.stack, log := s.log ++ [Event.load left] }.set .r0 a)
    a (a :: s.stack) rfl ha h1 h2 h3 hr
  have hcode : logicalCodeWith F is_and left rightCode =
      [Instr.load left, .ldr_top .r0, .push .r0] ++
        (toBooleanCode F (if is_and then .pop_and_continue else .exit)
          (if is_and then .exit else .pop_and_continue) ++
        ([.b (if is_and then .eq else .ne) .exit, .bind .pop_and_continue, .pop .r0,
          .bind (if is_and then .is_true else .is_false)] ++ rightCode ++ [.bind .exit])) := by
    cases is_and <;> simp [logicalCodeWith, logicalHead]
  have hl : (if is_and then Label.is_true else Label.is_false) ≠ Label.exit := by
    cases is_and <;> simp
  rw [hcode, run_append, hpre]
  simp only
  rw [run_append, r2]
  simp only [set_log] at r3 r4
  by_cases c1 : a = F.false_value
  · have hin : inline := Or.inl c1
    have hnt : ¬ truthy := by
      rintro (h | ⟨h, -⟩ | ⟨h, -⟩)
      · exact hft (c1.symm.trans h)
      · omega
      · exact h hin
    rw [if_pos c1]
    cases is_and
    · obtain ⟨s', e1, e2, e3⟩ := run_logicalWith_tail_continue rt .ne .is_false rightCode b ev hright s2 a s.stack r1
      refine ⟨s', by simpa using e1, ?_, ?_⟩
      · rw [e2]; simp [hnt]
      · rw [e3, r4 hin]; simp [hnt, hin]
    · refine ⟨s2, by simpa using run_logicalWith_tail_exit rt .eq .is_true rightCode hnb s2 (by simp), ?_, ?_⟩
      · rw [r1]; simp [hnt]
      · rw [r4 hin]; simp [hnt, hin]
  by_cases c2 : a = F.true_value
  · have hin : inline := Or.inr (Or.inl c2)
    have ht : truthy := Or.inl c2
    rw [if_neg c1, if_pos c2]
    cases is_and
    · refine ⟨s2, by simpa using run_logicalWith_tail_exit rt .ne .is_false rightCode hnb s2 (by simp), ?_, ?_⟩
      · rw [r1]; simp [ht]
      · rw [r4 hin]; simp [ht, hin]
    · obtain ⟨s', e1, e2, e3⟩ := run_logicalWith_tail_continue rt .eq .is_true rightCode b ev hright s2 a s.stack r1
      refine ⟨s', by simpa using e1, ?_, ?_⟩
      · rw [e2]; simp [ht]
      · rw [e3, r4 hin]; simp [ht, hin]
  by_cases c3 : a = F.undefined_value
  · have hin : inline := Or.inr (Or.inr (Or.inl c3))
    have hnt : ¬ truthy := by
      rintro (h | ⟨h, -⟩ | ⟨h, -⟩)
      · exact c2 h
      · omega
      · exact h hin
    rw [if_neg c1, if_neg c2, if_pos c3]
    cases is_and
    · obtain ⟨s', e1, e2, e3⟩ := run_logicalWith_tail_continue rt .ne .is_false rightCode b ev hright s2 a s.stack r1
      refine ⟨s', by simpa using e1, ?_, ?_⟩
      · rw [e2]; simp [hnt]
      · rw [e3, r4 hin]; simp [hnt, hin]
    · refine ⟨s2, by simpa using run_logicalWith_tail_exit rt .eq .is_true rightCode hnb s2 (by simp), ?_, ?_⟩
      · rw [r1]; simp [hnt]
      · rw [r4 hin]; simp [hnt, hin]
  by_cases c4 : a = 0
  · have hin : inline := Or.inr (Or.inr (Or.inr (by omega)))
    have hnt : ¬ truthy := by
      rintro (h | ⟨-, h⟩ | ⟨h, -⟩)
      · exact c2 h
      · exact h c4
      · exact h hin
    rw [if_neg c1, if_neg c2, if_neg c3, if_pos c4]
    cases is_and
    · obtain ⟨s', e1, e2, e3⟩ := run_logicalWith_tail_continue rt .ne .is_false rightCode b ev hright s2 a s.stack r1
      refine ⟨s', by simpa using e1, ?_, ?_⟩
      · rw [e2]; simp [hnt]
      · rw [e3, r4 hin]; simp [hnt, hin]
    · refine ⟨s2, by simpa using run_logicalWith_tail_exit rt .eq .is_true rightCode hnb s2 (by simp), ?_, ?_⟩
      · rw [r1]; simp [hnt]
      · rw [r4 hin]; simp [hnt, hin]
  by_cases c5 : a % 2 = 0
  · have hin : inline := Or.inr (Or.inr (Or.inr c5))
    have ht : truthy := Or.inr (Or.inl ⟨c5, c4⟩)
    rw [if_neg c1, if_neg c2, if_neg c3, if_neg c4, if_pos c5]
    cases is_and
    · refine ⟨s2, by simpa using run_logicalWith_tail_exit rt .ne .is_false rightCode hnb s2 (by simp), ?_, ?_⟩
      · rw [r1]; simp [ht]
      · rw [r4 hin]; simp [ht, hin]
    · obtain ⟨s', e1, e2, e3⟩ := run_logicalWith_tail_continue rt .eq .is_true rightCode b ev hright s2 a s.stack r1
      refine ⟨s', by simpa using e1, ?_, ?_⟩
      · rw [e2]; simp [ht]
      · rw [e3, r4 hin]; simp [ht, hin]
  have hin : ¬ inline := by
    rintro (h | h | h | h)
    · exact c1 h
    · exact c2 h
    · exact c3 h
    · exact c5 h
  obtain ⟨l1, l2⟩ := r3 c1 c2 c3 c4 c5
  have ht : truthy ↔ s2.holds .ne = true := by
    rw [l2]
    constructor
    · rintro (h | ⟨h, -⟩ | ⟨-, h⟩)
      · exact absurd h c2
      · exact absurd h c5
      · exact h
    · intro h
      exact Or.inr (Or.inr ⟨hin, h⟩)
  have hne : s2.holds .eq = !s2.holds .ne := by simp [State.holds]
  rw [if_neg c1, if_neg c2, if_neg c3, if_neg c4, if_neg c5]
  cases is_and
  · obtain ⟨s', e1, e2, e3⟩ := run_logicalWith_tail_test rt .ne .is_false rightCode b ev hright hnb s2 a s.stack r1 (by simp)
    refine ⟨s', by simpa using e1, ?_, ?_⟩
    · rw [e2]
      by_cases hh : s2.holds .ne = true
      · simp [hh, ht]
      · simp [hh, ht]
    · rw [e3, l1]
      by_cases hh : s2.holds .ne = true
      · simp [hh, ht, hin]
      · simp [hh, ht, hin]
  · obtain ⟨s', e1, e2, e3⟩ := run_logicalWith_tail_test rt .eq .is_true rightCode b ev hright hnb s2 a s.stack r1 (by simp)
    refine ⟨s', by simpa using e1, ?_, ?_⟩
    · rw [e2, hne]
      by_cases hh : s2.holds .ne = true
      · simp [hh, ht]
      · simp [hh, ht]
    · rw [e3, l1, hne]
      by_cases hh : s2.holds .ne = true
      · simp [hh, ht, hin]
      · simp [hh, ht, hin]


theorem bind_exit_not_mem_loadCode (F : Factory) (r : VisitResult) (e : Expression) (next : Nat) :
    Instr.bind .exit ∉ loadCode F r e next := by
  obtain ⟨lv, lt, lf⟩ := r
  cases lv <;> cases lt <;> cases lf <;> simp [loadCode, VisitResult.plain]

theorem FreshIn_cons_other (l : Label) (h : Int) (rest : List (Label × Int)) (next : Nat)
    (hl : ∀ n, l ≠ .target n) : FreshIn ((l, h) :: rest) next ↔ FreshIn rest next := by
  unfold FreshIn
  constructor
  · intro hh p hp
    exact hh p (List.mem_cons_of_mem _ hp)
  · intro hh p hp n hn
    rcases List.mem_cons.mp hp with rfl | hp
    · exact hl n
    · exact hh p hp n hn

theorem VisitBinaryOperation_logicalMid (cg : CodeGenerator) (F : Factory)
    (result : Expression → VisitResult) (op : Token) (left right : Expression) (tt ft : Label)
    (hop : op = .AND ∨ op = .OR) (hl : result left = VisitResult.plain)
    (hso : cg.stack_overflow_ = false) (hcc : cg.cc_reg_ = .al) (hfresh : cg.TargetsFresh)
    (height : Int) (hf : cg.frame_ = some height) :
    VisitBinaryOperation cg F result op left right tt ft =
        JumpTarget.Bind
          ((logicalMid cg F result (decide (op = .AND)) left tt ft).Load F result right) .exit ∧
      (logicalMid cg F result (decide (op = .AND)) left tt ft).masm_ =
        cg.masm_ ++ logicalHead F (decide (op = .AND)) left ∧
      (logicalMid cg F result (decide (op = .AND)) left tt ft).frame_ = some height ∧
      (logicalMid cg F result (decide (op = .AND)) left tt ft).cc_reg_ = .al ∧
      (logicalMid cg F result (decide (op = .AND)) left tt ft).stack_overflow_ = false ∧
      (logicalMid cg F result (decide (op = .AND)) left tt ft).TargetsFresh ∧
      (logicalMid cg F result (decide (op = .AND)) left tt ft).next_target_ = cg.next_target_ := by
  obtain ⟨masm, deferred, ccr, frame, linked, next, so⟩ := cg
  simp only at hcc hf hso
  subst hcc hf hso
  have hF : FreshIn linked next := hfresh
  rcases hop with rfl | rfl
  · refine ⟨?_, ?_, ?_, ?_, ?_, ?_, ?_⟩
    · simp [VisitBinaryOperation, logicalMid, LoadConditionAndSpill, LoadCondition, Visit, hl,
        has_cc, has_valid_frame, LoadAndSpill, link, emit, ToBoolean, Branch, NegateCondition,
        VirtualFrame.EmitPop, VirtualFrame.EmitPush, VirtualFrame.CallRuntime, JumpTarget.Branch,
        JumpTarget.Bind, VisitResult.plain]
    · simp [logicalMid, LoadConditionAndSpill, LoadCondition, Visit, hl,
        has_cc, has_valid_frame, link, emit, ToBoolean, Branch, NegateCondition,
        VirtualFrame.EmitPop, VirtualFrame.EmitPush, VirtualFrame.CallRuntime, JumpTarget.Branch,
        JumpTarget.Bind, VisitResult.plain, logicalHead, toBooleanCode]
    · simp [logicalMid, LoadConditionAndSpill, LoadCondition, Visit, hl,
        has_cc, has_valid_frame, link, emit, ToBoolean, Branch, NegateCondition,
        VirtualFrame.EmitPop, VirtualFrame.EmitPush, VirtualFrame.CallRuntime, JumpTarget.Branch,
        JumpTarget.Bind, VisitResult.plain]
    · simp [logicalMid, LoadConditionAndSpill, LoadCondition, Visit, hl,
        has_cc, has_valid_frame, link, emit, ToBoolean, Branch, NegateCondition,
        VirtualFrame.EmitPop, VirtualFrame.EmitPush, VirtualFrame.CallRuntime, JumpTarget.Branch,
        JumpTarget.Bind, VisitResult.plain]
    · simp [logicalMid, LoadConditionAndSpill, LoadCondition, Visit, hl,
        has_cc, has_valid_frame, link, emit, ToBoolean, Branch, NegateCondition,
        VirtualFrame.EmitPop, VirtualFrame.EmitPush, VirtualFrame.CallRuntime, JumpTarget.Branch,
        JumpTarget.Bind, VisitResult.plain]
    · simp [logicalMid, LoadConditionAndSpill, LoadCondition, Visit, hl,
        has_cc, has_valid_frame, link, emit, ToBoolean, Branch, NegateCondition,
        VirtualFrame.EmitPop, VirtualFrame.EmitPush, VirtualFrame.CallRuntime, JumpTarget.Branch,
        JumpTarget.Bind, VisitResult.plain, TargetsFresh_iff, FreshIn_append, hF, FreshIn_cons_other,
        FreshIn_nil]
    · simp [logicalMid, LoadConditionAndSpill, LoadCondition, Visit, hl,
        has_cc, has_valid_frame, link, emit, ToBoolean, Branch, NegateCondition,
        VirtualFrame.EmitPop, VirtualFrame.EmitPush, VirtualFrame.CallRuntime, JumpTarget.Branch,
        JumpTarget.Bind, VisitResult.plain]
  · refine ⟨?_, ?_, ?_, ?_, ?_, ?_, ?_⟩
    · simp [VisitBinaryOperation, logicalMid, LoadConditionAndSpill, LoadCondition, Visit, hl,
        has_cc, has_valid_frame, LoadAndSpill, link, emit, ToBoolean, Branch, NegateCondition,
        VirtualFrame.EmitPop, VirtualFrame.EmitPush, VirtualFrame.CallRuntime, JumpTarget.Branch,
        JumpTarget.Bind, VisitResult.plain]
    · simp [logicalMid, LoadConditionAndSpill, LoadCondition, Visit, hl,
        has_cc, has_valid_frame, link, emit, ToBoolean, Branch, NegateCondition,
        VirtualFrame.EmitPop, VirtualFrame.EmitPush, VirtualFrame.CallRuntime, JumpTarget.Branch,
        JumpTarget.Bind, VisitResult.plain, logicalHead, toBooleanCode]
    · simp [logicalMid, LoadConditionAndSpill, LoadCondition, Visit, hl,
        has_cc, has_valid_frame, link, emit, ToBoolean, Branch, NegateCondition,
        VirtualFrame.EmitPop, VirtualFrame.EmitPush, VirtualFrame.CallRuntime, JumpTarget.Branch,
        JumpTarget.Bind, VisitResult.plain]
    · simp [logicalMid, LoadConditionAndSpill, LoadCondition, Visit, hl,
        has_cc, has_valid_frame, link, emit, ToBoolean, Branch, NegateCondition,
        VirtualFrame.EmitPop, VirtualFrame.EmitPush, VirtualFrame.CallRuntime, JumpTarget.Branch,
        JumpTarget.Bind, VisitResult.plain]
    · simp [logicalMid, LoadConditionAndSpill, LoadCondition, Visit, hl,
        has_cc, has_valid_frame, link, emit, ToBoolean, Branch, NegateCondition,
        VirtualFrame.EmitPop, VirtualFrame.EmitPush, VirtualFrame.CallRuntime, JumpTarget.Branch,
        JumpTarget.Bind, VisitResult.plain]
    · simp [logicalMid, LoadConditionAndSpill, LoadCondition, Visit, hl,
        has_cc, has_valid_frame, link, emit, ToBoolean, Branch, NegateCondition,
        VirtualFrame.EmitPop, VirtualFrame.EmitPush, VirtualFrame.CallRuntime, JumpTarget.Branch,
        JumpTarget.Bind, VisitResult.plain, TargetsFresh_iff, FreshIn_append, hF, FreshIn_cons_other,
        FreshIn_nil]
    · simp [logicalMid, LoadConditionAndSpill, LoadCondition, Visit, hl,
        has_cc, has_valid_frame, link, emit, ToBoolean, Branch, NegateCondition,
        VirtualFrame.EmitPop, VirtualFrame.EmitPush, VirtualFrame.CallRuntime, JumpTarget.Branch,
        JumpTarget.Bind, VisitResult.plain]

theorem Agrees_control (F : Factory) (rt : Runtime) (r : VisitResult) (e : Expression)
    (h : Agrees F rt r e) : ControlAgrees r (rt.control e) := by
  unfold Agrees at h
  cases hc : rt.control e with
  | value => rw [hc] at h; exact h
  | condition n z c v =>
    rw [hc] at h
    obtain ⟨cond, h1, -⟩ := h
    exact ⟨cond, h1⟩
  | to_true => rw [hc] at h; exact h.1
  | to_false => rw [hc] at h; exact h.1

theorem Agrees_loadedValue (F : Factory) (rt : Runtime) (r : VisitResult) (e : Expression)
    (h : r ≠ VisitResult.plain → Agrees F rt r e)
    (h1 : F.false_value < 4294967296) (h2 : F.true_value < 4294967296) :
    loadedValue F rt r e = rt.value e := by
  unfold loadedValue
  by_cases hp : r = VisitResult.plain
  · rw [if_pos hp]
  · rw [if_neg hp]
    have ha := h hp
    unfold Agrees at ha
    cases hc : rt.control e with
    | value => rfl
    | condition n z c v =>
      rw [hc] at ha
      obtain ⟨cond, e1, e2⟩ := ha
      simp only [e1, e2]
      split_ifs <;> omega
    | to_true => rw [hc] at ha; simp only [ha.2]; omega
    | to_false => rw [hc] at ha; simp only [ha.2]; omega

/-- C15 (as amended): `delete e` for an expression `e` that is neither a
property access nor a variable evaluates `e` (its value is loaded and dropped)
and produces the value true, whatever the visitor of `e` leaves within the
contract of the visitors (a value, a condition, or branches to the targets); for a variable that is neither global nor
allocated to a `LOOKUP` slot it produces false without evaluating anything;
for a global variable the result is what the `DELETE` builtin returns for the
global object and the name of the variable. -/
theorem VisitUnaryOperation_DELETE_result (rt : Runtime) (cg : CodeGenerator) (F : Factory)
    (result : Expression → VisitResult) (kGlobalSlotOffset GLOBAL_INDEX : Int) (e : Expression)
    (tt ft : Label) (hso : cg.stack_overflow_ = false) (hcc : cg.cc_reg_ = .al)
    (hfresh : cg.TargetsFresh) (height : Int) (hf : cg.frame_ = some height) (s : State) :
    let cg' := cg.VisitUnaryOperation F result kGlobalSlotOffset GLOBAL_INDEX .DELETE e tt ft
    (e.AsProperty = none → e.AsVariable = none → (result e).WellFormed = true →
      (result e ≠ VisitResult.plain → ControlAgrees (result e) (rt.control e)) →
      cg'.frame_ = some (height + 1) ∧ cg'.has_cc = false ∧
      ∃ s', run rt (emitted cg cg') none s = .fallthrough s' ∧
        s'.stack = F.true_value % 4294967296 :: s.stack ∧
        s'.log = s.log ++ [Event.load e]) ∧
    (∀ var, e = .VariableProxy var → var.is_global = false →
      (∀ slot, var.slot = some slot → slot.type ≠ .LOOKUP) →
      cg'.frame_ = some (height + 1) ∧ cg'.has_cc = false ∧
      ∃ s', run rt (emitted cg cg') none s = .fallthrough s' ∧
        s'.stack = F.false_value % 4294967296 :: s.stack ∧ s'.log = s.log) ∧
    (∀ var, e = .VariableProxy var → var.is_global = true →
      cg'.frame_ = some (height + 1) ∧ cg'.has_cc = false ∧
      ∃ s', run rt (emitted cg cg') none s = .fallthrough s' ∧
        s'.stack = rt.builtin .DELETE [F.symbol var.name % 4294967296,
          s.load32 (s.regs .cp + kGlobalSlotOffset)] :: s.stack ∧
        s'.log = s.log ++ [Event.builtin .DELETE [F.symbol var.name % 4294967296,
          s.load32 (s.regs .cp + kGlobalSlotOffset)]]) := by
  intro cg'
  refine ⟨?_, ?_, ?_⟩
  · intro hp hv hwr hag
    have l1 := emitted_Load cg F result e hwr hso hcc hfresh height hf
    obtain ⟨l2, l3, -, -⟩ := Load_frame cg F result e hwr hcc hfresh height hf
    have hm : cg'.masm_ = cg.masm_ ++ (loadCode F (result e) e cg.next_target_ ++
        [Instr.drop 1, .dp .mov .r0 .r0 (.imm F.true_value) .LeaveCC .al, .push .r0]) := by
      simp [cg', VisitUnaryOperation, hp, hv, LoadAndSpill, VirtualFrame.Drop, emit,
        VirtualFrame.EmitPush, l1]
    refine ⟨?_, ?_, ?_⟩
    · simp [cg', VisitUnaryOperation, hp, hv, LoadAndSpill, VirtualFrame.Drop, emit,
        VirtualFrame.EmitPush, l2]
    · simp [cg', VisitUnaryOperation, hp, hv, LoadAndSpill, VirtualFrame.Drop, emit,
        VirtualFrame.EmitPush, l3, has_cc]
    · have hem : emitted cg cg' = loadCode F (result e) e cg.next_target_ ++
          [Instr.drop 1, .dp .mov .r0 .r0 (.imm F.true_value) .LeaveCC .al, .push .r0] := by
        simp [emitted, hm]
      obtain ⟨s1, r1, r2, r3⟩ := run_loadCode rt F (result e) e cg.next_target_
        [Instr.drop 1, .dp .mov .r0 .r0 (.imm F.true_value) .LeaveCC .al, .push .r0] s hwr hag
      rw [hem, r1, run_drop _ _ _ _ (by simp [r2]), run_dp, run_push, run_nil]
      exact ⟨_, rfl, by simp [r2], by simp [r3]⟩
  · intro var hvar hg hslot
    subst hvar
    have hm : cg'.masm_ = cg.masm_ ++
        [Instr.dp .mov .r0 .r0 (.imm F.false_value) .LeaveCC .al, .push .r0] := by
      simp only [cg', VisitUnaryOperation, Expression.AsProperty, Expression.AsVariable]
      cases hs : var.slot with
      | none => simp [hg, emit, VirtualFrame.EmitPush]
      | some slot => simp [hg, emit, VirtualFrame.EmitPush, hslot slot hs]
    have hfr : cg'.frame_ = some (height + 1) ∧ cg'.cc_reg_ = .al := by
      simp only [cg', VisitUnaryOperation, Expression.AsProperty, Expression.AsVariable]
      cases hs : var.slot with
      | none => simp [hg, emit, VirtualFrame.EmitPush, hf, hcc]
      | some slot => simp [hg, emit, VirtualFrame.EmitPush, hslot slot hs, hf, hcc]
    refine ⟨hfr.1, by simp [has_cc, hfr.2], ?_⟩
    have hem : emitted cg cg' =
        [Instr.dp .mov .r0 .r0 (.imm F.false_value) .LeaveCC .al, .push .r0] := by
      simp [emitted, hm]
    rw [hem, run_dp, run_push, run_nil]
    exact ⟨_, rfl, by simp, by simp⟩
  · intro var hvar hg
    subst hvar
    have hm : cg'.masm_ = cg.masm_ ++
        [Instr.ldr .r0 .cp kGlobalSlotOffset, .push .r0,
         .dp .mov .r0 .r0 (.imm (F.symbol var.name)) .LeaveCC .al, .push .r0,
         .dp .mov .r0 .r0 (.imm 1) .LeaveCC .al, .InvokeBuiltin .DELETE 2, .push .r0] := by
      simp [cg', VisitUnaryOperation, Expression.AsProperty, Expression.AsVariable, hg, emit,
        VirtualFrame.EmitPush, LoadGlobal, VirtualFrame.InvokeBuiltin]
    refine ⟨?_, ?_, ?_⟩
    · simp [cg', VisitUnaryOperation, Expression.AsProperty, Expression.AsVariable, hg, emit,
        VirtualFrame.EmitPush, LoadGlobal, VirtualFrame.InvokeBuiltin, hf]
      omega
    · simp [cg', VisitUnaryOperation, Expression.AsProperty, Expression.AsVariable, hg, emit,
        VirtualFrame.EmitPush, LoadGlobal, VirtualFrame.InvokeBuiltin, hcc, has_cc]
    · have hem : emitted cg cg' =
          [Instr.ldr .r0 .cp kGlobalSlotOffset, .push .r0,
           .dp .mov .r0 .r0 (.imm (F.symbol var.name)) .LeaveCC .al, .push .r0,
           .dp .mov .r0 .r0 (.imm 1) .LeaveCC .al, .InvokeBuiltin .DELETE 2, .push .r0] := by
        simp [emitted, hm]
      rw [hem, run_ldr, run_push, run_dp, run_push, run_dp,
        run_InvokeBuiltin _ _ _ _ _ (by simp), run_push, run_nil]
      exact ⟨_, rfl, by simp [State.load32], by simp [State.load32]⟩


theorem VisitUnaryOperation_DELETE_result_witness :
    let cg' := (CodeGenerator.start 0).VisitUnaryOperation Factory.sample
      comparisonResult 20 3 .DELETE (.Other 3) .true_target .false_target
    cg'.frame_ = some (0 + 1) ∧ cg'.has_cc = false ∧
      ∃ s', run Runtime.comparing (emitted (CodeGenerator.start 0) cg') none
          (State.withStack []) = .fallthrough s' ∧
        s'.stack = Factory.sample.true_value % 4294967296 :: (State.withStack []).stack ∧
        s'.log = (State.withStack []).log ++ [Event.load (.Other 3)] :=
  (VisitUnaryOperation_DELETE_result Runtime.comparing (CodeGenerator.start 0) Factory.sample
    comparisonResult 20 3 (.Other 3) .true_target .false_target rfl rfl
    (TargetsFresh_start 0) 0 rfl (State.withStack [])).1 rfl rfl rfl (fun _ => ⟨.lt, rfl⟩)

/-! ### Receiving a message -/

section ReceiveMessageProofs

open DebuggerAgentUtil

theorem Receive_one (b : Nat) (rest : List Nat) (limit : Nat) (h : 1 ≤ limit) :
    Socket.Receive ⟨b :: rest, limit⟩ 1 = ([b], ⟨rest, limit⟩) := by
  simp [Socket.Receive, Nat.min_eq_left h]

theorem ReceiveHeader_char (f b : Nat) (rest : List Nat) (limit : Nat) (h : 1 ≤ limit)
    (c last_c : Nat) (line : List Nat) (cl : Int) (hc : ¬ (c = 10 ∧ last_c = 10))
    (hb : b ≠ 10) (hline : line.length < 79) :
    ReceiveHeader (f + 1) ⟨b :: rest, limit⟩ c last_c line cl =
      ReceiveHeader f ⟨rest, limit⟩ b c (line ++ [b]) cl := by
  have hl : (line.length : Int) < 80 - 1 := by omega
  rw [ReceiveHeader]
  simp only [hc, if_false, Receive_one b rest limit h, List.length_singleton, List.headD_cons,
    hb, hl, if_true]
  simp

theorem ReceiveHeader_empty_line (f : Nat) (rest : List Nat) (limit : Nat) (h : 1 ≤ limit)
    (c last_c : Nat) (cl : Int) (hc : ¬ (c = 10 ∧ last_c = 10)) :
    ReceiveHeader (f + 1) ⟨10 :: rest, limit⟩ c last_c [] cl =
      ReceiveHeader f ⟨rest, limit⟩ 10 c [] cl := by
  rw [ReceiveHeader]
  simp only [hc, if_false, Receive_one 10 rest limit h, List.length_singleton, List.headD_cons,
    List.length_nil, if_true]
  simp

theorem ReceiveHeader_newline (f : Nat) (rest : List Nat) (limit : Nat) (h : 1 ≤ limit)
    (c last_c : Nat) (line : List Nat) (cl : Int) (hc : ¬ (c = 10 ∧ last_c = 10))
    (hline : line ≠ []) :
    ReceiveHeader (f + 1) ⟨10 :: rest, limit⟩ c last_c line cl =
      match header line cl with
      | .next cl2 => ReceiveHeader f ⟨rest, limit⟩ 10 c [] cl2
      | .empty => some (.empty, ⟨rest, limit⟩)
      | .undefined => some (.undefined, ⟨rest, limit⟩) := by
  have hl : ¬ line.length = 0 := by
    intro h0; exact hline (List.length_eq_zero.mp h0)
  rw [ReceiveHeader]
  simp only [hc, if_false, Receive_one 10 rest limit h, List.length_singleton, List.headD_cons,
    hl, if_true]
  simp

theorem ReceiveHeader_end (f : Nat) (conn : Socket) (line : List Nat) (cl : Int) :
    ReceiveHeader (f + 1) conn 10 10 line cl = ReceiveBody conn cl := by
  rw [ReceiveHeader]
  simp

theorem ReceiveHeader_chars (limit : Nat) (h : 1 ≤ limit) (f : Nat) (rest : List Nat) (cl : Int) :
    ∀ (t line : List Nat) (c last_c : Nat), 10 ∉ t → c ≠ 10 → (line ++ t).length ≤ 79 →
      line ≠ [] →
      ∃ lc, lc ≠ 10 ∧
        ReceiveHeader (f + t.length + 1) ⟨t ++ 10 :: rest, limit⟩ c last_c line cl =
          match header (line ++ t) cl with
          | .next cl2 => ReceiveHeader f ⟨rest, limit⟩ 10 lc [] cl2
          | .empty => some (.empty, ⟨rest, limit⟩)
          | .undefined => some (.undefined, ⟨rest, limit⟩) := by
  intro t
  induction t with
  | nil =>
    intro line c last_c _ hc _ hline
    refine ⟨c, hc, ?_⟩
    simp only [List.length_nil, Nat.add_zero, List.nil_append, List.append_nil]
    exact ReceiveHeader_newline f rest limit h c last_c line cl (by intro hh; exact hc hh.1) hline
  | cons a t ih =>
    intro line c last_c ht hc hlen hline
    have ha : a ≠ 10 := by
      intro e; exact ht (by simp [e])
    have ht2 : 10 ∉ t := by
      intro e; exact ht (List.mem_cons_of_mem _ e)
    simp only [List.length_append, List.length_cons] at hlen
    obtain ⟨lc, hlc, hrun⟩ := ih (line ++ [a]) a c ht2 ha
      (by simp only [List.length_append, List.length_cons, List.length_nil]; omega) (by simp)
    refine ⟨lc, hlc, ?_⟩
    have e1 : f + (a :: t).length + 1 = (f + t.length + 1) + 1 := by
      simp only [List.length_cons]; omega
    rw [e1, List.cons_append,
      ReceiveHeader_char _ a _ limit h c last_c line cl (by intro hh; exact hc hh.1) ha
        (by omega), hrun]
    simp only [List.append_assoc, List.singleton_append]

theorem ReceiveHeader_line (limit : Nat) (h : 1 ≤ limit) (f : Nat) (rest : List Nat) (cl : Int)
    (l : List Nat) (c last_c : Nat) (hl10 : 10 ∉ l) (hne : l ≠ []) (hlen : l.length ≤ 79)
    (hc : ¬ (c = 10 ∧ last_c = 10)) :
    ∃ lc, lc ≠ 10 ∧
      ReceiveHeader (f + l.length + 1) ⟨l ++ 10 :: rest, limit⟩ c last_c [] cl =
        match header l cl with
        | .next cl2 => ReceiveHeader f ⟨rest, limit⟩ 10 lc [] cl2
        | .empty => some (.empty, ⟨rest, limit⟩)
        | .undefined => some (.undefined, ⟨rest, limit⟩) := by
  cases l with
  | nil => exact absurd rfl hne
  | cons a t =>
    have ha : a ≠ 10 := by
      intro e; exact hl10 (by simp [e])
    have ht2 : 10 ∉ t := by
      intro e; exact hl10 (List.mem_cons_of_mem _ e)
    simp only [List.length_cons] at hlen
    obtain ⟨lc, hlc, hrun⟩ := ReceiveHeader_chars limit h f rest cl t [a] a c ht2 ha
      (by simp only [List.length_append, List.length_cons, List.length_nil]; omega) (by simp)
    refine ⟨lc, hlc, ?_⟩
    have e1 : f + (a :: t).length + 1 = (f + t.length + 1) + 1 := by
      simp only [List.length_cons]; omega
    rw [e1, List.cons_append, ReceiveHeader_char _ a _ limit h c last_c [] cl hc ha (by simp)]
    exact hrun

theorem headerBlock_append (xs ys : List (List Nat)) :
    headerBlock (xs ++ ys) = headerBlock xs ++ headerBlock ys := by
  induction xs with
  | nil => rfl
  | cons x xs ih => simp [headerBlock, ih]

theorem ReceiveHeader_lines (limit : Nat) (h : 1 ≤ limit) (rest : List Nat) :
    ∀ (lines : List (List Nat)) (f : Nat) (c last_c : Nat) (cl : Int),
      (∀ l ∈ lines, HeaderLine l) → ¬ (c = 10 ∧ last_c = 10) →
      (∀ cl2, headers lines cl = .next cl2 →
        ∃ c2 lc, ¬ (c2 = 10 ∧ lc = 10) ∧ (lines = [] → c2 = c) ∧ (lines ≠ [] → c2 = 10) ∧
          ReceiveHeader (f + (headerBlock lines).length) ⟨headerBlock lines ++ rest, limit⟩
              c last_c [] cl =
            ReceiveHeader f ⟨rest, limit⟩ c2 lc [] cl2) ∧
      (headers lines cl = .empty →
        ∃ u, ReceiveHeader (f + (headerBlock lines).length) ⟨headerBlock lines ++ rest, limit⟩
            c last_c [] cl = some (.empty, ⟨u ++ rest, limit⟩)) := by
  intro lines
  induction lines with
  | nil =>
    intro f c last_c cl _ hc
    refine ⟨?_, ?_⟩
    · intro cl2 hh
      simp only [headers, HeaderStep.next.injEq] at hh
      subst hh
      exact ⟨c, last_c, hc, fun _ => rfl, by simp, by simp [headerBlock]⟩
    · intro hh
      simp [headers] at hh
  | cons l ls ih =>
    intro f c last_c cl hl hc
    obtain ⟨hlen, h10, -, hne, -⟩ := hl l (List.mem_cons_self _ _)
    have hls : ∀ x ∈ ls, HeaderLine x := fun x hx => hl x (List.mem_cons_of_mem _ hx)
    obtain ⟨lc, hlc, hrun⟩ := ReceiveHeader_line limit h (f + (headerBlock ls).length)
      (headerBlock ls ++ rest) cl l c last_c h10 hne hlen hc
    have e1 : f + (headerBlock (l :: ls)).length =
        f + (headerBlock ls).length + l.length + 1 := by
      simp only [headerBlock, List.length_append, List.length_cons]; omega
    have e2 : headerBlock (l :: ls) ++ rest = l ++ 10 :: (headerBlock ls ++ rest) := by
      simp [headerBlock]
    rw [e1, e2, hrun]
    cases hh : header l cl with
    | next cl1 =>
      obtain ⟨ih1, ih2⟩ := ih f 10 lc cl1 hls (by intro hx; exact hlc hx.2)
      simp only [headers, hh]
      refine ⟨?_, ih2⟩
      intro cl2 h2
      obtain ⟨c2, lc2, hc2, hc3, hc4, hrun2⟩ := ih1 cl2 h2
      refine ⟨c2, lc2, hc2, by simp, ?_, hrun2⟩
      intro _
      by_cases hnil : ls = []
      · exact hc3 hnil
      · exact hc4 hnil
    | empty =>
      simp only [headers, hh]
      exact ⟨by intro cl2 h2; simp at h2, fun _ => ⟨headerBlock ls, rfl⟩⟩
    | undefined =>
      simp only [headers, hh]
      exact ⟨by intro cl2 h2; simp at h2, by intro h2; simp at h2⟩

theorem cstring_eq (l : List Nat) (h : 0 ∉ l) : cstring l = l := by
  unfold cstring
  rw [List.takeWhile_eq_self_iff]
  intro x hx
  have : x ≠ 0 := by
    intro e; exact h (e ▸ hx)
  simp [this]

theorem dropWhile_colon (l : List Nat) (h : 58 ∈ l) :
    ∃ rest, l.dropWhile (fun c => c ≠ 58) = 58 :: rest ∧
      l = l.takeWhile (fun c => c ≠ 58) ++ 58 :: rest := by
  induction l with
  | nil => simp at h
  | cons a t ih =>
    by_cases ha : a = 58
    · subst ha
      exact ⟨t, by simp [List.dropWhile], by simp [List.takeWhile]⟩
    · have ht : 58 ∈ t := by
        rcases List.mem_cons.mp h with e | e
        · exact absurd e.symm ha
        · exact e
      obtain ⟨rest, h1, h2⟩ := ih ht
      have hp : (fun c : Nat => decide (c ≠ 58)) a = true := by simpa using ha
      refine ⟨rest, ?_, ?_⟩
      · rw [List.dropWhile_cons]
        simp only [hp, if_true]
        exact h1
      · rw [List.takeWhile_cons]
        simp only [hp, if_true, List.cons_append]
        rw [← h2]

theorem dropWhile_no_colon (l : List Nat) (h : 58 ∉ l) :
    l.dropWhile (fun c => c ≠ 58) = [] ∧ l.takeWhile (fun c => c ≠ 58) = l := by
  constructor
  · rw [List.dropWhile_eq_nil_iff]
    intro x hx
    have : x ≠ 58 := fun e => h (e ▸ hx)
    simp [this]
  · rw [List.takeWhile_eq_self_iff]
    intro x hx
    have : x ≠ 58 := fun e => h (e ▸ hx)
    simp [this]

theorem header_other (l : List Nat) (cl : Int) (h0 : 0 ∉ l)
    (hkey : l.takeWhile (fun c => c ≠ 58) ≠ kContentLength) : header l cl = .next cl := by
  by_cases h58 : 58 ∈ l
  · obtain ⟨rest, h1, h2⟩ := dropWhile_colon l h58
    have hk0 : 0 ∉ l.takeWhile (fun c => c ≠ 58) := by
      intro hm
      apply h0
      rw [h2]
      exact List.mem_append_left _ hm
    unfold header
    rw [h1]
    simp only [cstring_eq _ hk0, hkey, if_false]
  · obtain ⟨h1, h2⟩ := dropWhile_no_colon l h58
    rw [h2] at hkey
    unfold header
    rw [h1]
    simp only [cstring_eq _ h0, hkey, if_false]

theorem header_not_undefined (l : List Nat) (cl : Int) (h0 : 0 ∉ l) (hne : l ≠ kContentLength) :
    header l cl ≠ .undefined := by
  by_cases h58 : 58 ∈ l
  · obtain ⟨rest, h1, -⟩ := dropWhile_colon l h58
    unfold header
    rw [h1]
    simp only
    split_ifs
    · simp
    · cases parseContentLength (cstring (List.dropWhile (fun c => decide (c = 32)) rest)) cl <;>
        simp
    · simp
  · have hk : l.takeWhile (fun c => c ≠ 58) ≠ kContentLength := by
      rw [(dropWhile_no_colon l h58).2]; exact hne
    rw [header_other l cl h0 hk]
    simp

theorem dropWhile_spaces (k : Nat) (value : List Nat) (h : value.head? ≠ some 32) :
    (List.replicate k 32 ++ value).dropWhile (fun c => c = 32) = value := by
  induction k with
  | zero =>
    cases value with
    | nil => rfl
    | cons a t =>
      have : a ≠ 32 := by
        intro e; exact h (by simp [e])
      simp [List.dropWhile, this]
  | succ k ih => simpa [List.replicate_succ, List.dropWhile] using ih

theorem header_content_length (k : Nat) (value : List Nat) (cl : Int)
    (h32 : value.head? ≠ some 32) (h0 : 0 ∉ value) :
    header (kContentLength ++ [58] ++ List.replicate k 32 ++ value) cl =
      if value.length > 7 then .empty
      else
        match parseContentLength value cl with
        | none => .empty
        | some n => .next n := by
  have e1 : (kContentLength ++ [58] ++ List.replicate k 32 ++ value).dropWhile
      (fun c => c ≠ 58) = 58 :: (List.replicate k 32 ++ value) := by
    simp [kContentLength, List.dropWhile]
  have e2 : (kContentLength ++ [58] ++ List.replicate k 32 ++ value).takeWhile
      (fun c => c ≠ 58) = kContentLength := by
    simp [kContentLength, List.takeWhile]
  have e3 : cstring kContentLength = kContentLength := by decide
  unfold header
  rw [e1]
  simp only [e2, e3, if_true, dropWhile_spaces k value h32, cstring_eq value h0]

theorem parseContentLength_illegal (value : List Nat) (h : ∃ d ∈ value, d < 48 ∨ 57 < d) :
    ∀ cl, parseContentLength value cl = none := by
  induction value with
  | nil => simp at h
  | cons a t ih =>
    intro cl
    by_cases ha : a < 48 ∨ a > 57
    · simp [parseContentLength, ha]
    · obtain ⟨d, hd, hbad⟩ := h
      rcases List.mem_cons.mp hd with e | e
      · subst e; exact absurd hbad ha
      · simp only [parseContentLength, ha, if_false]
        exact ih ⟨d, e, hbad⟩ _

theorem parseContentLength_digits : ∀ (value : List Nat) (n k : Nat),
    (∀ d ∈ value, 48 ≤ d ∧ d ≤ 57) → n < 10 ^ k → k + value.length ≤ 7 →
    parseContentLength value (n : Int) =
        some ((value.foldl (fun n d => 10 * n + (d - 48)) n : Nat) : Int) ∧
      value.foldl (fun n d => 10 * n + (d - 48)) n < 10 ^ (k + value.length) := by
  intro value
  induction value with
  | nil => intro n k _ hn _; exact ⟨rfl, by simpa using hn⟩
  | cons a t ih =>
    intro n k hd hn hk
    obtain ⟨ha1, ha2⟩ := hd a (List.mem_cons_self _ _)
    have ht : ∀ d ∈ t, 48 ≤ d ∧ d ≤ 57 := fun d h => hd d (List.mem_cons_of_mem _ h)
    simp only [List.length_cons] at hk
    have hn2 : 10 * n + (a - 48) < 10 ^ (k + 1) := by
      rw [pow_succ]; omega
    have hp : 10 ^ (k + 1) ≤ 10 ^ 7 := Nat.pow_le_pow_right (by decide) (by omega)
    have hp7 : (10 : Nat) ^ 7 = 10000000 := by norm_num
    obtain ⟨ih1, ih2⟩ := ih (10 * n + (a - 48)) (k + 1) ht hn2 (by omega)
    have hna : ¬ (a < 48 ∨ a > 57) := by omega
    have e : int32 (10 * (n : Int) + ((a : Int) - 48)) = ((10 * n + (a - 48) : Nat) : Int) := by
      rw [int32_id _ (by omega) (by omega)]
      omega
    refine ⟨?_, ?_⟩
    · simp only [parseContentLength, hna, if_false, e, List.foldl_cons]
      exact ih1
    · simp only [List.foldl_cons, List.length_cons]
      have : k + (t.length + 1) = k + 1 + t.length := by omega
      rw [this]
      exact ih2

theorem ReceiveAll_available (limit : Nat) (h : 1 ≤ limit) (len : Int) (hlen : len < 2147483648)
    (more : List Nat) :
    ∀ (fuel : Nat) (body data : List Nat) (total : Int), 0 ≤ total →
      (body.length : Int) = len - total → body.length + 1 ≤ fuel →
      ReceiveAll fuel ⟨body ++ more, limit⟩ data total len =
        some (len, data ++ body, ⟨more, limit⟩) := by
  intro fuel
  induction fuel with
  | zero => intro body data total _ _ hf; omega
  | succ f ih =>
    intro body data total h0 hb hf
    rw [ReceiveAll]
    by_cases hlt : total < len
    · have hm1 : 1 ≤ min (len - total).toNat limit := by
        rw [Nat.le_min]; exact ⟨by omega, h⟩
      have hm2 : min (len - total).toNat limit ≤ body.length := by
        have := Nat.min_le_left (len - total).toNat limit
        omega
      obtain ⟨m, hm⟩ : ∃ m, min (len - total).toNat limit = m := ⟨_, rfl⟩
      rw [hm] at hm1 hm2
      have e1 : (body ++ more).take m = body.take m := by
        rw [List.take_append_of_le_length hm2]
      have e2 : (body ++ more).drop m = body.drop m ++ more := by
        rw [List.drop_append_of_le_length hm2]
      have e3 : (body.take m).length = m := by
        rw [List.length_take]; exact Nat.min_eq_left hm2
      have hpos : ¬ ((m : Int) ≤ 0) := by omega
      simp only [hlt, if_true, Socket.Receive, hm, e1, e2, e3, hpos, if_false]
      rw [int32_id _ (by omega) (by omega)]
      rw [ih (body.drop m) (data ++ body.take m) (total + m) (by omega)
        (by rw [List.length_drop]; omega) (by rw [List.length_drop]; omega)]
      simp [List.append_assoc, List.take_append_drop]
    · have hb0 : body = [] := by
        apply List.length_eq_zero.mp
        omega
      subst hb0
      have : total = len := by simp at hb; omega
      simp [hlt, this]

theorem headers_other : ∀ (lines : List (List Nat)) (cl : Int),
    (∀ l ∈ lines, HeaderLine l ∧ l.takeWhile (fun c => c ≠ 58) ≠ kContentLength) →
    headers lines cl = .next cl := by
  intro lines
  induction lines with
  | nil => intro cl _; rfl
  | cons l ls ih =>
    intro cl h
    obtain ⟨h1, h2⟩ := h l (List.mem_cons_self _ _)
    simp only [headers, header_other l cl h1.2.2.1 h2]
    exact ih cl (fun x hx => h x (List.mem_cons_of_mem _ hx))

theorem headers_append_empty : ∀ (pre : List (List Nat)) (bad : List Nat) (cl : Int),
    (∀ l ∈ pre, HeaderLine l) → (∀ cl2, header bad cl2 = .empty) →
    headers (pre ++ [bad]) cl = .empty := by
  intro pre
  induction pre with
  | nil => intro bad cl _ hbad; simp [headers, hbad]
  | cons l ls ih =>
    intro bad cl h hbad
    obtain ⟨-, -, h0, -, hkc⟩ := h l (List.mem_cons_self _ _)
    have hu := header_not_undefined l cl h0 hkc
    cases hh : header l cl with
    | next cl2 =>
      simp only [List.cons_append, headers, hh]
      exact ih bad cl2 (fun x hx => h x (List.mem_cons_of_mem _ hx)) hbad
    | empty => simp only [List.cons_append, headers, hh]
    | undefined => exact absurd hh hu

theorem headers_append_next : ∀ (pre : List (List Nat)) (rest : List (List Nat)) (cl : Int),
    (∀ l ∈ pre, HeaderLine l ∧ l.takeWhile (fun c => c ≠ 58) ≠ kContentLength) →
    headers (pre ++ rest) cl = headers rest cl := by
  intro pre
  induction pre with
  | nil => intro rest cl _; rfl
  | cons l ls ih =>
    intro rest cl h
    obtain ⟨h1, h2⟩ := h l (List.mem_cons_self _ _)
    simp only [List.cons_append, headers, header_other l cl h1.2.2.1 h2]
    exact ih rest cl (fun x hx => h x (List.mem_cons_of_mem _ hx))

set_option maxRecDepth 100000 in
/-- C28 (counterexample): a `Content-Length` line of 80 characters whose value
`00000012` has 8 characters is cut to 79 characters, so the value read is
`0000001` and one body byte is read and returned; a value `1`, NUL, `x` is read
as `1` and one body byte is read and returned; with the value `2` and only one
body byte before the connection is closed the result is empty; and after a
line that is just `Content-Length`, without a colon, the code calls
`strlen(NULL)` although the next line has the value `x`. -/
theorem ReceiveMessage_cut_NUL_short_body_or_bare_key :
    DebuggerAgentUtil.ReceiveMessage
        ⟨DebuggerAgentUtil.kContentLength ++ [58] ++ List.replicate 57 32 ++
          [48, 48, 48, 48, 48, 48, 49, 50] ++ [10, 10, 65, 66], 1⟩ =
      some (.message [65, 0], ⟨[66], 1⟩) ∧
    DebuggerAgentUtil.ReceiveMessage
        ⟨DebuggerAgentUtil.kContentLength ++ [58, 32, 49, 0, 120, 10, 10, 65, 66], 1⟩ =
      some (.message [65, 0], ⟨[66], 1⟩) ∧
    DebuggerAgentUtil.ReceiveMessage
        ⟨DebuggerAgentUtil.kContentLength ++ [58, 32, 50, 10, 10, 65], 1⟩ =
      some (.empty, ⟨[], 1⟩) ∧
    DebuggerAgentUtil.ReceiveMessage
        ⟨DebuggerAgentUtil.kContentLength ++ [10] ++
          (DebuggerAgentUtil.kContentLength ++ [58, 32, 120, 10, 10, 65]), 1⟩ =
      some (.undefined, ⟨DebuggerAgentUtil.kContentLength ++ [58, 32, 120, 10, 10, 65], 1⟩) := by
  refine ⟨?_, ?_, ?_, ?_⟩ <;> decide

/-- C28 (amended): let the lines of the header block be at most 79 characters
long and free of NUL, and let none of them be just the word `Content-Length`
without a colon.  If a `Content-Length` line has a value (the text behind the
colon and the spaces after it) that is longer than 7 characters or contains a
character outside '0'..'9', `ReceiveMessage` returns the empty result and
nothing behind that line, in particular no body byte, has been read.  If the
only `Content-Length` line has a value of 1 to 7 decimal digits denoting
`n ≠ 0` and the connection delivers the header block and `n` body bytes,
`ReceiveMessage` reads exactly these `n` bytes and returns them followed by a
NUL. -/
theorem ReceiveMessage_content_length :
    (∀ (limit : Nat) (pre post : List (List Nat)) (k : Nat) (value body : List Nat),
      (∀ l ∈ pre, HeaderLine l) →
      HeaderLine (DebuggerAgentUtil.kContentLength ++ [58] ++ List.replicate k 32 ++ value) →
      value.head? ≠ some 32 →
      (7 < value.length ∨ ∃ d ∈ value, d < 48 ∨ 57 < d) →
      ∃ u, DebuggerAgentUtil.ReceiveMessage
          ⟨headerBlock (pre ++
            [DebuggerAgentUtil.kContentLength ++ [58] ++ List.replicate k 32 ++ value] ++ post)
            ++ 10 :: body, limit⟩ =
        some (.empty, ⟨u ++ (headerBlock post ++ 10 :: body), limit⟩)) ∧
    (∀ (limit : Nat) (pre post : List (List Nat)) (k : Nat) (digits body more : List Nat),
      1 ≤ limit →
      (∀ l ∈ pre ++ post,
        HeaderLine l ∧ l.takeWhile (fun c => c ≠ 58) ≠ DebuggerAgentUtil.kContentLength) →
      HeaderLine (DebuggerAgentUtil.kContentLength ++ [58] ++ List.replicate k 32 ++ digits) →
      1 ≤ digits.length → digits.length ≤ 7 → (∀ d ∈ digits, 48 ≤ d ∧ d ≤ 57) →
      decimalValue digits ≠ 0 → body.length = decimalValue digits →
      DebuggerAgentUtil.ReceiveMessage
          ⟨headerBlock (pre ++
            [DebuggerAgentUtil.kContentLength ++ [58] ++ List.replicate k 32 ++ digits] ++ post)
            ++ 10 :: (body ++ more), limit⟩ =
        some (.message (body ++ [0]), ⟨more, limit⟩)) := by
  refine ⟨?_, ?_⟩
  · intro limit pre post k value body hpre hline h32 hbad
    rcases Nat.eq_zero_or_pos limit with hz | hlimit
    · subst hz
      refine ⟨headerBlock (pre ++
        [kContentLength ++ [58] ++ List.replicate k 32 ++ value]), ?_⟩
      have hpend : headerBlock (pre ++
          [kContentLength ++ [58] ++ List.replicate k 32 ++ value] ++ post) ++ 10 :: body =
          headerBlock (pre ++ [kContentLength ++ [58] ++ List.replicate k 32 ++ value]) ++
            (headerBlock post ++ 10 :: body) := by
        rw [headerBlock_append, List.append_assoc]
      rw [hpend]
      generalize headerBlock (pre ++ [kContentLength ++ [58] ++ List.replicate k 32 ++ value]) ++
        (headerBlock post ++ 10 :: body) = pending
      unfold ReceiveMessage
      rw [ReceiveHeader]
      simp [Socket.Receive]
    · have h0 : 0 ∉ value := by
        intro hm
        exact hline.2.2.1 (List.mem_append_right _ hm)
      have hempty : ∀ cl2, header (kContentLength ++ [58] ++ List.replicate k 32 ++ value) cl2 =
          .empty := by
        intro cl2
        rw [header_content_length k value cl2 h32 h0]
        rcases hbad with hlong | hill
        · simp [hlong]
        · rw [parseContentLength_illegal value hill]
          split_ifs <;> rfl
      have hhs := headers_append_empty pre _ 0 hpre hempty
      have hlines : ∀ l ∈ pre ++ [kContentLength ++ [58] ++ List.replicate k 32 ++ value],
          HeaderLine l := by
        intro l hl
        rcases List.mem_append.mp hl with h | h
        · exact hpre l h
        · rw [List.mem_singleton.mp h]; exact hline
      obtain ⟨u, hu⟩ := (ReceiveHeader_lines limit hlimit (headerBlock post ++ 10 :: body)
        (pre ++ [kContentLength ++ [58] ++ List.replicate k 32 ++ value])
        ((headerBlock post ++ 10 :: body).length + 1) 0 0 0 hlines (by decide)).2 hhs
      refine ⟨u, ?_⟩
      rw [← hu]
      unfold ReceiveMessage
      simp only [headerBlock_append, List.append_assoc, List.length_append]
      congr 1
      omega
  · intro limit pre post k digits body more hlimit hother hline hd1 hd7 hdig hn hbody
    have h0 : 0 ∉ digits := by
      intro hm
      exact hline.2.2.1 (List.mem_append_right _ hm)
    have h32 : digits.head? ≠ some 32 := by
      cases digits with
      | nil => simp
      | cons a t =>
        have := hdig a (List.mem_cons_self _ _)
        simp only [List.head?_cons, ne_eq, Option.some.injEq]
        omega
    obtain ⟨hp1, hp2⟩ := parseContentLength_digits digits 0 0 hdig (by decide) (by omega)
    have hval : (decimalValue digits : Int) < 10000000 := by
      have hp : (10 : Nat) ^ (0 + digits.length) ≤ 10 ^ 7 :=
        Nat.pow_le_pow_right (by decide) (by omega)
      have hp7 : (10 : Nat) ^ 7 = 10000000 := by norm_num
      unfold decimalValue
      omega
    have hhead : header (kContentLength ++ [58] ++ List.replicate k 32 ++ digits) 0 =
        .next (decimalValue digits : Int) := by
      rw [header_content_length k digits 0 h32 h0]
      have : ¬ digits.length > 7 := by omega
      simp only [this, if_false]
      have e : parseContentLength digits 0 = some ((decimalValue digits : Nat) : Int) := hp1
      rw [e]
    have hpre : ∀ l ∈ pre,
        HeaderLine l ∧ l.takeWhile (fun c => c ≠ 58) ≠ kContentLength :=
      fun l hl => hother l (List.mem_append_left _ hl)
    have hpost : ∀ l ∈ post,
        HeaderLine l ∧ l.takeWhile (fun c => c ≠ 58) ≠ kContentLength :=
      fun l hl => hother l (List.mem_append_right _ hl)
    have hhs : headers (pre ++
        [kContentLength ++ [58] ++ List.replicate k 32 ++ digits] ++ post) 0 =
        .next (decimalValue digits : Int) := by
      rw [List.append_assoc, headers_append_next pre _ 0 hpre]
      simp only [List.singleton_append, headers, hhead]
      exact headers_other post _ hpost
    have hlines : ∀ l ∈ pre ++
        [kContentLength ++ [58] ++ List.replicate k 32 ++ digits] ++ post, HeaderLine l := by
      intro l hl
      rcases List.mem_append.mp hl with h | h
      · rcases List.mem_append.mp h with h | h
        · exact (hpre l h).1
        · rw [List.mem_singleton.mp h]; exact hline
      · exact (hpost l h).1
    obtain ⟨c2, lc, hc, -, hc10, hrun⟩ := (ReceiveHeader_lines limit hlimit
      (10 :: (body ++ more))
      (pre ++ [kContentLength ++ [58] ++ List.replicate k 32 ++ digits] ++ post)
      ((body ++ more).length + 1 + 1) 0 0 0 hlines (by decide)).1 _ hhs
    have hc2 : c2 = 10 := hc10 (by simp)
    subst hc2
    have hbodyrun : ReceiveBody ⟨body ++ more, limit⟩ (decimalValue digits : Int) =
        some (.message (body ++ [0]), ⟨more, limit⟩) := by
      have hn0 : ¬ ((decimalValue digits : Int) = 0) := by omega
      have hn1 : ¬ (int32 ((decimalValue digits : Int) + 1) ≤ 0) := by
        rw [int32_id _ (by omega) (by omega)]; omega
      have hall := ReceiveAll_available limit hlimit (decimalValue digits : Int) (by omega) more
        ((decimalValue digits : Int).toNat + 1) body [] 0 (le_refl _) (by omega) (by omega)
      unfold ReceiveBody
      simp only [hn0, hn1, if_false, hall, List.nil_append, lt_self_iff_false]
    rw [← hbodyrun, ← ReceiveHeader_end ((body ++ more).length) _ [] _,
      ← ReceiveHeader_empty_line _ _ limit hlimit 10 lc _ hc, ← hrun]
    unfold ReceiveMessage
    simp only [List.length_append, List.length_cons]
    congr 1
    omega

theorem ReceiveMessage_content_length_witness :
    (∃ u, DebuggerAgentUtil.ReceiveMessage
        ⟨headerBlock ([[72, 58, 49], [72]] ++
          [DebuggerAgentUtil.kContentLength ++ [58] ++ List.replicate 1 32 ++
            [49, 50, 51, 52, 53, 54, 55, 56]] ++ []) ++ 10 :: [65, 66], 2⟩ =
      some (.empty, ⟨u ++ (headerBlock [] ++ 10 :: [65, 66]), 2⟩)) ∧
    DebuggerAgentUtil.ReceiveMessage
        ⟨headerBlock ([[72, 58, 49], [72]] ++
          [DebuggerAgentUtil.kContentLength ++ [58] ++ List.replicate 1 32 ++ [50]] ++
          [[72, 58, 50]]) ++ 10 :: ([65, 66] ++ [67]), 2⟩ =
      some (.message ([65, 66] ++ [0]), ⟨[67], 2⟩) :=
  ⟨ReceiveMessage_content_length.1 2 [[72, 58, 49], [72]] [] 1
      [49, 50, 51, 52, 53, 54, 55, 56] [65, 66] (by decide) (by decide) (by decide) (by decide),
    ReceiveMessage_content_length.2 2 [[72, 58, 49], [72]] [[72, 58, 50]] 1 [50]
      [65, 66] [67] (by decide) (by decide) (by decide) (by decide) (by decide) (by decide)
      (by decide) (by decide)⟩

end ReceiveMessageProofs
